import Mathlib

/-!
GPX reader and writer (gpx.cc): a shallow embedding.

The definitions follow `src/gpx.cc` function by function and keep its names.
Strings are Lean strings (lists of characters), pointers are `Option Nat`
indices into an arena, the XML reader is a list of reader events and the XML
writer is the list of calls made on it.
-/

namespace Gpx

/-! ## Qt string helpers -/

/-- QChar::isSpace: the characters removed by `QString::trimmed`. -/
def isSpace (c : Char) : Bool :=
  c = ' ' || c = '\t' || c = '\n' || c = '\x0b' || c = '\x0c' || c = '\r' ||
  c.toNat = 0x85 || c.toNat = 0xA0 || c.toNat = 0x1680 ||
  (0x2000 ≤ c.toNat && c.toNat ≤ 0x200A) ||
  c.toNat = 0x2028 || c.toNat = 0x2029 || c.toNat = 0x202F || c.toNat = 0x205F ||
  c.toNat = 0x3000

/-- Drop the leading white space of a character list. -/
def dropSpace : List Char → List Char
  | [] => []
  | c :: cs => if isSpace c then dropSpace cs else c :: cs

/-- QString::trimmed: remove white space from both ends. -/
def trimmed (s : String) : String :=
  ⟨(dropSpace (dropSpace s.data).reverse).reverse⟩

/-- QString::isEmpty. -/
def isEmpty (s : String) : Bool := s.data.isEmpty

/-- QString::chop(n): remove n characters from the end. -/
def chop (s : String) (n : Nat) : String := ⟨s.data.take (s.data.length - n)⟩

/-- ASCII lower-casing of one character, for case-insensitive comparison. -/
def lowerChar (c : Char) : Char :=
  if 65 ≤ c.toNat ∧ c.toNat ≤ 90 then Char.ofNat (c.toNat + 32) else c

/-- QString::compare(.., Qt::CaseInsensitive) == 0, over ASCII letters. -/
def eqNoCase (a b : String) : Bool := a.data.map lowerChar = b.data.map lowerChar

/-! ## Tag identifiers and the tag path table -/

/-- The enum `tag_type`. -/
inductive tag_type
  | tt_unknown
  | tt_gpx
  | tt_name
  | tt_desc
  | tt_author
  | tt_email
  | tt_url
  | tt_urlname
  | tt_keywords
  | tt_link
  | tt_link_text
  | tt_link_type
  | tt_wpt
  | tt_wpttype_ele
  | tt_wpttype_time
  | tt_wpttype_geoidheight
  | tt_wpttype_name
  | tt_wpttype_cmt
  | tt_wpttype_desc
  | tt_wpttype_url
  | tt_wpttype_urlname
  | tt_wpttype_link
  | tt_wpttype_link_text
  | tt_wpttype_link_type
  | tt_wpttype_sym
  | tt_wpttype_type
  | tt_wpttype_fix
  | tt_wpttype_sat
  | tt_wpttype_hdop
  | tt_wpttype_vdop
  | tt_wpttype_pdop
  | tt_cache
  | tt_cache_name
  | tt_cache_container
  | tt_cache_type
  | tt_cache_difficulty
  | tt_cache_terrain
  | tt_cache_hint
  | tt_cache_desc_short
  | tt_cache_desc_long
  | tt_cache_log_wpt
  | tt_cache_log_type
  | tt_cache_log_date
  | tt_cache_placer
  | tt_cache_favorite_points
  | tt_cache_personal_note
  | tt_wpt_extensions
  | tt_garmin_wpt_extensions
  | tt_garmin_wpt_proximity
  | tt_garmin_wpt_temperature
  | tt_garmin_wpt_depth
  | tt_garmin_wpt_display_mode
  | tt_garmin_wpt_categories
  | tt_garmin_wpt_category
  | tt_garmin_wpt_addr
  | tt_garmin_wpt_city
  | tt_garmin_wpt_state
  | tt_garmin_wpt_country
  | tt_garmin_wpt_postal_code
  | tt_garmin_wpt_phone_nr
  | tt_rte
  | tt_rte_name
  | tt_rte_desc
  | tt_rte_cmt
  | tt_rte_url
  | tt_rte_urlname
  | tt_rte_link
  | tt_rte_link_text
  | tt_rte_link_type
  | tt_rte_number
  | tt_garmin_rte_display_color
  | tt_rte_rtept
  | tt_trk
  | tt_trk_desc
  | tt_trk_name
  | tt_trk_trkseg
  | tt_trk_url
  | tt_trk_urlname
  | tt_trk_link
  | tt_trk_link_text
  | tt_trk_link_type
  | tt_trk_number
  | tt_garmin_trk_display_color
  | tt_trk_trkseg_trkpt
  | tt_trk_trkseg_trkpt_course
  | tt_trk_trkseg_trkpt_speed
  | tt_trk_trkseg_trkpt_heartrate
  | tt_trk_trkseg_trkpt_cadence
  | tt_humminbird_wpt_depth
  | tt_humminbird_wpt_status
  | tt_humminbird_trk_trkseg_trkpt_depth
  deriving DecidableEq, Repr

open tag_type

/-- The struct `tag_mapping`: tag id, passthrough flag, xpath-ish tag name.
The flag is the C int 0/1 read as a boolean. -/
structure tag_mapping where
  tag_type_ : tag_type
  tag_passthrough : Bool
  tag_name : String
  deriving DecidableEq, Repr

/-- The macro METATAG: `/gpx/<name>` for GPX 1.0, `/gpx/metadata/<name>` for GPX 1.1. -/
def METATAG (type : tag_type) (name : String) : List tag_mapping :=
  [⟨type, false, "/gpx/" ++ name⟩, ⟨type, false, "/gpx/metadata/" ++ name⟩]

/-- The macro GEOTAG: the GPX 1.0, GPX 1.1 and opencaching.de styles. -/
def GEOTAG (type : tag_type) (name : String) : List tag_mapping :=
  [⟨type, true, "/gpx/wpt/groundspeak:cache/groundspeak:" ++ name⟩,
   ⟨type, true, "/gpx/wpt/extensions/cache/" ++ name⟩,
   ⟨type, true, "/gpx/wpt/geocache/" ++ name⟩]

def GARMIN_RTE_EXT : String := "/gpx/rte/extensions/gpxx:RouteExtension"
def GARMIN_TRK_EXT : String := "/gpx/trk/extensions/gpxx:TrackExtension"
def GARMIN_WPT_EXT : String := "/gpx/wpt/extensions/gpxx:WaypointExtension"
def GARMIN_TRKPT_EXT : String :=
  "/gpx/trk/trkseg/trkpt/extensions/gpxtpx:TrackPointExtension"
def GARMIN_RTEPT_EXT : String :=
  "/gpx/rte/rtept/extensions/gpxxx:RoutePointExtension"

/-- The macro GPXWPTTYPETAG: common to tracks, routes and waypoints. -/
def GPXWPTTYPETAG (type : tag_type) (passthrough : Bool) (name : String) :
    List tag_mapping :=
  [⟨type, passthrough, "/gpx/wpt/" ++ name⟩,
   ⟨type, passthrough, "/gpx/trk/trkseg/trkpt/" ++ name⟩,
   ⟨type, passthrough, "/gpx/rte/rtept/" ++ name⟩]

/-- The array `tag_path_map`, in source order, ending with the terminator
entry `{(tag_type)0, 0, nullptr}` (its null name is written as the empty string;
it is never read). -/
def tag_path_map : List tag_mapping :=
  [⟨tt_gpx, false, "/gpx"⟩] ++
  METATAG tt_name "name" ++
  METATAG tt_desc "desc" ++
  [⟨tt_author, false, "/gpx/author"⟩,
   ⟨tt_email, false, "/gpx/email"⟩,
   ⟨tt_url, false, "/gpx/url"⟩,
   ⟨tt_urlname, false, "/gpx/urlname"⟩] ++
  METATAG tt_keywords "keywords" ++
  [⟨tt_link, false, "/gpx/metadata/link"⟩,
   ⟨tt_link_text, false, "/gpx/metadata/link/text"⟩,
   ⟨tt_link_type, false, "/gpx/metadata/link/type"⟩,
   ⟨tt_wpt, false, "/gpx/wpt"⟩,
   ⟨tt_cache, true, "/gpx/wpt/groundspeak:cache"⟩] ++
  GEOTAG tt_cache_name "name" ++
  GEOTAG tt_cache_container "container" ++
  GEOTAG tt_cache_type "type" ++
  GEOTAG tt_cache_difficulty "difficulty" ++
  GEOTAG tt_cache_terrain "terrain" ++
  GEOTAG tt_cache_hint "encoded_hints" ++
  GEOTAG tt_cache_hint "hints" ++
  GEOTAG tt_cache_desc_short "short_description" ++
  GEOTAG tt_cache_desc_long "long_description" ++
  GEOTAG tt_cache_placer "owner" ++
  GEOTAG tt_cache_favorite_points "favorite_points" ++
  GEOTAG tt_cache_personal_note "personal_note" ++
  [⟨tt_cache_log_wpt, true,
      "/gpx/wpt/groundspeak:cache/groundspeak:logs/groundspeak:log/groundspeak:log_wpt"⟩,
   ⟨tt_cache_log_wpt, true, "/gpx/wpt/extensions/cache/logs/log/log_wpt"⟩,
   ⟨tt_cache_log_type, true,
      "/gpx/wpt/groundspeak:cache/groundspeak:logs/groundspeak:log/groundspeak:type"⟩,
   ⟨tt_cache_log_type, true, "/gpx/wpt/extensions/cache/logs/log/type"⟩,
   ⟨tt_cache_log_date, true,
      "/gpx/wpt/groundspeak:cache/groundspeak:logs/groundspeak:log/groundspeak:date"⟩,
   ⟨tt_cache_log_date, true, "/gpx/wpt/extensions/cache/logs/log/date"⟩,
   ⟨tt_wpt_extensions, false, "/gpx/wpt/extensions"⟩,
   ⟨tt_garmin_wpt_extensions, false, GARMIN_WPT_EXT⟩,
   ⟨tt_garmin_wpt_proximity, false, GARMIN_WPT_EXT ++ "/gpxx:Proximity"⟩,
   ⟨tt_garmin_wpt_temperature, false, GARMIN_WPT_EXT ++ "/gpxx:Temperature"⟩,
   ⟨tt_garmin_wpt_temperature, true, GARMIN_TRKPT_EXT ++ "/gpxtpx:atemp"⟩,
   ⟨tt_garmin_wpt_depth, false, GARMIN_WPT_EXT ++ "/gpxx:Depth"⟩,
   ⟨tt_garmin_wpt_display_mode, false, GARMIN_WPT_EXT ++ "/gpxx:DisplayMode"⟩,
   ⟨tt_garmin_wpt_categories, false, GARMIN_WPT_EXT ++ "/gpxx:Categories"⟩,
   ⟨tt_garmin_wpt_category, false, GARMIN_WPT_EXT ++ "/gpxx:Categories/gpxx:Category"⟩,
   ⟨tt_garmin_wpt_addr, false, GARMIN_WPT_EXT ++ "/gpxx:Address/gpxx:StreetAddress"⟩,
   ⟨tt_garmin_wpt_city, false, GARMIN_WPT_EXT ++ "/gpxx:Address/gpxx:City"⟩,
   ⟨tt_garmin_wpt_state, false, GARMIN_WPT_EXT ++ "/gpxx:Address/gpxx:State"⟩,
   ⟨tt_garmin_wpt_country, false, GARMIN_WPT_EXT ++ "/gpxx:Address/gpxx:Country"⟩,
   ⟨tt_garmin_wpt_postal_code, false, GARMIN_WPT_EXT ++ "/gpxx:Address/gpxx:PostalCode"⟩,
   ⟨tt_garmin_wpt_phone_nr, false, GARMIN_WPT_EXT ++ "/gpxx:PhoneNumber"⟩,
   ⟨tt_trk_trkseg_trkpt_heartrate, true, GARMIN_TRKPT_EXT ++ "/gpxtpx:hr"⟩,
   ⟨tt_trk_trkseg_trkpt_cadence, true, GARMIN_TRKPT_EXT ++ "/gpxtpx:cad"⟩,
   ⟨tt_humminbird_wpt_depth, false, "/gpx/wpt/extensions/h:depth"⟩,
   ⟨tt_humminbird_wpt_status, false, "/gpx/wpt/extensions/h:status"⟩,
   ⟨tt_rte, false, "/gpx/rte"⟩,
   ⟨tt_rte_name, false, "/gpx/rte/name"⟩,
   ⟨tt_rte_desc, false, "/gpx/rte/desc"⟩,
   ⟨tt_rte_url, false, "/gpx/rte/url"⟩,
   ⟨tt_rte_urlname, false, "/gpx/rte/urlname"⟩,
   ⟨tt_rte_link, false, "/gpx/rte/link"⟩,
   ⟨tt_rte_link_text, false, "/gpx/rte/link/text"⟩,
   ⟨tt_rte_link_type, false, "/gpx/rte/link/type"⟩,
   ⟨tt_rte_number, false, "/gpx/rte/number"⟩,
   ⟨tt_garmin_rte_display_color, true, GARMIN_RTE_EXT ++ "/gpxx:DisplayColor"⟩,
   ⟨tt_rte_rtept, false, "/gpx/rte/rtept"⟩,
   ⟨tt_trk, false, "/gpx/trk"⟩,
   ⟨tt_trk_name, false, "/gpx/trk/name"⟩,
   ⟨tt_trk_desc, false, "/gpx/trk/desc"⟩,
   ⟨tt_trk_trkseg, false, "/gpx/trk/trkseg"⟩,
   ⟨tt_trk_url, false, "/gpx/trk/url"⟩,
   ⟨tt_trk_urlname, false, "/gpx/trk/urlname"⟩,
   ⟨tt_trk_link, false, "/gpx/trk/link"⟩,
   ⟨tt_trk_link_text, false, "/gpx/trk/link/text"⟩,
   ⟨tt_trk_link_type, false, "/gpx/trk/link/type"⟩,
   ⟨tt_trk_number, false, "/gpx/trk/number"⟩,
   ⟨tt_garmin_trk_display_color, true, GARMIN_TRK_EXT ++ "/gpxx:DisplayColor"⟩,
   ⟨tt_trk_trkseg_trkpt, false, "/gpx/trk/trkseg/trkpt"⟩,
   ⟨tt_trk_trkseg_trkpt_course, false, "/gpx/trk/trkseg/trkpt/course"⟩,
   ⟨tt_trk_trkseg_trkpt_speed, false, "/gpx/trk/trkseg/trkpt/speed"⟩,
   ⟨tt_humminbird_trk_trkseg_trkpt_depth, false,
      "/gpx/trk/trkseg/trkpt/extensions/h:depth"⟩] ++
  GPXWPTTYPETAG tt_wpttype_ele false "ele" ++
  GPXWPTTYPETAG tt_wpttype_time false "time" ++
  GPXWPTTYPETAG tt_wpttype_geoidheight false "geoidheight" ++
  GPXWPTTYPETAG tt_wpttype_name false "name" ++
  GPXWPTTYPETAG tt_wpttype_cmt false "cmt" ++
  GPXWPTTYPETAG tt_wpttype_desc false "desc" ++
  GPXWPTTYPETAG tt_wpttype_url false "url" ++
  GPXWPTTYPETAG tt_wpttype_urlname false "urlname" ++
  GPXWPTTYPETAG tt_wpttype_link false "link" ++
  GPXWPTTYPETAG tt_wpttype_link_text false "link/text" ++
  GPXWPTTYPETAG tt_wpttype_link_type false "link/type" ++
  GPXWPTTYPETAG tt_wpttype_sym false "sym" ++
  GPXWPTTYPETAG tt_wpttype_type true "type" ++
  GPXWPTTYPETAG tt_wpttype_fix false "fix" ++
  GPXWPTTYPETAG tt_wpttype_sat false "sat" ++
  GPXWPTTYPETAG tt_wpttype_hdop false "hdop" ++
  GPXWPTTYPETAG tt_wpttype_vdop false "vdop" ++
  GPXWPTTYPETAG tt_wpttype_pdop false "pdop" ++
  [⟨tt_unknown, false, ""⟩]

/-- The `QHash<QString, tag_mapping*>`: an association list in which the most
recent insertion for a key comes first, so that `hash[k] = v` overrides. -/
abbrev TagHash := List (String × tag_mapping)

/-- The expression `hash[t]` read as a pointer: the entry stored for the key, or null. -/
def hash_find : TagHash → String → Option tag_mapping
  | [], _ => none
  | (k, v) :: rest, t => if k = t then some v else hash_find rest t

/-- The function get_tag: tag id and passthrough flag of a full tag path. -/
def get_tag (hash : TagHash) (t : String) : tag_type × Bool :=
  match hash_find hash t with
  | some tm => (tm.tag_type_, tm.tag_passthrough)
  | none => (tt_unknown, true)

/-- The loop of prescan_tags over a table: stop at the first entry whose tag id is 0,
store every entry before it under its path. -/
def prescan_loop : List tag_mapping → TagHash → TagHash
  | [], hash => hash
  | tm :: rest, hash =>
    if tm.tag_type_ = tt_unknown then hash
    else prescan_loop rest ((tm.tag_name, tm) :: hash)

/-- The function prescan_tags. -/
def prescan_tags (hash : TagHash) : TagHash := prescan_loop tag_path_map hash

/-- The static `hash` as it stands once gpx_rd_init has run prescan_tags. -/
def hash : TagHash := prescan_tags []

/-! ## C string and sscanf helpers -/

/-- The C string made by xstrdup from a QString: it ends at the first NUL. -/
def cstr (s : String) : List Char := s.data.takeWhile (fun c => c ≠ '\x00')

/-- strchr(s, c) followed by `*p = 0`: the text before the first occurrence of c and
the text after it (p + 1), or none when c does not occur. -/
def strchr_split (c : Char) : List Char → Option (List Char × List Char)
  | [] => none
  | x :: xs =>
    if x = c then some ([], xs)
    else match strchr_split c xs with
      | some (before, after) => some (x :: before, after)
      | none => none

/-- C isspace in the "C" locale. -/
def c_isspace (c : Char) : Bool :=
  c = ' ' || c = '\t' || c = '\n' || c = '\x0b' || c = '\x0c' || c = '\r'

/-- Skip leading C white space. -/
def skip_space : List Char → List Char
  | [] => []
  | c :: cs => if c_isspace c then skip_space cs else c :: cs

/-- Value of a decimal digit character. -/
def digitVal (c : Char) : Option Nat :=
  if 48 ≤ c.toNat ∧ c.toNat ≤ 57 then some (c.toNat - 48) else none

/-- Read decimal digits greedily: accumulated value, number of digits read, rest. -/
def scan_digits : List Char → Nat → Nat → Nat × Nat × List Char
  | [], acc, n => (acc, n, [])
  | c :: cs, acc, n =>
    match digitVal c with
    | some d => scan_digits cs (acc * 10 + d) (n + 1)
    | none => (acc, n, c :: cs)

/-- The sscanf conversion `%d` after white space has been skipped: an optional sign and
at least one decimal digit. Overflow of int is not modelled. -/
def scan_int (s : List Char) : Option (Int × List Char) :=
  match s with
  | [] => none
  | c :: cs =>
    if c = '-' then
      match scan_digits cs 0 0 with
      | (_, 0, _) => none
      | (v, _, rest) => some (-(v : Int), rest)
    else if c = '+' then
      match scan_digits cs 0 0 with
      | (_, 0, _) => none
      | (v, _, rest) => some ((v : Int), rest)
    else
      match scan_digits (c :: cs) 0 0 with
      | (_, 0, _) => none
      | (v, _, rest) => some ((v : Int), rest)

/-- The sscanf conversion `%d`. -/
def scan_d (s : List Char) : Option (Int × List Char) := scan_int (skip_space s)

/-- A literal (non white space) character of a sscanf format. -/
def scan_lit (c : Char) : List Char → Option (List Char)
  | [] => none
  | x :: xs => if x = c then some xs else none

/-- The call sscanf(s, "%d:%d", &off_hr, &off_min) on variables that hold 0. -/
def sscanf_offset (s : List Char) : Int × Int :=
  match scan_d s with
  | none => (0, 0)
  | some (hr, r1) =>
    match scan_lit ':' r1 with
    | none => (hr, 0)
    | some r2 =>
      match scan_d r2 with
      | none => (hr, 0)
      | some (mn, _) => (hr, mn)

/-- Result of sscanf(timestr, "%d-%d-%dT%d:%d:%d", ...) on variables that hold 0:
the return value and the six variables. -/
structure ScanTime where
  res : Int
  year : Int
  mon : Int
  mday : Int
  hour : Int
  min : Int
  sec : Int
  deriving DecidableEq, Repr

/-- The call sscanf(timestr, "%d-%d-%dT%d:%d:%d", ...). The return value is the number of
converted fields, or EOF (-1) when the input ends before the first conversion. -/
def sscanf_time (s : List Char) : ScanTime :=
  match skip_space s with
  | [] => ⟨-1, 0, 0, 0, 0, 0, 0⟩
  | _ :: _ =>
  match scan_d s with
  | none => ⟨0, 0, 0, 0, 0, 0, 0⟩
  | some (year, r1) =>
  match (scan_lit '-' r1).bind scan_d with
  | none => ⟨1, year, 0, 0, 0, 0, 0⟩
  | some (mon, r2) =>
  match (scan_lit '-' r2).bind scan_d with
  | none => ⟨2, year, mon, 0, 0, 0, 0⟩
  | some (mday, r3) =>
  match (scan_lit 'T' r3).bind scan_d with
  | none => ⟨3, year, mon, mday, 0, 0, 0⟩
  | some (hour, r4) =>
  match (scan_lit ':' r4).bind scan_d with
  | none => ⟨4, year, mon, mday, hour, 0, 0⟩
  | some (min, r5) =>
  match (scan_lit ':' r5).bind scan_d with
  | none => ⟨5, year, mon, mday, hour, min, 0⟩
  | some (sec, _) => ⟨6, year, mon, mday, hour, min, sec⟩

/-! ## Binary floating point

The C types `double` and `float` are the IEEE 754 formats binary64 and binary32. A
conversion or an arithmetic operation gives the value of the format that is nearest to
the exact result, the one with the even significand when two are equally near. -/

/-- The number of binary digits of n, counted one by one. The first argument bounds the
number of steps; n itself is enough. -/
def bit_length : Nat → Nat → Nat
  | 0, _ => 0
  | f + 1, n => if n = 0 then 0 else bit_length f (n / 2) + 1

/-- The search for the number of binary digits in steps of the given sizes: the digits
counted so far and what is left of the number above them. -/
def bits_search : List Nat → Nat → Nat → Nat
  | [], n, acc => if n = 0 then acc else acc + 1
  | s :: steps, n, acc =>
    if n >>> s = 0 then bits_search steps n acc else bits_search steps (n >>> s) (acc + s)

/-- The number of binary digits of n: found by the search when the number has fewer than
64 or fewer than 65536 digits, counted one by one otherwise. -/
def bits (n : Nat) : Nat :=
  let k := bits_search [32, 16, 8, 4, 2, 1] n 0
  if n >>> k = 0 then k
  else
    let k := bits_search [32768, 16384, 8192, 4096, 2048, 1024, 512, 256, 128, 64, 32, 16,
      8, 4, 2, 1] n 0
    if n >>> k = 0 then k else bit_length n n

/-- The integer nearest to num / den, the even one of two that are equally near. -/
def round_even (num den : Nat) : Nat :=
  let q := num / den
  let r := num % den
  if 2 * r < den then q else if den < 2 * r then q + 1 else if q % 2 = 0 then q else q + 1

/-- The fraction (num / den) / 2 ^ e as a numerator and a denominator. -/
def scale2 (num den : Nat) (e : Int) : Nat × Nat :=
  if 0 ≤ e then (num, den * 2 ^ e.toNat) else (num * 2 ^ (-e).toNat, den)

/-- The largest k with 2 ^ k ≤ num / den, for positive num and den. -/
def floor_log2 (num den : Nat) : Int :=
  let k : Int := (bits num : Int) - (bits den : Int)
  let q := scale2 num den k
  if q.2 ≤ q.1 then k else k - 1

/-- A value of a binary floating point format: the finite value man * 2 ^ exp with a
sign, or an infinity. -/
inductive Bin
  | fin (neg : Bool) (man : Nat) (exp : Int)
  | inf (neg : Bool)
  deriving DecidableEq, Repr

/-- A binary floating point format: the number of bits of the significand, the exponent
emin of the least positive value 2 ^ emin, and the exponent emax of the least power of
two that is too large for a finite value. -/
structure BinFormat where
  prec : Nat
  emin : Int
  emax : Int
  deriving DecidableEq, Repr

/-- The format of `double`. -/
def binary64 : BinFormat := ⟨53, -1074, 1024⟩

/-- The format of `float`. -/
def binary32 : BinFormat := ⟨24, -149, 128⟩

/-- The value of the format nearest to num / den, with the given sign: the significand
man has prec bits, fewer when the exponent is emin, and the result is an infinity when
the rounded value reaches 2 ^ emax. -/
def BinFormat.round (f : BinFormat) (neg : Bool) (num den : Nat) : Bin :=
  if num = 0 ∨ den = 0 then Bin.fin neg 0 0
  else
    let e : Int := max (floor_log2 num den - ((f.prec : Int) - 1)) f.emin
    let q := scale2 num den e
    let m := round_even q.1 q.2
    if f.emax < (bits m : Int) + e then Bin.inf neg else Bin.fin neg m e

/-- The product of a value and a non-negative integer constant, rounded to the format. -/
def BinFormat.mulNat (f : BinFormat) (b : Bin) (k : Nat) : Bin :=
  match b with
  | Bin.fin neg m e =>
    if 0 ≤ e then f.round neg (m * k * 2 ^ e.toNat) 1 else f.round neg (m * k) (2 ^ (-e).toNat)
  | Bin.inf neg => Bin.inf neg

/-- The conversion of a value to the format, as in the assignment of a double to a
float. -/
def BinFormat.ofBin (f : BinFormat) (b : Bin) : Bin := f.mulNat b 1

/-- The test `x != 0`. -/
def Bin.nonzero : Bin → Bool
  | Bin.fin _ m _ => decide (m ≠ 0)
  | Bin.inf _ => true

/-- The value with its fraction cut off: the conversion of a floating value to an integer
type, before the range of the type is considered. For an infinity the model gives
2 ^ 1024 with the sign, which is outside the range of every integer type. -/
def Bin.trunc : Bin → Int
  | Bin.fin neg m e =>
    let a : Nat := if 0 ≤ e then m * 2 ^ e.toNat else m / 2 ^ (-e).toNat
    if neg then -(a : Int) else (a : Int)
  | Bin.inf neg => if neg then -(2 ^ 1024 : Int) else (2 ^ 1024 : Int)

/-- The nearest integer, halves away from zero. For an infinity the model gives 2 ^ 1024
with the sign. -/
def Bin.nearest : Bin → Int
  | Bin.fin neg m e =>
    let a : Nat :=
      if 0 ≤ e then m * 2 ^ e.toNat
      else (2 * m + 2 ^ (-e).toNat) / (2 * 2 ^ (-e).toNat)
    if neg then -(a : Int) else (a : Int)
  | Bin.inf neg => if neg then -(2 ^ 1024 : Int) else (2 ^ 1024 : Int)

/-- The C function lround on a double. When the nearest integer does not fit in long the
result is unspecified in C; the model gives LONG_MIN, the result of the conversion
instruction of x86-64. -/
def lround (x : Bin) : Int :=
  if -9223372036854775808 ≤ x.nearest ∧ x.nearest ≤ 9223372036854775807 then x.nearest
  else -9223372036854775808

/-- The exponent part of a floating literal: `e` or `E`, an optional sign, digits.
Returns the exponent, or 0 when no well-formed exponent follows. -/
def scan_exponent : List Char → Int
  | [] => 0
  | c :: cs =>
    if c = 'e' ∨ c = 'E' then
      match scan_int cs with
      | some (e, _) => e
      | none => 0
    else 0

/-- The call sscanf(pointstr, "%le", &fsec) on a string that starts with `.`, followed by
the test `if (fsec)` and lround(fsec * 1000): the fraction `.ddd[e±dd]` is read as the
double nearest to mant / 10^k * 10^e. Returns none when the conversion fails or the
double is zero, otherwise the number of milliseconds lround gives for the product, which
is itself rounded to a double. -/
def scan_fsec_msecs (afterPoint : List Char) : Option Int :=
  match scan_digits afterPoint 0 0 with
  | (_, 0, _) => none
  | (mant, k, rest) =>
    let e := scan_exponent rest
    let num : Nat := mant * (if 0 ≤ e then 10 ^ e.toNat else 1)
    let den : Nat := 10 ^ k * (if 0 ≤ e then 1 else 10 ^ (-e).toNat)
    let fsec := binary64.round false num den
    if fsec.nonzero then some (lround (binary64.mulNat fsec 1000)) else none

/-! ## QDate, QTime, QDateTime (UTC) -/

/-- QDate::isLeapYear: there is no year 0, so -1, -5, -9 are leap years. -/
def isLeapYear (y : Int) : Bool :=
  let y := if y < 1 then y + 1 else y
  (y % 4 = 0 && y % 100 ≠ 0) || y % 400 = 0

/-- QDate::daysInMonth for a month in 1..12. -/
def daysInMonth (y m : Int) : Int :=
  if m = 2 then (if isLeapYear y then 29 else 28)
  else if m = 4 ∨ m = 6 ∨ m = 9 ∨ m = 11 then 30
  else 31

/-- QDate::isValid(year, month, day). -/
def QDate_isValid (y m d : Int) : Bool :=
  y ≠ 0 && 1 ≤ m && m ≤ 12 && 1 ≤ d && d ≤ daysInMonth y m

/-- Qt julianDayFromDate (proleptic Gregorian calendar, floor division). -/
def julianDayFromDate (year month day : Int) : Int :=
  let year := if year < 0 then year + 1 else year
  let a := Int.fdiv (14 - month) 12
  let y := year + 4800 - a
  let m := month + 12 * a - 3
  day + Int.fdiv (153 * m + 2) 5 + 365 * y + Int.fdiv y 4 - Int.fdiv y 100
    + Int.fdiv y 400 - 32045

/-- QTime::isValid(h, m, s). -/
def QTime_isValid (h m s : Int) : Bool :=
  0 ≤ h && h < 24 && 0 ≤ m && m < 60 && 0 ≤ s && s < 60

/-- A QDateTime in UTC: none is the invalid (null) value, `some ms` is the instant
ms milliseconds after 1970-01-01T00:00:00Z. The range limit of qint64 is not modelled. -/
abbrev QDateTime := Option Int

/-- Julian day of 1970-01-01. -/
def JULIAN_DAY_FOR_EPOCH : Int := 2440588

/-- The constructor QDateTime(QDate(y, m, d), QTime(h, mi, s), Qt::UTC): invalid when the
date is invalid; when the date is valid and the time is not, the time is midnight. -/
def QDateTime_mk (y m d h mi s : Int) : QDateTime :=
  if QDate_isValid y m d then
    let msOfDay : Int := if QTime_isValid h mi s then (h * 3600 + mi * 60 + s) * 1000 else 0
    some ((julianDayFromDate y m d - JULIAN_DAY_FOR_EPOCH) * 86400000 + msOfDay)
  else none

/-- QDateTime::addMSecs: an invalid value stays invalid. -/
def addMSecs (dt : QDateTime) (ms : Int) : QDateTime := dt.map (fun t => t + ms)

/-- QDateTime::addSecs. -/
def addSecs (dt : QDateTime) (s : Int) : QDateTime := addMSecs dt (s * 1000)

/-- The offset part of xml_parse_time: the date/time text left in timestr and the
variables off_hr, off_min, off_sign. -/
def xml_parse_offset (timestr : List Char) : List Char × Int × Int × Int :=
  match strchr_split 'Z' timestr with
  | some (before, _) => (before, 0, 0, 1)
  | none =>
    match strchr_split '+' timestr with
    | some (before, after) =>
      let o := sscanf_offset after
      (before, o.1, o.2, 1)
    | none =>
      match strchr_split 'T' timestr with
      | some (beforeT, afterT) =>
        match strchr_split '-' afterT with
        | some (before, after) =>
          let o := sscanf_offset after
          (beforeT ++ 'T' :: before, o.1, o.2, -1)
        | none => (timestr, 0, 0, 1)
      | none => (timestr, 0, 0, 1)

/-- The function xml_parse_time. -/
def xml_parse_time (dateTimeString : String) : QDateTime :=
  let p := xml_parse_offset (cstr dateTimeString)
  let timestr := p.1
  let off_hr := p.2.1
  let off_min := p.2.2.1
  let off_sign := p.2.2.2
  let q : List Char × Option Int :=
    match strchr_split '.' timestr with
    | some (before, after) => (before, scan_fsec_msecs after)
    | none => (timestr, none)
  let t := sscanf_time q.1
  if t.res > 0 then
    let dt := QDateTime_mk t.year t.mon t.mday t.hour t.min t.sec
    let dt := match q.2 with
      | some ms => addMSecs dt ms
      | none => dt
    addSecs dt (-off_sign * off_hr * 3600 - off_sign * off_min * 60)
  else none

/-- A decimal number `num / 10 ^ scale`. -/
structure Dbl where
  num : Int
  scale : Nat
  deriving DecidableEq, Repr

instance : Inhabited Dbl := ⟨⟨0, 0⟩⟩

/-- The double value of an int. -/
def Dbl.ofInt (i : Int) : Dbl := ⟨i, 0⟩

/-- Comparison `a < b` of two doubles. -/
def Dbl.lt (a b : Dbl) : Bool := a.num * 10 ^ b.scale < b.num * 10 ^ a.scale

/-- Comparison `a == b` of two doubles. -/
def Dbl.eq (a b : Dbl) : Bool := a.num * 10 ^ b.scale = b.num * 10 ^ a.scale

/-- The test `d != 0`. -/
def Dbl.nonzero (d : Dbl) : Bool := d.num ≠ 0

/-- Multiplication by an integer constant. -/
def Dbl.mulInt (d : Dbl) (k : Int) : Dbl := ⟨d.num * k, d.scale⟩

/-- Division by 100.0. -/
def Dbl.div100 (d : Dbl) : Dbl := ⟨d.num, d.scale + 2⟩

/-- Conversion of a floating value to an integer type: the fraction is discarded
(truncation toward zero). -/
def Dbl.toInt (d : Dbl) : Int :=
  if 0 ≤ d.num then ((d.num.toNat / 10 ^ d.scale : Nat) : Int)
  else -(((-d.num).toNat / 10 ^ d.scale : Nat) : Int)

/-- The value of the format nearest to a decimal: the conversion of decimal text to a
floating type. -/
def BinFormat.ofDbl (f : BinFormat) (d : Dbl) : Bin :=
  f.round (decide (d.num < 0)) d.num.natAbs (10 ^ d.scale)

/-- The expression `d * 10` on a double, converted to an integer type: the product is
rounded to a double and its fraction is cut off. The range of the integer type is left to
the caller. -/
def Dbl.times_ten_int (d : Dbl) : Int := (binary64.mulNat (binary64.ofDbl d) 10).trunc

/-- The statements `x = d; n = x * 10;` with `float x` and `int n`: the double is rounded
to a float, the product is computed in float, and its fraction is cut off. When the
result does not fit in int the conversion is undefined in C; the model gives INT_MIN, the
result of the conversion instruction of x86-64. -/
def float_times_ten (d : Dbl) : Int :=
  let n := (binary32.mulNat (binary32.ofBin (binary64.ofDbl d)) 10).trunc
  if -2147483648 ≤ n ∧ n ≤ 2147483647 then n else -2147483648

/-- An optional sign: whether it is a minus, and the rest. -/
def scan_sign : List Char → Bool × List Char
  | [] => (false, [])
  | c :: cs => if c = '-' then (true, cs) else if c = '+' then (false, cs) else (false, c :: cs)

/-- QString::toDouble: white space at both ends is ignored; the text must be, as a whole,
`[sign] digits [. digits] [(e|E) [sign] digits]` with at least one mantissa digit;
otherwise the conversion fails and 0.0 is returned. The texts nan, inf, +inf and -inf,
for which Qt returns NaN or an infinity, are outside the model (QString_toDouble_special):
the model gives 0.0 for them, and the statements over arbitrary text exclude them. -/
def QString_toDouble (s : String) : Dbl :=
  let t := (trimmed s).data
  let sg := scan_sign t
  match scan_digits sg.2 0 0 with
  | (ip, n1, r1) =>
    let fr : Nat × Nat × List Char :=
      match r1 with
      | '.' :: r => scan_digits r ip 0
      | _ => (ip, 0, r1)
    match fr with
    | (mant, n2, r2) =>
      if n1 + n2 = 0 then ⟨0, 0⟩
      else
        let ex : Option Int :=
          match r2 with
          | [] => some 0
          | c :: r =>
            if c = 'e' ∨ c = 'E' then
              match scan_int r with
              | some (e, []) => some e
              | _ => none
            else none
        match ex with
        | none => ⟨0, 0⟩
        | some e =>
          let m : Int := if sg.1 then -(mant : Int) else (mant : Int)
          if 0 ≤ e then ⟨m * 10 ^ e.toNat, n2⟩ else ⟨m, n2 + (-e).toNat⟩

/-- QString::toInt: white space at both ends is ignored; the text must be, as a whole,
an optionally signed decimal integer in the range of int; otherwise 0 is returned. -/
def QString_toInt (s : String) : Int :=
  match scan_int (trimmed s).data with
  | some (v, []) => if -2147483648 ≤ v ∧ v ≤ 2147483647 then v else 0
  | _ => 0

/-- Whether a text starts with the given lower case letters, in either case. -/
def starts_no_case : List Char → List Char → Bool
  | [], _ => true
  | _ :: _, [] => false
  | p :: ps, c :: cs => lowerChar c = p && starts_no_case ps cs

/-- The flag `ok` of QString::toDouble for a text that is not one of the special texts:
whether the text is, as a whole, a number of the form QString_toDouble reads. -/
def QString_toDouble_ok (s : String) : Bool :=
  let t := (trimmed s).data
  let sg := scan_sign t
  match scan_digits sg.2 0 0 with
  | (ip, n1, r1) =>
    let fr : Nat × Nat × List Char :=
      match r1 with
      | '.' :: r => scan_digits r ip 0
      | _ => (ip, 0, r1)
    match fr with
    | (_, n2, r2) =>
      if n1 + n2 = 0 then false
      else
        match r2 with
        | [] => true
        | c :: r =>
          if c = 'e' ∨ c = 'E' then
            match scan_int r with
            | some (_, []) => true
            | _ => false
          else false

/-- The texts Qt reads as NaN or as an infinity, which QString_toDouble does not model:
after white space and an optional sign the text starts with nan or inf, in either
case. -/
def QString_toDouble_special (s : String) : Bool :=
  let sg := scan_sign (trimmed s).data
  starts_no_case ['i', 'n', 'f'] sg.2 || starts_no_case ['n', 'a', 'n'] sg.2

/-- The C function strtod(s, nullptr) on decimal text: white space, an optional sign,
digits with an optional point (at least one digit in all), and an exponent when digits
follow the letter e; the result is the value of the longest such start of the text, and
0 when there is none. The other forms strtod accepts (hexadecimal, infinity, NaN) are
not modelled: none. -/
def strtod (s : List Char) : Option Dbl :=
  let sg := scan_sign (skip_space s)
  if starts_no_case ['0', 'x'] sg.2 || starts_no_case ['i', 'n', 'f'] sg.2 ||
      starts_no_case ['n', 'a', 'n'] sg.2 then none
  else
    match scan_digits sg.2 0 0 with
    | (ip, n1, r1) =>
      let fr : Nat × Nat × List Char :=
        match r1 with
        | '.' :: r => scan_digits r ip 0
        | _ => (ip, 0, r1)
      match fr with
      | (mant, n2, r2) =>
        if n1 + n2 = 0 then some ⟨0, 0⟩
        else
          let e : Int :=
            match r2 with
            | [] => 0
            | c :: r =>
              if c = 'e' ∨ c = 'E' then
                match scan_int r with
                | some (e, _) => e
                | none => 0
              else 0
          let m : Int := if sg.1 then -(mant : Int) else (mant : Int)
          some (if 0 ≤ e then ⟨m * 10 ^ e.toNat, n2⟩ else ⟨m, n2 + (-e).toNat⟩)

/-- The last n decimal digits of a number, most significant first. -/
def lastDigits : Nat → Nat → List Char
  | 0, _ => []
  | n + 1, v => lastDigits n (v / 10) ++ [Nat.digitChar (v % 10)]

/-- QString::number(d, 'f', prec), on the exact decimal: rounded half away from zero. -/
def number_f (d : Dbl) (prec : Nat) : String :=
  let a : Nat := d.num.natAbs
  let scaled : Nat := (2 * a * 10 ^ prec + 10 ^ d.scale) / (2 * 10 ^ d.scale)
  let ip : String := Nat.repr (scaled / 10 ^ prec)
  let body : String := if prec = 0 then ip else ip ++ "." ++ ⟨lastDigits prec scaled⟩
  if d.num < 0 then "-" ++ body else body

/-- The helper toString(double d): QString::number(d, 'f', 9). -/
def toString_double (d : Dbl) : String := number_f d 9

/-- The helper toString(float f): QString::number(f, 'f', 6). -/
def toString_float (f : Dbl) : String := number_f f 6

/-- QString::number(int). -/
def number_int (i : Int) : String :=
  if i < 0 then "-" ++ Nat.repr i.natAbs else Nat.repr i.natAbs

/-! ## The data model (defs.h, src/core/xmltag.h)

The type declarations are not part of `src/`; the fields below are the ones gpx.cc
reads and writes, with the values a freshly constructed object has. -/

/-- One XML attribute: qualified name and value. -/
abbrev Attr := String × String

/-- QXmlStreamAttributes::hasAttribute(qualifiedName). -/
def hasAttribute (attr : List Attr) (name : String) : Bool :=
  attr.any (fun a => a.1 = name)

/-- QXmlStreamAttributes::value(qualifiedName): the value of the first attribute of that
name, or an empty string. -/
def attr_value (attr : List Attr) (name : String) : String :=
  match attr.find? (fun a => a.1 = name) with
  | some a => a.2
  | none => ""

/-- QXmlStreamNamespaceDeclaration: the declared name (empty for the default
namespace) and the namespace URI. -/
structure NsDecl where
  pfx : String
  namespaceUri : String
  deriving DecidableEq, Repr

/-- The struct xml_tag: a node of the tree of preserved elements. Pointers to other
nodes are indices into the arena of nodes, null is none. -/
structure xml_tag where
  tagname : String := ""
  cdata : String := ""
  parentcdata : String := ""
  attributes : List Attr := []
  parent : Option Nat := none
  sibling : Option Nat := none
  child : Option Nat := none
  deriving DecidableEq, Repr

instance : Inhabited xml_tag := ⟨{}⟩

/-- The class UrlLink. -/
structure UrlLink where
  url_ : String := ""
  url_link_text_ : String := ""
  url_link_type_ : String := ""
  deriving DecidableEq, Repr

/-- The enum fix_type. -/
inductive fix_type
  | fix_unknown
  | fix_none
  | fix_2d
  | fix_3d
  | fix_dgps
  | fix_pps
  deriving DecidableEq, Repr

/-- The enum status_type. -/
inductive status_type
  | status_unknown
  | status_false
  | status_true
  deriving DecidableEq, Repr

/-- The enum geocache_type. -/
inductive geocache_type
  | gt_unknown
  | gt_traditional
  | gt_multi
  | gt_virtual
  | gt_letterbox
  | gt_event
  | gt_surprise
  | gt_webcam
  | gt_earth
  | gt_locationless
  | gt_benchmark
  | gt_cito
  | gt_ape
  | gt_mega
  | gt_wherigo
  deriving DecidableEq, Repr

/-- The enum geocache_container. -/
inductive geocache_container
  | gc_unknown
  | gc_micro
  | gc_other
  | gc_regular
  | gc_large
  | gc_virtual
  | gc_small
  deriving DecidableEq, Repr

/-- The class utf_string. -/
structure utf_string where
  is_html : Bool := false
  utfstring : String := ""
  deriving DecidableEq, Repr

/-- The class geocache_data. -/
structure geocache_data where
  id : Int := 0
  type : geocache_type := geocache_type.gt_unknown
  container : geocache_container := geocache_container.gc_unknown
  diff : Int := 0
  terr : Int := 0
  is_archived : status_type := status_type.status_unknown
  is_available : status_type := status_type.status_unknown
  exported : QDateTime := none
  last_found : QDateTime := none
  placer : String := ""
  placer_id : Int := 0
  hint : String := ""
  desc_short : utf_string := {}
  desc_long : utf_string := {}
  favorite_points : Int := 0
  personal_note : String := ""
  deriving DecidableEq, Repr

/-- One entry of a chain of format_specific_data: the FS_GPX entry (struct fs_xml, with
its pointer to the first preserved node) or the Garmin entry (FS_GMSD), kept as the list
of the texts stored in it. -/
inductive format_specific_data
  | fs_xml (tag : Option Nat)
  | gmsd (fields : List (tag_type × String))
  deriving DecidableEq, Repr

/-- The call fs_chain_find(chain, FS_GPX): the first FS_GPX entry, given by its tag
pointer, or none when the chain has no such entry. -/
def fs_chain_find_gpx : List format_specific_data → Option (Option Nat)
  | [] => none
  | format_specific_data.fs_xml tag :: _ => some tag
  | format_specific_data.gmsd _ :: rest => fs_chain_find_gpx rest

/-- GMSD_FIND: does the chain hold a Garmin entry. -/
def GMSD_FIND : List format_specific_data → Bool
  | [] => false
  | format_specific_data.fs_xml _ :: rest => GMSD_FIND rest
  | format_specific_data.gmsd _ :: _ => true

/-- The call fs_chain_add(chain, data): append at the end of the chain. -/
def fs_chain_add (chain : List format_specific_data) (d : format_specific_data) :
    List format_specific_data := chain ++ [d]

/-- The constant unknown_alt. -/
def unknown_alt : Dbl := ⟨-99999999, 0⟩

/-- The class Waypoint. A field set through WAYPT_SET is an option: none while its
flag in wpt_flags is clear. -/
structure Waypoint where
  latitude : Dbl := ⟨0, 0⟩
  longitude : Dbl := ⟨0, 0⟩
  altitude : Dbl := unknown_alt
  geoidheight : Option Dbl := none
  depth : Option Dbl := none
  proximity : Option Dbl := none
  temperature : Option Dbl := none
  course : Option Dbl := none
  speed : Option Dbl := none
  heartrate : Int := 0
  cadence : Int := 0
  shortname : String := ""
  description : String := ""
  notes : String := ""
  icon_descr : String := ""
  creation_time : QDateTime := none
  urls : List UrlLink := []
  new_trkseg : Bool := false
  shortname_is_synthetic : Bool := false
  fix : fix_type := fix_type.fix_unknown
  sat : Int := -1
  hdop : Dbl := ⟨0, 0⟩
  vdop : Dbl := ⟨0, 0⟩
  pdop : Dbl := ⟨0, 0⟩
  gc_data : Option geocache_data := none
  fs : List format_specific_data := []
  deriving DecidableEq, Repr

instance : Inhabited Waypoint := ⟨{}⟩

/-- The struct route_head; waypoint_list holds pointers to waypoints. -/
structure route_head where
  rte_name : String := ""
  rte_desc : String := ""
  rte_urls : List UrlLink := []
  rte_num : Int := 0
  line_color_bbggrr : Int := -1
  waypoint_list : List Nat := []
  fs : List format_specific_data := []
  deriving DecidableEq, Repr

instance : Inhabited route_head := ⟨{}⟩

/-- The struct GpxGlobal: the file-level information. -/
structure GpxGlobal where
  name : List String := []
  desc : List String := []
  author : List String := []
  email : List String := []
  url : List String := []
  urlname : List String := []
  keywords : List String := []
  link : List UrlLink := []
  deriving DecidableEq, Repr

/-- The function gpx_add_to_global. -/
def gpx_add_to_global (ge : List String) (s : String) : List String :=
  if ge.contains s then ge else ge ++ [s]

/-- What `fs_ptr` points to: the fs field of a waypoint or of a route or track head. -/
inductive FsPtr
  | wpt (i : Nat)
  | head (i : Nat)
  deriving DecidableEq, Repr

/-- A token of the QXmlStreamReader. -/
inductive Token
  | StartElement (qualifiedName : String) (attributes : List Attr)
      (namespaceDeclarations : List NsDecl)
  | EndElement (qualifiedName : String)
  | Characters (text : String)
  | EndDocument
  | Invalid
  | Other
  deriving DecidableEq, Repr

/-- The static variables of the reader, the arenas of the objects it allocates, and the
collections of the model it fills (waypt_add, route_add_head, track_add_head). -/
structure State where
  current_tag : String := ""
  cdatastr : String := ""
  cur_tag : Option Nat := none
  tags : List xml_tag := []
  wpts : List Waypoint := []
  heads : List route_head := []
  wpt_tmp : Option Nat := none
  trk_head : Option Nat := none
  rte_head : Option Nat := none
  link_ : Option UrlLink := none
  rh_link_ : Option UrlLink := none
  cache_descr_is_html : Bool := false
  link_url : String := ""
  link_text : String := ""
  link_type : String := ""
  next_trkpt_is_new_seg : Bool := false
  fs_ptr : Option FsPtr := none
  gpx_version : String := ""
  gpx_namespace_attribute : List Attr := []
  gpx_global : Option GpxGlobal := none
  logpoint_ct : Nat := 0
  gc_log_date : QDateTime := none
  opt_logpoint : Bool := false
  waypt_list : List Nat := []
  route_list : List Nat := []
  track_list : List Nat := []
  fault : Bool := false
  fatal : Bool := false
  deriving Repr
/-! ## Geocache vocabularies -/

open geocache_type geocache_container fix_type status_type

/-- The table gs_type_map. -/
def gs_type_map : List (geocache_type × String) :=
  [(gt_traditional, "Traditional Cache"),
   (gt_traditional, "Traditional"),
   (gt_multi, "Multi-cache"),
   (gt_multi, "Multi"),
   (gt_virtual, "Virtual Cache"),
   (gt_virtual, "Virtual"),
   (gt_event, "Event Cache"),
   (gt_event, "Event"),
   (gt_webcam, "Webcam Cache"),
   (gt_webcam, "Webcam"),
   (gt_surprise, "Unknown Cache"),
   (gt_earth, "Earthcache"),
   (gt_earth, "Earth"),
   (gt_cito, "Cache In Trash Out Event"),
   (gt_letterbox, "Letterbox Hybrid"),
   (gt_locationless, "Locationless (Reverse) Cache"),
   (gt_ape, "Project APE Cache"),
   (gt_mega, "Mega-Event Cache"),
   (gt_wherigo, "Wherigo Cache"),
   (gt_benchmark, "Benchmark")]

/-- The table gs_container_map. -/
def gs_container_map : List (geocache_container × String) :=
  [(gc_other, "Unknown"),
   (gc_other, "Other"),
   (gc_micro, "Micro"),
   (gc_regular, "Regular"),
   (gc_large, "Large"),
   (gc_small, "Small"),
   (gc_virtual, "Virtual")]

/-- The function gs_mktype. -/
def gs_mktype (t : String) : geocache_type :=
  match gs_type_map.find? (fun e => eqNoCase t e.2) with
  | some e => e.1
  | none => gt_unknown

/-- The function gs_get_cachetype. -/
def gs_get_cachetype (t : geocache_type) : String :=
  match gs_type_map.find? (fun e => t = e.1) with
  | some e => e.2
  | none => "Unknown"

/-- The function gs_mkcont. -/
def gs_mkcont (t : String) : geocache_container :=
  match gs_container_map.find? (fun e => eqNoCase t e.2) with
  | some e => e.1
  | none => gc_unknown

/-- The function gs_get_container. -/
def gs_get_container (t : geocache_container) : String :=
  match gs_container_map.find? (fun e => t = e.1) with
  | some e => e.2
  | none => "Unknown"

/-! ## The reader -/

/-- A call on the XmlStreamWriter. -/
inductive WEvent
  | StartDocument
  | StartElement (name : String)
  | Attribute (name value : String)
  | Characters (text : String)
  | EndElement
  deriving DecidableEq, Repr

/-- Functions of other files of the repository that gpx.cc calls and whose result
is only passed on. -/
structure Externals where
  gt_color_value_by_name : String → Int
  gt_color_index_by_rgb : Int → Int
  gt_color_name : Int → String
  mkshort_from_wpt : Waypoint → String
  toPrettyString : Int → String
  garmin_fs_xml_fprint : Waypoint → List WEvent

/-- Apply f to the element at index i of a list (an assignment through a pointer). -/
def upd {α : Type} : List α → Nat → (α → α) → List α
  | [], _, _ => []
  | a :: as, 0, f => f a :: as
  | a :: as, i + 1, f => a :: upd as i f

/-- The node a tag pointer points to. -/
def getTag (tags : List xml_tag) (i : Nat) : xml_tag := tags[i]?.getD default

/-- The loop `while (t->sibling) t = t->sibling`, bounded by the number of pointer
steps given as first argument. -/
def last_sibling (tags : List xml_tag) : Nat → Nat → Nat
  | 0, i => i
  | f + 1, i =>
    match (getTag tags i).sibling with
    | some j => last_sibling tags f j
    | none => i

/-- The chain `*fs_ptr`. -/
def fs_of (s : State) : FsPtr → List format_specific_data
  | FsPtr.wpt i => (s.wpts[i]?.getD default).fs
  | FsPtr.head i => (s.heads[i]?.getD default).fs

/-- Assignment to the chain `*fs_ptr`. -/
def set_fs (s : State) (p : FsPtr) (fs : List format_specific_data) : State :=
  match p with
  | FsPtr.wpt i => { s with wpts := upd s.wpts i (fun w => { w with fs := fs }) }
  | FsPtr.head i => { s with heads := upd s.heads i (fun h => { h with fs := fs }) }

/-- An access `wpt_tmp->...`: a null wpt_tmp is recorded in `fault`. -/
def with_wpt (s : State) (f : Waypoint → Waypoint) : State :=
  match s.wpt_tmp with
  | some i => { s with wpts := upd s.wpts i f }
  | none => { s with fault := true }

/-- An access `rte_head->...`. -/
def with_rte (s : State) (f : route_head → route_head) : State :=
  match s.rte_head with
  | some i => { s with heads := upd s.heads i f }
  | none => { s with fault := true }

/-- An access `trk_head->...`. -/
def with_trk (s : State) (f : route_head → route_head) : State :=
  match s.trk_head with
  | some i => { s with heads := upd s.heads i f }
  | none => { s with fault := true }

/-- An access `gpx_global->...`. -/
def with_global (s : State) (f : GpxGlobal → GpxGlobal) : State :=
  match s.gpx_global with
  | some g => { s with gpx_global := some (f g) }
  | none => { s with fault := true }

/-- Waypoint::AllocGCData followed by an assignment to the geocache record. -/
def set_gc (f : geocache_data → geocache_data) (w : Waypoint) : Waypoint :=
  { w with gc_data := some (f (w.gc_data.getD {})) }

/-- The function tag_gpx; ns are the namespace declarations of the reader. -/
def tag_gpx (s : State) (attr : List Attr) (ns : List NsDecl) : State :=
  let s1 : State :=
    if hasAttribute attr "version" then
      if isEmpty s.gpx_version then
        { s with gpx_version := attr_value attr "version" }
      else if Dbl.lt (Dbl.ofInt (QString_toInt s.gpx_version * 10))
          ((QString_toDouble (attr_value attr "version")).mulInt 10) then
        { s with gpx_version := attr_value attr "version" }
      else s
    else s
  { s1 with gpx_namespace_attribute :=
      ns.foldl (fun acc n =>
        if !isEmpty n.pfx then
          if !hasAttribute acc ("xmlns:" ++ n.pfx) then
            acc ++ [("xmlns:" ++ n.pfx, n.namespaceUri)]
          else acc
        else acc) s1.gpx_namespace_attribute }

/-- The lat and lon attributes of a new point. -/
def seed_lat_lon (attr : List Attr) : Waypoint :=
  let w : Waypoint := {}
  let w := if hasAttribute attr "lat" then
    { w with latitude := QString_toDouble (attr_value attr "lat") } else w
  if hasAttribute attr "lon" then
    { w with longitude := QString_toDouble (attr_value attr "lon") } else w

/-- The function tag_wpt. -/
def tag_wpt (s : State) (attr : List Attr) : State :=
  { s with
    wpts := s.wpts ++ [seed_lat_lon attr]
    wpt_tmp := some s.wpts.length
    link_ := some {}
    cur_tag := none
    fs_ptr := some (FsPtr.wpt s.wpts.length) }

/-- The function tag_cache_desc. -/
def tag_cache_desc (s : State) (attr : List Attr) : State :=
  { s with cache_descr_is_html :=
      hasAttribute attr "html" && attr_value attr "html" = "True" }

/-- The function tag_gs_cache. -/
def tag_gs_cache (s : State) (attr : List Attr) : State :=
  with_wpt s (fun w =>
    let g : geocache_data := w.gc_data.getD {}
    let g := if hasAttribute attr "id" then
      { g with id := QString_toInt (attr_value attr "id") } else g
    let g := if hasAttribute attr "available" then
        if eqNoCase (attr_value attr "available") "True" then
          { g with is_available := status_true }
        else if eqNoCase (attr_value attr "available") "False" then
          { g with is_available := status_false }
        else g
      else g
    let g := if hasAttribute attr "archived" then
        if eqNoCase (attr_value attr "archived") "True" then
          { g with is_archived := status_true }
        else if eqNoCase (attr_value attr "archived") "False" then
          { g with is_archived := status_false }
        else g
      else g
    { w with gc_data := some g })

/-- The attribute array built by start_something_else: the attributes, then the
namespace declarations as xmlns attributes. -/
def tag_attributes (attr : List Attr) (nsdecl : List NsDecl) : List Attr :=
  attr ++ nsdecl.map (fun d =>
    ((if isEmpty d.pfx then "xmlns" else "xmlns:") ++ d.pfx, d.namespaceUri))

/-- The function start_something_else. The new node is allocated at the end of the
arena; the sibling walks are bounded by the size of the arena. -/
def start_something_else (s : State) (el : String) (attr : List Attr)
    (nsdecl : List NsDecl) : State :=
  match s.fs_ptr with
  | none => s
  | some p =>
    let n := s.tags.length
    let new_tag : xml_tag := { tagname := el, attributes := tag_attributes attr nsdecl }
    match s.cur_tag with
    | some c =>
      match (getTag s.tags c).child with
      | some ch =>
        let l := last_sibling s.tags s.tags.length ch
        { s with
          tags := upd s.tags l (fun t => { t with sibling := some n }) ++
            [{ new_tag with parent := (getTag s.tags l).parent }]
          cur_tag := some n }
      | none =>
        { s with
          tags := upd s.tags c (fun t => { t with child := some n }) ++
            [{ new_tag with parent := some c }]
          cur_tag := some n }
    | none =>
      match fs_chain_find_gpx (fs_of s p) with
      | some (some r) =>
        let l := last_sibling s.tags s.tags.length r
        { s with
          tags := upd s.tags l (fun t => { t with sibling := some n }) ++
            [{ new_tag with parent := none }]
          cur_tag := some n }
      | _ =>
        set_fs { s with tags := s.tags ++ [{ new_tag with parent := none }], cur_tag := some n }
          p (fs_chain_add (fs_of s p) (format_specific_data.fs_xml (some n)))

/-- The function end_something_else. -/
def end_something_else (s : State) : State :=
  match s.cur_tag with
  | some c => { s with cur_tag := (getTag s.tags c).parent }
  | none => s

/-- QString::mid(pos, n). -/
def mid (s : String) (pos n : Nat) : String := ⟨(s.data.drop pos).take n⟩

/-- The function tag_log_wpt (the NEW_STRINGS branch). -/
def tag_log_wpt (s : State) (attr : List Attr) : State :=
  match s.wpt_tmp with
  | none => { s with fault := true }
  | some i =>
    let w := s.wpts[i]?.getD default
    let lwp := seed_lat_lon attr
    if w.shortname.length > 2 then
      { s with
        wpts := s.wpts ++ [{ lwp with shortname := mid w.shortname 2 4 ++ "-FIXME" }]
        waypt_list := s.waypt_list ++ [s.wpts.length] }
    else { s with wpts := s.wpts ++ [lwp] }

/-- The link cases of gpx_start: `if (attr.hasAttribute("href")) link_url = ...`. -/
def start_link (s : State) (attr : List Attr) : State :=
  if hasAttribute attr "href" then { s with link_url := attr_value attr "href" } else s

/-- The function gpx_start. The case tt_unknown, which returns from the function, is
tested first; the other cases fall to the passthrough test. -/
def gpx_start (s : State) (el : String) (attr : List Attr) (nsdecl : List NsDecl) : State :=
  let s : State := { s with cdatastr := "" }
  let tp := get_tag hash s.current_tag
  if tp.1 = tt_unknown then start_something_else s el attr nsdecl
  else
    let s1 : State :=
      match tp.1 with
      | tt_gpx => tag_gpx s attr nsdecl
      | tt_link => start_link s attr
      | tt_wpt => tag_wpt s attr
      | tt_wpttype_link => start_link s attr
      | tt_rte =>
        { s with
          heads := s.heads ++ [{}]
          rte_head := some s.heads.length
          route_list := s.route_list ++ [s.heads.length]
          rh_link_ := some {}
          fs_ptr := some (FsPtr.head s.heads.length) }
      | tt_rte_rtept => tag_wpt s attr
      | tt_trk =>
        { s with
          heads := s.heads ++ [{}]
          trk_head := some s.heads.length
          track_list := s.track_list ++ [s.heads.length]
          rh_link_ := some {}
          fs_ptr := some (FsPtr.head s.heads.length) }
      | tt_trk_trkseg_trkpt =>
        let s2 := tag_wpt s attr
        if s2.next_trkpt_is_new_seg then
          { with_wpt s2 (fun w => { w with new_trkseg := true }) with
            next_trkpt_is_new_seg := false }
        else s2
      | tt_rte_link => start_link s attr
      | tt_trk_link => start_link s attr
      | tt_cache => tag_gs_cache s attr
      | tt_cache_log_wpt => if s.opt_logpoint then tag_log_wpt s attr else s
      | tt_cache_desc_long => tag_cache_desc s attr
      | tt_cache_desc_short => tag_cache_desc s attr
      | tt_cache_placer =>
        if hasAttribute attr "id" then
          with_wpt s (set_gc (fun g => { g with placer_id := QString_toInt (attr_value attr "id") }))
        else s
      | _ => s
    if tp.2 then start_something_else s1 el attr nsdecl else s1

/-- DateTime::toTime_t (src/core/datetime.h): seconds since the epoch as a 32 bit
unsigned value, 0 for an invalid date. -/
def toTime_t (dt : QDateTime) : Int :=
  match dt with
  | none => 0
  | some ms =>
    let secs := Int.tdiv ms 1000
    if 0 ≤ secs ∧ secs < 4294967295 then secs else 4294967295

/-- Modelled from the spec: garmin_fs_xml_convert (garmin_fs.cc) is not in src. It
makes sure the waypoint carries a Garmin entry in its fs chain, stores proximity,
temperature and depth in the waypoint (when the text is not empty) and keeps the text of
the other vendor fields in the Garmin entry. -/
def garmin_fs_xml_convert (tag : tag_type) (cdatastr : String) (w : Waypoint) : Waypoint :=
  let w : Waypoint :=
    if GMSD_FIND w.fs then w
    else { w with fs := fs_chain_add w.fs (format_specific_data.gmsd []) }
  match tag with
  | tt_garmin_wpt_proximity =>
    if isEmpty cdatastr then w else { w with proximity := some (QString_toDouble cdatastr) }
  | tt_garmin_wpt_temperature =>
    if isEmpty cdatastr then w else { w with temperature := some (QString_toDouble cdatastr) }
  | tt_garmin_wpt_depth =>
    if isEmpty cdatastr then w else { w with depth := some (QString_toDouble cdatastr) }
  | _ =>
    { w with fs := w.fs.map (fun d =>
        match d with
        | format_specific_data.gmsd fields =>
          format_specific_data.gmsd (fields ++ [(tag, cdatastr)])
        | other => other) }

/-- The `if (link_)` block of the point closing cases of gpx_end: a legacy url with a
non-empty address is added to the point, then link_ is deleted. -/
def close_link (s : State) : State :=
  match s.link_ with
  | some l =>
    let s1 := if !isEmpty l.url_ then with_wpt s (fun w => { w with urls := w.urls ++ [l] }) else s
    { s1 with link_ := none }
  | none => s

/-- The `if (rh_link_)` block of the route and track closing cases of gpx_end. -/
def close_rh_link (s : State) (with_head : State → (route_head → route_head) → State) : State :=
  match s.rh_link_ with
  | some l =>
    let s1 := if !isEmpty l.url_ then
      with_head s (fun h => { h with rte_urls := h.rte_urls ++ [l] }) else s
    { s1 with rh_link_ := none }
  | none => s

/-- The statements `link_type.clear(); link_text.clear(); link_url.clear();`. -/
def clear_link (s : State) : State :=
  { s with link_type := "", link_text := "", link_url := "" }

/-- The fix case of gpx_end: the fix value of a trimmed text. -/
def fix_of_text (cdatastr : String) : fix_type :=
  if cdatastr = "none" then fix_none
  else if cdatastr = "2d" then fix_2d
  else if cdatastr = "3d" then fix_3d
  else if cdatastr = "dgps" then fix_dgps
  else if cdatastr = "pps" then fix_pps
  else fix_unknown

/-- An access `link_->...`. -/
def with_link (s : State) (f : UrlLink → UrlLink) : State :=
  match s.link_ with
  | some l => { s with link_ := some (f l) }
  | none => { s with fault := true }

/-- An access `rh_link_->...`. -/
def with_rh_link (s : State) (f : UrlLink → UrlLink) : State :=
  match s.rh_link_ with
  | some l => { s with rh_link_ := some (f l) }
  | none => { s with fault := true }

/-- The function gpx_end. The case tt_unknown, which returns from the function, is
tested first; the other cases fall to the passthrough test. -/
def gpx_end (ext : Externals) (s : State) : State :=
  let s : State := { s with cdatastr := trimmed s.cdatastr }
  let cdatastr := s.cdatastr
  let tp := get_tag hash s.current_tag
  if tp.1 = tt_unknown then end_something_else s
  else
    let s1 : State :=
      match tp.1 with
      | tt_name => with_global s (fun g => { g with name := gpx_add_to_global g.name cdatastr })
      | tt_desc => with_global s (fun g => { g with desc := gpx_add_to_global g.desc cdatastr })
      | tt_author =>
        with_global s (fun g => { g with author := gpx_add_to_global g.author cdatastr })
      | tt_email => with_global s (fun g => { g with email := gpx_add_to_global g.email cdatastr })
      | tt_url => with_global s (fun g => { g with url := gpx_add_to_global g.url cdatastr })
      | tt_urlname =>
        with_global s (fun g => { g with urlname := gpx_add_to_global g.urlname cdatastr })
      | tt_keywords =>
        with_global s (fun g => { g with keywords := gpx_add_to_global g.keywords cdatastr })
      | tt_link =>
        clear_link (with_global s (fun g =>
          { g with link := g.link ++ [⟨s.link_url, s.link_text, s.link_type⟩] }))
      | tt_link_text => { s with link_text := cdatastr }
      | tt_link_type => { s with link_type := cdatastr }
      | tt_wpt =>
        let s2 := close_link s
        match s2.wpt_tmp with
        | some i =>
          { s2 with waypt_list := s2.waypt_list ++ [i], logpoint_ct := 0, cur_tag := none,
                    wpt_tmp := none }
        | none => { s2 with fault := true, logpoint_ct := 0, cur_tag := none }
      | tt_cache_name => with_wpt s (fun w => { w with notes := cdatastr })
      | tt_cache_container =>
        with_wpt s (set_gc (fun g => { g with container := gs_mkcont cdatastr }))
      | tt_cache_type => with_wpt s (set_gc (fun g => { g with type := gs_mktype cdatastr }))
      | tt_cache_difficulty =>
        with_wpt s (set_gc (fun g =>
          { g with diff := float_times_ten (QString_toDouble cdatastr) }))
      | tt_cache_hint => with_wpt s (set_gc (fun g => { g with hint := cdatastr }))
      | tt_cache_desc_long =>
        with_wpt s (set_gc (fun g =>
          { g with desc_long := ⟨s.cache_descr_is_html, cdatastr⟩ }))
      | tt_cache_desc_short =>
        with_wpt s (set_gc (fun g =>
          { g with desc_short := ⟨s.cache_descr_is_html, cdatastr⟩ }))
      | tt_cache_terrain =>
        with_wpt s (set_gc (fun g =>
          { g with terr := float_times_ten (QString_toDouble cdatastr) }))
      | tt_cache_placer => with_wpt s (set_gc (fun g => { g with placer := cdatastr }))
      | tt_cache_log_date => { s with gc_log_date := xml_parse_time cdatastr }
      | tt_cache_log_type =>
        let s2 : State :=
          match s.wpt_tmp with
          | none => { s with fault := true }
          | some i =>
            if cdatastr = "Found it" ∧
                toTime_t (((s.wpts[i]?.getD default).gc_data.getD {}).last_found) = 0 then
              with_wpt s (set_gc (fun g => { g with last_found := s.gc_log_date }))
            else s
        { s2 with gc_log_date := none }
      | tt_cache_favorite_points =>
        with_wpt s (set_gc (fun g => { g with favorite_points := QString_toInt cdatastr }))
      | tt_cache_personal_note =>
        with_wpt s (set_gc (fun g => { g with personal_note := cdatastr }))
      | tt_garmin_wpt_proximity => with_wpt s (garmin_fs_xml_convert tp.1 cdatastr)
      | tt_garmin_wpt_temperature => with_wpt s (garmin_fs_xml_convert tp.1 cdatastr)
      | tt_garmin_wpt_depth => with_wpt s (garmin_fs_xml_convert tp.1 cdatastr)
      | tt_garmin_wpt_display_mode => with_wpt s (garmin_fs_xml_convert tp.1 cdatastr)
      | tt_garmin_wpt_category => with_wpt s (garmin_fs_xml_convert tp.1 cdatastr)
      | tt_garmin_wpt_addr => with_wpt s (garmin_fs_xml_convert tp.1 cdatastr)
      | tt_garmin_wpt_city => with_wpt s (garmin_fs_xml_convert tp.1 cdatastr)
      | tt_garmin_wpt_state => with_wpt s (garmin_fs_xml_convert tp.1 cdatastr)
      | tt_garmin_wpt_country => with_wpt s (garmin_fs_xml_convert tp.1 cdatastr)
      | tt_garmin_wpt_postal_code => with_wpt s (garmin_fs_xml_convert tp.1 cdatastr)
      | tt_garmin_wpt_phone_nr => with_wpt s (garmin_fs_xml_convert tp.1 cdatastr)
      | tt_humminbird_wpt_depth =>
        with_wpt s (fun w => { w with depth := some (QString_toDouble cdatastr).div100 })
      | tt_humminbird_trk_trkseg_trkpt_depth =>
        with_wpt s (fun w => { w with depth := some (QString_toDouble cdatastr).div100 })
      | tt_rte_name => with_rte s (fun h => { h with rte_name := cdatastr })
      | tt_rte => close_rh_link s with_rte
      | tt_rte_rtept =>
        let s2 := close_link s
        match s2.wpt_tmp with
        | some i =>
          { with_rte s2 (fun h => { h with waypoint_list := h.waypoint_list ++ [i] }) with
            wpt_tmp := none }
        | none => { s2 with fault := true }
      | tt_rte_desc => with_rte s (fun h => { h with rte_desc := cdatastr })
      | tt_garmin_rte_display_color =>
        with_rte s (fun h => { h with line_color_bbggrr := ext.gt_color_value_by_name cdatastr })
      | tt_rte_link =>
        clear_link (with_rte s (fun h =>
          { h with rte_urls := h.rte_urls ++ [⟨s.link_url, s.link_text, s.link_type⟩] }))
      | tt_rte_number => with_rte s (fun h => { h with rte_num := QString_toInt cdatastr })
      | tt_trk_name => with_trk s (fun h => { h with rte_name := cdatastr })
      | tt_trk => close_rh_link s with_trk
      | tt_trk_trkseg => { s with next_trkpt_is_new_seg := true }
      | tt_trk_trkseg_trkpt =>
        let s2 := close_link s
        match s2.wpt_tmp with
        | some i =>
          { with_trk s2 (fun h => { h with waypoint_list := h.waypoint_list ++ [i] }) with
            wpt_tmp := none }
        | none => { s2 with fault := true }
      | tt_trk_desc => with_trk s (fun h => { h with rte_desc := cdatastr })
      | tt_garmin_trk_display_color =>
        with_trk s (fun h => { h with line_color_bbggrr := ext.gt_color_value_by_name cdatastr })
      | tt_trk_link =>
        clear_link (with_trk s (fun h =>
          { h with rte_urls := h.rte_urls ++ [⟨s.link_url, s.link_text, s.link_type⟩] }))
      | tt_trk_number => with_trk s (fun h => { h with rte_num := QString_toInt cdatastr })
      | tt_trk_trkseg_trkpt_course =>
        with_wpt s (fun w => { w with course := some (QString_toDouble cdatastr) })
      | tt_trk_trkseg_trkpt_speed =>
        with_wpt s (fun w => { w with speed := some (QString_toDouble cdatastr) })
      | tt_trk_trkseg_trkpt_heartrate =>
        with_wpt s (fun w => { w with heartrate := (binary64.ofDbl (QString_toDouble cdatastr)).trunc % 256 })
      | tt_trk_trkseg_trkpt_cadence =>
        with_wpt s (fun w => { w with cadence := (binary64.ofDbl (QString_toDouble cdatastr)).trunc % 256 })
      | tt_rte_url => with_rh_link s (fun l => { l with url_ := cdatastr })
      | tt_trk_url => with_rh_link s (fun l => { l with url_ := cdatastr })
      | tt_rte_urlname => with_rh_link s (fun l => { l with url_link_text_ := cdatastr })
      | tt_trk_urlname => with_rh_link s (fun l => { l with url_link_text_ := cdatastr })
      | tt_rte_link_text => { s with link_text := cdatastr }
      | tt_trk_link_text => { s with link_text := cdatastr }
      | tt_rte_link_type => { s with link_type := cdatastr }
      | tt_trk_link_type => { s with link_type := cdatastr }
      | tt_wpttype_ele => with_wpt s (fun w => { w with altitude := QString_toDouble cdatastr })
      | tt_wpttype_name => with_wpt s (fun w => { w with shortname := cdatastr })
      | tt_wpttype_sym => with_wpt s (fun w => { w with icon_descr := cdatastr })
      | tt_wpttype_time =>
        with_wpt s (fun w => { w with creation_time := xml_parse_time cdatastr })
      | tt_wpttype_geoidheight =>
        with_wpt s (fun w => { w with geoidheight := some (QString_toDouble cdatastr) })
      | tt_wpttype_cmt => with_wpt s (fun w => { w with description := cdatastr })
      | tt_wpttype_desc => with_wpt s (fun w => { w with notes := cdatastr })
      | tt_wpttype_pdop => with_wpt s (fun w => { w with pdop := QString_toDouble cdatastr })
      | tt_wpttype_hdop => with_wpt s (fun w => { w with hdop := QString_toDouble cdatastr })
      | tt_wpttype_vdop => with_wpt s (fun w => { w with vdop := QString_toDouble cdatastr })
      | tt_wpttype_sat => with_wpt s (fun w => { w with sat := (binary64.ofDbl (QString_toDouble cdatastr)).trunc })
      | tt_wpttype_fix => with_wpt s (fun w => { w with fix := fix_of_text cdatastr })
      | tt_wpttype_url => with_link s (fun l => { l with url_ := cdatastr })
      | tt_wpttype_urlname => with_link s (fun l => { l with url_link_text_ := cdatastr })
      | tt_wpttype_link =>
        clear_link (with_wpt s (fun w =>
          { w with urls := w.urls ++ [⟨s.link_url, s.link_text, s.link_type⟩] }))
      | tt_wpttype_link_text => { s with link_text := cdatastr }
      | tt_wpttype_link_type => { s with link_type := cdatastr }
      | _ => s
    if tp.2 then end_something_else s1 else s1

/-- The function gpx_cdata. -/
def gpx_cdata (s : State) (text : String) : State :=
  let s : State := { s with cdatastr := s.cdatastr ++ text }
  match s.cur_tag with
  | none => s
  | some c =>
    match (getTag s.tags c).child with
    | some ch =>
      let l := last_sibling s.tags s.tags.length ch
      { s with tags := upd s.tags l (fun t => { t with parentcdata := trimmed s.cdatastr }) }
    | none =>
      { s with tags := upd s.tags c (fun t => { t with cdata := trimmed s.cdatastr }) }

/-- The function gpx_rd_init, without the opening of the file. -/
def gpx_rd_init (s : State) : State :=
  { s with
    current_tag := ""
    cdatastr := ""
    gpx_global := some (s.gpx_global.getD {})
    fs_ptr := none }

/-- The function gpx_rd_deinit. -/
def gpx_rd_deinit (s : State) : State :=
  { s with wpt_tmp := none, cur_tag := none }

/-- One turn of the loop of gpx_read, for a token that does not end the loop. -/
def gpx_read_token (ext : Externals) (s : State) : Token → State
  | Token.StartElement name attrs ns =>
    gpx_start { s with current_tag := s.current_tag ++ "/" ++ name } name attrs ns
  | Token.EndElement name =>
    let s1 := gpx_end ext s
    { s1 with current_tag := chop s1.current_tag (name.length + 1), cdatastr := "" }
  | Token.Characters text => gpx_cdata s text
  | _ => s

/-- The function gpx_read over the tokens the reader delivers: EndDocument and Invalid
end the loop, and an Invalid token is the reader error that makes gpx_read fatal. -/
def gpx_read (ext : Externals) : State → List Token → State
  | s, [] => s
  | s, Token.EndDocument :: _ => s
  | s, Token.Invalid :: _ => { s with fatal := true }
  | s, t :: ts => gpx_read ext (gpx_read_token ext s t) ts

/-! ## The writer -/

/-- XmlStreamWriter::writeTextElement. -/
def writeTextElement (name text : String) : List WEvent :=
  [WEvent.StartElement name, WEvent.Characters text, WEvent.EndElement]

/-- XmlStreamWriter::writeOptionalTextElement: nothing for an empty text. -/
def writeOptionalTextElement (name text : String) : List WEvent :=
  if isEmpty text then [] else writeTextElement name text

/-- The options and static variables the writer reads. -/
structure WriterCfg where
  opt_humminbirdext : Bool := false
  opt_garminext : Bool := false
  gpx_wversion : Option String := none
  gpx_wversion_num : Int := 10
  urlbase : String := ""
  elevation_precision : Nat := 3
  synthesize_shortnames : Bool := false
  deriving DecidableEq, Repr

/-- The function write_tag_attributes. -/
def write_tag_attributes (tag : xml_tag) : List WEvent :=
  tag.attributes.map (fun a => WEvent.Attribute a.1 a.2)

/-- The time element that fprint_xml_chain adds to a groundspeak:cache element when
the point has a valid export time. -/
def exported_time (ext : Externals) (wpt : Option Waypoint) (tag : xml_tag) : List WEvent :=
  match wpt with
  | some w =>
    match (w.gc_data.getD {}).exported with
    | some t =>
      if tag.tagname = "groundspeak:cache" then writeTextElement "time" (ext.toPrettyString t)
      else []
    | none => []
  | none => []

/-- The function fprint_xml_chain, with a bound (first number) on the length of a path
of child and sibling pointers that is followed. -/
def fprint_xml_chain_fuel (ext : Externals) (tags : List xml_tag) (wpt : Option Waypoint) :
    Nat → Option Nat → List WEvent
  | 0, _ => []
  | _ + 1, none => []
  | f + 1, some i =>
    let tag := getTag tags i
    [WEvent.StartElement tag.tagname] ++
    (if isEmpty tag.cdata && tag.child.isNone then
      write_tag_attributes tag ++ [WEvent.EndElement]
    else
      write_tag_attributes tag ++
      (if !isEmpty tag.cdata then [WEvent.Characters tag.cdata] else []) ++
      fprint_xml_chain_fuel ext tags wpt f tag.child ++
      exported_time ext wpt tag ++
      [WEvent.EndElement]) ++
    (if !isEmpty tag.parentcdata then [WEvent.Characters tag.parentcdata] else []) ++
    fprint_xml_chain_fuel ext tags wpt f tag.sibling

/-- The function fprint_xml_chain: pointer paths are bounded by the size of the arena. -/
def fprint_xml_chain (ext : Externals) (tags : List xml_tag) (tag : Option Nat)
    (wpt : Option Waypoint) : List WEvent :=
  fprint_xml_chain_fuel ext tags wpt (tags.length + 1) tag

/-- One link element of GPX 1.1. -/
def write_link (l : UrlLink) : List WEvent :=
  [WEvent.StartElement "link", WEvent.Attribute "href" l.url_] ++
  writeOptionalTextElement "text" l.url_link_text_ ++
  writeOptionalTextElement "type" l.url_link_type_ ++
  [WEvent.EndElement]

/-- The function write_gpx_url(const UrlList&); GetUrlLink is the first link. -/
def write_gpx_url_list (cfg : WriterCfg) (urls : List UrlLink) : List WEvent :=
  if cfg.gpx_wversion_num > 10 then
    (urls.map (fun l => if !isEmpty l.url_ then write_link l else [])).flatten
  else
    let l := urls.headD {}
    if !isEmpty l.url_ then
      writeTextElement "url" (cfg.urlbase ++ l.url_) ++
      writeOptionalTextElement "urlname" l.url_link_text_
    else []

/-- The functions write_gpx_url(const Waypoint*) and write_gpx_url(const route_head*). -/
def write_gpx_url (cfg : WriterCfg) (urls : List UrlLink) : List WEvent :=
  if !urls.isEmpty then write_gpx_url_list cfg urls else []

/-- The function gpx_write_common_acc. -/
def gpx_write_common_acc (waypointp : Waypoint) : List WEvent :=
  let fix : Option String :=
    match waypointp.fix with
    | fix_2d => some "2d"
    | fix_3d => some "3d"
    | fix_dgps => some "dgps"
    | fix_pps => some "pps"
    | fix_none => some "none"
    | fix_unknown => none
  (match fix with
   | some f => writeTextElement "fix" f
   | none => []) ++
  (if waypointp.sat > 0 then writeTextElement "sat" (number_int waypointp.sat) else []) ++
  (if waypointp.hdop.nonzero then writeTextElement "hdop" (toString_float waypointp.hdop)
   else []) ++
  (if waypointp.vdop.nonzero then writeTextElement "vdop" (toString_float waypointp.vdop)
   else []) ++
  (if waypointp.pdop.nonzero then writeTextElement "pdop" (toString_float waypointp.pdop)
   else [])

/-- The enum gpx_point_type. -/
inductive gpx_point_type
  | gpxpt_waypoint
  | gpxpt_track
  | gpxpt_route
  deriving DecidableEq, Repr

open gpx_point_type

/-- Modelled from the spec: Waypoint::CreationTimeXML (waypt.cc) is not in src. A point
without a valid timestamp gives the empty text, so that no time element is written. -/
def CreationTimeXML (ext : Externals) (w : Waypoint) : String :=
  match w.creation_time with
  | some t => ext.toPrettyString t
  | none => ""

/-- The function gpx_write_common_position. -/
def gpx_write_common_position (ext : Externals) (cfg : WriterCfg) (waypointp : Waypoint)
    (point_type : gpx_point_type) : List WEvent :=
  (if !Dbl.eq waypointp.altitude unknown_alt then
    writeTextElement "ele" (number_f waypointp.altitude cfg.elevation_precision)
   else []) ++
  writeOptionalTextElement "time" (CreationTimeXML ext waypointp) ++
  (if point_type = gpxpt_track ∧ cfg.gpx_wversion_num = 10 then
    (match waypointp.course with
     | some c => writeTextElement "course" (toString_float c)
     | none => []) ++
    (match waypointp.speed with
     | some v => writeTextElement "speed" (toString_float v)
     | none => [])
   else []) ++
  (match waypointp.geoidheight with
   | some g => writeOptionalTextElement "geoidheight" (number_f g 1)
   | none => [])

/-- The function gpx_write_common_extensions. -/
def gpx_write_common_extensions (cfg : WriterCfg) (waypointp : Waypoint)
    (point_type : gpx_point_type) : List WEvent :=
  let has_depth := waypointp.depth.isSome
  let has_temperature := waypointp.temperature.isSome
  let has_proximity := waypointp.proximity.isSome
  if (cfg.opt_humminbirdext && (has_depth || has_temperature)) ||
     (cfg.opt_garminext && point_type = gpxpt_waypoint &&
        (has_proximity || has_temperature || has_depth)) ||
     (cfg.opt_garminext && point_type = gpxpt_track &&
        (has_temperature || has_depth || waypointp.heartrate ≠ 0 || waypointp.cadence ≠ 0))
  then
    [WEvent.StartElement "extensions"] ++
    (if cfg.opt_humminbirdext then
      (match waypointp.depth with
       | some d => writeTextElement "h:depth" (toString_double (d.mulInt 100))
       | none => []) ++
      (match waypointp.temperature with
       | some t => writeTextElement "h:temperature" (toString_float t)
       | none => [])
     else []) ++
    (if cfg.opt_garminext then
      match point_type with
      | gpxpt_waypoint =>
        if has_proximity || has_temperature || has_depth then
          [WEvent.StartElement "gpxx:WaypointExtension"] ++
          (match waypointp.proximity with
           | some p => writeTextElement "gpxx:Proximity" (toString_double p)
           | none => []) ++
          (match waypointp.temperature with
           | some t => writeTextElement "gpxx:Temperature" (toString_float t)
           | none => []) ++
          (match waypointp.depth with
           | some d => writeTextElement "gpxx:Depth" (toString_double d)
           | none => []) ++
          [WEvent.EndElement]
        else []
      | gpxpt_route => []
      | gpxpt_track =>
        if has_temperature || has_depth || waypointp.heartrate ≠ 0 || waypointp.cadence ≠ 0
        then
          [WEvent.StartElement "gpxtpx:TrackPointExtension"] ++
          (match waypointp.temperature with
           | some t => writeTextElement "gpxtpx:atemp" (toString_float t)
           | none => []) ++
          (match waypointp.depth with
           | some d => writeTextElement "gpxtpx:depth" (toString_double d)
           | none => []) ++
          (if waypointp.heartrate ≠ 0 then
            writeTextElement "gpxtpx:hr" (number_int waypointp.heartrate) else []) ++
          (if waypointp.cadence ≠ 0 then
            writeTextElement "gpxtpx:cad" (number_int waypointp.cadence) else []) ++
          [WEvent.EndElement]
        else []
     else []) ++
    [WEvent.EndElement]
  else []

/-- The function gpx_write_common_description. -/
def gpx_write_common_description (cfg : WriterCfg) (waypointp : Waypoint) (oname : String) :
    List WEvent :=
  writeOptionalTextElement "name" oname ++
  writeOptionalTextElement "cmt" waypointp.description ++
  (if !isEmpty waypointp.notes then writeTextElement "desc" waypointp.notes
   else writeOptionalTextElement "desc" waypointp.description) ++
  write_gpx_url cfg waypointp.urls ++
  writeOptionalTextElement "sym" waypointp.icon_descr

/-- The name written for a point: a synthesized short name or the point's own. -/
def oname_of (ext : Externals) (cfg : WriterCfg) (waypointp : Waypoint) : String :=
  if cfg.synthesize_shortnames then ext.mkshort_from_wpt waypointp else waypointp.shortname

/-- The function gpx_waypt_pr; tags is the arena of preserved nodes. -/
def gpx_waypt_pr (ext : Externals) (cfg : WriterCfg) (tags : List xml_tag)
    (waypointp : Waypoint) : List WEvent :=
  [WEvent.StartElement "wpt",
   WEvent.Attribute "lat" (toString_double waypointp.latitude),
   WEvent.Attribute "lon" (toString_double waypointp.longitude)] ++
  gpx_write_common_position ext cfg waypointp gpxpt_waypoint ++
  gpx_write_common_description cfg waypointp (oname_of ext cfg waypointp) ++
  gpx_write_common_acc waypointp ++
  (if !(cfg.opt_humminbirdext || cfg.opt_garminext) then
    let gmsd := GMSD_FIND waypointp.fs
    (match fs_chain_find_gpx waypointp.fs with
     | some tag => if !gmsd then fprint_xml_chain ext tags tag (some waypointp) else []
     | none => []) ++
    (if gmsd && cfg.gpx_wversion_num > 10 then
      ext.garmin_fs_xml_fprint waypointp
     else [])
   else gpx_write_common_extensions cfg waypointp gpxpt_waypoint) ++
  [WEvent.EndElement]

/-- The function waypt_disp_all(gpx_waypt_pr) of gpx_write: every point of the
waypoint list, in order. -/
def gpx_write_waypoints (ext : Externals) (cfg : WriterCfg) (s : State) : List WEvent :=
  (s.waypt_list.map (fun i => gpx_waypt_pr ext cfg s.tags (s.wpts[i]?.getD default))).flatten

/-- The preserved chain of a route or track point, or the synthesized extensions when
a vendor toggle is active (the last block of gpx_track_disp and gpx_route_disp). -/
def point_extras (ext : Externals) (cfg : WriterCfg) (tags : List xml_tag)
    (waypointp : Waypoint) (point_type : gpx_point_type) : List WEvent :=
  if !(cfg.opt_humminbirdext || cfg.opt_garminext) then
    match fs_chain_find_gpx waypointp.fs with
    | some tag => fprint_xml_chain ext tags tag (some waypointp)
    | none => []
  else gpx_write_common_extensions cfg waypointp point_type

/-- The extension block of gpx_track_hdr and gpx_route_hdr; ext_name is the name of the
Garmin extension element and auto_named the IsAutoNamed element of routes. -/
def head_extras (ext : Externals) (cfg : WriterCfg) (tags : List xml_tag) (rte : route_head)
    (ext_name : String) (auto_named : List WEvent) : List WEvent :=
  if cfg.gpx_wversion_num > 10 then
    if !(cfg.opt_humminbirdext || cfg.opt_garminext) then
      match fs_chain_find_gpx rte.fs with
      | some tag => fprint_xml_chain ext tags tag none
      | none => []
    else if cfg.opt_garminext then
      if rte.line_color_bbggrr > -1 then
        let ci := ext.gt_color_index_by_rgb rte.line_color_bbggrr
        if ci > 0 then
          [WEvent.StartElement "extensions", WEvent.StartElement ext_name] ++
          auto_named ++
          writeTextElement "gpxx:DisplayColor" (ext.gt_color_name ci) ++
          [WEvent.EndElement, WEvent.EndElement]
        else []
      else []
    else []
  else []

/-- The function gpx_track_hdr. -/
def gpx_track_hdr (ext : Externals) (cfg : WriterCfg) (tags : List xml_tag) (rte : route_head) :
    List WEvent :=
  [WEvent.StartElement "trk"] ++
  writeOptionalTextElement "name" rte.rte_name ++
  writeOptionalTextElement "desc" rte.rte_desc ++
  write_gpx_url cfg rte.rte_urls ++
  (if rte.rte_num ≠ 0 then writeTextElement "number" (number_int rte.rte_num) else []) ++
  head_extras ext cfg tags rte "gpxx:TrackExtension" []

/-- The function gpx_track_disp; first_in_trk tells whether the point is the front of
the waypoint list of the current track. -/
def gpx_track_disp (ext : Externals) (cfg : WriterCfg) (tags : List xml_tag)
    (first_in_trk : Bool) (waypointp : Waypoint) : List WEvent :=
  (if waypointp.new_trkseg then
    (if !first_in_trk then [WEvent.EndElement] else []) ++ [WEvent.StartElement "trkseg"]
   else []) ++
  [WEvent.StartElement "trkpt",
   WEvent.Attribute "lat" (toString_double waypointp.latitude),
   WEvent.Attribute "lon" (toString_double waypointp.longitude)] ++
  gpx_write_common_position ext cfg waypointp gpxpt_track ++
  gpx_write_common_description cfg waypointp
    (if waypointp.shortname_is_synthetic then "" else oname_of ext cfg waypointp) ++
  gpx_write_common_acc waypointp ++
  point_extras ext cfg tags waypointp gpxpt_track ++
  [WEvent.EndElement]

/-- The function gpx_track_tlr. -/
def gpx_track_tlr (rte : route_head) : List WEvent :=
  (if !rte.waypoint_list.isEmpty then [WEvent.EndElement] else []) ++ [WEvent.EndElement]

/-- The function gpx_route_hdr. -/
def gpx_route_hdr (ext : Externals) (cfg : WriterCfg) (tags : List xml_tag) (rte : route_head) :
    List WEvent :=
  [WEvent.StartElement "rte"] ++
  writeOptionalTextElement "name" rte.rte_name ++
  writeOptionalTextElement "desc" rte.rte_desc ++
  write_gpx_url cfg rte.rte_urls ++
  (if rte.rte_num ≠ 0 then writeTextElement "number" (number_int rte.rte_num) else []) ++
  head_extras ext cfg tags rte "gpxx:RouteExtension"
    (writeTextElement "gpxx:IsAutoNamed" (if isEmpty rte.rte_name then "true" else "false"))

/-- The function gpx_route_disp. -/
def gpx_route_disp (ext : Externals) (cfg : WriterCfg) (tags : List xml_tag)
    (waypointp : Waypoint) : List WEvent :=
  [WEvent.StartElement "rtept",
   WEvent.Attribute "lat" (toString_double waypointp.latitude),
   WEvent.Attribute "lon" (toString_double waypointp.longitude)] ++
  gpx_write_common_position ext cfg waypointp gpxpt_route ++
  gpx_write_common_description cfg waypointp (oname_of ext cfg waypointp) ++
  gpx_write_common_acc waypointp ++
  point_extras ext cfg tags waypointp gpxpt_route ++
  [WEvent.EndElement]

/-- The function gpx_route_tlr. -/
def gpx_route_tlr : List WEvent := [WEvent.EndElement]

/-- The calls of gpx_track_disp for the points of the current track, in order; a point
is first_in_trk when its pointer is the front of the waypoint list of the track. -/
def track_points (ext : Externals) (cfg : WriterCfg) (s : State) (rte : route_head) :
    List WEvent :=
  (rte.waypoint_list.map (fun i =>
    gpx_track_disp ext cfg s.tags (decide (rte.waypoint_list.head? = some i))
      (s.wpts[i]?.getD default))).flatten

/-- The function gpx_track_pr: track_disp_all(gpx_track_hdr, gpx_track_tlr, gpx_track_disp). -/
def gpx_track_pr (ext : Externals) (cfg : WriterCfg) (s : State) : List WEvent :=
  (s.track_list.map (fun h =>
    let rte := s.heads[h]?.getD default
    gpx_track_hdr ext cfg s.tags rte ++ track_points ext cfg s rte ++
    gpx_track_tlr rte)).flatten

/-- The function gpx_route_pr: route_disp_all(gpx_route_hdr, gpx_route_tlr, gpx_route_disp). -/
def gpx_route_pr (ext : Externals) (cfg : WriterCfg) (s : State) : List WEvent :=
  (s.route_list.map (fun h =>
    let rte := s.heads[h]?.getD default
    gpx_route_hdr ext cfg s.tags rte ++
    (rte.waypoint_list.map (fun i =>
      gpx_route_disp ext cfg s.tags (s.wpts[i]?.getD default))).flatten ++
    gpx_route_tlr)).flatten

/-- The function gpx_write: waypoints, routes, tracks, then the end of the gpx element. -/
def gpx_write (ext : Externals) (cfg : WriterCfg) (s : State) : List WEvent :=
  gpx_write_waypoints ext cfg s ++ gpx_route_pr ext cfg s ++ gpx_track_pr ext cfg s ++
  [WEvent.EndElement]

/-- The function gpx_write_gdata: one element that holds the texts of the list one after
the other; for url and email the loop stops after the first text. -/
def gpx_write_gdata (ge : List String) (tag : String) : List WEvent :=
  if !ge.isEmpty then
    [WEvent.StartElement tag] ++
    ((if tag = "url" ∨ tag = "email" then ge.take 1 else ge).map WEvent.Characters) ++
    [WEvent.EndElement]
  else []

/-- The struct bounds (defs.h), the fields gpx_write_bounds reads. -/
structure bounds where
  max_lat : Dbl
  max_lon : Dbl
  min_lat : Dbl
  min_lon : Dbl
  deriving DecidableEq, Repr

/-- The function gpx_write_bounds. The scan of all points by waypt_add_to_bounds and the
test waypt_bounds_valid (waypt.cc) are not in src: all_bounds is the result of the scan,
none when waypt_bounds_valid rejects it. -/
def gpx_write_bounds (all_bounds : Option bounds) : List WEvent :=
  match all_bounds with
  | some b =>
    [WEvent.StartElement "bounds",
     WEvent.Attribute "minlat" (toString_double b.min_lat),
     WEvent.Attribute "minlon" (toString_double b.min_lon),
     WEvent.Attribute "maxlat" (toString_double b.max_lat),
     WEvent.Attribute "maxlon" (toString_double b.max_lon),
     WEvent.EndElement]
  | none => []

/-- The macro CREATOR_NAME_URL. -/
def CREATOR_NAME_URL : String := "GPSBabel - http://www.gpsbabel.org"

/-- Number of bytes of the UTF-8 form of a text. -/
def utf8_size (cs : List Char) : Nat := (cs.map Char.utf8Size).sum

/-- The char `gpx_wversion[i]` of the C string: for a text of ASCII characters the
character at index i, and NUL at the index of the terminator. An index past the
terminator reads NUL in the zero padded static buffer (padded) and is out of bounds
otherwise; out of bounds and a text with other characters give none. -/
def c_index (v : List Char) (padded : Bool) (i : Nat) : Option Char :=
  if v.all (fun c => c.toNat < 128) then
    if h : i < v.length then some (v.get ⟨i, h⟩)
    else if i = v.length || padded then some '\x00'
    else none
  else none

/-- What gpx_wr_init leaves: the calls made on the writer, the variables gpx_wversion
and gpx_wversion_num (in the configuration), whether Fatal ended the program, and
whether the function left the behaviour that is modelled (fault). -/
structure WrInit where
  events : List WEvent
  cfg : WriterCfg
  fatal : Bool := false
  fault : Bool := false
  deriving DecidableEq, Repr

/-- The global metadata that gpx_wr_init writes after the attributes of the gpx element. -/
def gpx_wr_init_metadata (ext : Externals) (now : Int) (all_bounds : Option bounds)
    (gpx_wversion_num : Int) (gpx_global : Option GpxGlobal) : List WEvent :=
  (if gpx_wversion_num > 10 then [WEvent.StartElement "metadata"] else []) ++
  (match gpx_global with
   | some g => gpx_write_gdata g.name "name" ++ gpx_write_gdata g.desc "desc"
   | none => []) ++
  (if gpx_wversion_num < 11 then
    match gpx_global with
    | some g => gpx_write_gdata g.author "author"
    | none => []
   else []) ++
  (if gpx_wversion_num < 11 then
    match gpx_global with
    | some g =>
      gpx_write_gdata g.email "email" ++ gpx_write_gdata g.url "url" ++
      gpx_write_gdata g.urlname "urlname"
    | none => []
   else
    match gpx_global with
    | some g => (g.link.map write_link).flatten
    | none => []) ++
  writeTextElement "time" (ext.toPrettyString now) ++
  (match gpx_global with
   | some g => gpx_write_gdata g.keywords "keywords"
   | none => []) ++
  gpx_write_bounds all_bounds ++
  (if gpx_wversion_num > 10 then [WEvent.EndElement] else [])

/-- The version selection of gpx_wr_init: the text gpx_wversion points to when strtod
reads it, and whether it lies in the static 16 byte buffer. cfg.gpx_wversion is the
gpxver argument. The text copied by strncpy into the buffer is a C string only when it
is shorter than 16 bytes: none otherwise. -/
def gpx_wr_init_version (cfg : WriterCfg) (s : State) : Option (String × Bool) :=
  let wv : Option (String × Bool) :=
    match cfg.gpx_wversion with
    | some v => some (v, false)
    | none =>
      if isEmpty s.gpx_version then some ("1.0", false)
      else if utf8_size (cstr s.gpx_version) < 16 then some (⟨cstr s.gpx_version⟩, true)
      else none
  if cfg.opt_humminbirdext || cfg.opt_garminext then some ("1.1", false) else wv

/-- The namespace attributes gpx_wr_init writes after the xmlns attribute. -/
def gpx_wr_init_namespaces (cfg : WriterCfg) (s : State) : List WEvent :=
  if cfg.opt_humminbirdext || cfg.opt_garminext then
    (if cfg.opt_humminbirdext then
      [WEvent.Attribute "xmlns:h" "http://humminbird.com"] else []) ++
    (if cfg.opt_garminext then
      [WEvent.Attribute "xmlns:gpxx" "http://www.garmin.com/xmlschemas/GpxExtensions/v3",
       WEvent.Attribute "xmlns:gpxtpx"
         "http://www.garmin.com/xmlschemas/TrackPointExtension/v1"]
     else [])
  else s.gpx_namespace_attribute.map (fun a => WEvent.Attribute a.1 a.2)

/-- The function gpx_wr_init, without the opening of the file and the formatting
settings of the writer; now is the result of current_time(). A version text that is not
a C string, a number strtod is not modelled for, a value outside the range of int and an
index outside the version text are recorded in fault. -/
def gpx_wr_init (ext : Externals) (now : Int) (all_bounds : Option bounds)
    (cfg : WriterCfg) (s : State) : WrInit :=
  let start : List WEvent := [WEvent.StartDocument]
  match gpx_wr_init_version cfg s with
  | none => { events := start, cfg := cfg, fault := true }
  | some (v, padded) =>
    match strtod v.data with
    | none => { events := start, cfg := { cfg with gpx_wversion := some v }, fault := true }
    | some d =>
      let n : Int := d.times_ten_int
      let cfg1 : WriterCfg := { cfg with gpx_wversion := some v, gpx_wversion_num := n }
      if n < -2147483648 ∨ 2147483647 < n then
        { events := start, cfg := { cfg with gpx_wversion := some v }, fault := true }
      else if n ≤ 0 then { events := start, cfg := cfg1, fatal := true }
      else
        let head : List WEvent :=
          start ++
          [WEvent.Characters "\n", WEvent.StartElement "gpx", WEvent.Attribute "version" v,
           WEvent.Attribute "creator" CREATOR_NAME_URL]
        match c_index v.data padded 0, c_index v.data padded 2 with
        | some c0, some c2 =>
          { events :=
              head ++
              [WEvent.Attribute "xmlns"
                ("http://www.topografix.com/GPX/" ++ String.singleton c0 ++ "/" ++
                  String.singleton c2)] ++
              gpx_wr_init_namespaces cfg s ++
              gpx_wr_init_metadata ext now all_bounds n s.gpx_global,
            cfg := cfg1 }
        | _, _ => { events := head, cfg := cfg1, fault := true }

/-- Externals that return fixed values, for the evaluation of examples. -/
def Externals.fixed : Externals :=
  ⟨fun _ => -1, fun _ => 0, fun _ => "", fun w => w.shortname, fun _ => "", fun _ => []⟩

/-! ## Well nested input and the shape of preserved chains -/

/-- The content of an element as a well nested token sequence: nothing, a text followed
by more content, or an element (name, attributes, namespace declarations, content)
followed by more content. -/
inductive Content
  | nil
  | text (s : String) (rest : Content)
  | elem (name : String) (attr : List Attr) (ns : List NsDecl) (body : Content) (rest : Content)
  deriving DecidableEq, Repr

/-- The tokens the reader delivers for a content. -/
def Content.tokens : Content → List Token
  | Content.nil => []
  | Content.text s rest => Token.Characters s :: rest.tokens
  | Content.elem name attr ns body rest =>
    Token.StartElement name attr ns :: (body.tokens ++ Token.EndElement name :: rest.tokens)

/-- All elements of a content that lies under the path p have paths that get_tag does
not know. -/
def AllUnknown (p : String) : Content → Bool
  | Content.nil => true
  | Content.text _ rest => AllUnknown p rest
  | Content.elem name _ _ body rest =>
    (get_tag hash (p ++ "/" ++ name)).1 = tt_unknown &&
    AllUnknown (p ++ "/" ++ name) body && AllUnknown p rest

/-- The text at the start of a content, up to its first element. -/
def leading_text : Content → String
  | Content.nil => ""
  | Content.text s rest => s ++ leading_text rest
  | Content.elem _ _ _ _ _ => ""

/-- The shape of a chain of nodes: each node with its name, attributes, leading text,
its chain of children, the text after it, and the siblings that follow. -/
inductive Shape
  | nil
  | node (tagname : String) (attributes : List Attr) (cdata : String) (child : Shape)
      (parentcdata : String) (sibling : Shape)
  deriving DecidableEq, Repr

/-- The shape of the input: for each element its name, its attributes followed by its
namespace declarations, its trimmed leading text, its children, and the trimmed text
that follows it. -/
def shape_of : Content → Shape
  | Content.nil => Shape.nil
  | Content.text _ rest => shape_of rest
  | Content.elem name attr ns body rest =>
    Shape.node name (tag_attributes attr ns) (trimmed (leading_text body)) (shape_of body)
      (trimmed (leading_text rest)) (shape_of rest)

/-- Number of nodes of a shape. -/
def Shape.size : Shape → Nat
  | Shape.nil => 0
  | Shape.node _ _ _ child _ sibling => child.size + 1 + sibling.size

/-- Pointer to a chain that is stored from index base on: null for the empty chain. -/
def Shape.ptr : Shape → Nat → Option Nat
  | Shape.nil, _ => none
  | Shape.node _ _ _ _ _ _, base => some base

/-- The nodes of a chain in the order of their allocation, which is document order:
a node at index base, then its children, then its siblings. -/
def Shape.layout : Shape → Nat → Option Nat → List xml_tag
  | Shape.nil, _, _ => []
  | Shape.node tagname attributes cdata child parentcdata sibling, base, parent =>
    { tagname := tagname, attributes := attributes, cdata := cdata,
      parentcdata := parentcdata, parent := parent,
      child := child.ptr (base + 1),
      sibling := sibling.ptr (base + 1 + child.size) } ::
    (child.layout (base + 1) (some base) ++
     sibling.layout (base + 1 + child.size) parent)

/-- Append a chain after the last sibling of a chain. -/
def Shape.append : Shape → Shape → Shape
  | Shape.nil, g => g
  | Shape.node tagname attributes cdata child parentcdata sibling, g =>
    Shape.node tagname attributes cdata child parentcdata (sibling.append g)

/-- The shape of the chain a pointer leads to, read from the arena, with a bound on the
length of the pointer paths that are followed. -/
def read_shape (tags : List xml_tag) : Nat → Option Nat → Shape
  | 0, _ => Shape.nil
  | _ + 1, none => Shape.nil
  | f + 1, some i =>
    let tag := getTag tags i
    Shape.node tag.tagname tag.attributes tag.cdata (read_shape tags f tag.child)
      tag.parentcdata (read_shape tags f tag.sibling)

/-- The writer calls that correspond to a text run of the input: none when the run is
white space only, otherwise the trimmed text. -/
def text_events (acc : String) : List WEvent :=
  if isEmpty (trimmed acc) then [] else [WEvent.Characters (trimmed acc)]

/-- The writer calls that correspond to the tokens of a content, where acc is the text
read since the last tag: a start tag with its attributes and namespace declarations,
the text runs, the end tag. -/
def content_events : String → Content → List WEvent
  | acc, Content.nil => text_events acc
  | acc, Content.text s rest => content_events (acc ++ s) rest
  | acc, Content.elem name attr ns body rest =>
    text_events acc ++
    [WEvent.StartElement name] ++
    (tag_attributes attr ns).map (fun a => WEvent.Attribute a.1 a.2) ++
    content_events "" body ++ [WEvent.EndElement] ++ content_events "" rest

/-- The writer calls that correspond to one element of the input. -/
def element_events (name : String) (attr : List Attr) (ns : List NsDecl) (body : Content) :
    List WEvent :=
  [WEvent.StartElement name] ++
  (tag_attributes attr ns).map (fun a => WEvent.Attribute a.1 a.2) ++
  content_events "" body ++ [WEvent.EndElement]

/-- The writer calls for a chain of a given shape, without the export time. -/
def shape_events : Shape → List WEvent
  | Shape.nil => []
  | Shape.node tagname attributes cdata child parentcdata sibling =>
    [WEvent.StartElement tagname] ++
    attributes.map (fun a => WEvent.Attribute a.1 a.2) ++
    (if isEmpty cdata then [] else [WEvent.Characters cdata]) ++
    shape_events child ++ [WEvent.EndElement] ++
    (if isEmpty parentcdata then [] else [WEvent.Characters parentcdata]) ++
    shape_events sibling

/-! ## Definitions used to state the properties -/

/-- The strings of a sequence that are not in `seen`, each once, in the order of their
first occurrence. -/
def first_occurrences_from (seen : List String) : List String → List String
  | [] => []
  | x :: xs =>
    if x ∈ seen then first_occurrences_from seen xs
    else x :: first_occurrences_from (seen ++ [x]) xs

/-- The distinct strings of a sequence, each once, in the order of their first
occurrence. -/
def first_occurrences (xs : List String) : List String := first_occurrences_from [] xs

/-- The decimal digit character of n modulo 10. -/
def digitChar (n : Nat) : Char := Char.ofNat (48 + n % 10)

/-- Two decimal digits. -/
def pad2 (n : Nat) : List Char := [digitChar (n / 10), digitChar n]

/-- Four decimal digits. -/
def pad4 (n : Nat) : List Char :=
  [digitChar (n / 1000), digitChar (n / 100), digitChar (n / 10), digitChar n]

/-- The text YYYY-MM-DDTHH:MM:SS of a date and a time of day. -/
def date_time_text (y m d h mi s : Nat) : List Char :=
  pad4 y ++ '-' :: pad2 m ++ '-' :: pad2 d ++ 'T' :: pad2 h ++ ':' :: pad2 mi ++ ':' :: pad2 s

/-- The text HH:MM of an offset. -/
def offset_text (oh om : Nat) : List Char := pad2 oh ++ ':' :: pad2 om

/-- The number written by a list of decimal digits. -/
def digits_value (ds : List Nat) : Nat := ds.foldl (fun acc d => acc * 10 + d % 10) 0

/-- The nearest integer of a decimal, halves away from zero. -/
def Dbl.round (d : Dbl) : Int :=
  if 0 ≤ d.num then (((2 * d.num.toNat + 10 ^ d.scale) / (2 * 10 ^ d.scale) : Nat) : Int)
  else -((((2 * (-d.num).toNat + 10 ^ d.scale) / (2 * 10 ^ d.scale) : Nat)) : Int)

/-- Milliseconds from the epoch to the UTC instant with the given calendar fields. -/
def utc_msecs (y m d h mi s : Nat) : Int :=
  ((julianDayFromDate y m d - JULIAN_DAY_FOR_EPOCH) * 86400 + (h * 3600 + mi * 60 + s : Nat)) * 1000

/-- The text of a fraction of a second: nothing for no digits, else a point and the
digits. -/
def frac_text (ds : List Nat) : List Char :=
  if ds = [] then [] else '.' :: ds.map digitChar

/-- The double nearest to the fraction 0.ds of a second. -/
def frac_double (ds : List Nat) : Bin := binary64.round false (digits_value ds) (10 ^ ds.length)

/-- The milliseconds xml_parse_time adds for the fraction 0.ds of a second: lround of the
product of the double nearest to the fraction and 1000. -/
def frac_msecs (ds : List Nat) : Int := lround (binary64.mulNat (frac_double ds) 1000)

/-- The text read since the last tag, after a content has been read. -/
def tail_text : String → Content → String
  | acc, Content.nil => acc
  | acc, Content.text s rest => tail_text (acc ++ s) rest
  | _, Content.elem _ _ _ _ rest => tail_text "" rest

/-- A state with the four variables that change while preserved content is read
replaced: the path, the text buffer, the current node and the arena of nodes. -/
def State.core (s : State) (current_tag cdatastr : String) (cur_tag : Option Nat)
    (tags : List xml_tag) : State :=
  { s with current_tag := current_tag, cdatastr := cdatastr, cur_tag := cur_tag, tags := tags }

/-- Where the next node of an open element is linked and its text stored: in the child
pointer and leading text of the open node itself, or in the sibling pointer and the
following text of its last child. -/
inductive Attach
  | child
  | sibling
  deriving DecidableEq, Repr

/-- The pointer field of a node that an attachment uses. -/
def Attach.ptr : Attach → xml_tag → Option Nat
  | Attach.child, t => t.child
  | Attach.sibling, t => t.sibling

/-- Assignment to the pointer field of a node. -/
def Attach.setPtr : Attach → xml_tag → Option Nat → xml_tag
  | Attach.child, t, v => { t with child := v }
  | Attach.sibling, t, v => { t with sibling := v }

/-- The text field of a node that an attachment uses. -/
def Attach.text : Attach → xml_tag → String
  | Attach.child, t => t.cdata
  | Attach.sibling, t => t.parentcdata

/-- Assignment to the text field of a node. -/
def Attach.setText : Attach → xml_tag → String → xml_tag
  | Attach.child, t, v => { t with cdata := v }
  | Attach.sibling, t, v => { t with parentcdata := v }

/-- A path of sibling pointers from node k to node l through nodes of the arena A, with
increasing indices. -/
inductive SibChain (A : List xml_tag) : Nat → Nat → Prop
  | refl (l : Nat) : SibChain A l l
  | step (k k' l : Nat) : k < A.length → (getTag A k).sibling = some k' → k < k' →
      SibChain A k' l → SibChain A k l

/-- The arena is A, the node x, and the nodes B; x is where the open node c links its
next child: x is c itself, without children, or x is the last child of c. -/
def Attached (m : Attach) (tags A : List xml_tag) (x : xml_tag) (B : List xml_tag)
    (c : Nat) : Prop :=
  tags = A ++ x :: B ∧ m.ptr x = none ∧
  match m with
  | Attach.child => c = A.length ∧ B = []
  | Attach.sibling =>
    c < A.length ∧ x.parent = some c ∧
    ∃ k, (getTag A c).child = some k ∧ SibChain A k A.length

/-- A waypoint being read at the end of a fix element, for the evaluation of
examples. -/
def example_fix_state : State :=
  { current_tag := "/gpx/wpt/fix", cdatastr := " dgps\n", wpts := [{}], wpt_tmp := some 0 }

/-- A waypoint being read at the end of a difficulty element, for the evaluation of
examples. -/
def example_rating_state : State :=
  { current_tag := "/gpx/wpt/groundspeak:cache/groundspeak:difficulty",
    cdatastr := "3.5", wpts := [{}], wpt_tmp := some 0, fs_ptr := some (FsPtr.wpt 0) }

/-- The node that start_something_else allocates. -/
def fresh_tag (el : String) (attributes : List Attr) (parent : Option Nat) : xml_tag :=
  { tagname := el, attributes := attributes, parent := parent }

/-- The shape of one element of the input at the top of a preserved chain: its name,
attributes and namespace declarations, trimmed leading text and children; the text
that follows it is not stored. -/
def element_shape (name : String) (attr : List Attr) (ns : List NsDecl) (body : Content) :
    Shape :=
  Shape.node name (tag_attributes attr ns) (trimmed (leading_text body)) (shape_of body) ""
    Shape.nil

/-- The object `fs_ptr` points to exists. -/
def FsPtr.valid (s : State) : FsPtr → Bool
  | FsPtr.wpt i => i < s.wpts.length
  | FsPtr.head i => i < s.heads.length

/-- The state in which a wpt with the coordinates 1.0 and 2.0 has just been opened,
for the evaluation of examples. -/
def example_open_wpt : State :=
  gpx_read Externals.fixed (gpx_rd_init {})
    [Token.StartElement "gpx" [("version", "1.0")] [],
     Token.Characters "\n  ",
     Token.StartElement "wpt" [("lat", "1.0"), ("lon", "2.0")] [],
     Token.Characters "\n    "]

/-- The fs chain of the owner after an element has been added to its preserved chain:
a new FS_GPX entry is appended when there was no preserved chain yet. -/
def chain_fs (fs : List format_specific_data) (F0 : Shape) (base : Nat) :
    List format_specific_data :=
  match F0 with
  | Shape.nil => fs_chain_add fs (format_specific_data.fs_xml (some base))
  | Shape.node _ _ _ _ _ _ => fs

/-- A document with one wpt at 1.0, 2.0 that holds the unrecognised element foo with
the attribute bar and the text baz, for the evaluation of examples. -/
def example_document : List Token :=
  [Token.StartElement "gpx" [("version", "1.0")] [],
   Token.Characters "\n  ",
   Token.StartElement "wpt" [("lat", "1.0"), ("lon", "2.0")] [],
   Token.Characters "\n    ",
   Token.StartElement "foo" [("bar", "1")] [],
   Token.Characters "baz",
   Token.EndElement "foo",
   Token.Characters "\n  ",
   Token.EndElement "wpt",
   Token.Characters "\n",
   Token.EndElement "gpx",
   Token.EndDocument]

/-- A document whose only content is an unrecognised element directly under the root,
for the evaluation of examples. -/
def example_document_no_point : List Token :=
  [Token.StartElement "gpx" [("version", "1.0")] [],
   Token.StartElement "foo" [("bar", "1")] [],
   Token.Characters "baz",
   Token.EndElement "foo",
   Token.EndElement "gpx",
   Token.EndDocument]

/-! ## Statements about the writer: version, nesting and order of elements -/

/-- The version text that the first block of gpx_wr_init selects from the gpxver
argument, the detected version and the default. -/
def selected_version (cfg : WriterCfg) (s : State) : String :=
  match cfg.gpx_wversion with
  | some v => v
  | none => if isEmpty s.gpx_version then "1.0" else s.gpx_version

/-- A document whose root element declares the given version and has no children, for
the evaluation of examples. -/
def example_document_version (v : String) : List Token :=
  [Token.StartElement "gpx" [("version", v)] [], Token.EndElement "gpx", Token.EndDocument]

/-- The reader after a document of version 1.1 and then a document of version 1.0. -/
def example_two_versions : State :=
  gpx_read Externals.fixed
    (gpx_rd_init (gpx_read Externals.fixed (gpx_rd_init {}) (example_document_version "1.1")))
    (example_document_version "1.0")

/-- The number of open elements after a sequence of writer calls that starts with d open
elements; none when an end element has no open element to close. -/
def depth_after : Nat → List WEvent → Option Nat
  | d, [] => some d
  | d, WEvent.StartElement _ :: es => depth_after (d + 1) es
  | 0, WEvent.EndElement :: _ => none
  | d + 1, WEvent.EndElement :: es => depth_after d es
  | d, WEvent.StartDocument :: es => depth_after d es
  | d, WEvent.Attribute _ _ :: es => depth_after d es
  | d, WEvent.Characters _ :: es => depth_after d es

/-- The names of the elements that a sequence of writer calls opens at nesting level k,
in order, when the sequence starts at level d. -/
def names_at (k : Nat) : Nat → List WEvent → List String
  | _, [] => []
  | d, WEvent.StartElement n :: es =>
    if d = k then n :: names_at k (d + 1) es else names_at k (d + 1) es
  | d, WEvent.EndElement :: es => names_at k (d - 1) es
  | d, WEvent.StartDocument :: es => names_at k d es
  | d, WEvent.Attribute _ _ :: es => names_at k d es
  | d, WEvent.Characters _ :: es => names_at k d es

/-- The order of the fields of the global metadata, with a given number of links. -/
def metadata_order (links : Nat) : List String :=
  ["name", "desc", "author", "email", "url", "urlname"] ++ List.replicate links "link" ++
  ["time", "keywords", "bounds"]

/-- The order of the child elements of a point, with a given number of links. -/
def point_order (links : Nat) : List String :=
  ["ele", "time", "course", "speed", "geoidheight", "name", "cmt", "desc", "url", "urlname"] ++
  List.replicate links "link" ++ ["sym", "fix", "sat", "hdop", "vdop", "pdop"]

/-- The child elements that gpx_waypt_pr, gpx_route_disp and gpx_track_disp write for a
point before the extensions or the preserved chain: position, description, accuracy. -/
def point_fields (ext : Externals) (cfg : WriterCfg) (waypointp : Waypoint)
    (point_type : gpx_point_type) (oname : String) : List WEvent :=
  gpx_write_common_position ext cfg waypointp point_type ++
  gpx_write_common_description cfg waypointp oname ++
  gpx_write_common_acc waypointp

/-- The order of the child elements of a point for one configuration and point type:
course and speed only for a track point of version 1.0, url and urlname up to version
1.0 and link elements above it. -/
def point_fields_order (cfg : WriterCfg) (point_type : gpx_point_type) (links : Nat) :
    List String :=
  ["ele", "time"] ++
  (if point_type = gpxpt_track ∧ cfg.gpx_wversion_num = 10 then ["course", "speed"] else []) ++
  ["geoidheight", "name", "cmt", "desc"] ++
  (if cfg.gpx_wversion_num > 10 then List.replicate links "link" else ["url", "urlname"]) ++
  ["sym", "fix", "sat", "hdop", "vdop", "pdop"]

/-- A well nested sequence of writer calls whose top level elements have names that
form a subsequence of the given list. -/
def Fields (a : List WEvent) (names : List String) : Prop :=
  depth_after 0 a = some 0 ∧ List.Sublist (names_at 0 0 a) names

/-- A document with one waypoint in which an unrecognised element precedes the name. -/
def example_document_unknown_first : List Token :=
  [Token.StartElement "gpx" [("version", "1.0")] [],
   Token.StartElement "wpt" [("lat", "1.0"), ("lon", "2.0")] [],
   Token.StartElement "foo" [] [],
   Token.EndElement "foo",
   Token.StartElement "name" [] [],
   Token.Characters "n",
   Token.EndElement "name",
   Token.EndElement "wpt",
   Token.EndElement "gpx",
   Token.EndDocument]

/-- The preserved chain of a point as gpx_route_disp and gpx_track_disp write it when no
vendor toggle is set. -/
def point_chain (ext : Externals) (tags : List xml_tag) (waypointp : Waypoint) : List WEvent :=
  match fs_chain_find_gpx waypointp.fs with
  | some tag => fprint_xml_chain ext tags tag (some waypointp)
  | none => []

/-- A waypoint with a depth, for the evaluation of examples. -/
def example_depth_point : Waypoint := { depth := some ⟨25, 1⟩ }

/-! ## Statements about track segments -/

/-- The trkpt element that gpx_track_disp writes for a point, after the handling of the
segment. -/
def trkpt_events (ext : Externals) (cfg : WriterCfg) (tags : List xml_tag) (w : Waypoint) :
    List WEvent :=
  [WEvent.StartElement "trkpt", WEvent.Attribute "lat" (toString_double w.latitude),
   WEvent.Attribute "lon" (toString_double w.longitude)] ++
  point_fields ext cfg w gpxpt_track
    (if w.shortname_is_synthetic then "" else oname_of ext cfg w) ++
  point_extras ext cfg tags w gpxpt_track ++ [WEvent.EndElement]

/-- The segments of the points of a track: a new segment starts at every point after the
first that carries the flag new_trkseg. -/
def split_segments : List Waypoint → List (List Waypoint)
  | [] => []
  | [w] => [[w]]
  | w :: v :: vs =>
    if v.new_trkseg then [w] :: split_segments (v :: vs)
    else
      match split_segments (v :: vs) with
      | seg :: rest => (w :: seg) :: rest
      | [] => [[w]]

/-- One trkseg element with the trkpt elements of its points. -/
def trkseg_events (ext : Externals) (cfg : WriterCfg) (tags : List xml_tag)
    (seg : List Waypoint) : List WEvent :=
  [WEvent.StartElement "trkseg"] ++ (seg.map (trkpt_events ext cfg tags)).flatten ++
  [WEvent.EndElement]

/-- What gpx_track_pr writes for one track: the calls of gpx_track_hdr, of gpx_track_disp
for every point, and of gpx_track_tlr. -/
def track_events (ext : Externals) (cfg : WriterCfg) (s : State) (rte : route_head) :
    List WEvent :=
  gpx_track_hdr ext cfg s.tags rte ++ track_points ext cfg s rte ++ gpx_track_tlr rte

/-- The points of a track. -/
def track_waypoints (s : State) (rte : route_head) : List Waypoint :=
  rte.waypoint_list.map (fun i => s.wpts[i]?.getD default)

/-- A track of three points in two segments, for the evaluation of examples. -/
def example_track_state : State :=
  { wpts := [{ new_trkseg := true }, {}, { new_trkseg := true }],
    heads := [{ waypoint_list := [0, 1, 2] }],
    track_list := [0] }

/-! ## Statements about the segments of a parsed track -/

/-- What the reader keeps about track segments: the path of the open elements, the flag
for the next trkpt, the current track head and point, the flag new_trkseg of every
waypoint and the waypoint list of every route or track head. -/
structure TrackView where
  current_tag : String
  next_trkpt_is_new_seg : Bool
  trk_head : Option Nat
  wpt_tmp : Option Nat
  flags : List Bool
  lists : List (List Nat)
  deriving DecidableEq, Repr

/-- The track view of a reader state. -/
def track_view (s : State) : TrackView :=
  ⟨s.current_tag, s.next_trkpt_is_new_seg, s.trk_head, s.wpt_tmp,
   s.wpts.map (fun w => w.new_trkseg), s.heads.map (fun h => h.waypoint_list)⟩

/-- The track view after a trkpt element has been read inside a trkseg of the track with
head h: a new waypoint, flagged when the flag for the next trkpt was set, is added to
the waypoint list of the track, and the flag for the next trkpt is cleared. -/
def TrackView.after_point (h : Nat) (v : TrackView) : TrackView :=
  { v with
    next_trkpt_is_new_seg := false
    wpt_tmp := none
    flags := v.flags ++ [v.next_trkpt_is_new_seg]
    lists := upd v.lists h (fun l => l ++ [v.flags.length]) }

/-- The track view after a trkseg element with g trkpt elements: its points, then the flag
for the next trkpt is set. -/
def TrackView.after_segment (h : Nat) (v : TrackView) (g : Nat) : TrackView :=
  { (Nat.iterate (TrackView.after_point h) g v) with next_trkpt_is_new_seg := true }

/-- The tag ids whose start or end action creates or closes a point, a route or a track,
or ends a segment. -/
def point_tags : List tag_type :=
  [tt_wpt, tt_rte, tt_rte_rtept, tt_trk, tt_trk_trkseg, tt_trk_trkseg_trkpt, tt_cache_log_wpt]

/-- The tokens of an optional piece of text between elements. -/
def text_tokens : Option String → List Token
  | some t => [Token.Characters t]
  | none => []

/-- A trkpt element of the input: the text before it, if any, its attributes and
namespace declarations, and its well nested content. -/
structure TrkPt where
  lead : Option String := none
  attr : List Attr := []
  nsdecl : List NsDecl := []
  body : Content := Content.nil

/-- The tokens of a trkpt element. -/
def TrkPt.tokens (p : TrkPt) : List Token :=
  text_tokens p.lead ++
  [Token.StartElement "trkpt" p.attr p.nsdecl] ++ p.body.tokens ++ [Token.EndElement "trkpt"]

/-- A trkseg element of the input: the text before it, if any, its attributes and
namespace declarations, its trkpt elements and the text before its end, if any. -/
structure TrkSeg where
  lead : Option String := none
  attr : List Attr := []
  nsdecl : List NsDecl := []
  pts : List TrkPt := []
  trail : Option String := none

/-- The tokens of a trkseg element. -/
def TrkSeg.tokens (g : TrkSeg) : List Token :=
  text_tokens g.lead ++
  [Token.StartElement "trkseg" g.attr g.nsdecl] ++ (g.pts.map TrkPt.tokens).flatten ++
  text_tokens g.trail ++
  [Token.EndElement "trkseg"]

/-- The flags of the points of one segment: the given flag for the first point, no flag
for the others. -/
def seg_flags (first : Bool) : List TrkPt → List Bool
  | [] => []
  | _ :: ps => first :: ps.map (fun _ => false)

/-- The flags of the points of the segments of a trk element, when next is the value of
next_trkpt_is_new_seg before the first segment: the first point of the first segment
takes the flag next, the first point of every later segment is flagged. -/
def track_flags (next : Bool) : List TrkSeg → List Bool
  | [] => []
  | g :: gs => seg_flags next g.pts ++ track_flags true gs

/-- The number of points of the segments. -/
def track_size (segs : List TrkSeg) : Nat := (segs.map (fun g => g.pts.length)).sum

/-- Cut a list into consecutive pieces of the given lengths. -/
def chunks {α : Type} : List Nat → List α → List (List α)
  | [], _ => []
  | n :: ns, l => l.take n :: chunks ns (l.drop n)

/-- Two trkseg elements with two points and one point inside an open trk element, for
the evaluation of examples. -/
def example_segments : List TrkSeg :=
  [{ pts := [{ attr := [("lat", "1"), ("lon", "2")],
               body := Content.elem "ele" [] [] (Content.text "5" Content.nil) Content.nil },
             { lead := some "\n" }] },
   { pts := [{}] }]

/-- The reader after the start of a gpx element and of a trk element, for the
evaluation of examples. -/
def example_open_trk : State :=
  gpx_read Externals.fixed (gpx_rd_init {})
    [Token.StartElement "gpx" [("version", "1.0")] [], Token.StartElement "trk" [] []]

/-! ## The switch statements of gpx_start and gpx_end -/

/-- The switch statement of gpx_start for a tag id other than tt_unknown: the semantic
action of the start tag, before the passthrough test. -/
def gpx_start_switch (s : State) (t : tag_type) (attr : List Attr) (nsdecl : List NsDecl) :
    State :=
  match t with
  | tt_gpx => tag_gpx s attr nsdecl
  | tt_link => start_link s attr
  | tt_wpt => tag_wpt s attr
  | tt_wpttype_link => start_link s attr
  | tt_rte =>
    { s with
      heads := s.heads ++ [{}]
      rte_head := some s.heads.length
      route_list := s.route_list ++ [s.heads.length]
      rh_link_ := some {}
      fs_ptr := some (FsPtr.head s.heads.length) }
  | tt_rte_rtept => tag_wpt s attr
  | tt_trk =>
    { s with
      heads := s.heads ++ [{}]
      trk_head := some s.heads.length
      track_list := s.track_list ++ [s.heads.length]
      rh_link_ := some {}
      fs_ptr := some (FsPtr.head s.heads.length) }
  | tt_trk_trkseg_trkpt =>
    let s2 := tag_wpt s attr
    if s2.next_trkpt_is_new_seg then
      { with_wpt s2 (fun w => { w with new_trkseg := true }) with
        next_trkpt_is_new_seg := false }
    else s2
  | tt_rte_link => start_link s attr
  | tt_trk_link => start_link s attr
  | tt_cache => tag_gs_cache s attr
  | tt_cache_log_wpt => if s.opt_logpoint then tag_log_wpt s attr else s
  | tt_cache_desc_long => tag_cache_desc s attr
  | tt_cache_desc_short => tag_cache_desc s attr
  | tt_cache_placer =>
    if hasAttribute attr "id" then
      with_wpt s (set_gc (fun g => { g with placer_id := QString_toInt (attr_value attr "id") }))
    else s
  | _ => s

/-- The switch statement of gpx_end for a tag id other than tt_unknown, on the state
whose text buffer has been trimmed: the semantic action of the end tag, before the
passthrough test. -/
def gpx_end_switch (ext : Externals) (s : State) (t : tag_type) : State :=
  match t with
  | tt_name => with_global s (fun g => { g with name := gpx_add_to_global g.name s.cdatastr })
  | tt_desc => with_global s (fun g => { g with desc := gpx_add_to_global g.desc s.cdatastr })
  | tt_author =>
    with_global s (fun g => { g with author := gpx_add_to_global g.author s.cdatastr })
  | tt_email => with_global s (fun g => { g with email := gpx_add_to_global g.email s.cdatastr })
  | tt_url => with_global s (fun g => { g with url := gpx_add_to_global g.url s.cdatastr })
  | tt_urlname =>
    with_global s (fun g => { g with urlname := gpx_add_to_global g.urlname s.cdatastr })
  | tt_keywords =>
    with_global s (fun g => { g with keywords := gpx_add_to_global g.keywords s.cdatastr })
  | tt_link =>
    clear_link (with_global s (fun g =>
      { g with link := g.link ++ [⟨s.link_url, s.link_text, s.link_type⟩] }))
  | tt_link_text => { s with link_text := s.cdatastr }
  | tt_link_type => { s with link_type := s.cdatastr }
  | tt_wpt =>
    let s2 := close_link s
    match s2.wpt_tmp with
    | some i =>
      { s2 with waypt_list := s2.waypt_list ++ [i], logpoint_ct := 0, cur_tag := none,
                wpt_tmp := none }
    | none => { s2 with fault := true, logpoint_ct := 0, cur_tag := none }
  | tt_cache_name => with_wpt s (fun w => { w with notes := s.cdatastr })
  | tt_cache_container =>
    with_wpt s (set_gc (fun g => { g with container := gs_mkcont s.cdatastr }))
  | tt_cache_type => with_wpt s (set_gc (fun g => { g with type := gs_mktype s.cdatastr }))
  | tt_cache_difficulty =>
    with_wpt s (set_gc (fun g =>
      { g with diff := float_times_ten (QString_toDouble s.cdatastr) }))
  | tt_cache_hint => with_wpt s (set_gc (fun g => { g with hint := s.cdatastr }))
  | tt_cache_desc_long =>
    with_wpt s (set_gc (fun g =>
      { g with desc_long := ⟨s.cache_descr_is_html, s.cdatastr⟩ }))
  | tt_cache_desc_short =>
    with_wpt s (set_gc (fun g =>
      { g with desc_short := ⟨s.cache_descr_is_html, s.cdatastr⟩ }))
  | tt_cache_terrain =>
    with_wpt s (set_gc (fun g =>
      { g with terr := float_times_ten (QString_toDouble s.cdatastr) }))
  | tt_cache_placer => with_wpt s (set_gc (fun g => { g with placer := s.cdatastr }))
  | tt_cache_log_date => { s with gc_log_date := xml_parse_time s.cdatastr }
  | tt_cache_log_type =>
    let s2 : State :=
      match s.wpt_tmp with
      | none => { s with fault := true }
      | some i =>
        if s.cdatastr = "Found it" ∧
            toTime_t (((s.wpts[i]?.getD default).gc_data.getD {}).last_found) = 0 then
          with_wpt s (set_gc (fun g => { g with last_found := s.gc_log_date }))
        else s
    { s2 with gc_log_date := none }
  | tt_cache_favorite_points =>
    with_wpt s (set_gc (fun g => { g with favorite_points := QString_toInt s.cdatastr }))
  | tt_cache_personal_note =>
    with_wpt s (set_gc (fun g => { g with personal_note := s.cdatastr }))
  | tt_garmin_wpt_proximity => with_wpt s (garmin_fs_xml_convert t s.cdatastr)
  | tt_garmin_wpt_temperature => with_wpt s (garmin_fs_xml_convert t s.cdatastr)
  | tt_garmin_wpt_depth => with_wpt s (garmin_fs_xml_convert t s.cdatastr)
  | tt_garmin_wpt_display_mode => with_wpt s (garmin_fs_xml_convert t s.cdatastr)
  | tt_garmin_wpt_category => with_wpt s (garmin_fs_xml_convert t s.cdatastr)
  | tt_garmin_wpt_addr => with_wpt s (garmin_fs_xml_convert t s.cdatastr)
  | tt_garmin_wpt_city => with_wpt s (garmin_fs_xml_convert t s.cdatastr)
  | tt_garmin_wpt_state => with_wpt s (garmin_fs_xml_convert t s.cdatastr)
  | tt_garmin_wpt_country => with_wpt s (garmin_fs_xml_convert t s.cdatastr)
  | tt_garmin_wpt_postal_code => with_wpt s (garmin_fs_xml_convert t s.cdatastr)
  | tt_garmin_wpt_phone_nr => with_wpt s (garmin_fs_xml_convert t s.cdatastr)
  | tt_humminbird_wpt_depth =>
    with_wpt s (fun w => { w with depth := some (QString_toDouble s.cdatastr).div100 })
  | tt_humminbird_trk_trkseg_trkpt_depth =>
    with_wpt s (fun w => { w with depth := some (QString_toDouble s.cdatastr).div100 })
  | tt_rte_name => with_rte s (fun h => { h with rte_name := s.cdatastr })
  | tt_rte => close_rh_link s with_rte
  | tt_rte_rtept =>
    let s2 := close_link s
    match s2.wpt_tmp with
    | some i =>
      { with_rte s2 (fun h => { h with waypoint_list := h.waypoint_list ++ [i] }) with
        wpt_tmp := none }
    | none => { s2 with fault := true }
  | tt_rte_desc => with_rte s (fun h => { h with rte_desc := s.cdatastr })
  | tt_garmin_rte_display_color =>
    with_rte s (fun h => { h with line_color_bbggrr := ext.gt_color_value_by_name s.cdatastr })
  | tt_rte_link =>
    clear_link (with_rte s (fun h =>
      { h with rte_urls := h.rte_urls ++ [⟨s.link_url, s.link_text, s.link_type⟩] }))
  | tt_rte_number => with_rte s (fun h => { h with rte_num := QString_toInt s.cdatastr })
  | tt_trk_name => with_trk s (fun h => { h with rte_name := s.cdatastr })
  | tt_trk => close_rh_link s with_trk
  | tt_trk_trkseg => { s with next_trkpt_is_new_seg := true }
  | tt_trk_trkseg_trkpt =>
    let s2 := close_link s
    match s2.wpt_tmp with
    | some i =>
      { with_trk s2 (fun h => { h with waypoint_list := h.waypoint_list ++ [i] }) with
        wpt_tmp := none }
    | none => { s2 with fault := true }
  | tt_trk_desc => with_trk s (fun h => { h with rte_desc := s.cdatastr })
  | tt_garmin_trk_display_color =>
    with_trk s (fun h => { h with line_color_bbggrr := ext.gt_color_value_by_name s.cdatastr })
  | tt_trk_link =>
    clear_link (with_trk s (fun h =>
      { h with rte_urls := h.rte_urls ++ [⟨s.link_url, s.link_text, s.link_type⟩] }))
  | tt_trk_number => with_trk s (fun h => { h with rte_num := QString_toInt s.cdatastr })
  | tt_trk_trkseg_trkpt_course =>
    with_wpt s (fun w => { w with course := some (QString_toDouble s.cdatastr) })
  | tt_trk_trkseg_trkpt_speed =>
    with_wpt s (fun w => { w with speed := some (QString_toDouble s.cdatastr) })
  | tt_trk_trkseg_trkpt_heartrate =>
    with_wpt s (fun w => { w with heartrate := (binary64.ofDbl (QString_toDouble s.cdatastr)).trunc % 256 })
  | tt_trk_trkseg_trkpt_cadence =>
    with_wpt s (fun w => { w with cadence := (binary64.ofDbl (QString_toDouble s.cdatastr)).trunc % 256 })
  | tt_rte_url => with_rh_link s (fun l => { l with url_ := s.cdatastr })
  | tt_trk_url => with_rh_link s (fun l => { l with url_ := s.cdatastr })
  | tt_rte_urlname => with_rh_link s (fun l => { l with url_link_text_ := s.cdatastr })
  | tt_trk_urlname => with_rh_link s (fun l => { l with url_link_text_ := s.cdatastr })
  | tt_rte_link_text => { s with link_text := s.cdatastr }
  | tt_trk_link_text => { s with link_text := s.cdatastr }
  | tt_rte_link_type => { s with link_type := s.cdatastr }
  | tt_trk_link_type => { s with link_type := s.cdatastr }
  | tt_wpttype_ele => with_wpt s (fun w => { w with altitude := QString_toDouble s.cdatastr })
  | tt_wpttype_name => with_wpt s (fun w => { w with shortname := s.cdatastr })
  | tt_wpttype_sym => with_wpt s (fun w => { w with icon_descr := s.cdatastr })
  | tt_wpttype_time =>
    with_wpt s (fun w => { w with creation_time := xml_parse_time s.cdatastr })
  | tt_wpttype_geoidheight =>
    with_wpt s (fun w => { w with geoidheight := some (QString_toDouble s.cdatastr) })
  | tt_wpttype_cmt => with_wpt s (fun w => { w with description := s.cdatastr })
  | tt_wpttype_desc => with_wpt s (fun w => { w with notes := s.cdatastr })
  | tt_wpttype_pdop => with_wpt s (fun w => { w with pdop := QString_toDouble s.cdatastr })
  | tt_wpttype_hdop => with_wpt s (fun w => { w with hdop := QString_toDouble s.cdatastr })
  | tt_wpttype_vdop => with_wpt s (fun w => { w with vdop := QString_toDouble s.cdatastr })
  | tt_wpttype_sat => with_wpt s (fun w => { w with sat := (binary64.ofDbl (QString_toDouble s.cdatastr)).trunc })
  | tt_wpttype_fix => with_wpt s (fun w => { w with fix := fix_of_text s.cdatastr })
  | tt_wpttype_url => with_link s (fun l => { l with url_ := s.cdatastr })
  | tt_wpttype_urlname => with_link s (fun l => { l with url_link_text_ := s.cdatastr })
  | tt_wpttype_link =>
    clear_link (with_wpt s (fun w =>
      { w with urls := w.urls ++ [⟨s.link_url, s.link_text, s.link_type⟩] }))
  | tt_wpttype_link_text => { s with link_text := s.cdatastr }
  | tt_wpttype_link_type => { s with link_type := s.cdatastr }
  | _ => s

/-! ## Statements about the objects the reader has in progress -/

/-- The path gpx_read builds for a stack of open elements, the outermost first: a slash
and the name for each of them. -/
def path_of (stack : List String) : String :=
  ⟨(stack.map (fun n => '/' :: n.data)).flatten⟩

/-- The pieces of a character list between its slashes; cur holds the piece being
read, reversed. -/
def path_pieces : List Char → List Char → List String
  | [], cur => [⟨cur.reverse⟩]
  | c :: cs, cur =>
    if c = '/' then ⟨cur.reverse⟩ :: path_pieces cs [] else path_pieces cs (c :: cur)

/-- The names of the elements of a path: the pieces after each slash. -/
def path_names (p : String) : List String := (path_pieces p.data []).tail

/-- The stack of open elements after a sequence of tokens, when the tokens are well
nested: a start tag pushes its name, which holds no slash, an end tag pops the same name,
and the end of the document or a reader error stops the reading; none when a start tag
has a slash in its name or an end tag does not close the innermost open element. -/
def nested : List String → List Token → Option (List String)
  | st, [] => some st
  | st, Token.StartElement n _ _ :: ts =>
    if '/' ∈ n.data then none else nested (st ++ [n]) ts
  | st, Token.EndElement n :: ts =>
    if st.getLast? = some n then nested st.dropLast ts else none
  | st, Token.Characters _ :: ts => nested st ts
  | st, Token.Other :: ts => nested st ts
  | st, Token.EndDocument :: _ => some st
  | st, Token.Invalid :: _ => some st

/-- A point element (wpt, rtept or trkpt) is open. -/
def open_point (st : List String) : Bool :=
  ["gpx", "wpt"].isPrefixOf st || ["gpx", "rte", "rtept"].isPrefixOf st ||
  ["gpx", "trk", "trkseg", "trkpt"].isPrefixOf st

/-- A rte element is open. -/
def open_rte (st : List String) : Bool := ["gpx", "rte"].isPrefixOf st

/-- A trk element is open. -/
def open_trk (st : List String) : Bool := ["gpx", "trk"].isPrefixOf st

/-- The tag ids whose case in gpx_start creates the point in progress. -/
def point_start_tags : List tag_type := [tt_wpt, tt_rte_rtept, tt_trk_trkseg_trkpt]

/-- The tag ids whose case in gpx_start dereferences wpt_tmp, the point in progress. -/
def wpt_start_tags : List tag_type := [tt_cache, tt_cache_log_wpt, tt_cache_placer]

/-- The tag ids whose case in gpx_end dereferences wpt_tmp, the point in progress. -/
def wpt_end_tags : List tag_type :=
  [tt_wpt, tt_rte_rtept, tt_trk_trkseg_trkpt,
   tt_cache_name, tt_cache_container, tt_cache_type, tt_cache_difficulty, tt_cache_hint,
   tt_cache_desc_long, tt_cache_desc_short, tt_cache_terrain, tt_cache_placer,
   tt_cache_log_type, tt_cache_favorite_points, tt_cache_personal_note,
   tt_garmin_wpt_proximity, tt_garmin_wpt_temperature, tt_garmin_wpt_depth,
   tt_garmin_wpt_display_mode, tt_garmin_wpt_category, tt_garmin_wpt_addr,
   tt_garmin_wpt_city, tt_garmin_wpt_state, tt_garmin_wpt_country,
   tt_garmin_wpt_postal_code, tt_garmin_wpt_phone_nr,
   tt_humminbird_wpt_depth, tt_humminbird_trk_trkseg_trkpt_depth,
   tt_trk_trkseg_trkpt_course, tt_trk_trkseg_trkpt_speed, tt_trk_trkseg_trkpt_heartrate,
   tt_trk_trkseg_trkpt_cadence,
   tt_wpttype_ele, tt_wpttype_name, tt_wpttype_sym, tt_wpttype_time, tt_wpttype_geoidheight,
   tt_wpttype_cmt, tt_wpttype_desc, tt_wpttype_pdop, tt_wpttype_hdop, tt_wpttype_vdop,
   tt_wpttype_sat, tt_wpttype_fix, tt_wpttype_link]

/-- The tag ids whose case in gpx_end dereferences link_, the legacy url accumulator of
the point. -/
def link_end_tags : List tag_type := [tt_wpttype_url, tt_wpttype_urlname]

/-- The tag ids whose case in gpx_end dereferences rte_head. -/
def rte_end_tags : List tag_type :=
  [tt_rte, tt_rte_rtept, tt_rte_name, tt_rte_desc, tt_garmin_rte_display_color, tt_rte_link,
   tt_rte_number]

/-- The tag ids whose case in gpx_end dereferences trk_head. -/
def trk_end_tags : List tag_type :=
  [tt_trk, tt_trk_trkseg_trkpt, tt_trk_name, tt_trk_desc, tt_garmin_trk_display_color,
   tt_trk_link, tt_trk_number]

/-- The tag ids whose case in gpx_end dereferences rh_link_, the legacy url accumulator
of the route or track. -/
def rh_link_end_tags : List tag_type :=
  [tt_rte_url, tt_trk_url, tt_rte_urlname, tt_trk_urlname]

/-- The objects in progress the reader holds, as far as the actions of gpx_start and
gpx_end depend on them: the path current_tag, whether wpt_tmp, link_, rte_head, trk_head,
rh_link_, gpx_global and fs_ptr are set, and the flag of an access through a null
pointer. -/
structure ObjView where
  path : String
  wpt : Bool
  link : Bool
  rte : Bool
  trk : Bool
  rh_link : Bool
  global : Bool
  fs : Bool
  fault : Bool
  deriving DecidableEq, Repr

/-- The view of the objects in progress of a reader state. -/
def obj_view (s : State) : ObjView :=
  ⟨s.current_tag, s.wpt_tmp.isSome, s.link_.isSome, s.rte_head.isSome, s.trk_head.isSome,
   s.rh_link_.isSome, s.gpx_global.isSome, s.fs_ptr.isSome, s.fault⟩

/-- Every object whose creating element is open exists, and no access through a null
pointer has happened: the state of the reader fits the stack of open elements. -/
def ObjectsOpen (s : State) (st : List String) : Prop :=
  s.current_tag = path_of st ∧ s.fault = false ∧ s.gpx_global.isSome = true ∧
  (open_point st = true → s.wpt_tmp.isSome = true ∧ s.link_.isSome = true) ∧
  (open_rte st = true → s.rte_head.isSome = true ∧ s.rh_link_.isSome = true) ∧
  (open_trk st = true → s.trk_head.isSome = true ∧ s.rh_link_.isSome = true) ∧
  (open_point st = true ∨ open_rte st = true ∨ open_trk st = true → s.fs_ptr.isSome = true)

/-- What the switch of gpx_start does to the objects in progress when the objects it
dereferences exist: a point element creates the point and its url accumulator, rte and
trk create the head and its url accumulator, each of them sets fs_ptr, and the other
cases create and delete nothing. -/
def start_objects (t : tag_type) (v : ObjView) : ObjView :=
  match t with
  | tt_wpt => { v with wpt := true, link := true, fs := true }
  | tt_rte_rtept => { v with wpt := true, link := true, fs := true }
  | tt_trk_trkseg_trkpt => { v with wpt := true, link := true, fs := true }
  | tt_rte => { v with rte := true, rh_link := true, fs := true }
  | tt_trk => { v with trk := true, rh_link := true, fs := true }
  | _ => v

/-- What the switch of gpx_end does to the objects in progress when the objects it
dereferences exist: the end of a point element gives the point away and deletes its url
accumulator, the end of rte and trk deletes the url accumulator of the head, and the
other cases create and delete nothing. -/
def end_objects (t : tag_type) (v : ObjView) : ObjView :=
  match t with
  | tt_wpt => { v with wpt := false, link := false }
  | tt_rte_rtept => { v with wpt := false, link := false }
  | tt_trk_trkseg_trkpt => { v with wpt := false, link := false }
  | tt_rte => { v with rh_link := false }
  | tt_trk => { v with rh_link := false }
  | _ => v

/-- What the entry of tag_path_map says about the objects its actions use: the actions
that dereference the point, its url accumulator, the route head, the track head or their
url accumulator stand under the element that creates the object; an element that closes
an object does not stand under another element of the same kind; and an entry with the
passthrough flag stands under a point, a route or a track and is not the wpt element. -/
def entry_objects (tm : tag_mapping) : Bool :=
  let st := path_names tm.tag_name
  let t := tm.tag_type_
  (!(wpt_end_tags.contains t) || open_point st) &&
  (!(wpt_start_tags.contains t) || open_point st.dropLast) &&
  (!(link_end_tags.contains t) || open_point st) &&
  (!(rte_end_tags.contains t) || open_rte st) &&
  (!(trk_end_tags.contains t) || open_trk st) &&
  (!(rh_link_end_tags.contains t) || open_rte st || open_trk st) &&
  (!(point_start_tags.contains t) || !open_point st.dropLast) &&
  (!(t == tt_rte || t == tt_trk) || (!open_rte st.dropLast && !open_trk st.dropLast)) &&
  (!tm.tag_passthrough ||
    open_point st.dropLast || open_rte st.dropLast || open_trk st.dropLast) &&
  (!tm.tag_passthrough || !(t == tt_wpt))

/-- A document with a waypoint, a route and a track whose elements use every object in
progress, for the evaluation of examples. -/
def example_document_objects : List Token :=
  [Token.StartElement "gpx" [("version", "1.0")] [],
   Token.StartElement "wpt" [("lat", "1.0"), ("lon", "2.0")] [],
   Token.StartElement "name" [] [],
   Token.Characters "A",
   Token.EndElement "name",
   Token.StartElement "url" [] [],
   Token.Characters "http://a.example",
   Token.EndElement "url",
   Token.StartElement "groundspeak:cache" [("id", "7")] [],
   Token.StartElement "groundspeak:type" [] [],
   Token.Characters "Traditional Cache",
   Token.EndElement "groundspeak:type",
   Token.EndElement "groundspeak:cache",
   Token.EndElement "wpt",
   Token.StartElement "rte" [] [],
   Token.StartElement "name" [] [],
   Token.Characters "R",
   Token.EndElement "name",
   Token.StartElement "rtept" [("lat", "3.0"), ("lon", "4.0")] [],
   Token.EndElement "rtept",
   Token.EndElement "rte",
   Token.StartElement "trk" [] [],
   Token.StartElement "url" [] [],
   Token.Characters "http://t.example",
   Token.EndElement "url",
   Token.StartElement "trkseg" [] [],
   Token.StartElement "trkpt" [("lat", "5.0"), ("lon", "6.0")] [],
   Token.StartElement "ele" [] [],
   Token.Characters "7",
   Token.EndElement "ele",
   Token.EndElement "trkpt",
   Token.EndElement "trkseg",
   Token.EndElement "trk",
   Token.EndElement "gpx",
   Token.EndDocument]

/-- The tokens of example_document_objects up to the start tag of the groundspeak:cache
element of the waypoint. -/
def example_tokens_before_cache : List Token := example_document_objects.take 8

/-! ## Statements about links, metadata texts and elevation -/

/-- The values of the attributes of the given name in a sequence of writer calls. -/
def attributes_named (n : String) : List WEvent → List String
  | [] => []
  | WEvent.Attribute k v :: es =>
    if k = n then v :: attributes_named n es else attributes_named n es
  | _ :: es => attributes_named n es

/-- The texts of the writeCharacters calls in a sequence of writer calls. -/
def characters_of : List WEvent → List String
  | [] => []
  | WEvent.Characters t :: es => t :: characters_of es
  | _ :: es => characters_of es

/-- The links of a list that write_gpx_url writes for a version above 1.0: those with a
non-empty URL. -/
def links_with_url (urls : List UrlLink) : List UrlLink :=
  urls.filter (fun l => !isEmpty l.url_)

/-- A document with one waypoint whose ele element holds the given text, for the
evaluation of examples. -/
def example_document_ele (text : String) : List Token :=
  [Token.StartElement "gpx" [("version", "1.0")] [],
   Token.StartElement "wpt" [("lat", "1.0"), ("lon", "2.0")] [],
   Token.StartElement "ele" [] [],
   Token.Characters text,
   Token.EndElement "ele",
   Token.EndElement "wpt",
   Token.EndElement "gpx",
   Token.EndDocument]

/-! ## Statements about the logs of a geocache -/

/-- A log element of the input that gives its date before its type: its attributes and
namespace declarations, the pieces of text of its date element and of its type element,
and the well nested content before, between and after the two elements. -/
structure LogEntry where
  attr : List Attr := []
  nsdecl : List NsDecl := []
  before : Content := Content.nil
  date : List String := []
  between : Content := Content.nil
  type : List String := []
  after : Content := Content.nil

/-- The tokens of a log element whose name is ln, with the date element dn and the type
element tn. -/
def LogEntry.tokens (ln dn tn : String) (e : LogEntry) : List Token :=
  Token.StartElement ln e.attr e.nsdecl :: (e.before.tokens ++
  (Token.StartElement dn [] [] :: (e.date.map Token.Characters ++
  (Token.EndElement dn :: (e.between.tokens ++
  (Token.StartElement tn [] [] :: (e.type.map Token.Characters ++
  (Token.EndElement tn :: (e.after.tokens ++ [Token.EndElement ln])))))))))

/-- The type of a log is Found it, once the text of its type element has been trimmed. -/
def LogEntry.found (e : LogEntry) : Bool := trimmed (String.join e.type) = "Found it"

/-- The date of a log: the trimmed text of its date element, parsed. -/
def LogEntry.time (e : LogEntry) : QDateTime := xml_parse_time (trimmed (String.join e.date))

/-- The last-found date of a point after one more log: the date of the log when the log is
a Found it log and the last-found date converts to the time 0, and unchanged otherwise. -/
def log_step (last_found : QDateTime) (e : LogEntry) : QDateTime :=
  if e.found = true ∧ toTime_t last_found = 0 then e.time else last_found

/-- A document in which the unrecognised element foo of the root follows a closed
waypoint. -/
def example_document_after_wpt : List Token :=
  [Token.StartElement "gpx" [("version", "1.0")] [],
   Token.StartElement "wpt" [("lat", "1.0"), ("lon", "2.0")] [],
   Token.EndElement "wpt",
   Token.StartElement "foo" [] [],
   Token.EndElement "foo",
   Token.EndElement "gpx",
   Token.EndDocument]

/-- A document in which the unrecognised element foo of a route follows a closed route
point. -/
def example_document_after_rtept : List Token :=
  [Token.StartElement "gpx" [("version", "1.0")] [],
   Token.StartElement "rte" [] [],
   Token.StartElement "rtept" [("lat", "1.0"), ("lon", "2.0")] [],
   Token.EndElement "rtept",
   Token.StartElement "foo" [] [],
   Token.EndElement "foo",
   Token.EndElement "rte",
   Token.EndElement "gpx",
   Token.EndDocument]

/-! ## Statements about the link accumulators -/

/-- The stacks of open elements at which a link element of the table stands. -/
def link_paths : List (List String) :=
  [["gpx", "metadata", "link"], ["gpx", "wpt", "link"], ["gpx", "rte", "link"],
   ["gpx", "trk", "link"], ["gpx", "rte", "rtept", "link"],
   ["gpx", "trk", "trkseg", "trkpt", "link"]]

/-- A link element of the table is open. -/
def open_link (st : List String) : Bool := link_paths.any (fun p => p.isPrefixOf st)

/-- The tag ids of the link elements: their case in gpx_start assigns link_url and their
case in gpx_end stores the link and clears link_type, link_text and link_url. -/
def link_tags : List tag_type := [tt_link, tt_wpttype_link, tt_rte_link, tt_trk_link]

/-- The tag ids of the text and type children of the link elements: their case in gpx_end
assigns link_text or link_type. -/
def link_field_tags : List tag_type :=
  [tt_link_text, tt_link_type, tt_wpttype_link_text, tt_wpttype_link_type,
   tt_rte_link_text, tt_trk_link_text, tt_rte_link_type, tt_trk_link_type]

/-- The three accumulators of a link: link_url, link_text and link_type. -/
def link_acc (s : State) : String × String × String := (s.link_url, s.link_text, s.link_type)

/-- What the entry of tag_path_map says about the links: an entry with the tag id of a
link element stands at one of the link paths, and an entry with the tag id of a text or
type child stands under one of them. -/
def entry_links (tm : tag_mapping) : Bool :=
  (!(link_tags.contains tm.tag_type_) || link_paths.contains (path_names tm.tag_name)) &&
  (!(link_field_tags.contains tm.tag_type_) || open_link (path_names tm.tag_name))

/-- A document with a waypoint that has two links, the first with an address, a text and
a type and the second without an address, for the evaluation of examples. -/
def example_document_links : List Token :=
  [Token.StartElement "gpx" [("version", "1.1")] [],
   Token.StartElement "wpt" [("lat", "1.0"), ("lon", "2.0")] [],
   Token.StartElement "link" [("href", "http://a.example")] [],
   Token.StartElement "text" [] [],
   Token.Characters "A",
   Token.EndElement "text",
   Token.StartElement "type" [] [],
   Token.Characters "text/html",
   Token.EndElement "type",
   Token.EndElement "link",
   Token.StartElement "link" [] [],
   Token.EndElement "link",
   Token.EndElement "wpt",
   Token.EndElement "gpx",
   Token.EndDocument]

/-! ## Statements about the current node of the preserved elements -/

/-- An open element as the reader sees it: its qualified name and the node that
start_something_else created for it, if it created one. -/
structure Level where
  name : String
  node : Option Nat
  deriving DecidableEq, Repr

/-- The stack of the names of the open elements, the outermost first, for a list of open
elements that has the innermost first. -/
def stack_of (levels : List Level) : List String := (levels.map Level.name).reverse

/-- The nodes created for the open elements, the innermost first. -/
def created (levels : List Level) : List Nat := levels.filterMap Level.node

/-- The element with this stack of names is not recognised or has the passthrough flag:
gpx_start calls start_something_else and gpx_end calls end_something_else for it. -/
def preserved (st : List String) : Bool := (get_tag hash (path_of st)).2

/-- The nodes of a list, the innermost first, are nodes of the arena with index n0 or
above, and each has the next one as parent, the last one none. -/
def ParentChain (tags : List xml_tag) (n0 : Nat) : List Nat → Prop
  | [] => True
  | a :: rest =>
    n0 ≤ a ∧ a < tags.length ∧ (getTag tags a).parent = rest.head? ∧ ParentChain tags n0 rest

/-- The pointers of the nodes with index n0 or above stay among these nodes: a sibling has
the parent of the node, and a child has the node as parent. -/
def TreeOK (n0 : Nat) (tags : List xml_tag) : Prop :=
  n0 ≤ tags.length ∧
  (∀ i j, n0 ≤ i → i < tags.length → (getTag tags i).sibling = some j →
    n0 ≤ j ∧ j < tags.length ∧ (getTag tags j).parent = (getTag tags i).parent) ∧
  (∀ i j, n0 ≤ i → i < tags.length → (getTag tags i).child = some j →
    n0 ≤ j ∧ j < tags.length ∧ (getTag tags j).parent = some i)

/-- What fs_ptr points to, as far as start_something_else uses it: whether the entity
exists, and the first preserved node of its chain. -/
def fs_root (s : State) : Option (Bool × Option (Option Nat)) :=
  s.fs_ptr.map (fun p => (p.valid s, fs_chain_find_gpx (fs_of s p)))

/-- The entity fs_ptr points to exists, and the first node of its chain of preserved
elements is a node with index n0 or above that has no parent. -/
def RootOK (n0 : Nat) (s : State) : Prop :=
  ∀ v f, fs_root s = some (v, f) →
    v = true ∧ ∀ r, f = some (some r) →
      n0 ≤ r ∧ r < s.tags.length ∧ (getTag s.tags r).parent = none

/-- The open elements fit the table: an element has a node only when it is preserved, and
a preserved element without a node (it opened while fs_ptr was null) has no element with
a node around it. -/
def LevelsOK : List Level → Prop
  | [] => True
  | lv :: rest =>
    LevelsOK rest ∧
    (lv.node ≠ none → preserved (stack_of (lv :: rest)) = true) ∧
    (lv.node = none → preserved (stack_of (lv :: rest)) = true → created rest = [])

/-- The arena fits a list of nodes, the innermost first: the current node is the first
of them, they are linked by their parent pointers, the nodes with index n0 or above form a
forest, the first node of the chain of the entity fs_ptr points to has no parent, and
there is no node while fs_ptr is null. -/
def NodesCore (n0 : Nat) (s : State) (nodes : List Nat) : Prop :=
  s.cur_tag = nodes.head? ∧ ParentChain s.tags n0 nodes ∧ TreeOK n0 s.tags ∧ RootOK n0 s ∧
  (s.fs_ptr = none → nodes = [])

/-- The state of the reader fits a list of open elements (the innermost first): the path
is the path of their names, which hold no slash; the arena fits the nodes of the open
elements; and the open elements fit the table. -/
def NodesOK (n0 : Nat) (s : State) (levels : List Level) : Prop :=
  s.current_tag = path_of (stack_of levels) ∧
  (∀ lv ∈ levels, '/' ∉ lv.name.data) ∧
  NodesCore n0 s (created levels) ∧
  LevelsOK levels

/-- The tag ids whose case in gpx_start assigns fs_ptr: the point elements, rte and
trk. -/
def entity_tags : List tag_type := [tt_wpt, tt_rte_rtept, tt_trk_trkseg_trkpt, tt_rte, tt_trk]

/-- What the entry of tag_path_map says about the nodes: an entry with the passthrough
flag does not have the tag id of a point, a route or a track, and a point element and the
elements around it are recognised and do not have the passthrough flag. -/
def entry_nodes (tm : tag_mapping) : Bool :=
  (!tm.tag_passthrough || !(entity_tags.contains tm.tag_type_)) &&
  (!(point_start_tags.contains tm.tag_type_) ||
    ((List.range (path_names tm.tag_name).length).all
      (fun k => !preserved ((path_names tm.tag_name).take (k + 1)))))

/-- The node a start tag creates, for the stack of the elements open before it: a new
node at the end of the arena when the element is preserved and fs_ptr is set, none
otherwise. -/
def start_node (s : State) (st : List String) (name : String) : Option Nat :=
  if preserved (st ++ [name]) && s.fs_ptr.isSome then some s.tags.length else none

/-- No start tag of the sequence opens a wpt, rte or trk element or an element inside
one, for a sequence that starts with the given stack of open elements. -/
def entity_free : List String → List Token → Bool
  | _, [] => true
  | st, Token.StartElement n _ _ :: ts =>
    !(open_point (st ++ [n]) || open_rte (st ++ [n]) || open_trk (st ++ [n])) &&
    entity_free (st ++ [n]) ts
  | st, Token.EndElement _ :: ts => entity_free st.dropLast ts
  | st, Token.Characters _ :: ts => entity_free st ts
  | st, Token.Other :: ts => entity_free st ts
  | _, Token.EndDocument :: _ => true
  | _, Token.Invalid :: _ => true

/-! ## Examples for the statements about text, links and preserved nodes -/

/-- A waypoint whose name element has mixed content: the text ab, an empty element x and
the text cd, for the evaluation of examples. -/
def example_mixed_name : List Token :=
  [Token.StartElement "gpx" [("version", "1.0")] [],
   Token.StartElement "wpt" [("lat", "1.0"), ("lon", "2.0")] [],
   Token.StartElement "name" [] [],
   Token.Characters "ab",
   Token.StartElement "x" [] [],
   Token.EndElement "x",
   Token.Characters "cd",
   Token.EndElement "name",
   Token.EndElement "wpt",
   Token.EndElement "gpx",
   Token.EndDocument]

/-- A document with one waypoint that has only a cmt child with the given text, for the
evaluation of examples. -/
def example_document_cmt (text : String) : List Token :=
  [Token.StartElement "gpx" [("version", "1.0")] [],
   Token.StartElement "wpt" [("lat", "1.0"), ("lon", "2.0")] [],
   Token.StartElement "cmt" [] [],
   Token.Characters text,
   Token.EndElement "cmt",
   Token.EndElement "wpt",
   Token.EndElement "gpx",
   Token.EndDocument]

/-- A document with one waypoint that has a cmt child and a desc child with the given
texts, for the evaluation of examples. -/
def example_document_cmt_desc (cmt desc : String) : List Token :=
  [Token.StartElement "gpx" [("version", "1.0")] [],
   Token.StartElement "wpt" [("lat", "1.0"), ("lon", "2.0")] [],
   Token.StartElement "cmt" [] [],
   Token.Characters cmt,
   Token.EndElement "cmt",
   Token.StartElement "desc" [] [],
   Token.Characters desc,
   Token.EndElement "desc",
   Token.EndElement "wpt",
   Token.EndElement "gpx",
   Token.EndDocument]

/-- A waypoint with the Garmin extension Address, whose path the table does not hold, and
inside it the recognised element StreetAddress, which does not have the passthrough flag,
for the evaluation of examples. -/
def example_document_address : List Token :=
  [Token.StartElement "gpx" [("version", "1.1")] [],
   Token.StartElement "wpt" [("lat", "1.0"), ("lon", "2.0")] [],
   Token.StartElement "extensions" [] [],
   Token.StartElement "gpxx:WaypointExtension" [] [],
   Token.StartElement "gpxx:Address" [] [],
   Token.StartElement "gpxx:StreetAddress" [] [],
   Token.Characters "Main St",
   Token.EndElement "gpxx:StreetAddress",
   Token.EndElement "gpxx:Address",
   Token.EndElement "gpxx:WaypointExtension",
   Token.EndElement "extensions",
   Token.EndElement "wpt",
   Token.EndElement "gpx",
   Token.EndDocument]

/-- A document whose root has an unrecognised child before the first point, and a
waypoint with a name, for the evaluation of examples. -/
def example_document_early_unknown : List Token :=
  [Token.StartElement "gpx" [("version", "1.0")] [],
   Token.StartElement "foo" [("bar", "1")] [],
   Token.Characters "baz",
   Token.EndElement "foo",
   Token.StartElement "wpt" [("lat", "1.0"), ("lon", "2.0")] [],
   Token.StartElement "name" [] [],
   Token.Characters "A",
   Token.EndElement "name",
   Token.EndElement "wpt",
   Token.EndElement "gpx",
   Token.EndDocument]

open fix_type

set_option maxRecDepth 100000

/-! ## The tag path table -/

theorem hash_find_prescan_loop (t : String) :
    ∀ (tbl : List tag_mapping) (h0 : TagHash), hash_find h0 t = none →
      (∀ tm ∈ tbl, tm.tag_type_ ≠ tt_unknown → tm.tag_name ≠ t) →
      hash_find (prescan_loop tbl h0) t = none := by
  intro tbl
  induction tbl with
  | nil => intro h0 h _; simpa [prescan_loop] using h
  | cons tm rest ih =>
    intro h0 h hne
    unfold prescan_loop
    by_cases hz : tm.tag_type_ = tt_unknown
    · simp [hz, h]
    · simp only [hz, if_false]
      apply ih
      · have : tm.tag_name ≠ t := hne tm (List.mem_cons_self _ _) hz
        simp [hash_find, this, h]
      · intro tm' hmem
        exact hne tm' (List.mem_cons_of_mem _ hmem)

/-- C10: a path that is not the path of any entry of tag_path_map resolves, after
prescan_tags, to tt_unknown with passthrough set; the lookup is an exact match, so
a prefix, a suffix, a case variant or a path with a trailing slash of a known path
is unknown. -/
theorem get_tag_unknown_path (t : String)
    (h : ∀ tm ∈ tag_path_map, tm.tag_type_ ≠ tt_unknown → tm.tag_name ≠ t) :
    get_tag (prescan_tags []) t = (tt_unknown, true) ∧
    get_tag (prescan_tags []) "/gpx/wp" = (tt_unknown, true) ∧
    get_tag (prescan_tags []) "gpx/wpt" = (tt_unknown, true) ∧
    get_tag (prescan_tags []) "/GPX/WPT" = (tt_unknown, true) ∧
    get_tag (prescan_tags []) "/gpx/wpt/" = (tt_unknown, true) := by
  refine ⟨?_, by decide, by decide, by decide, by decide⟩
  have h1 : hash_find (prescan_tags []) t = none :=
    hash_find_prescan_loop t tag_path_map [] rfl h
  simp [get_tag, h1]

/-- Witness of C10 at the path of an element foo inside a wpt. -/
theorem get_tag_unknown_path_witness :
    (∀ tm ∈ tag_path_map, tm.tag_type_ ≠ tt_unknown → tm.tag_name ≠ "/gpx/wpt/foo") ∧
    get_tag (prescan_tags []) "/gpx/wpt/foo" = (tt_unknown, true) :=
  ⟨by decide, (get_tag_unknown_path "/gpx/wpt/foo" (by decide)).1⟩

/-! ## File-global metadata -/

theorem foldl_gpx_add_to_global (xs : List String) :
    ∀ acc : List String,
      xs.foldl gpx_add_to_global acc = acc ++ first_occurrences_from acc xs := by
  induction xs with
  | nil => intro acc; simp [first_occurrences_from]
  | cons x xs ih =>
    intro acc
    simp only [List.foldl_cons, first_occurrences_from]
    by_cases hx : x ∈ acc
    · have h1 : gpx_add_to_global acc x = acc := by
        simp [gpx_add_to_global, hx]
      rw [h1, ih]; simp [hx]
    · have h1 : gpx_add_to_global acc x = acc ++ [x] := by
        simp [gpx_add_to_global, hx]
      rw [h1, ih]; simp [hx]

theorem first_occurrences_from_spec (xs : List String) :
    ∀ seen : List String,
      (first_occurrences_from seen xs).Nodup ∧
      (∀ x, x ∈ first_occurrences_from seen xs ↔ x ∈ xs ∧ x ∉ seen) := by
  induction xs with
  | nil => intro seen; simp [first_occurrences_from]
  | cons a xs ih =>
    intro seen
    simp only [first_occurrences_from]
    by_cases ha : a ∈ seen
    · simp only [ha, if_true]
      refine ⟨(ih seen).1, ?_⟩
      intro x
      rw [(ih seen).2 x]
      constructor
      · rintro ⟨h1, h2⟩; exact ⟨List.mem_cons_of_mem _ h1, h2⟩
      · rintro ⟨h1, h2⟩
        rcases List.mem_cons.mp h1 with h | h
        · subst h; exact absurd ha h2
        · exact ⟨h, h2⟩
    · simp only [ha, if_false]
      have ih' := ih (seen ++ [a])
      refine ⟨?_, ?_⟩
      · rw [List.nodup_cons]
        refine ⟨?_, ih'.1⟩
        intro hmem
        have := (ih'.2 a).mp hmem
        exact this.2 (by simp)
      · intro x
        rw [List.mem_cons, ih'.2 x]
        constructor
        · rintro (h | ⟨h1, h2⟩)
          · subst h; exact ⟨List.mem_cons_self _ _, ha⟩
          · refine ⟨List.mem_cons_of_mem _ h1, ?_⟩
            intro hs; exact h2 (by simp [hs])
        · rintro ⟨h1, h2⟩
          by_cases hxa : x = a
          · exact Or.inl hxa
          · right
            rcases List.mem_cons.mp h1 with h | h
            · exact absurd h hxa
            · refine ⟨h, ?_⟩
              simp only [List.mem_append, List.mem_singleton, not_or]
              exact ⟨h2, hxa⟩

/-- C7: starting from an empty list, the list built by gpx_add_to_global from any
sequence of strings holds each distinct string exactly once, in the order of first
occurrence; the same value added twice gives one entry, a second, different value
is appended after the first; and gpx_rd_init keeps the lists of the documents read
before. -/
theorem gpx_add_to_global_first_occurrences (xs : List String) :
    xs.foldl gpx_add_to_global [] = first_occurrences xs ∧
    (xs.foldl gpx_add_to_global []).Nodup ∧
    (∀ x, x ∈ xs.foldl gpx_add_to_global [] ↔ x ∈ xs) ∧
    (∀ d : String, [d, d].foldl gpx_add_to_global [] = [d]) ∧
    (∀ a b : String, a ≠ b → [a, b].foldl gpx_add_to_global [] = [a, b]) ∧
    (∀ (s : State) (g : GpxGlobal), s.gpx_global = some g →
      (gpx_rd_init s).gpx_global = some g) := by
  have h := foldl_gpx_add_to_global xs []
  simp only [List.nil_append] at h
  have hs := first_occurrences_from_spec xs []
  refine ⟨h, ?_, ?_, ?_, ?_, ?_⟩
  · rw [h]; exact hs.1
  · intro x; rw [h, hs.2 x]; simp
  · intro d; simp [gpx_add_to_global]
  · intro a b hab
    have : ¬ b = a := fun h => hab h.symm
    simp [gpx_add_to_global, this]
  · intro s g hg; simp [gpx_rd_init, hg]

/-! ## The detected version -/

/-- C3 (evaluation at the failing input): after a root element that declares version
1.1, a root element that declares version 1.0 lowers the detected version to 1.0,
because the stored version is converted with toInt, which gives 0 for the text 1.1;
in the other order the detected version is 1.1. -/
theorem tag_gpx_last_version_wins :
    (tag_gpx (tag_gpx {} [("version", "1.1")] []) [("version", "1.0")] []).gpx_version = "1.0" ∧
    (tag_gpx (tag_gpx {} [("version", "1.0")] []) [("version", "1.1")] []).gpx_version = "1.1" ∧
    QString_toInt "1.1" = 0 := by
  decide

/-! ## Timestamps -/

theorem digitChar_toNat (n : Nat) : (digitChar n).toNat = 48 + n % 10 := by
  have h : n % 10 < 10 := Nat.mod_lt _ (by decide)
  unfold digitChar
  generalize n % 10 = k at h
  interval_cases k <;> rfl

theorem digitVal_digitChar (n : Nat) : digitVal (digitChar n) = some (n % 10) := by
  have h : n % 10 < 10 := Nat.mod_lt _ (by decide)
  simp only [digitVal, digitChar_toNat]
  rw [if_pos (by omega)]
  congr 1
  omega

theorem digitChar_ne (n : Nat) (c : Char) (hc : c.toNat < 48 ∨ 57 < c.toNat) :
    digitChar n ≠ c := by
  intro h
  have h1 := digitChar_toNat n
  have h2 : n % 10 < 10 := Nat.mod_lt _ (by decide)
  rw [h] at h1
  omega

theorem digitChar_not_space (n : Nat) : c_isspace (digitChar n) = false := by
  have h1 := digitChar_ne n ' ' (by decide)
  have h2 := digitChar_ne n '\t' (by decide)
  have h3 := digitChar_ne n '\n' (by decide)
  have h4 := digitChar_ne n '\x0b' (by decide)
  have h5 := digitChar_ne n '\x0c' (by decide)
  have h6 := digitChar_ne n '\r' (by decide)
  simp [c_isspace, h1, h2, h3, h4, h5, h6]

theorem strchr_split_mem (c : Char) :
    ∀ (l r : List Char), c ∉ l → strchr_split c (l ++ c :: r) = some (l, r) := by
  intro l
  induction l with
  | nil => intro r _; simp [strchr_split]
  | cons x xs ih =>
    intro r h
    have hx : x ≠ c := fun e => h (by simp [e])
    have hxs : c ∉ xs := fun e => h (List.mem_cons_of_mem _ e)
    simp [strchr_split, hx, ih r hxs]

theorem strchr_split_not_mem (c : Char) :
    ∀ (l : List Char), c ∉ l → strchr_split c l = none := by
  intro l
  induction l with
  | nil => intro _; simp [strchr_split]
  | cons x xs ih =>
    intro h
    have hx : x ≠ c := fun e => h (by simp [e])
    have hxs : c ∉ xs := fun e => h (List.mem_cons_of_mem _ e)
    simp [strchr_split, hx, ih hxs]

theorem scan_digits_cons_digit (c : Char) (cs : List Char) (acc n d : Nat)
    (h : digitVal c = some d) :
    scan_digits (c :: cs) acc n = scan_digits cs (acc * 10 + d) (n + 1) := by
  rw [scan_digits]; simp only [h]

theorem scan_digits_digits (ds : List Nat) :
    ∀ (rest : List Char) (acc n : Nat),
      scan_digits (ds.map digitChar ++ rest) acc n =
        scan_digits rest (ds.foldl (fun a d => a * 10 + d % 10) acc) (n + ds.length) := by
  induction ds with
  | nil => intro rest acc n; simp
  | cons d ds ih =>
    intro rest acc n
    simp only [List.map_cons, List.cons_append, List.foldl_cons, List.length_cons]
    rw [scan_digits_cons_digit _ _ _ _ _ (digitVal_digitChar d), ih]
    congr 1
    omega

theorem scan_digits_stop (c : Char) (cs : List Char) (acc n : Nat) (h : digitVal c = none) :
    scan_digits (c :: cs) acc n = (acc, n, c :: cs) := by
  simp [scan_digits, h]

theorem pad2_eq (n : Nat) : pad2 n = [n / 10, n].map digitChar := rfl

theorem pad4_eq (n : Nat) : pad4 n = [n / 1000, n / 100, n / 10, n].map digitChar := rfl

theorem scan_int_digits (ds : List Nat) (rest : List Char) (hds : ds ≠ [])
    (hrest : rest = [] ∨ ∃ c cs, rest = c :: cs ∧ digitVal c = none) :
    scan_int (ds.map digitChar ++ rest) = some ((digits_value ds : Int), rest) := by
  obtain ⟨d, ds', rfl⟩ := List.exists_cons_of_ne_nil hds
  have h1 : digitChar d ≠ '-' := digitChar_ne d '-' (by decide)
  have h2 : digitChar d ≠ '+' := digitChar_ne d '+' (by decide)
  have h3 : scan_digits ((d :: ds').map digitChar ++ rest) 0 0 =
      (digits_value (d :: ds'), (d :: ds').length, rest) := by
    rw [scan_digits_digits]
    rcases hrest with h | ⟨c, cs, h, hc⟩
    · subst h; simp [scan_digits, digits_value]
    · subst h; rw [scan_digits_stop c cs _ _ hc]; simp [digits_value]
  simp only [List.map_cons, List.cons_append] at h3 ⊢
  rw [scan_int, if_neg h1, if_neg h2, h3]
  simp

theorem scan_d_digits (ds : List Nat) (rest : List Char) (hds : ds ≠ [])
    (hrest : rest = [] ∨ ∃ c cs, rest = c :: cs ∧ digitVal c = none) :
    scan_d (ds.map digitChar ++ rest) = some ((digits_value ds : Int), rest) := by
  obtain ⟨d, ds', rfl⟩ := List.exists_cons_of_ne_nil hds
  have h : skip_space ((d :: ds').map digitChar ++ rest) = (d :: ds').map digitChar ++ rest := by
    simp [skip_space, digitChar_not_space]
  unfold scan_d
  rw [h]
  exact scan_int_digits (d :: ds') rest (by simp) hrest

theorem digits_value_pad2 (n : Nat) (h : n < 100) : digits_value [n / 10, n] = n := by
  simp [digits_value]; omega

theorem digits_value_pad4 (n : Nat) (h : n < 10000) :
    digits_value [n / 1000, n / 100, n / 10, n] = n := by
  simp [digits_value]; omega

theorem scan_d_pad2 (n : Nat) (h : n < 100) (rest : List Char)
    (hrest : rest = [] ∨ ∃ c cs, rest = c :: cs ∧ digitVal c = none) :
    scan_d (pad2 n ++ rest) = some ((n : Int), rest) := by
  rw [pad2_eq, scan_d_digits _ _ (by simp) hrest, digits_value_pad2 n h]

theorem scan_d_pad4 (n : Nat) (h : n < 10000) (rest : List Char)
    (hrest : rest = [] ∨ ∃ c cs, rest = c :: cs ∧ digitVal c = none) :
    scan_d (pad4 n ++ rest) = some ((n : Int), rest) := by
  rw [pad4_eq, scan_d_digits _ _ (by simp) hrest, digits_value_pad4 n h]

theorem sscanf_time_date_time_text (y m d h mi s : Nat) (hy : y < 10000) (hm : m < 100)
    (hd : d < 100) (hh : h < 100) (hmi : mi < 100) (hs : s < 100) :
    sscanf_time (date_time_text y m d h mi s) = ⟨6, y, m, d, h, mi, s⟩ := by
  have e1 : date_time_text y m d h mi s =
      pad4 y ++ ('-' :: (pad2 m ++ ('-' :: (pad2 d ++ ('T' :: (pad2 h ++ (':' :: (pad2 mi ++
        (':' :: (pad2 s ++ [])))))))))) := by
    simp [date_time_text]
  have hsk : skip_space (date_time_text y m d h mi s) = date_time_text y m d h mi s := by
    simp [date_time_text, pad4, skip_space, digitChar_not_space]
  have hne : date_time_text y m d h mi s ≠ [] := by simp [date_time_text, pad4]
  unfold sscanf_time
  rw [hsk]
  obtain ⟨c0, cs0, hc0⟩ := List.exists_cons_of_ne_nil hne
  rw [hc0]
  simp only []
  rw [← hc0, e1]
  rw [scan_d_pad4 y hy _ (Or.inr ⟨'-', _, rfl, by decide⟩)]
  simp only [scan_lit, if_true, Option.bind_some, Option.some_bind]
  rw [scan_d_pad2 m hm _ (Or.inr ⟨'-', _, rfl, by decide⟩)]
  simp only [scan_lit, if_true, Option.bind_some, Option.some_bind]
  rw [scan_d_pad2 d hd _ (Or.inr ⟨'T', _, rfl, by decide⟩)]
  simp only [scan_lit, if_true, Option.bind_some, Option.some_bind]
  rw [scan_d_pad2 h hh _ (Or.inr ⟨':', _, rfl, by decide⟩)]
  simp only [scan_lit, if_true, Option.bind_some, Option.some_bind]
  rw [scan_d_pad2 mi hmi _ (Or.inr ⟨':', _, rfl, by decide⟩)]
  simp only [scan_lit, if_true, Option.bind_some, Option.some_bind]
  rw [scan_d_pad2 s hs _ (Or.inl rfl)]

theorem cstr_eq (l : List Char) (h : '\x00' ∉ l) : cstr ⟨l⟩ = l := by
  unfold cstr
  simp only
  rw [List.takeWhile_eq_self_iff]
  intro x hx
  simp only [ne_eq, decide_eq_true_eq]
  intro e
  exact h (e ▸ hx)

theorem not_mem_digits (c : Char) (hc : c.toNat < 48 ∨ 57 < c.toNat) (ds : List Nat) :
    c ∉ ds.map digitChar := by
  intro h
  obtain ⟨n, _, hn⟩ := List.mem_map.mp h
  exact digitChar_ne n c hc hn

theorem not_mem_date_time_text (c : Char) (hc : c.toNat < 48 ∨ 57 < c.toNat)
    (h1 : c ≠ '-') (h2 : c ≠ 'T') (h3 : c ≠ ':') (y m d h mi s : Nat) :
    c ∉ date_time_text y m d h mi s := by
  have hd : ∀ n, ¬ c = digitChar n := fun n e => digitChar_ne n c hc e.symm
  simp [date_time_text, pad2, pad4, hd, h1, h2, h3]

theorem not_mem_offset_text (c : Char) (hc : c.toNat < 48 ∨ 57 < c.toNat)
    (h3 : c ≠ ':') (oh om : Nat) : c ∉ offset_text oh om := by
  have hd : ∀ n, ¬ c = digitChar n := fun n e => digitChar_ne n c hc e.symm
  simp [offset_text, pad2, hd, h3]

theorem not_mem_frac_text (c : Char) (hc : c.toNat < 48 ∨ 57 < c.toNat)
    (h3 : c ≠ '.') (ds : List Nat) : c ∉ frac_text ds := by
  unfold frac_text
  split
  · simp
  · simp only [List.mem_cons, not_or]
    exact ⟨h3, not_mem_digits c hc ds⟩

theorem daysInMonth_le (y m : Int) : daysInMonth y m ≤ 31 := by
  unfold daysInMonth
  split
  · split <;> decide
  · split <;> decide

theorem QDate_isValid_bounds (y m d : Nat) (h : QDate_isValid y m d = true) :
    m < 100 ∧ d < 100 := by
  simp only [QDate_isValid, Bool.and_eq_true, decide_eq_true_eq] at h
  have := daysInMonth_le y m
  omega

theorem sscanf_offset_offset_text (oh om : Nat) (hoh : oh < 100) (hom : om < 100) :
    sscanf_offset (offset_text oh om) = ((oh : Int), (om : Int)) := by
  have e : offset_text oh om = pad2 oh ++ (':' :: (pad2 om ++ [])) := by simp [offset_text]
  unfold sscanf_offset
  rw [e, scan_d_pad2 oh hoh _ (Or.inr ⟨':', _, rfl, by decide⟩)]
  simp only [scan_lit, if_true]
  rw [scan_d_pad2 om hom _ (Or.inl rfl)]

/-! ## Binary rounding -/

theorem bit_length_spec : ∀ (f n : Nat), n ≤ f →
    n < 2 ^ bit_length f n ∧ (n ≠ 0 → 2 ^ (bit_length f n - 1) ≤ n) := by
  intro f
  induction f with
  | zero =>
    intro n h
    have h0 : n = 0 := by omega
    subst h0
    simp [bit_length]
  | succ f ih =>
    intro n h
    unfold bit_length
    by_cases h0 : n = 0
    · subst h0; simp
    · rw [if_neg h0]
      have hle : n / 2 ≤ f := by omega
      obtain ⟨a, b⟩ := ih (n / 2) hle
      refine ⟨?_, fun _ => ?_⟩
      · rw [pow_succ]
        omega
      · simp only [Nat.add_sub_cancel]
        by_cases h2 : n / 2 = 0
        · have e : bit_length f (n / 2) = 0 := by
            rw [h2]
            cases f <;> simp [bit_length]
          rw [e]
          simp
          omega
        · have b2 := b h2
          have hpos : 0 < bit_length f (n / 2) := by
            by_contra hc
            have e : bit_length f (n / 2) = 0 := by omega
            rw [e] at a
            simp at a
            exact h2 a
          have e : bit_length f (n / 2) = (bit_length f (n / 2) - 1) + 1 := by omega
          rw [e, pow_succ]
          omega

theorem bits_search_spec : ∀ (steps : List Nat) (n acc : Nat), n ≠ 0 →
    acc < bits_search steps n acc ∧ 2 ^ (bits_search steps n acc - acc - 1) ≤ n := by
  intro steps
  induction steps with
  | nil =>
    intro n acc h
    simp only [bits_search, if_neg h]
    refine ⟨by omega, ?_⟩
    have e : acc + 1 - acc - 1 = 0 := by omega
    rw [e]
    simp
    omega
  | cons s steps ih =>
    intro n acc h
    unfold bits_search
    by_cases hs : n >>> s = 0
    · rw [if_pos hs]
      exact ih n acc h
    · rw [if_neg hs]
      obtain ⟨a, b⟩ := ih (n >>> s) (acc + s) hs
      refine ⟨by omega, ?_⟩
      have hsd : n >>> s = n / 2 ^ s := Nat.shiftRight_eq_div_pow n s
      rw [hsd] at a b ⊢
      have hp : 0 < 2 ^ s := Nat.two_pow_pos _
      have b2 := (Nat.le_div_iff_mul_le hp).1 b
      rw [← pow_add] at b2
      have e : bits_search steps (n / 2 ^ s) (acc + s) - (acc + s) - 1 + s =
          bits_search steps (n / 2 ^ s) (acc + s) - acc - 1 := by omega
      rw [e] at b2
      exact b2

theorem bits_search_zero : ∀ (steps : List Nat), bits_search steps 0 0 = 0 := by
  intro steps
  induction steps with
  | nil => rfl
  | cons s steps ih =>
    unfold bits_search
    simp [ih]

/-- The function bits gives the length of the binary numeral: 0 for 0, and otherwise the
number k with 2 ^ (k - 1) ≤ n < 2 ^ k. -/
theorem bits_spec (n : Nat) :
    n < 2 ^ bits n ∧ (n ≠ 0 → 2 ^ (bits n - 1) ≤ n) ∧ (n = 0 → bits n = 0) := by
  have hz : ∀ k : Nat, n >>> k = 0 → n < 2 ^ k := by
    intro k hk
    rw [Nat.shiftRight_eq_div_pow] at hk
    exact (Nat.div_eq_zero_iff (Nat.two_pow_pos _)).1 hk
  by_cases h0 : n = 0
  · subst h0
    have e : bits 0 = 0 := by
      unfold bits
      simp [bits_search_zero]
    rw [e]
    simp
  · refine ⟨?_, fun _ => ?_, fun h => absurd h h0⟩
    · unfold bits
      simp only []
      split
      · exact hz _ (by assumption)
      · split
        · exact hz _ (by assumption)
        · exact (bit_length_spec n n (Nat.le_refl _)).1
    · unfold bits
      simp only []
      split
      · have := (bits_search_spec [32, 16, 8, 4, 2, 1] n 0 h0).2
        simpa using this
      · split
        · have := (bits_search_spec [32768, 16384, 8192, 4096, 2048, 1024, 512, 256, 128, 64,
            32, 16, 8, 4, 2, 1] n 0 h0).2
          simpa using this
        · exact (bit_length_spec n n (Nat.le_refl _)).2 h0


/-- The quotient round_even gives is at most half a unit away from num / den. -/
theorem round_even_spec (num den : Nat) (h : 0 < den) :
    2 * (round_even num den * den) ≤ 2 * num + den ∧
    2 * num ≤ 2 * (round_even num den * den) + den := by
  have e := Nat.div_add_mod num den
  have hr := Nat.mod_lt num h
  have e1 : (num / den + 1) * den = den * (num / den) + den := by ring
  have e0 : num / den * den = den * (num / den) := by ring
  unfold round_even
  simp only []
  split
  · rw [e0]; omega
  · split
    · rw [e1]; omega
    · split
      · rw [e0]; omega
      · rw [e1]; omega


/-- The exponent floor_log2 gives is the integer part of the binary logarithm of
num / den: scaled by it, the quotient lies in the interval from 1 to 2, 2 excluded. -/
theorem floor_log2_spec (num den : Nat) (hn : 0 < num) (hd : 0 < den) :
    (scale2 num den (floor_log2 num den)).2 ≤ (scale2 num den (floor_log2 num den)).1 ∧
    (scale2 num den (floor_log2 num den)).1 < 2 * (scale2 num den (floor_log2 num den)).2 := by
  obtain ⟨n1, n2, _⟩ := bits_spec num
  obtain ⟨d1, d2, _⟩ := bits_spec den
  have n2 := n2 (by omega)
  have d2 := d2 (by omega)
  have hbn : 0 < bits num := by
    by_contra hc
    have e : bits num = 0 := by omega
    rw [e] at n1
    simp at n1
    omega
  have hbd : 0 < bits den := by
    by_contra hc
    have e : bits den = 0 := by omega
    rw [e] at d1
    simp at d1
    omega
  have pn : 2 ^ bits num = 2 * 2 ^ (bits num - 1) := by
    have e : bits num = (bits num - 1) + 1 := by omega
    rw [e, pow_succ]
    simp only [Nat.add_sub_cancel]
    ring
  have pd : 2 ^ bits den = 2 * 2 ^ (bits den - 1) := by
    have e : bits den = (bits den - 1) + 1 := by omega
    rw [e, pow_succ]
    simp only [Nat.add_sub_cancel]
    ring
  by_cases hcase : bits den ≤ bits num
  · obtain ⟨j, hj⟩ : ∃ j, bits num = bits den + j := ⟨bits num - bits den, by omega⟩
    have hk : (bits num : Int) - (bits den : Int) = (j : Int) := by omega
    have pj : 2 ^ bits num = 2 ^ bits den * 2 ^ j := by rw [hj, pow_add]
    have hjpos : 0 < 2 ^ j := Nat.two_pow_pos _
    unfold floor_log2
    simp only [hk]
    by_cases hq : (scale2 num den (j : Int)).2 ≤ (scale2 num den (j : Int)).1
    · rw [if_pos hq]
      refine ⟨hq, ?_⟩
      simp only [scale2, Int.natCast_nonneg, if_true, Int.toNat_ofNat] at hq ⊢
      have h1 : 2 ^ bits den * 2 ^ j ≤ 2 * den * 2 ^ j := by
        apply Nat.mul_le_mul_right
        omega
      have h2 : 2 * (den * 2 ^ j) = 2 * den * 2 ^ j := by ring
      omega
    · rw [if_neg hq]
      simp only [scale2, Int.natCast_nonneg, if_true, Int.toNat_ofNat, not_le] at hq
      by_cases hj0 : j = 0
      · subst hj0
        have hneg : ¬ (0 : Int) ≤ ((0 : Nat) : Int) - 1 := by omega
        simp only [scale2, if_neg hneg]
        have e : (-(((0 : Nat) : Int) - 1)).toNat = 1 := by rfl
        rw [e]
        simp only [pow_zero, mul_one, pow_one, Nat.add_zero] at hq hj pj ⊢
        rw [hj] at n2
        omega
      · obtain ⟨i, hi⟩ : ∃ i, j = i + 1 := ⟨j - 1, by omega⟩
        subst hi
        have hpos : (0 : Int) ≤ ((i + 1 : Nat) : Int) - 1 := by omega
        have e : (((i + 1 : Nat) : Int) - 1).toNat = i := by omega
        simp only [scale2, if_pos hpos, e]
        have pi : 2 ^ (i + 1) = 2 * 2 ^ i := by rw [pow_succ]; ring
        rw [pi] at hq pj
        have h3 : den * (2 * 2 ^ i) = 2 * (den * 2 ^ i) := by ring
        have h4 : den * 2 ^ i < 2 ^ bits den * 2 ^ i :=
          Nat.mul_lt_mul_of_pos_right d1 (Nat.two_pow_pos _)
        have h5 : 2 ^ bits den * (2 * 2 ^ i) = 2 * (2 ^ bits den * 2 ^ i) := by ring
        refine ⟨?_, ?_⟩
        · omega
        · omega
  · obtain ⟨j, hj⟩ : ∃ j, bits den = bits num + (j + 1) :=
      ⟨bits den - bits num - 1, by omega⟩
    have hk : (bits num : Int) - (bits den : Int) = -((j + 1 : Nat) : Int) := by
      rw [hj]; push_cast; ring
    have pj : 2 ^ bits den = 2 ^ bits num * 2 ^ (j + 1) := by rw [hj, pow_add]
    unfold floor_log2
    simp only [hk]
    have hneg : ¬ (0 : Int) ≤ -((j + 1 : Nat) : Int) := by omega
    have hneg2 : ¬ (0 : Int) ≤ -((j + 1 : Nat) : Int) - 1 := by omega
    have e1 : (- -((j + 1 : Nat) : Int)).toNat = j + 1 := by omega
    have e2 : (-(-((j + 1 : Nat) : Int) - 1)).toNat = j + 2 := by omega
    by_cases hq : (scale2 num den (-((j + 1 : Nat) : Int))).2 ≤
        (scale2 num den (-((j + 1 : Nat) : Int))).1
    · rw [if_pos hq]
      refine ⟨hq, ?_⟩
      simp only [scale2, if_neg hneg, e1] at hq ⊢
      have h1 : num * 2 ^ (j + 1) < 2 ^ bits num * 2 ^ (j + 1) :=
        Nat.mul_lt_mul_of_pos_right n1 (Nat.two_pow_pos _)
      omega
    · rw [if_neg hq]
      simp only [scale2, if_neg hneg, e1, not_le] at hq
      simp only [scale2, if_neg hneg2, e2]
      have p2 : 2 ^ (j + 2) = 2 * 2 ^ (j + 1) := by rw [pow_succ]; ring
      rw [p2]
      have h3 : num * (2 * 2 ^ (j + 1)) = 2 * (num * 2 ^ (j + 1)) := by ring
      have h4 : 2 ^ (bits num - 1) * 2 ^ (j + 1) ≤ num * 2 ^ (j + 1) :=
        Nat.mul_le_mul_right _ n2
      have h5 : 2 ^ bits num * 2 ^ (j + 1) = 2 * (2 ^ (bits num - 1) * 2 ^ (j + 1)) := by
        rw [pn]; ring
      refine ⟨?_, ?_⟩
      · omega
      · omega

theorem scale2_den_pos (num den : Nat) (e : Int) (hd : 0 < den) : 0 < (scale2 num den e).2 := by
  unfold scale2
  split
  · exact Nat.mul_pos hd (Nat.two_pow_pos _)
  · exact hd

/-- The value BinFormat.round gives for a positive quotient: the mantissa is the integer
nearest to the quotient scaled by the exponent, at most half a unit away from it, and
the exponent is the one of the leading bit less prec - 1, or emin when that is larger;
the result is an infinity when the mantissa with this exponent reaches 2 ^ emax. -/
theorem round_spec (f : BinFormat) (neg : Bool) (num den : Nat) (hn : 0 < num)
    (hd : 0 < den) :
    ∃ (m : Nat) (e : Int),
      e = max (floor_log2 num den - ((f.prec : Int) - 1)) f.emin ∧
      2 * (m * (scale2 num den e).2) ≤ 2 * (scale2 num den e).1 + (scale2 num den e).2 ∧
      2 * (scale2 num den e).1 ≤ 2 * (m * (scale2 num den e).2) + (scale2 num den e).2 ∧
      f.round neg num den =
        if f.emax < (bits m : Int) + e then Bin.inf neg else Bin.fin neg m e := by
  refine ⟨round_even
      (scale2 num den (max (floor_log2 num den - ((f.prec : Int) - 1)) f.emin)).1
      (scale2 num den (max (floor_log2 num den - ((f.prec : Int) - 1)) f.emin)).2,
    max (floor_log2 num den - ((f.prec : Int) - 1)) f.emin, rfl, ?_, ?_, ?_⟩
  · exact (round_even_spec _ _ (scale2_den_pos num den _ hd)).1
  · exact (round_even_spec _ _ (scale2_den_pos num den _ hd)).2
  · unfold BinFormat.round
    have h0 : ¬ (num = 0 ∨ den = 0) := by omega
    rw [if_neg h0]

theorem round_of_zero (f : BinFormat) (neg : Bool) (den : Nat) :
    f.round neg 0 den = Bin.fin neg 0 0 := by
  simp [BinFormat.round]

theorem lround_of_zero (b : Bin) (k : Nat) (h : b.nonzero = false) :
    lround (binary64.mulNat b k) = 0 := by
  cases b with
  | inf neg => simp [Bin.nonzero] at h
  | fin neg m e =>
    have hm : m = 0 := by simpa [Bin.nonzero] using h
    subst hm
    unfold BinFormat.mulNat
    simp only [Nat.zero_mul, round_of_zero]
    split <;> cases neg <;> decide

theorem frac_msecs_zero (ds : List Nat) (h0 : (frac_double ds).nonzero = false) :
    frac_msecs ds = 0 :=
  lround_of_zero _ 1000 h0

theorem frac_msecs_nil : frac_msecs [] = 0 := by decide

theorem scan_fsec_msecs_digits (ds : List Nat) (hds : ds ≠ []) :
    scan_fsec_msecs (ds.map digitChar) =
      if (frac_double ds).nonzero = true then some (frac_msecs ds) else none := by
  have h1 : scan_digits (ds.map digitChar) 0 0 = (digits_value ds, ds.length, []) := by
    have := scan_digits_digits ds [] 0 0
    simpa [scan_digits, digits_value] using this
  have hlen : ds.length ≠ 0 := by simpa using hds
  obtain ⟨k, hk⟩ := Nat.exists_eq_succ_of_ne_zero hlen
  unfold scan_fsec_msecs
  rw [h1, hk]
  simp only [scan_exponent, frac_msecs, frac_double, hk]
  simp

theorem digits_value_fold_lt :
    ∀ (ds : List Nat) (acc : Nat),
      ds.foldl (fun a d => a * 10 + d % 10) acc < (acc + 1) * 10 ^ ds.length := by
  intro ds
  induction ds with
  | nil => intro acc; simp
  | cons d ds ih =>
    intro acc
    have h := ih (acc * 10 + d % 10)
    have hd : d % 10 < 10 := Nat.mod_lt _ (by decide)
    simp only [List.foldl_cons, List.length_cons, pow_succ]
    calc List.foldl (fun a d => a * 10 + d % 10) (acc * 10 + d % 10) ds
        < (acc * 10 + d % 10 + 1) * 10 ^ ds.length := h
      _ ≤ ((acc + 1) * 10) * 10 ^ ds.length := Nat.mul_le_mul_right _ (by omega)
      _ = (acc + 1) * (10 ^ ds.length * 10) := by ring

theorem digits_value_lt (ds : List Nat) : digits_value ds < 10 ^ ds.length := by
  have := digits_value_fold_lt ds 0
  simpa [digits_value] using this

theorem frac_three_0 : ∀ n, n < 250 →
    lround (binary64.mulNat (binary64.round false (n + 0) (10 ^ 3)) 1000) =
      ((n + 0 : Nat) : Int) := by
  decide!

theorem frac_three_1 : ∀ n, n < 250 →
    lround (binary64.mulNat (binary64.round false (n + 250) (10 ^ 3)) 1000) =
      ((n + 250 : Nat) : Int) := by
  decide!

theorem frac_three_2 : ∀ n, n < 250 →
    lround (binary64.mulNat (binary64.round false (n + 500) (10 ^ 3)) 1000) =
      ((n + 500 : Nat) : Int) := by
  decide!

theorem frac_three_3 : ∀ n, n < 250 →
    lround (binary64.mulNat (binary64.round false (n + 750) (10 ^ 3)) 1000) =
      ((n + 750 : Nat) : Int) := by
  decide!

theorem frac_three (n : Nat) (h : n < 1000) :
    lround (binary64.mulNat (binary64.round false n (10 ^ 3)) 1000) = (n : Int) := by
  by_cases h0 : n < 250
  · exact frac_three_0 n h0
  · by_cases h1 : n < 500
    · have := frac_three_1 (n - 250) (by omega)
      rwa [show n - 250 + 250 = n by omega] at this
    · by_cases h2 : n < 750
      · have := frac_three_2 (n - 500) (by omega)
        rwa [show n - 500 + 500 = n by omega] at this
      · have := frac_three_3 (n - 750) (by omega)
        rwa [show n - 750 + 750 = n by omega] at this

theorem frac_two : ∀ n, n < 100 →
    lround (binary64.mulNat (binary64.round false n (10 ^ 2)) 1000) = ((n * 10 : Nat) : Int) := by
  decide!

theorem frac_one : ∀ n, n < 10 →
    lround (binary64.mulNat (binary64.round false n (10 ^ 1)) 1000) = ((n * 100 : Nat) : Int) := by
  decide!

/-- For a fraction of at most three digits the milliseconds are exact. -/
theorem frac_msecs_exact (ds : List Nat) (hl : ds.length ≤ 3) :
    frac_msecs ds = digits_value ds * 10 ^ (3 - ds.length) := by
  have hlt := digits_value_lt ds
  unfold frac_msecs frac_double
  rcases Nat.lt_or_ge ds.length 1 with h | h
  · have hz : ds = [] := List.length_eq_zero.mp (by omega)
    subst hz
    decide
  · rcases Nat.lt_or_ge ds.length 2 with h2 | h2
    · have e : ds.length = 1 := by omega
      rw [e] at hlt ⊢
      rw [frac_one _ hlt]
      push_cast
      ring
    · rcases Nat.lt_or_ge ds.length 3 with h3 | h3
      · have e : ds.length = 2 := by omega
        rw [e] at hlt ⊢
        rw [frac_two _ hlt]
        push_cast
        ring
      · have e : ds.length = 3 := by omega
        rw [e] at hlt ⊢
        rw [frac_three _ hlt]
        simp

/-- The date and time part of xml_parse_time on a text whose offset has been removed:
the fraction is cut off and rounded to milliseconds, the six fields are converted. -/
theorem xml_parse_time_fields (y m d h mi s : Nat) (ds : List Nat) (off : Int)
    (hy : y < 10000) (hdate : QDate_isValid y m d = true)
    (hh : h < 24) (hmi : mi < 60) (hs : s < 60) :
    (let q : List Char × Option Int :=
        match strchr_split '.' (date_time_text y m d h mi s ++ frac_text ds) with
        | some (before, after) => (before, scan_fsec_msecs after)
        | none => (date_time_text y m d h mi s ++ frac_text ds, none)
      let t := sscanf_time q.1
      if t.res > 0 then
        let dt := QDateTime_mk t.year t.mon t.mday t.hour t.min t.sec
        let dt := match q.2 with
          | some ms => addMSecs dt ms
          | none => dt
        addSecs dt off
      else none) = some (utc_msecs y m d h mi s + frac_msecs ds + off * 1000) := by
  obtain ⟨hm, hd⟩ := QDate_isValid_bounds y m d hdate
  have hpt : '.' ∉ date_time_text y m d h mi s :=
    not_mem_date_time_text '.' (by decide) (by decide) (by decide) (by decide) _ _ _ _ _ _
  have hscan := sscanf_time_date_time_text y m d h mi s hy hm hd (by omega) (by omega) (by omega)
  have htime : QTime_isValid (h : Int) (mi : Int) (s : Int) = true := by
    simp only [QTime_isValid, Bool.and_eq_true, decide_eq_true_eq]
    omega
  have hmk : QDateTime_mk (y : Int) m d h mi s = some (utc_msecs y m d h mi s) := by
    simp only [QDateTime_mk, hdate, htime, if_true, utc_msecs]
    congr 1
    push_cast
    ring
  by_cases hds : ds = []
  · subst hds
    have e : date_time_text y m d h mi s ++ frac_text [] = date_time_text y m d h mi s := by
      simp [frac_text]
    rw [e, strchr_split_not_mem '.' _ hpt]
    simp only [hscan, hmk]
    simp [addSecs, addMSecs, frac_msecs_nil]
  · have e : date_time_text y m d h mi s ++ frac_text ds =
        date_time_text y m d h mi s ++ '.' :: ds.map digitChar := by
      simp [frac_text, hds]
    rw [e, strchr_split_mem '.' _ _ hpt]
    simp only [hscan, hmk, scan_fsec_msecs_digits ds hds]
    by_cases h0 : (frac_double ds).nonzero = true
    · simp [h0, addSecs, addMSecs]
    · have h1 : (frac_double ds).nonzero = false := by simpa using h0
      simp [h1, addSecs, addMSecs, frac_msecs_zero ds h1]

/-- C4: for every valid calendar date (years 1 to 9999) and time of day,
xml_parse_time of the text YYYY-MM-DDTHH:MM:SSZ is the valid UTC instant built from
exactly these six fields, a whole number of seconds after the epoch (no fraction of a
second); 2020-01-02T03:04:05Z is 1577934245 seconds after the epoch. -/
theorem xml_parse_time_zulu (y m d h mi s : Nat)
    (hy : y < 10000) (hdate : QDate_isValid y m d = true)
    (hh : h < 24) (hmi : mi < 60) (hs : s < 60) :
    xml_parse_time ⟨date_time_text y m d h mi s ++ ['Z']⟩ =
      QDateTime_mk y m d h mi s ∧
    xml_parse_time ⟨date_time_text y m d h mi s ++ ['Z']⟩ =
      some (((julianDayFromDate y m d - JULIAN_DAY_FOR_EPOCH) * 86400 +
        (h * 3600 + mi * 60 + s : Nat)) * 1000) ∧
    xml_parse_time "2020-01-02T03:04:05Z" = some (1577934245 * 1000) := by
  have hz : '\x00' ∉ date_time_text y m d h mi s ++ ['Z'] := by
    have := not_mem_date_time_text '\x00' (by decide) (by decide) (by decide) (by decide)
      y m d h mi s
    simp [this]
  have hZ : 'Z' ∉ date_time_text y m d h mi s :=
    not_mem_date_time_text 'Z' (by decide) (by decide) (by decide) (by decide) _ _ _ _ _ _
  have hoff : xml_parse_offset (date_time_text y m d h mi s ++ ['Z']) =
      (date_time_text y m d h mi s, 0, 0, 1) := by
    unfold xml_parse_offset
    rw [strchr_split_mem 'Z' _ _ hZ]
  have hf := xml_parse_time_fields y m d h mi s [] 0 hy hdate hh hmi hs
  have e : date_time_text y m d h mi s ++ frac_text [] = date_time_text y m d h mi s := by
    simp [frac_text]
  rw [e] at hf
  have main : xml_parse_time ⟨date_time_text y m d h mi s ++ ['Z']⟩ =
      some (utc_msecs y m d h mi s) := by
    unfold xml_parse_time
    rw [cstr_eq _ hz, hoff]
    simp only [neg_mul, one_mul, mul_zero, neg_zero, zero_mul, sub_zero] at hf ⊢
    simpa [frac_msecs_nil] using hf
  have htime : QTime_isValid (h : Int) (mi : Int) (s : Int) = true := by
    simp only [QTime_isValid, Bool.and_eq_true, decide_eq_true_eq]
    omega
  refine ⟨?_, ?_, by decide⟩
  · rw [main]
    simp only [QDateTime_mk, hdate, htime, if_true, utc_msecs]
    congr 1
    push_cast
    ring
  · rw [main]; rfl

/-- Witness of C4 at 2020-01-02T03:04:05Z. -/
theorem xml_parse_time_zulu_witness :
    (2020 < 10000 ∧ QDate_isValid 2020 1 2 = true ∧ 3 < 24 ∧ 4 < 60 ∧ 5 < 60) ∧
    xml_parse_time ⟨date_time_text 2020 1 2 3 4 5 ++ ['Z']⟩ =
      QDateTime_mk (2020 : Nat) (1 : Nat) (2 : Nat) (3 : Nat) (4 : Nat) (5 : Nat) :=
  ⟨by decide,
   (xml_parse_time_zulu 2020 1 2 3 4 5 (by decide) (by decide) (by decide) (by decide)
     (by decide)).1⟩

/-- C5: for every valid date and time of day, an optional fraction of a second and a
two digit offset HH:MM, xml_parse_time of the text followed by +HH:MM is the instant of
the date and time fields, plus the milliseconds of the fraction, moved earlier by the
offset, and of the text followed by -HH:MM the same instant moved later by the offset.
The milliseconds of the fraction are lround of the product of the double nearest to the
fraction and 1000, which for a fraction of at most three digits is its exact number of
milliseconds; 2020-01-02T03:04:05.5+02:00 is 2020-01-02 01:04:05.500 UTC, and the
fraction .5005 gives 500 milliseconds, because the double nearest to 0.5005 is smaller
than 0.5005. -/
theorem xml_parse_time_offset (y m d h mi s : Nat) (ds : List Nat) (oh om : Nat)
    (hy : y < 10000) (hdate : QDate_isValid y m d = true)
    (hh : h < 24) (hmi : mi < 60) (hs : s < 60) (hoh : oh < 100) (hom : om < 100) :
    xml_parse_time ⟨date_time_text y m d h mi s ++ frac_text ds ++ '+' :: offset_text oh om⟩ =
      some (utc_msecs y m d h mi s + frac_msecs ds - (oh * 3600 + om * 60 : Nat) * 1000) ∧
    xml_parse_time ⟨date_time_text y m d h mi s ++ frac_text ds ++ '-' :: offset_text oh om⟩ =
      some (utc_msecs y m d h mi s + frac_msecs ds + (oh * 3600 + om * 60 : Nat) * 1000) ∧
    (ds.length ≤ 3 → frac_msecs ds = digits_value ds * 10 ^ (3 - ds.length)) ∧
    xml_parse_time "2020-01-02T03:04:05.5+02:00" = some (utc_msecs 2020 1 2 1 4 5 + 500) ∧
    xml_parse_time "2020-01-02T03:04:05.5005+02:00" =
      some (utc_msecs 2020 1 2 1 4 5 + 500) := by
  have nm : ∀ c : Char, (c.toNat < 48 ∨ 57 < c.toNat) → c ≠ '-' → c ≠ 'T' → c ≠ ':' →
      c ≠ '.' → c ∉ date_time_text y m d h mi s ++ frac_text ds := by
    intro c hc h1 h2 h3 h4
    simp only [List.mem_append, not_or]
    exact ⟨not_mem_date_time_text c hc h1 h2 h3 _ _ _ _ _ _, not_mem_frac_text c hc h4 ds⟩
  have no : ∀ c : Char, (c.toNat < 48 ∨ 57 < c.toNat) → c ≠ ':' → c ∉ offset_text oh om :=
    fun c hc h3 => not_mem_offset_text c hc h3 oh om
  have hofs := sscanf_offset_offset_text oh om hoh hom
  refine ⟨?_, ?_, frac_msecs_exact ds, by decide, by decide⟩
  · have hz : '\x00' ∉ date_time_text y m d h mi s ++ frac_text ds ++ '+' :: offset_text oh om := by
      have a := nm '\x00' (by decide) (by decide) (by decide) (by decide) (by decide)
      have b := no '\x00' (by decide) (by decide)
      simp only [List.mem_append, List.mem_cons, not_or] at a ⊢
      exact ⟨a, by decide, b⟩
    have hZ : 'Z' ∉ date_time_text y m d h mi s ++ frac_text ds ++ '+' :: offset_text oh om := by
      have a := nm 'Z' (by decide) (by decide) (by decide) (by decide) (by decide)
      have b := no 'Z' (by decide) (by decide)
      simp only [List.mem_append, List.mem_cons, not_or] at a ⊢
      exact ⟨a, by decide, b⟩
    have hP := nm '+' (by decide) (by decide) (by decide) (by decide) (by decide)
    have hoff : xml_parse_offset
        (date_time_text y m d h mi s ++ frac_text ds ++ '+' :: offset_text oh om) =
        (date_time_text y m d h mi s ++ frac_text ds, (oh : Int), (om : Int), 1) := by
      unfold xml_parse_offset
      rw [strchr_split_not_mem 'Z' _ hZ]
      simp only
      rw [strchr_split_mem '+' _ _ hP]
      simp only [hofs]
    have hf := xml_parse_time_fields y m d h mi s ds
      (-1 * (oh : Int) * 3600 - 1 * (om : Int) * 60) hy hdate hh hmi hs
    unfold xml_parse_time
    rw [cstr_eq _ hz, hoff]
    refine hf.trans ?_
    congr 1
    push_cast
    ring
  · have hz : '\x00' ∉ date_time_text y m d h mi s ++ frac_text ds ++ '-' :: offset_text oh om := by
      have a := nm '\x00' (by decide) (by decide) (by decide) (by decide) (by decide)
      have b := no '\x00' (by decide) (by decide)
      simp only [List.mem_append, List.mem_cons, not_or] at a ⊢
      exact ⟨a, by decide, b⟩
    have hZ : 'Z' ∉ date_time_text y m d h mi s ++ frac_text ds ++ '-' :: offset_text oh om := by
      have a := nm 'Z' (by decide) (by decide) (by decide) (by decide) (by decide)
      have b := no 'Z' (by decide) (by decide)
      simp only [List.mem_append, List.mem_cons, not_or] at a ⊢
      exact ⟨a, by decide, b⟩
    have hP : '+' ∉ date_time_text y m d h mi s ++ frac_text ds ++ '-' :: offset_text oh om := by
      have a := nm '+' (by decide) (by decide) (by decide) (by decide) (by decide)
      have b := no '+' (by decide) (by decide)
      simp only [List.mem_append, List.mem_cons, not_or] at a ⊢
      exact ⟨a, by decide, b⟩
    have hd : ∀ (c : Char) (n : Nat), (c.toNat < 48 ∨ 57 < c.toNat) → ¬ c = digitChar n :=
      fun c n hc e => digitChar_ne n c hc e.symm
    have hT : 'T' ∉ pad4 y ++ '-' :: pad2 m ++ '-' :: pad2 d := by
      simp [pad2, pad4, hd 'T' _ (by decide)]
    have hM : '-' ∉ pad2 h ++ ':' :: pad2 mi ++ ':' :: pad2 s ++ frac_text ds := by
      have b := not_mem_frac_text '-' (by decide) (by decide) ds
      simp [pad2, hd '-' _ (by decide), b]
    have esplit : date_time_text y m d h mi s ++ frac_text ds ++ '-' :: offset_text oh om =
        (pad4 y ++ '-' :: pad2 m ++ '-' :: pad2 d) ++ 'T' ::
          ((pad2 h ++ ':' :: pad2 mi ++ ':' :: pad2 s ++ frac_text ds) ++
            '-' :: offset_text oh om) := by
      simp [date_time_text]
    have ejoin : (pad4 y ++ '-' :: pad2 m ++ '-' :: pad2 d) ++ 'T' ::
        (pad2 h ++ ':' :: pad2 mi ++ ':' :: pad2 s ++ frac_text ds) =
        date_time_text y m d h mi s ++ frac_text ds := by
      simp [date_time_text]
    have hoff : xml_parse_offset
        (date_time_text y m d h mi s ++ frac_text ds ++ '-' :: offset_text oh om) =
        (date_time_text y m d h mi s ++ frac_text ds, (oh : Int), (om : Int), -1) := by
      unfold xml_parse_offset
      rw [strchr_split_not_mem 'Z' _ hZ]
      simp only
      rw [strchr_split_not_mem '+' _ hP]
      simp only
      rw [esplit, strchr_split_mem 'T' _ _ hT]
      simp only
      rw [strchr_split_mem '-' _ _ hM]
      simp only [hofs, ejoin]
    have hf := xml_parse_time_fields y m d h mi s ds
      (-(-1) * (oh : Int) * 3600 - (-1) * (om : Int) * 60) hy hdate hh hmi hs
    unfold xml_parse_time
    rw [cstr_eq _ hz, hoff]
    refine hf.trans ?_
    congr 1
    push_cast
    ring

/-- Witness of C5 at 2020-01-02T03:04:05.5 with the offset 02:00. -/
theorem xml_parse_time_offset_witness :
    (2020 < 10000 ∧ QDate_isValid 2020 1 2 = true ∧ 3 < 24 ∧ 4 < 60 ∧ 5 < 60 ∧
      2 < 100 ∧ 0 < 100) ∧
    xml_parse_time
      ⟨date_time_text 2020 1 2 3 4 5 ++ frac_text [5] ++ '+' :: offset_text 2 0⟩ =
      some (utc_msecs 2020 1 2 3 4 5 + frac_msecs [5] - (2 * 3600 + 0 * 60 : Nat) * 1000) :=
  ⟨by decide,
   (xml_parse_time_offset 2020 1 2 3 4 5 [5] 2 0 (by decide) (by decide) (by decide)
     (by decide) (by decide) (by decide) (by decide)).1⟩

theorem strchr_split_some (c : Char) :
    ∀ (l b a : List Char), strchr_split c l = some (b, a) → l = b ++ c :: a := by
  intro l
  induction l with
  | nil => intro b a h; simp [strchr_split] at h
  | cons x xs ih =>
    intro b a h
    rw [strchr_split] at h
    by_cases hx : x = c
    · simp only [hx, if_true, Option.some.injEq, Prod.mk.injEq] at h
      obtain ⟨rfl, rfl⟩ := h
      simp [hx]
    · simp only [hx, if_false] at h
      cases hr : strchr_split c xs with
      | none => simp [hr] at h
      | some p =>
        obtain ⟨b', a'⟩ := p
        simp only [hr, Option.some.injEq, Prod.mk.injEq] at h
        obtain ⟨rfl, rfl⟩ := h
        simp [ih b' a' hr]

theorem scan_digits_count_ge (l : List Char) :
    ∀ acc n, n ≤ (scan_digits l acc n).2.1 := by
  induction l with
  | nil => intro acc n; simp [scan_digits]
  | cons c cs ih =>
    intro acc n
    rw [scan_digits]
    cases hd : digitVal c with
    | none => simp
    | some d =>
      simp only
      have := ih (acc * 10 + d) (n + 1)
      omega

theorem scan_digits_count_zero (l r : List Char)
    (h : (scan_digits (l ++ r) 0 0).2.1 = 0) : (scan_digits l 0 0).2.1 = 0 := by
  cases l with
  | nil => simp [scan_digits]
  | cons c cs =>
    rw [List.cons_append, scan_digits] at h
    rw [scan_digits]
    cases hd : digitVal c with
    | none => simp
    | some d =>
      simp only [hd] at h
      have := scan_digits_count_ge (cs ++ r) (0 * 10 + d) (0 + 1)
      omega

theorem scan_int_none_of_append (l r : List Char) (h : scan_int (l ++ r) = none) :
    scan_int l = none := by
  cases l with
  | nil => simp [scan_int]
  | cons c cs =>
    rw [List.cons_append, scan_int] at h
    rw [scan_int]
    by_cases h1 : c = '-'
    · rw [if_pos h1] at h ⊢
      have hz : (scan_digits (cs ++ r) 0 0).2.1 = 0 := by
        rcases hh : scan_digits (cs ++ r) 0 0 with ⟨v, n, rest⟩
        rw [hh] at h
        cases n with
        | zero => rfl
        | succ k => simp at h
      have hz2 := scan_digits_count_zero (cs) r hz
      rcases hl : scan_digits (cs) 0 0 with ⟨v, n, rest⟩
      rw [hl] at hz2
      simp only at hz2
      subst hz2
      rfl
    · rw [if_neg h1] at h ⊢
      by_cases h2 : c = '+'
      · rw [if_pos h2] at h ⊢
        have hz : (scan_digits (cs ++ r) 0 0).2.1 = 0 := by
          rcases hh : scan_digits (cs ++ r) 0 0 with ⟨v, n, rest⟩
          rw [hh] at h
          cases n with
          | zero => rfl
          | succ k => simp at h
        have hz2 := scan_digits_count_zero (cs) r hz
        rcases hl : scan_digits (cs) 0 0 with ⟨v, n, rest⟩
        rw [hl] at hz2
        simp only at hz2
        subst hz2
        rfl
      · rw [if_neg h2] at h ⊢
        rw [← List.cons_append] at h
        have hz : (scan_digits ((c :: cs) ++ r) 0 0).2.1 = 0 := by
          rcases hh : scan_digits ((c :: cs) ++ r) 0 0 with ⟨v, n, rest⟩
          rw [hh] at h
          cases n with
          | zero => rfl
          | succ k => simp at h
        have hz2 := scan_digits_count_zero ((c :: cs)) r hz
        rcases hl : scan_digits ((c :: cs)) 0 0 with ⟨v, n, rest⟩
        rw [hl] at hz2
        simp only at hz2
        subst hz2
        rfl

theorem scan_d_none_of_append (l : List Char) :
    ∀ r, scan_d (l ++ r) = none → scan_d l = none := by
  induction l with
  | nil => intro r _; simp [scan_d, skip_space, scan_int]
  | cons c cs ih =>
    intro r h
    unfold scan_d at h ⊢
    rw [List.cons_append, skip_space] at h
    rw [skip_space]
    by_cases hc : c_isspace c = true
    · rw [if_pos hc] at h ⊢
      exact ih r h
    · rw [if_neg hc] at h ⊢
      exact scan_int_none_of_append (c :: cs) r h

theorem sscanf_time_res_of_none (l : List Char) (h : scan_d l = none) :
    ¬ (sscanf_time l).res > 0 := by
  unfold sscanf_time
  cases hs : skip_space l with
  | nil => simp
  | cons c cs => simp [h]

theorem xml_parse_offset_is_start (l : List Char) :
    ∃ r, l = (xml_parse_offset l).1 ++ r := by
  unfold xml_parse_offset
  cases hZ : strchr_split 'Z' l with
  | some p =>
    obtain ⟨b, a⟩ := p
    exact ⟨'Z' :: a, strchr_split_some 'Z' l b a hZ⟩
  | none =>
    cases hP : strchr_split '+' l with
    | some p =>
      obtain ⟨b, a⟩ := p
      exact ⟨'+' :: a, strchr_split_some '+' l b a hP⟩
    | none =>
      cases hT : strchr_split 'T' l with
      | none => exact ⟨[], by simp⟩
      | some p =>
        obtain ⟨bT, aT⟩ := p
        cases hM : strchr_split '-' aT with
        | none => exact ⟨[], by simp [hM]⟩
        | some q =>
          obtain ⟨b, a⟩ := q
          refine ⟨'-' :: a, ?_⟩
          have e1 := strchr_split_some 'T' l bT aT hT
          have e2 := strchr_split_some '-' aT b a hM
          simp only [hM]
          rw [e1, e2]
          simp

/-- When the text does not begin, after white space, with an optionally signed decimal
number, so that not even the first field converts, xml_parse_time returns the invalid
value; not-a-date is such a text. -/
theorem xml_parse_time_no_field (s : String) (h : scan_d (cstr s) = none) :
    xml_parse_time s = none ∧ xml_parse_time "not-a-date" = none := by
  refine ⟨?_, by decide⟩
  obtain ⟨r1, hr1⟩ := xml_parse_offset_is_start (cstr s)
  have h1 : scan_d (xml_parse_offset (cstr s)).1 = none := by
    rw [hr1] at h
    exact scan_d_none_of_append _ r1 h
  unfold xml_parse_time
  simp only
  cases hp : strchr_split '.' (xml_parse_offset (cstr s)).1 with
  | none =>
    simp only
    rw [if_neg (sscanf_time_res_of_none _ h1)]
  | some p =>
    obtain ⟨b, a⟩ := p
    simp only
    have e := strchr_split_some '.' _ b a hp
    have h2 : scan_d b = none := by
      rw [e] at h1
      exact scan_d_none_of_append b _ h1
    rw [if_neg (sscanf_time_res_of_none _ h2)]

/-- The text not-a-date has no first field. -/
theorem xml_parse_time_no_field_witness :
    scan_d (cstr "not-a-date") = none ∧ xml_parse_time "not-a-date" = none :=
  ⟨by decide, (xml_parse_time_no_field "not-a-date" (by decide)).1⟩

theorem upd_length {α : Type} (f : α → α) :
    ∀ (l : List α) (i : Nat), (upd l i f).length = l.length := by
  intro l
  induction l with
  | nil => intro i; simp [upd]
  | cons a as ih =>
    intro i
    cases i with
    | zero => simp [upd]
    | succ k => simp [upd, ih k]

theorem upd_get_same {α : Type} (f : α → α) :
    ∀ (l : List α) (i : Nat), i < l.length → (upd l i f)[i]? = (l[i]?).map f := by
  intro l
  induction l with
  | nil => intro i h; simp at h
  | cons a as ih =>
    intro i h
    cases i with
    | zero => simp [upd]
    | succ k =>
      simp only [upd, List.getElem?_cons_succ]
      exact ih k (by simpa using h)

theorem upd_get_other {α : Type} (f : α → α) :
    ∀ (l : List α) (i j : Nat), i ≠ j → (upd l i f)[j]? = l[j]? := by
  intro l
  induction l with
  | nil => intro i j _; simp [upd]
  | cons a as ih =>
    intro i j h
    cases i with
    | zero =>
      cases j with
      | zero => exact absurd rfl h
      | succ m => simp [upd]
    | succ k =>
      cases j with
      | zero => simp [upd]
      | succ m =>
        simp only [upd, List.getElem?_cons_succ]
        exact ih k m (by omega)

/-! ## Fix quality -/

theorem gpx_end_fix (ext : Externals) (s : State) (i : Nat)
    (hw : s.wpt_tmp = some i)
    (ht : get_tag hash s.current_tag = (tt_wpttype_fix, false)) :
    (gpx_end ext s).wpts =
      upd s.wpts i (fun w => { w with fix := fix_of_text (trimmed s.cdatastr) }) := by
  unfold gpx_end
  simp only [ht]
  simp [with_wpt, hw]

/-- C9 (counterexample): the text of a fix element that is the literal 2d preceded by a
blank is not one of the five literals, and gpx_end still stores the fix value 2d, not
unknown. -/
theorem fix_text_with_blank :
    " 2d" ∉ ["none", "2d", "3d", "dgps", "pps"] ∧
    ((gpx_end Externals.fixed
        { current_tag := "/gpx/wpt/fix", cdatastr := " 2d", wpts := [{}],
          wpt_tmp := some 0 }).wpts.map (fun w => w.fix)) = [fix_2d] := by
  decide

/-- C9 (amended): when a fix element ends, gpx_end trims its text; if the trimmed text is
one of the five literals none, 2d, 3d, dgps, pps, gpx_write_common_acc writes for the
point a fix element with exactly this literal; for every text whose trimmed form is not
one of the five (a different letter case included) the fix is unknown and no fix
element is written. -/
theorem fix_round_trip (ext : Externals) (s : State) (i : Nat)
    (hi : i < s.wpts.length) (hw : s.wpt_tmp = some i)
    (ht : get_tag hash s.current_tag = (tt_wpttype_fix, false)) :
    (trimmed s.cdatastr ∈ ["none", "2d", "3d", "dgps", "pps"] →
      writeTextElement "fix" (trimmed s.cdatastr) <+:
        gpx_write_common_acc ((gpx_end ext s).wpts[i]?.getD default)) ∧
    (trimmed s.cdatastr ∉ ["none", "2d", "3d", "dgps", "pps"] →
      ((gpx_end ext s).wpts[i]?.getD default).fix = fix_unknown ∧
      WEvent.StartElement "fix" ∉
        gpx_write_common_acc ((gpx_end ext s).wpts[i]?.getD default)) ∧
    fix_of_text "2D" = fix_unknown ∧ fix_of_text "None" = fix_unknown := by
  have hget : (gpx_end ext s).wpts[i]?.getD default =
      { (s.wpts[i]?.getD default) with fix := fix_of_text (trimmed s.cdatastr) } := by
    rw [gpx_end_fix ext s i hw ht, upd_get_same _ _ _ hi]
    have : s.wpts[i]? = some (s.wpts[i]) := by simp [hi]
    simp [this]
  rw [hget]
  refine ⟨?_, ?_, by decide, by decide⟩
  · intro hmem
    simp only [List.mem_cons, List.mem_singleton, List.not_mem_nil, or_false] at hmem
    rcases hmem with h | h | h | h | h <;>
      (rw [h]; simp only [gpx_write_common_acc, fix_of_text]
       exact ⟨_, by simp [List.append_assoc]; rfl⟩)
  · intro hnot
    simp only [List.mem_cons, List.mem_singleton, List.not_mem_nil, or_false, not_or] at hnot
    obtain ⟨h1, h2, h3, h4, h5⟩ := hnot
    have hf : fix_of_text (trimmed s.cdatastr) = fix_unknown := by
      simp [fix_of_text, h1, h2, h3, h4, h5]
    refine ⟨hf, ?_⟩
    simp only [gpx_write_common_acc, hf, writeTextElement]
    intro hmem
    simp only [List.nil_append, List.mem_append] at hmem
    rcases hmem with ((h | h) | h) | h <;>
      (split at h <;> simp at h)

/-! ## Ratings -/

theorem isSpace_digitChar (n : Nat) : isSpace (digitChar n) = false := by
  have h : ∀ k, k < 10 → isSpace (Char.ofNat (48 + k)) = false := by decide
  exact h (n % 10) (Nat.mod_lt _ (by decide))

theorem dropSpace_eq (l : List Char) (h : ∀ c ∈ l, isSpace c = false) : dropSpace l = l := by
  cases l with
  | nil => rfl
  | cons c cs => simp [dropSpace, h c (List.mem_cons_self _ _)]

theorem trimmed_eq (l : List Char) (h : ∀ c ∈ l, isSpace c = false) : trimmed ⟨l⟩ = ⟨l⟩ := by
  unfold trimmed
  simp only
  rw [dropSpace_eq l h, dropSpace_eq l.reverse (fun c hc => h c (List.mem_reverse.mp hc))]
  simp

theorem no_space_decimal (ip fp : List Nat) :
    ∀ c ∈ ip.map digitChar ++ frac_text fp, isSpace c = false := by
  intro c hc
  rw [List.mem_append] at hc
  rcases hc with h | h
  · obtain ⟨n, _, rfl⟩ := List.mem_map.mp h
    exact isSpace_digitChar n
  · unfold frac_text at h
    split at h
    · simp at h
    · rcases List.mem_cons.mp h with h | h
      · subst h; decide
      · obtain ⟨n, _, rfl⟩ := List.mem_map.mp h
        exact isSpace_digitChar n

theorem digits_value_append (ip fp : List Nat) :
    fp.foldl (fun a d => a * 10 + d % 10) (digits_value ip) = digits_value (ip ++ fp) := by
  simp [digits_value, List.foldl_append]

theorem QString_toDouble_decimal (ip fp : List Nat) (hip : ip ≠ []) :
    QString_toDouble ⟨ip.map digitChar ++ frac_text fp⟩ =
      ⟨(digits_value (ip ++ fp) : Int), fp.length⟩ := by
  obtain ⟨d, ds, rfl⟩ := List.exists_cons_of_ne_nil hip
  have h1 : digitChar d ≠ '-' := digitChar_ne d '-' (by decide)
  have h2 : digitChar d ≠ '+' := digitChar_ne d '+' (by decide)
  unfold QString_toDouble
  rw [trimmed_eq _ (no_space_decimal (d :: ds) fp)]
  have hsign : scan_sign ((d :: ds).map digitChar ++ frac_text fp) =
      (false, (d :: ds).map digitChar ++ frac_text fp) := by
    simp [scan_sign, h1, h2]
  simp only [hsign]
  rw [scan_digits_digits]
  by_cases hfp : fp = []
  · subst hfp
    simp [frac_text, scan_digits, digits_value]
  · have e : frac_text fp = '.' :: (fp.map digitChar ++ []) := by simp [frac_text, hfp]
    rw [e, scan_digits]
    have hp : digitVal '.' = none := by decide
    simp only [hp]
    rw [scan_digits_digits]
    have hl : fp.length ≠ 0 := by simpa using hfp
    have := digits_value_append (d :: ds) fp
    simp only [digits_value] at this
    simp [scan_digits, digits_value, hl, this]

theorem gpx_end_rating (ext : Externals) (s : State) (i : Nat)
    (hi : i < s.wpts.length) (hw : s.wpt_tmp = some i) :
    (get_tag hash s.current_tag = (tt_cache_difficulty, true) →
      (((gpx_end ext s).wpts[i]?.getD default).gc_data.getD {}).diff =
        float_times_ten (QString_toDouble (trimmed s.cdatastr))) ∧
    (get_tag hash s.current_tag = (tt_cache_terrain, true) →
      (((gpx_end ext s).wpts[i]?.getD default).gc_data.getD {}).terr =
        float_times_ten (QString_toDouble (trimmed s.cdatastr))) := by
  have hsome : s.wpts[i]? = some (s.wpts[i]) := by simp [hi]
  constructor
  · intro ht
    unfold gpx_end
    simp only [ht]
    simp [with_wpt, hw, end_something_else, set_gc]
    split <;> simp [upd_get_same _ _ _ hi, hsome, set_gc]
  · intro ht
    unfold gpx_end
    simp only [ht]
    simp [with_wpt, hw, end_something_else, set_gc]
    split <;> simp [upd_get_same _ _ _ hi, hsome, set_gc]

theorem rating_one_0 : ∀ n : Nat, n < 250 →
    float_times_ten ⟨((n + 0 : Nat) : Int), 1⟩ = ((n + 0 : Nat) : Int) := by
  decide!

theorem rating_one_1 : ∀ n : Nat, n < 250 →
    float_times_ten ⟨((n + 250 : Nat) : Int), 1⟩ = ((n + 250 : Nat) : Int) := by
  decide!

theorem rating_one_2 : ∀ n : Nat, n < 250 →
    float_times_ten ⟨((n + 500 : Nat) : Int), 1⟩ = ((n + 500 : Nat) : Int) := by
  decide!

theorem rating_one_3 : ∀ n : Nat, n < 250 →
    float_times_ten ⟨((n + 750 : Nat) : Int), 1⟩ = ((n + 750 : Nat) : Int) := by
  decide!

theorem rating_one (n : Nat) (h : n < 1000) :
    float_times_ten ⟨(n : Int), 1⟩ = (n : Int) := by
  by_cases h0 : n < 250
  · exact rating_one_0 n h0
  · by_cases h1 : n < 500
    · have := rating_one_1 (n - 250) (by omega)
      rwa [show n - 250 + 250 = n by omega] at this
    · by_cases h2 : n < 750
      · have := rating_one_2 (n - 500) (by omega)
        rwa [show n - 500 + 500 = n by omega] at this
      · have := rating_one_3 (n - 750) (by omega)
        rwa [show n - 750 + 750 = n by omega] at this

theorem rating_zero : ∀ n : Nat, n < 100 →
    float_times_ten ⟨(n : Int), 0⟩ = ((n * 10 : Nat) : Int) := by
  decide!

/-- C8 (counterexample): for the text 0.375 the stored difficulty is 3, while 0.375
times ten, rounded to the nearest integer, is 4. -/
theorem difficulty_is_truncated :
    ((gpx_end Externals.fixed
        { current_tag := "/gpx/wpt/groundspeak:cache/groundspeak:difficulty",
          cdatastr := "0.375", wpts := [{}], wpt_tmp := some 0 }).wpts.map
      (fun w => (w.gc_data.getD {}).diff)) = [3] ∧
    Dbl.round ((QString_toDouble "0.375").mulInt 10) = 4 := by
  decide

/-- C8 (amended): for every decimal text (digits, optionally a point and more digits)
below 100000000 given as the content of a difficulty or terrain element, the stored
rating is what the C code computes in float: the double nearest to the text is rounded
to a float, multiplied by ten in float, and the fraction of the product is cut off.
There is no rounding to the nearest integer: 0.375 gives 3. Because of the rounding to
float the result is not always the integer part of ten times the text either:
4.99999999 gives 50 and 1048576.3 gives 10485762. For a text below 100 with at most one
digit after the point, which covers the ratings 1 to 5 in steps of 0.5, the stored
rating is exactly ten times the value, as 3.5 gives 35. -/
theorem rating_times_ten (ext : Externals) (s : State) (i : Nat) (ip fp : List Nat)
    (hi : i < s.wpts.length) (hw : s.wpt_tmp = some i) (hip : ip ≠ [])
    (hc : s.cdatastr = ⟨ip.map digitChar ++ frac_text fp⟩)
    (hr : digits_value (ip ++ fp) < 10 ^ (fp.length + 8)) :
    (get_tag hash s.current_tag = (tt_cache_difficulty, true) →
      (((gpx_end ext s).wpts[i]?.getD default).gc_data.getD {}).diff =
        float_times_ten ⟨(digits_value (ip ++ fp) : Int), fp.length⟩) ∧
    (get_tag hash s.current_tag = (tt_cache_terrain, true) →
      (((gpx_end ext s).wpts[i]?.getD default).gc_data.getD {}).terr =
        float_times_ten ⟨(digits_value (ip ++ fp) : Int), fp.length⟩) ∧
    (fp.length ≤ 1 → digits_value (ip ++ fp) < 10 ^ (fp.length + 2) →
      float_times_ten ⟨(digits_value (ip ++ fp) : Int), fp.length⟩ =
        ((digits_value (ip ++ fp) * 10 / 10 ^ fp.length : Nat) : Int) ∧
      (digits_value (ip ++ fp) * 10 / 10 ^ fp.length) * 10 ^ fp.length =
        digits_value (ip ++ fp) * 10) ∧
    float_times_ten (QString_toDouble "3.5") = 35 ∧
    float_times_ten (QString_toDouble "0.375") = 3 ∧
    float_times_ten (QString_toDouble "4.99999999") = 50 ∧
    float_times_ten (QString_toDouble "1048576.3") = 10485762 := by
  have hg := gpx_end_rating ext s i hi hw
  have hv : float_times_ten (QString_toDouble (trimmed s.cdatastr)) =
      float_times_ten ⟨(digits_value (ip ++ fp) : Int), fp.length⟩ := by
    rw [hc, trimmed_eq _ (no_space_decimal ip fp), QString_toDouble_decimal ip fp hip]
  refine ⟨fun ht => (hg.1 ht).trans hv, fun ht => (hg.2 ht).trans hv, ?_, by decide,
    by decide, by decide, by decide⟩
  intro hlen hlt
  have h01 : fp.length = 0 ∨ fp.length = 1 := by omega
  rcases h01 with h | h
  · rw [h] at hlt ⊢
    rw [rating_zero _ (by simpa using hlt)]
    simp
  · rw [h] at hlt ⊢
    rw [rating_one _ (by simpa using hlt)]
    simp only [pow_one]
    have e : digits_value (ip ++ fp) * 10 / 10 = digits_value (ip ++ fp) :=
      Nat.mul_div_cancel _ (by decide)
    rw [e]
    exact ⟨rfl, rfl⟩

/-! ## The arena of preserved nodes -/

theorem getTag_append_left (A B : List xml_tag) (i : Nat) (h : i < A.length) :
    getTag (A ++ B) i = getTag A i := by
  simp [getTag, List.getElem?_append_left h]

theorem getTag_append_mid (A : List xml_tag) (x : xml_tag) (B : List xml_tag) :
    getTag (A ++ x :: B) A.length = x := by
  have h : (A ++ x :: B)[A.length]? = some x := by
    rw [List.getElem?_append_right (Nat.le_refl _)]
    simp
  simp [getTag, h]

theorem upd_append_mid {α : Type} (f : α → α) (x : α) (B : List α) :
    ∀ A : List α, upd (A ++ x :: B) A.length f = A ++ f x :: B := by
  intro A
  induction A with
  | nil => simp [upd]
  | cons a as ih => simp [upd, ih]

theorem SibChain_le (A : List xml_tag) (k l : Nat) (h : SibChain A k l) : k ≤ l := by
  induction h with
  | refl l => exact Nat.le_refl l
  | step k k' l _ _ hlt _ ih => omega

theorem SibChain_append (A C : List xml_tag) (k l : Nat) (h : SibChain A k l) :
    SibChain (A ++ C) k l := by
  induction h with
  | refl l => exact SibChain.refl l
  | step k k' l hk hs hlt _ ih =>
    refine SibChain.step k k' l ?_ ?_ hlt ih
    · simp; omega
    · rw [getTag_append_left A C k hk]; exact hs

theorem SibChain_extend (A : List xml_tag) (x : xml_tag) (B : List xml_tag) (k n : Nat)
    (h : SibChain A k A.length) (hx : x.sibling = some n) (hn : A.length < n) :
    SibChain (A ++ x :: B) k n := by
  generalize hl : A.length = l at h
  induction h with
  | refl l =>
    subst hl
    refine SibChain.step A.length n n ?_ ?_ hn (SibChain.refl n)
    · simp
    · rw [getTag_append_mid]; exact hx
  | step k k' l hk hs hlt _ ih =>
    refine SibChain.step k k' n ?_ ?_ hlt (ih hl)
    · simp; omega
    · rw [getTag_append_left A _ k hk]; exact hs

theorem last_sibling_of_chain (A : List xml_tag) (x : xml_tag) (B : List xml_tag)
    (k : Nat) (h : SibChain A k A.length) (hx : x.sibling = none) :
    ∀ fuel, A.length - k < fuel → last_sibling (A ++ x :: B) fuel k = A.length := by
  generalize hl : A.length = l at h
  induction h with
  | refl l =>
    subst hl
    intro fuel hf
    cases fuel with
    | zero => omega
    | succ f => simp [last_sibling, getTag_append_mid, hx]
  | step k k' l hk hs hlt hch ih =>
    intro fuel hf
    have hle := SibChain_le A k' l hch
    cases fuel with
    | zero => omega
    | succ f =>
      rw [last_sibling, getTag_append_left A _ k hk, hs]
      exact ih hl f (by omega)

theorem last_sibling_attached (A : List xml_tag) (x : xml_tag) (B : List xml_tag)
    (k : Nat) (h : SibChain A k A.length) (hx : x.sibling = none) :
    last_sibling (A ++ x :: B) (A ++ x :: B).length k = A.length := by
  apply last_sibling_of_chain A x B k h hx
  simp
  omega

/-! ## Reading preserved content -/

theorem core_core (s : State) (a b : String) (c : Option Nat) (d : List xml_tag)
    (a' b' : String) (c' : Option Nat) (d' : List xml_tag) :
    (s.core a b c d).core a' b' c' d' = s.core a' b' c' d' := rfl

theorem core_eta (s : State) : s.core s.current_tag s.cdatastr s.cur_tag s.tags = s := rfl

theorem chop_append (path name : String) :
    chop (path ++ "/" ++ name) (name.length + 1) = path := by
  cases path with
  | mk p =>
    cases name with
    | mk n =>
      simp only [chop, String.length]
      have e : (({ data := p } : String) ++ "/" ++ { data := n }).data = p ++ ('/' :: n) := by
        simp [String.data_append]
      rw [e]
      congr 1
      have : (p ++ '/' :: n).length - (n.length + 1) = p.length := by
        simp
      rw [this]
      simp

theorem string_append_empty (a : String) : a ++ "" = a := by
  cases a with
  | mk p => simp [String.ext_iff, String.data_append]

theorem string_empty_append (a : String) : "" ++ a = a := by
  cases a with
  | mk p => simp [String.ext_iff, String.data_append]

theorem string_append_assoc (a b c : String) : a ++ b ++ c = a ++ (b ++ c) := by
  simp [String.ext_iff, String.data_append]

theorem read_start_attached (ext : Externals) (s : State) (p : FsPtr) (m : Attach)
    (path cd : String) (c : Nat) (tags A : List xml_tag) (x : xml_tag) (B : List xml_tag)
    (name : String) (attr : List Attr) (ns : List NsDecl)
    (hfs : s.fs_ptr = some p) (hat : Attached m tags A x B c)
    (hu : (get_tag hash (path ++ "/" ++ name)).1 = tt_unknown) :
    gpx_read_token ext (s.core path cd (some c) tags) (Token.StartElement name attr ns) =
      s.core (path ++ "/" ++ name) "" (some tags.length)
        (A ++ m.setPtr x (some tags.length) :: B ++
          [fresh_tag name (tag_attributes attr ns) (some c)]) := by
  obtain ⟨htags, hptr, hm⟩ := hat
  cases m with
  | child =>
    obtain ⟨hc, hB⟩ := hm
    subst hB
    have hx : (getTag tags c).child = none := by
      rw [htags, hc, getTag_append_mid]; exact hptr
    have hupd : ∀ v, upd tags c (fun t => { t with child := v }) =
        A ++ [{ x with child := v }] := by
      intro v; rw [hc, htags, upd_append_mid]
    simp only [gpx_read_token, gpx_start, State.core, hu, if_true, start_something_else, hfs,
      hx, hupd, Attach.setPtr, fresh_tag]
  | sibling =>
    obtain ⟨hc, hpar, k, hk, hch⟩ := hm
    have hx : (getTag tags c).child = some k := by
      rw [htags, getTag_append_left A _ c hc]; exact hk
    have hl : last_sibling tags tags.length k = A.length := by
      rw [htags]; exact last_sibling_attached A x B k hch hptr
    have hp : (getTag tags A.length).parent = some c := by
      rw [htags, getTag_append_mid]; exact hpar
    have hupd : ∀ v, upd tags A.length (fun t => { t with sibling := v }) =
        A ++ { x with sibling := v } :: B := by
      intro v; rw [htags, upd_append_mid]
    simp only [gpx_read_token, gpx_start, State.core, hu, if_true, start_something_else, hfs,
      hx, hl, hp, hupd, Attach.setPtr, fresh_tag]

theorem read_cdata_attached (ext : Externals) (s : State) (m : Attach)
    (path cd : String) (c : Nat) (tags A : List xml_tag) (x : xml_tag) (B : List xml_tag)
    (t : String) (hat : Attached m tags A x B c) :
    gpx_read_token ext (s.core path cd (some c) tags) (Token.Characters t) =
      s.core path (cd ++ t) (some c) (A ++ m.setText x (trimmed (cd ++ t)) :: B) := by
  obtain ⟨htags, hptr, hm⟩ := hat
  cases m with
  | child =>
    obtain ⟨hc, hB⟩ := hm
    subst hB
    have hx : (getTag tags c).child = none := by
      rw [htags, hc, getTag_append_mid]; exact hptr
    have hupd : ∀ v, upd tags c (fun u => { u with cdata := v }) =
        A ++ [{ x with cdata := v }] := by
      intro v; rw [hc, htags, upd_append_mid]
    simp only [gpx_read_token, gpx_cdata, State.core, hx, hupd, Attach.setText]
  | sibling =>
    obtain ⟨hc, hpar, k, hk, hch⟩ := hm
    have hx : (getTag tags c).child = some k := by
      rw [htags, getTag_append_left A _ c hc]; exact hk
    have hl : last_sibling tags tags.length k = A.length := by
      rw [htags]; exact last_sibling_attached A x B k hch hptr
    have hupd : ∀ v, upd tags A.length (fun u => { u with parentcdata := v }) =
        A ++ { x with parentcdata := v } :: B := by
      intro v; rw [htags, upd_append_mid]
    simp only [gpx_read_token, gpx_cdata, State.core, hx, hl, hupd, Attach.setText]

theorem read_end_unknown (ext : Externals) (s : State) (path name cd : String) (n : Nat)
    (tags : List xml_tag) (hu : (get_tag hash (path ++ "/" ++ name)).1 = tt_unknown) :
    gpx_read_token ext (s.core (path ++ "/" ++ name) cd (some n) tags)
        (Token.EndElement name) =
      s.core path "" (getTag tags n).parent tags := by
  simp only [gpx_read_token, gpx_end, State.core, hu, if_true, end_something_else, chop_append]

theorem setText_self (m : Attach) (x : xml_tag) (v : String) (h : m.text x = v) :
    m.setText x v = x := by
  cases m <;> (subst h; rfl)

theorem setPtr_self (m : Attach) (x : xml_tag) (v : Option Nat) (h : m.ptr x = v) :
    m.setPtr x v = x := by
  cases m <;> (subst h; rfl)

theorem setText_setText (m : Attach) (x : xml_tag) (u v : String) :
    m.setText (m.setText x u) v = m.setText x v := by
  cases m <;> rfl

theorem ptr_setText (m : Attach) (x : xml_tag) (v : String) :
    m.ptr (m.setText x v) = m.ptr x := by
  cases m <;> rfl

theorem text_setText (m : Attach) (x : xml_tag) (v : String) :
    m.text (m.setText x v) = v := by
  cases m <;> rfl

theorem parent_setText (m : Attach) (x : xml_tag) (v : String) :
    (m.setText x v).parent = x.parent := by
  cases m <;> rfl

theorem Attached_setText (m : Attach) (tags A : List xml_tag) (x : xml_tag)
    (B : List xml_tag) (c : Nat) (v : String) (h : Attached m tags A x B c) :
    Attached m (A ++ m.setText x v :: B) A (m.setText x v) B c := by
  obtain ⟨_, hptr, hm⟩ := h
  refine ⟨rfl, by rw [ptr_setText]; exact hptr, ?_⟩
  cases m with
  | child => exact hm
  | sibling =>
    obtain ⟨hc, hpar, hk⟩ := hm
    exact ⟨hc, by rw [parent_setText]; exact hpar, hk⟩

theorem Attached_length (m : Attach) (tags A : List xml_tag) (x : xml_tag)
    (B : List xml_tag) (c : Nat) (h : Attached m tags A x B c) :
    tags.length = A.length + 1 + B.length := by
  rw [h.1]; simp; omega

theorem layout_length (F : Shape) :
    ∀ (base : Nat) (par : Option Nat), (F.layout base par).length = F.size := by
  induction F with
  | nil => intro base par; rfl
  | node tagname attributes cdata child parentcdata sibling ihc ihs =>
    intro base par
    simp [Shape.layout, Shape.size, ihc, ihs]
    omega

theorem gpx_read_start (ext : Externals) (s : State) (name : String) (attr : List Attr)
    (ns : List NsDecl) (ts : List Token) :
    gpx_read ext s (Token.StartElement name attr ns :: ts) =
      gpx_read ext (gpx_read_token ext s (Token.StartElement name attr ns)) ts := rfl

theorem gpx_read_end (ext : Externals) (s : State) (name : String) (ts : List Token) :
    gpx_read ext s (Token.EndElement name :: ts) =
      gpx_read ext (gpx_read_token ext s (Token.EndElement name)) ts := rfl

theorem gpx_read_characters (ext : Externals) (s : State) (t : String) (ts : List Token) :
    gpx_read ext s (Token.Characters t :: ts) =
      gpx_read ext (gpx_read_token ext s (Token.Characters t)) ts := rfl

theorem gpx_read_content_append (ext : Externals) :
    ∀ (b : Content) (s : State) (ts : List Token),
      gpx_read ext s (b.tokens ++ ts) = gpx_read ext (gpx_read ext s b.tokens) ts := by
  intro b
  induction b with
  | nil => intro s ts; simp [Content.tokens, gpx_read]
  | text t rest ih =>
    intro s ts
    rw [Content.tokens, List.cons_append, gpx_read_characters, gpx_read_characters]
    exact ih _ ts
  | elem name attr ns body rest ihb ihr =>
    intro s ts
    rw [Content.tokens, List.cons_append, gpx_read_start, gpx_read_start,
      List.append_assoc, ihb, ihb, List.cons_append, gpx_read_end, gpx_read_end]
    exact ihr _ ts

theorem trimmed_empty : trimmed "" = "" := by decide

/-- Reading the content of an open preserved node: the arena grows by the nodes of the
content in document order, linked at the attachment point. -/
theorem read_content_attached (ext : Externals) :
    ∀ (b : Content) (s : State) (p : FsPtr) (m : Attach) (path cd : String) (c : Nat)
      (tags A : List xml_tag) (x : xml_tag) (B : List xml_tag),
      s.fs_ptr = some p → Attached m tags A x B c → m.text x = trimmed cd →
      AllUnknown path b = true →
      gpx_read ext (s.core path cd (some c) tags) b.tokens =
        s.core path (tail_text cd b) (some c)
          (A ++ m.setPtr (m.setText x (trimmed (cd ++ leading_text b)))
              ((shape_of b).ptr tags.length) :: B ++
            (shape_of b).layout tags.length (some c)) := by
  intro b
  induction b with
  | nil =>
    intro s p m path cd c tags A x B _ hat htext _
    simp only [Content.tokens, gpx_read, tail_text, leading_text, shape_of, Shape.ptr,
      Shape.layout, string_append_empty, List.append_nil]
    rw [setText_self m x _ htext, setPtr_self m x none hat.2.1, ← hat.1]
  | text t rest ih =>
    intro s p m path cd c tags A x B hfs hat htext hu
    simp only [Content.tokens, gpx_read]
    rw [read_cdata_attached ext s m path cd c tags A x B t hat]
    have hat1 := Attached_setText m tags A x B c (trimmed (cd ++ t)) hat
    have hlen : (A ++ m.setText x (trimmed (cd ++ t)) :: B).length = tags.length := by
      rw [Attached_length m tags A x B c hat]; simp; omega
    rw [ih s p m path (cd ++ t) c _ A _ B hfs hat1 (text_setText m x _)
      (by simpa [AllUnknown] using hu)]
    simp only [tail_text, leading_text, shape_of, setText_setText, hlen, string_append_assoc]
  | elem name attr ns body rest ihb ihr =>
    intro s p m path cd c tags A x B hfs hat htext hu
    simp only [AllUnknown, Bool.and_eq_true, decide_eq_true_eq] at hu
    obtain ⟨⟨hu1, hu2⟩, hu3⟩ := hu
    have hlen := Attached_length m tags A x B c hat
    rw [Content.tokens, gpx_read_start,
      read_start_attached ext s p m path cd c tags A x B name attr ns hfs hat hu1,
      gpx_read_content_append]
    have hA1 : (A ++ m.setPtr x (some tags.length) :: B).length = tags.length := by
      rw [hlen]; simp; omega
    generalize hA1def : A ++ m.setPtr x (some tags.length) :: B = A1 at hA1 ⊢
    generalize hNdef : fresh_tag name (tag_attributes attr ns) (some c) = N
    have hNc : N.child = none := by rw [← hNdef]; rfl
    have hNs : N.sibling = none := by rw [← hNdef]; rfl
    have hNp : N.parent = some c := by rw [← hNdef]; rfl
    have hNt : N.cdata = "" := by rw [← hNdef]; rfl
    have hNpt : N.parentcdata = "" := by rw [← hNdef]; rfl
    have hNn : N.tagname = name := by rw [← hNdef]; rfl
    have hNa : N.attributes = tag_attributes attr ns := by rw [← hNdef]; rfl
    -- the content of the new node
    have hatb : Attached Attach.child (A1 ++ [N]) A1 N [] tags.length :=
      ⟨rfl, hNc, hA1.symm, rfl⟩
    rw [ihb s p Attach.child (path ++ "/" ++ name) "" tags.length (A1 ++ [N]) A1 N [] hfs hatb
      (by simp [Attach.text, trimmed_empty, hNt]) hu2]
    have hl1 : (A1 ++ [N]).length = tags.length + 1 := by simp [hA1]
    rw [hl1, gpx_read_end, read_end_unknown ext s path name _ _ _ hu1]
    generalize hN1def : Attach.child.setPtr
      (Attach.child.setText N (trimmed ("" ++ leading_text body)))
      ((shape_of body).ptr (tags.length + 1)) = N1
    have hN1s : N1.sibling = none := by rw [← hN1def]; exact hNs
    have hN1p : N1.parent = some c := by rw [← hN1def]; exact hNp
    have hN1pt : N1.parentcdata = "" := by rw [← hN1def]; exact hNpt
    have hpar : (getTag (A1 ++ N1 :: [] ++
        (shape_of body).layout (tags.length + 1) (some tags.length)) tags.length).parent =
        some c := by
      rw [List.append_assoc, List.cons_append, List.nil_append, ← hA1, getTag_append_mid]
      exact hN1p
    rw [hpar]
    -- the content that follows the new node
    have hats : Attached Attach.sibling
        (A1 ++ N1 :: [] ++ (shape_of body).layout (tags.length + 1) (some tags.length))
        A1 N1 ((shape_of body).layout (tags.length + 1) (some tags.length)) c := by
      refine ⟨by simp, hN1s, ?_, hN1p, ?_⟩
      · obtain ⟨_, _, hm⟩ := hat
        cases m with
        | child => omega
        | sibling => omega
      · obtain ⟨htags, hptr, hm⟩ := hat
        cases m with
        | child =>
          obtain ⟨hc, hB⟩ := hm
          subst hB
          refine ⟨tags.length, ?_, ?_⟩
          · rw [← hA1def, hc, getTag_append_mid]; rfl
          · rw [hA1]; exact SibChain.refl _
        | sibling =>
          obtain ⟨hc, hpar0, k, hk, hch⟩ := hm
          refine ⟨k, ?_, ?_⟩
          · rw [← hA1def, getTag_append_left A _ c hc]; exact hk
          · rw [hA1, ← hA1def]
            exact SibChain_extend A _ B k tags.length hch rfl (by omega)
    rw [ihr s p Attach.sibling path "" c _ A1 N1 _ hfs hats
      (by simp [Attach.text, trimmed_empty, hN1pt]) hu3]
    have hsz := layout_length (shape_of body) (tags.length + 1) (some tags.length)
    have hl2 : (A1 ++ N1 :: [] ++
        (shape_of body).layout (tags.length + 1) (some tags.length)).length =
        tags.length + 1 + (shape_of body).size := by
      simp [hA1, hsz]; omega
    rw [hl2, ← hA1def, ← hN1def, ← hNdef]
    simp only [tail_text, leading_text, shape_of, Shape.ptr, Shape.layout,
      string_append_empty, string_empty_append]
    rw [setText_self m x _ htext]
    simp only [Attach.setPtr, Attach.setText, fresh_tag]
    congr 1
    simp

/-! ## Shapes, their layout in the arena and their output -/

theorem ptr_eq_none (F : Shape) (base : Nat) : F.ptr base = none ↔ F = Shape.nil := by
  cases F <;> simp [Shape.ptr]

theorem shape_events_append (F G : Shape) :
    shape_events (F.append G) = shape_events F ++ shape_events G := by
  induction F with
  | nil => simp [Shape.append, shape_events]
  | node tagname attributes cdata child parentcdata sibling _ ihs =>
    simp [Shape.append, shape_events, ihs]

theorem content_events_shape :
    ∀ (b : Content) (acc : String),
      content_events acc b =
        text_events (acc ++ leading_text b) ++ shape_events (shape_of b) := by
  intro b
  induction b with
  | nil => intro acc; simp [content_events, leading_text, shape_of, shape_events,
      string_append_empty]
  | text t rest ih =>
    intro acc
    simp [content_events, leading_text, shape_of, ih, string_append_assoc]
  | elem name attr ns body rest ihb ihr =>
    intro acc
    simp only [content_events, leading_text, shape_of, shape_events, ihb, ihr, text_events,
      string_append_empty, string_empty_append]
    simp [List.append_assoc]

theorem element_events_shape (name : String) (attr : List Attr) (ns : List NsDecl)
    (body : Content) :
    shape_events (element_shape name attr ns body) = element_events name attr ns body := by
  have hemp : isEmpty "" = true := by decide
  simp only [element_shape, shape_events, element_events, content_events_shape, text_events,
    string_empty_append, hemp, if_true, List.append_nil]
  simp [List.append_assoc]

theorem layout_node (tagname : String) (attributes : List Attr) (cdata : String)
    (child : Shape) (parentcdata : String) (sibling : Shape) (base : Nat) (par : Option Nat) :
    ∃ nd : xml_tag, nd.tagname = tagname ∧ nd.attributes = attributes ∧ nd.cdata = cdata ∧
      nd.parentcdata = parentcdata ∧ nd.parent = par ∧ nd.child = child.ptr (base + 1) ∧
      nd.sibling = sibling.ptr (base + 1 + child.size) ∧
      (Shape.node tagname attributes cdata child parentcdata sibling).layout base par =
        nd :: (child.layout (base + 1) (some base) ++
          sibling.layout (base + 1 + child.size) par) :=
  ⟨_, rfl, rfl, rfl, rfl, rfl, rfl, rfl, rfl⟩

theorem fprint_layout (ext : Externals) (wpt : Option Waypoint)
    (hexp : ∀ w, wpt = some w → (w.gc_data.getD {}).exported = none) :
    ∀ (F : Shape) (pre post : List xml_tag) (par : Option Nat) (fuel : Nat),
      F.size < fuel →
      fprint_xml_chain_fuel ext (pre ++ F.layout pre.length par ++ post) wpt fuel
        (F.ptr pre.length) = shape_events F := by
  have hexp' : ∀ tag, exported_time ext wpt tag = [] := by
    intro tag
    unfold exported_time
    cases wpt with
    | none => rfl
    | some w => simp [hexp w rfl]
  intro F
  induction F with
  | nil =>
    intro pre post par fuel _
    cases fuel <;> simp [Shape.ptr, fprint_xml_chain_fuel, shape_events]
  | node tagname attributes cdata child parentcdata sibling ihc ihs =>
    intro pre post par fuel hf
    cases fuel with
    | zero => omega
    | succ f =>
      simp only [Shape.size] at hf
      obtain ⟨nd, h1, h2, h3, h4, _, h6, h7, hlay⟩ :=
        layout_node tagname attributes cdata child parentcdata sibling pre.length par
      have hget : getTag (pre ++ nd :: (child.layout (pre.length + 1) (some pre.length) ++
          sibling.layout (pre.length + 1 + child.size) par) ++ post) pre.length = nd := by
        rw [List.append_assoc, List.cons_append, getTag_append_mid]
      have hc := ihc (pre ++ [nd])
          (sibling.layout (pre.length + 1 + child.size) par ++ post) (some pre.length) f
          (by omega)
      have hs := ihs (pre ++ nd :: child.layout (pre.length + 1) (some pre.length))
          post par f (by omega)
      have e1 : (pre ++ [nd]).length = pre.length + 1 := by simp
      have e2 : (pre ++ nd :: child.layout (pre.length + 1) (some pre.length)).length =
          pre.length + 1 + child.size := by
        simp [layout_length]; omega
      rw [e1] at hc
      rw [e2] at hs
      have e3 : pre ++ nd :: (child.layout (pre.length + 1) (some pre.length) ++
          sibling.layout (pre.length + 1 + child.size) par) ++ post =
          pre ++ [nd] ++ child.layout (pre.length + 1) (some pre.length) ++
            (sibling.layout (pre.length + 1 + child.size) par ++ post) := by
        simp
      have e4 : pre ++ nd :: (child.layout (pre.length + 1) (some pre.length) ++
          sibling.layout (pre.length + 1 + child.size) par) ++ post =
          pre ++ nd :: child.layout (pre.length + 1) (some pre.length) ++
            sibling.layout (pre.length + 1 + child.size) par ++ post := by
        simp
      rw [hlay, Shape.ptr, fprint_xml_chain_fuel]
      simp only [hget, hexp', h6, h7]
      rw [e4, hs, ← e4, e3, hc]
      cases hcd : isEmpty cdata <;> cases hpc : isEmpty parentcdata <;> cases child <;>
        simp [h1, h2, h3, h4, hcd, hpc, Shape.ptr, shape_events, write_tag_attributes]

theorem read_shape_layout :
    ∀ (F : Shape) (pre post : List xml_tag) (par : Option Nat) (fuel : Nat),
      F.size < fuel →
      read_shape (pre ++ F.layout pre.length par ++ post) fuel (F.ptr pre.length) = F := by
  intro F
  induction F with
  | nil =>
    intro pre post par fuel _
    cases fuel <;> simp [Shape.ptr, read_shape]
  | node tagname attributes cdata child parentcdata sibling ihc ihs =>
    intro pre post par fuel hf
    cases fuel with
    | zero => omega
    | succ f =>
      simp only [Shape.size] at hf
      obtain ⟨nd, h1, h2, h3, h4, _, h6, h7, hlay⟩ :=
        layout_node tagname attributes cdata child parentcdata sibling pre.length par
      have hget : getTag (pre ++ nd :: (child.layout (pre.length + 1) (some pre.length) ++
          sibling.layout (pre.length + 1 + child.size) par) ++ post) pre.length = nd := by
        rw [List.append_assoc, List.cons_append, getTag_append_mid]
      have hc := ihc (pre ++ [nd])
          (sibling.layout (pre.length + 1 + child.size) par ++ post) (some pre.length) f
          (by omega)
      have hs := ihs (pre ++ nd :: child.layout (pre.length + 1) (some pre.length))
          post par f (by omega)
      have e1 : (pre ++ [nd]).length = pre.length + 1 := by simp
      have e2 : (pre ++ nd :: child.layout (pre.length + 1) (some pre.length)).length =
          pre.length + 1 + child.size := by
        simp [layout_length]; omega
      rw [e1] at hc
      rw [e2] at hs
      have e3 : pre ++ nd :: (child.layout (pre.length + 1) (some pre.length) ++
          sibling.layout (pre.length + 1 + child.size) par) ++ post =
          pre ++ [nd] ++ child.layout (pre.length + 1) (some pre.length) ++
            (sibling.layout (pre.length + 1 + child.size) par ++ post) := by
        simp
      have e4 : pre ++ nd :: (child.layout (pre.length + 1) (some pre.length) ++
          sibling.layout (pre.length + 1 + child.size) par) ++ post =
          pre ++ nd :: child.layout (pre.length + 1) (some pre.length) ++
            sibling.layout (pre.length + 1 + child.size) par ++ post := by
        simp
      rw [hlay, Shape.ptr, read_shape]
      simp only [hget, h6, h7]
      rw [e4, hs, ← e4, e3, hc, h1, h2, h3, h4]

/-! ## A preserved element at the top of a chain -/

theorem layout_node_sibling (tagname : String) (attributes : List Attr) (cdata : String)
    (child : Shape) (parentcdata : String) (base : Nat) (par : Option Nat) :
    ∃ nd : xml_tag, nd.sibling = none ∧ nd.parent = par ∧
      ∀ S : Shape, (Shape.node tagname attributes cdata child parentcdata S).layout base par =
        Attach.sibling.setPtr nd (S.ptr (base + 1 + child.size)) ::
          (child.layout (base + 1) (some base) ++ S.layout (base + 1 + child.size) par) :=
  ⟨{ tagname := tagname, attributes := attributes, cdata := cdata,
     parentcdata := parentcdata, parent := par, child := child.ptr (base + 1) },
   rfl, rfl, fun _ => rfl⟩

theorem append_ptr (F G : Shape) (base : Nat) (hF : F ≠ Shape.nil) :
    (F.append G).ptr base = some base := by
  cases F with
  | nil => exact absurd rfl hF
  | node _ _ _ _ _ _ => rfl

theorem ptr_of_ne_nil (F : Shape) (base : Nat) (hF : F ≠ Shape.nil) : F.ptr base = some base := by
  cases F with
  | nil => exact absurd rfl hF
  | node _ _ _ _ _ _ => rfl

theorem append_size (F G : Shape) : (F.append G).size = F.size + G.size := by
  induction F with
  | nil => simp [Shape.append, Shape.size]
  | node _ _ _ _ _ _ _ ihs => simp [Shape.append, Shape.size, ihs]; omega

theorem layout_last_root (F : Shape) :
    ∀ (pre : List xml_tag) (par : Option Nat), F ≠ Shape.nil →
      ∃ (A1 : List xml_tag) (x : xml_tag) (B : List xml_tag),
        F.layout pre.length par = A1 ++ x :: B ∧ x.sibling = none ∧ x.parent = par ∧
        SibChain (pre ++ A1) pre.length (pre ++ A1).length ∧
        ∀ G : Shape, (F.append G).layout pre.length par =
          A1 ++ Attach.sibling.setPtr x (G.ptr (pre.length + F.size)) :: B ++
            G.layout (pre.length + F.size) par := by
  induction F with
  | nil => intro pre par h; exact absurd rfl h
  | node tagname attributes cdata child parentcdata sibling _ ihs =>
    intro pre par _
    obtain ⟨nd, hns, hnp, hlay⟩ :=
      layout_node_sibling tagname attributes cdata child parentcdata pre.length par
    by_cases hS : sibling = Shape.nil
    · subst hS
      refine ⟨[], nd, child.layout (pre.length + 1) (some pre.length), ?_, hns, hnp, ?_, ?_⟩
      · rw [hlay Shape.nil]
        simp [Shape.ptr, Shape.layout, setPtr_self Attach.sibling nd none hns]
      · simp only [List.append_nil]
        exact SibChain.refl _
      · intro G
        have e : pre.length + (Shape.node tagname attributes cdata child parentcdata
            Shape.nil).size = pre.length + 1 + child.size := by
          simp [Shape.size]; omega
        rw [e]
        simp only [Shape.append]
        rw [hlay G]
        simp
    · have hl : (pre ++ Attach.sibling.setPtr nd (sibling.ptr (pre.length + 1 + child.size)) ::
          child.layout (pre.length + 1) (some pre.length)).length =
          pre.length + 1 + child.size := by
        simp [layout_length]; omega
      obtain ⟨A1, x, B, h1, h2, h3, h4, h5⟩ :=
        ihs (pre ++ Attach.sibling.setPtr nd (sibling.ptr (pre.length + 1 + child.size)) ::
          child.layout (pre.length + 1) (some pre.length)) par hS
      rw [hl] at h1 h4 h5
      refine ⟨Attach.sibling.setPtr nd (sibling.ptr (pre.length + 1 + child.size)) ::
          child.layout (pre.length + 1) (some pre.length) ++ A1, x, B, ?_, h2, h3, ?_, ?_⟩
      · rw [hlay sibling, h1]
        simp
      · have hlen : pre.length < (pre ++ (Attach.sibling.setPtr nd (sibling.ptr (pre.length + 1 + child.size)) ::
            child.layout (pre.length + 1) (some pre.length) ++ A1)).length := by
          simp
        refine SibChain.step pre.length (pre.length + 1 + child.size) _ hlen ?_ (by omega) ?_
        · rw [List.cons_append, getTag_append_mid]
          exact ptr_of_ne_nil sibling _ hS
        · have e : pre ++ (Attach.sibling.setPtr nd (sibling.ptr (pre.length + 1 + child.size)) ::
              child.layout (pre.length + 1) (some pre.length) ++ A1) =
              pre ++ Attach.sibling.setPtr nd (sibling.ptr (pre.length + 1 + child.size)) ::
              child.layout (pre.length + 1) (some pre.length) ++ A1 := by
            simp
          rw [e]
          exact h4
      · intro G
        have e : pre.length + (Shape.node tagname attributes cdata child parentcdata
            sibling).size = pre.length + 1 + child.size + sibling.size := by
          simp [Shape.size]; omega
        rw [e]
        simp only [Shape.append]
        rw [hlay (sibling.append G), h5 G, append_ptr sibling G _ hS,
          ptr_of_ne_nil sibling _ hS]
        simp

theorem fs_of_core (s : State) (a b : String) (c : Option Nat) (d : List xml_tag)
    (p : FsPtr) : fs_of (s.core a b c d) p = fs_of s p := by
  cases p <;> rfl

theorem set_fs_core (s : State) (a b : String) (c : Option Nat) (d : List xml_tag)
    (p : FsPtr) (fs : List format_specific_data) :
    set_fs (s.core a b c d) p fs = (set_fs s p fs).core a b c d := by
  cases p <;> rfl

theorem set_fs_fs_ptr (s : State) (p : FsPtr) (fs : List format_specific_data) :
    (set_fs s p fs).fs_ptr = s.fs_ptr := by
  cases p <;> rfl

theorem fs_of_set_fs (s : State) (p : FsPtr) (fs : List format_specific_data)
    (hv : p.valid s = true) : fs_of (set_fs s p fs) p = fs := by
  cases p with
  | wpt i =>
    simp only [FsPtr.valid, decide_eq_true_eq] at hv
    have hs : s.wpts[i]? = some (s.wpts[i]) := by simp [hv]
    simp [fs_of, set_fs, upd_get_same _ _ _ hv, hs]
  | head i =>
    simp only [FsPtr.valid, decide_eq_true_eq] at hv
    have hs : s.heads[i]? = some (s.heads[i]) := by simp [hv]
    simp [fs_of, set_fs, upd_get_same _ _ _ hv, hs]

theorem fs_chain_find_gpx_add (fs : List format_specific_data) (n : Nat)
    (h : fs_chain_find_gpx fs = none) :
    fs_chain_find_gpx (fs_chain_add fs (format_specific_data.fs_xml (some n))) =
      some (some n) := by
  induction fs with
  | nil => rfl
  | cons d rest ih =>
    cases d with
    | fs_xml t => simp [fs_chain_find_gpx] at h
    | gmsd f =>
      simp only [fs_chain_find_gpx] at h
      simpa [fs_chain_add, fs_chain_find_gpx] using ih h

theorem read_start_root_first (ext : Externals) (s : State) (p : FsPtr)
    (path cd : String) (tags : List xml_tag) (name : String) (attr : List Attr)
    (ns : List NsDecl) (hfs : s.fs_ptr = some p)
    (hfind : fs_chain_find_gpx (fs_of s p) = none)
    (hu : (get_tag hash (path ++ "/" ++ name)).1 = tt_unknown) :
    gpx_read_token ext (s.core path cd none tags) (Token.StartElement name attr ns) =
      (set_fs s p (fs_chain_add (fs_of s p)
        (format_specific_data.fs_xml (some tags.length)))).core
        (path ++ "/" ++ name) "" (some tags.length)
        (tags ++ [fresh_tag name (tag_attributes attr ns) none]) := by
  cases p with
  | wpt i =>
    simp only [fs_of] at hfind
    simp only [gpx_read_token, gpx_start, State.core, hu, if_true, start_something_else, hfs,
      fs_of, hfind, set_fs, fresh_tag]
  | head i =>
    simp only [fs_of] at hfind
    simp only [gpx_read_token, gpx_start, State.core, hu, if_true, start_something_else, hfs,
      fs_of, hfind, set_fs, fresh_tag]

theorem read_start_root_next (ext : Externals) (s : State) (p : FsPtr)
    (path cd : String) (tags A : List xml_tag) (x : xml_tag) (B : List xml_tag) (r : Nat)
    (name : String) (attr : List Attr) (ns : List NsDecl) (hfs : s.fs_ptr = some p)
    (hfind : fs_chain_find_gpx (fs_of s p) = some (some r))
    (htags : tags = A ++ x :: B) (hch : SibChain A r A.length) (hx : x.sibling = none)
    (hu : (get_tag hash (path ++ "/" ++ name)).1 = tt_unknown) :
    gpx_read_token ext (s.core path cd none tags) (Token.StartElement name attr ns) =
      s.core (path ++ "/" ++ name) "" (some tags.length)
        (A ++ Attach.sibling.setPtr x (some tags.length) :: B ++
          [fresh_tag name (tag_attributes attr ns) none]) := by
  have hl : last_sibling tags tags.length r = A.length := by
    rw [htags]; exact last_sibling_attached A x B r hch hx
  have hupd : ∀ v, upd tags A.length (fun t => { t with sibling := v }) =
      A ++ Attach.sibling.setPtr x v :: B := by
    intro v; rw [htags, upd_append_mid]; rfl
  cases p with
  | wpt i =>
    simp only [fs_of] at hfind
    simp only [gpx_read_token, gpx_start, State.core, hu, if_true, start_something_else, hfs,
      fs_of, hfind, hl, hupd, fresh_tag]
  | head i =>
    simp only [fs_of] at hfind
    simp only [gpx_read_token, gpx_start, State.core, hu, if_true, start_something_else, hfs,
      fs_of, hfind, hl, hupd, fresh_tag]

/-- Reading the content and the end tag of an element whose node has just been
allocated at the top of a chain. -/
theorem read_element_body (ext : Externals) (s : State) (p : FsPtr) (path name : String)
    (attr : List Attr) (ns : List NsDecl) (body : Content) (T : List xml_tag)
    (ts : List Token) (hfs : s.fs_ptr = some p)
    (hu1 : (get_tag hash (path ++ "/" ++ name)).1 = tt_unknown)
    (hu2 : AllUnknown (path ++ "/" ++ name) body = true) :
    gpx_read ext (s.core (path ++ "/" ++ name) "" (some T.length)
        (T ++ [fresh_tag name (tag_attributes attr ns) none]))
        (body.tokens ++ Token.EndElement name :: ts) =
      gpx_read ext (s.core path "" none
        (T ++ (element_shape name attr ns body).layout T.length none)) ts := by
  have hat : Attached Attach.child (T ++ [fresh_tag name (tag_attributes attr ns) none]) T
      (fresh_tag name (tag_attributes attr ns) none) [] T.length :=
    ⟨rfl, rfl, rfl, rfl⟩
  rw [gpx_read_content_append,
    read_content_attached ext body s p Attach.child (path ++ "/" ++ name) "" T.length _ T _ []
      hfs hat (by simp [Attach.text, fresh_tag, trimmed_empty]) hu2,
    gpx_read_end, read_end_unknown ext s path name _ _ _ hu1]
  have hl : (T ++ [fresh_tag name (tag_attributes attr ns) none]).length = T.length + 1 := by
    simp
  rw [hl]
  have hp : (getTag (T ++ Attach.child.setPtr
      (Attach.child.setText (fresh_tag name (tag_attributes attr ns) none)
        (trimmed ("" ++ leading_text body))) ((shape_of body).ptr (T.length + 1)) :: [] ++
      (shape_of body).layout (T.length + 1) (some T.length)) T.length).parent = none := by
    rw [List.append_assoc, List.cons_append, getTag_append_mid]
    rfl
  rw [hp]
  congr 2
  simp [element_shape, Shape.layout, Shape.ptr, Attach.setPtr, Attach.setText, fresh_tag,
    string_empty_append]

theorem upd_self {α : Type} (f : α → α) :
    ∀ (l : List α) (i : Nat), (∀ a, l[i]? = some a → f a = a) → upd l i f = l := by
  intro l
  induction l with
  | nil => intro i _; rfl
  | cons a as ih =>
    intro i h
    cases i with
    | zero => simp [upd, h a (by simp)]
    | succ k =>
      simp only [upd, List.cons.injEq, true_and]
      exact ih k (fun b hb => h b (by simpa using hb))

theorem set_fs_self (s : State) (p : FsPtr) : set_fs s p (fs_of s p) = s := by
  cases p with
  | wpt i =>
    simp only [set_fs, fs_of]
    have : upd s.wpts i (fun w => { w with fs := (s.wpts[i]?.getD default).fs }) = s.wpts := by
      apply upd_self
      intro a ha
      simp [ha]
    rw [this]
  | head i =>
    simp only [set_fs, fs_of]
    have : upd s.heads i (fun h => { h with fs := (s.heads[i]?.getD default).fs }) =
        s.heads := by
      apply upd_self
      intro a ha
      simp [ha]
    rw [this]

/-- Reading one element that opens while no preserved node is open: its nodes are
appended, in document order, to the preserved chain of the object fs_ptr points to. -/
theorem read_root_element (ext : Externals) (s : State) (p : FsPtr) (F0 : Shape)
    (A : List xml_tag) (name : String) (attr : List Attr) (ns : List NsDecl)
    (body : Content) (ts : List Token)
    (hfs : s.fs_ptr = some p) (hcur : s.cur_tag = none)
    (htags : s.tags = A ++ F0.layout A.length none)
    (hfind : fs_chain_find_gpx (fs_of s p) = (F0.ptr A.length).map some)
    (hu : AllUnknown s.current_tag (Content.elem name attr ns body Content.nil) = true) :
    gpx_read ext s ((Content.elem name attr ns body Content.nil).tokens ++ ts) =
      gpx_read ext ((set_fs s p (chain_fs (fs_of s p) F0 A.length)).core s.current_tag "" none
        (A ++ (F0.append (element_shape name attr ns body)).layout A.length none)) ts := by
  simp only [AllUnknown, Bool.and_eq_true, decide_eq_true_eq] at hu
  obtain ⟨⟨hu1, hu2⟩, _⟩ := hu
  have hs : s = s.core s.current_tag s.cdatastr none s.tags := by
    rw [← hcur]; rfl
  have htok : (Content.elem name attr ns body Content.nil).tokens ++ ts =
      Token.StartElement name attr ns :: (body.tokens ++ Token.EndElement name :: ts) := by
    simp [Content.tokens]
  rw [htok, gpx_read_start]
  cases hF : F0 with
  | nil =>
    subst hF
    simp only [Shape.layout, List.append_nil] at htags
    simp only [Shape.ptr, Option.map_none'] at hfind
    conv => lhs; rw [hs]
    rw [read_start_root_first ext s p _ _ _ name attr ns hfs hfind hu1, htags,
      read_element_body ext _ p s.current_tag name attr ns body A ts
        (by rw [set_fs_fs_ptr]; exact hfs) hu1 hu2]
    rfl
  | node tagname attributes cdata child parentcdata sibling =>
    have hne : F0 ≠ Shape.nil := by rw [hF]; exact fun h => Shape.noConfusion h
    obtain ⟨A1, x, B, h1, h2, _, h4, h5⟩ := layout_last_root F0 A none hne
    have hfind' : fs_chain_find_gpx (fs_of s p) = some (some A.length) := by
      rw [hfind, ptr_of_ne_nil F0 _ hne]; rfl
    have htags' : s.tags = (A ++ A1) ++ x :: B := by
      rw [htags, h1]; simp
    have hlen : s.tags.length = A.length + F0.size := by
      rw [htags]; simp [layout_length]
    conv => lhs; rw [hs]
    rw [read_start_root_next ext s p _ _ s.tags (A ++ A1) x B A.length name attr ns hfs hfind'
      htags' h4 h2 hu1]
    have hT : (A ++ A1 ++ Attach.sibling.setPtr x (some s.tags.length) :: B).length =
        s.tags.length := by
      rw [htags']; simp
    have e := read_element_body ext s p s.current_tag name attr ns body
      (A ++ A1 ++ Attach.sibling.setPtr x (some s.tags.length) :: B) ts hfs hu1 hu2
    rw [hT] at e
    rw [e]
    have hG : (element_shape name attr ns body).ptr (A.length + F0.size) =
        some (A.length + F0.size) := rfl
    rw [← hF, h5 (element_shape name attr ns body), hG, ← hlen]
    have hfsself : set_fs s p (chain_fs (fs_of s p) F0 A.length) = s := by
      rw [hF]; exact set_fs_self s p
    rw [hfsself]
    congr 2
    simp

theorem append_element_ptr (F0 G : Shape) (base : Nat) (hG : G ≠ Shape.nil) :
    (F0.append G).ptr base = some base := by
  cases F0 with
  | nil => exact ptr_of_ne_nil G base hG
  | node _ _ _ _ _ _ => rfl

theorem chain_fs_find (fs : List format_specific_data) (F0 : Shape) (base : Nat)
    (hfind : fs_chain_find_gpx fs = (F0.ptr base).map some) :
    fs_chain_find_gpx (chain_fs fs F0 base) = some (some base) := by
  cases F0 with
  | nil => exact fs_chain_find_gpx_add fs base hfind
  | node _ _ _ _ _ _ => exact hfind

theorem GMSD_FIND_add (fs : List format_specific_data) (t : Option Nat) :
    GMSD_FIND (fs_chain_add fs (format_specific_data.fs_xml t)) = GMSD_FIND fs := by
  induction fs with
  | nil => rfl
  | cons d rest ih =>
    cases d with
    | fs_xml u => simpa [fs_chain_add, GMSD_FIND] using ih
    | gmsd f => rfl

theorem chain_fs_GMSD (fs : List format_specific_data) (F0 : Shape) (base : Nat) :
    GMSD_FIND (chain_fs fs F0 base) = GMSD_FIND fs := by
  cases F0 with
  | nil => exact GMSD_FIND_add fs _
  | node _ _ _ _ _ _ => rfl

theorem fprint_chain_layout (ext : Externals) (wpt : Option Waypoint) (F0 G : Shape)
    (A : List xml_tag) (hG : G ≠ Shape.nil)
    (hexp : ∀ w, wpt = some w → (w.gc_data.getD {}).exported = none) :
    fprint_xml_chain ext (A ++ (F0.append G).layout A.length none) (some A.length) wpt =
      shape_events F0 ++ shape_events G := by
  have hptr := append_element_ptr F0 G A.length hG
  have hsz : (A ++ (F0.append G).layout A.length none).length =
      A.length + (F0.append G).size := by
    simp [layout_length]
  have hlay : A ++ (F0.append G).layout A.length none =
      A ++ (F0.append G).layout A.length none ++ [] := by
    simp
  unfold fprint_xml_chain
  rw [hsz, ← hptr, hlay, fprint_layout ext wpt hexp _ A [] none _ (by omega),
    shape_events_append]

/-- C2: for every well nested element whose own path and the paths of whose descendants are
unrecognised and that opens while no preserved node is open (as it does directly inside
an open wpt, rtept or trkpt), after its tokens have been read the preserved chain of the
object fs_ptr points to is the chain it was before followed by one node of the shape of
the input (names, attributes with namespace declarations, child order, trimmed leading
text, trimmed text after each child), the current node is null again, and
fprint_xml_chain emits for the chain the calls of the earlier nodes followed by the
start tag, attributes, texts and end tags of the input element. For the document with a
wpt at 1.0, 2.0 that holds foo with bar=1 and the text baz, the waypoint is written with
these coordinates and this child. -/
theorem unknown_subtree_preserved (ext : Externals) (s : State) (p : FsPtr) (F0 : Shape)
    (A : List xml_tag) (name : String) (attr : List Attr) (ns : List NsDecl)
    (body : Content) (wpt : Option Waypoint)
    (hfs : s.fs_ptr = some p) (hvalid : p.valid s = true) (hcur : s.cur_tag = none)
    (htags : s.tags = A ++ F0.layout A.length none)
    (hfind : fs_chain_find_gpx (fs_of s p) = (F0.ptr A.length).map some)
    (hu : AllUnknown s.current_tag (Content.elem name attr ns body Content.nil) = true)
    (hexp : ∀ w, wpt = some w → (w.gc_data.getD {}).exported = none) :
    (gpx_read ext s (Content.elem name attr ns body Content.nil).tokens).tags =
      A ++ (F0.append (element_shape name attr ns body)).layout A.length none ∧
    fs_chain_find_gpx
      (fs_of (gpx_read ext s (Content.elem name attr ns body Content.nil).tokens) p) =
      some (some A.length) ∧
    (gpx_read ext s (Content.elem name attr ns body Content.nil).tokens).cur_tag = none ∧
    (gpx_read ext s (Content.elem name attr ns body Content.nil).tokens).current_tag =
      s.current_tag ∧
    read_shape (gpx_read ext s (Content.elem name attr ns body Content.nil).tokens).tags
      ((gpx_read ext s (Content.elem name attr ns body Content.nil).tokens).tags.length + 1)
      (some A.length) = F0.append (element_shape name attr ns body) ∧
    fprint_xml_chain ext
      (gpx_read ext s (Content.elem name attr ns body Content.nil).tokens).tags
      (some A.length) wpt = shape_events F0 ++ element_events name attr ns body ∧
    gpx_write_waypoints Externals.fixed {}
      (gpx_read Externals.fixed (gpx_rd_init {}) example_document) =
      [WEvent.StartElement "wpt", WEvent.Attribute "lat" "1.000000000",
       WEvent.Attribute "lon" "2.000000000", WEvent.StartElement "foo",
       WEvent.Attribute "bar" "1", WEvent.Characters "baz", WEvent.EndElement,
       WEvent.EndElement] := by
  have h := read_root_element ext s p F0 A name attr ns body [] hfs hcur htags hfind hu
  rw [List.append_nil] at h
  have hend : ∀ t : State, gpx_read ext t [] = t := fun _ => rfl
  rw [hend] at h
  rw [h]
  have hG : element_shape name attr ns body ≠ Shape.nil := fun e => Shape.noConfusion e
  have hptr := append_element_ptr F0 (element_shape name attr ns body) A.length hG
  have hsz : (A ++ (F0.append (element_shape name attr ns body)).layout A.length none).length =
      A.length + (F0.append (element_shape name attr ns body)).size := by
    simp [layout_length]
  have hlay : A ++ (F0.append (element_shape name attr ns body)).layout A.length none =
      A ++ (F0.append (element_shape name attr ns body)).layout A.length none ++ [] := by
    simp
  refine ⟨rfl, ?_, rfl, rfl, ?_, ?_, by decide⟩
  · rw [fs_of_core, fs_of_set_fs s p _ hvalid]
    exact chain_fs_find _ F0 A.length hfind
  · show read_shape (A ++ (F0.append (element_shape name attr ns body)).layout A.length none)
      ((A ++ (F0.append (element_shape name attr ns body)).layout A.length none).length + 1)
      (some A.length) = _
    rw [hsz, ← hptr, hlay]
    exact read_shape_layout _ A [] none _ (by omega)
  · show fprint_xml_chain ext
      (A ++ (F0.append (element_shape name attr ns body)).layout A.length none)
      (some A.length) wpt = _
    rw [fprint_chain_layout ext wpt F0 _ A hG hexp, element_events_shape]

/-- Witness of C2: the element foo with the text baz opening in the wpt that has just
been opened. -/
theorem unknown_subtree_preserved_witness :
    (example_open_wpt.fs_ptr = some (FsPtr.wpt 0) ∧ (FsPtr.wpt 0).valid example_open_wpt = true ∧
      example_open_wpt.cur_tag = none ∧
      example_open_wpt.tags = [] ++ Shape.nil.layout ([] : List xml_tag).length none ∧
      fs_chain_find_gpx (fs_of example_open_wpt (FsPtr.wpt 0)) =
        (Shape.nil.ptr ([] : List xml_tag).length).map some ∧
      AllUnknown example_open_wpt.current_tag
        (Content.elem "foo" [("bar", "1")] [] (Content.text "baz" Content.nil) Content.nil) =
        true) ∧
    fprint_xml_chain Externals.fixed
      (gpx_read Externals.fixed example_open_wpt
        (Content.elem "foo" [("bar", "1")] [] (Content.text "baz" Content.nil)
          Content.nil).tokens).tags
      (some ([] : List xml_tag).length) none =
      shape_events Shape.nil ++
        element_events "foo" [("bar", "1")] [] (Content.text "baz" Content.nil) :=
  ⟨⟨by decide, by decide, by decide, by decide, by decide, by decide⟩,
   (unknown_subtree_preserved Externals.fixed example_open_wpt (FsPtr.wpt 0) Shape.nil []
     "foo" [("bar", "1")] [] (Content.text "baz" Content.nil) none
     (by decide) (by decide) (by decide) (by decide) (by decide) (by decide)
     (fun w h => Option.noConfusion h)).2.2.2.2.2.1⟩

/-! ## Round trip of an unrecognised element of a waypoint -/

theorem read_end_wpt (ext : Externals) (t : State) (i : Nat) (name : String)
    (hpath : get_tag hash t.current_tag = (tt_wpt, false)) (hw : t.wpt_tmp = some i)
    (hi : i < t.wpts.length) :
    (gpx_read_token ext t (Token.EndElement name)).tags = t.tags ∧
    (gpx_read_token ext t (Token.EndElement name)).waypt_list = t.waypt_list ++ [i] ∧
    ((gpx_read_token ext t (Token.EndElement name)).wpts[i]?.getD default).fs =
      (t.wpts[i]?.getD default).fs ∧
    ((gpx_read_token ext t (Token.EndElement name)).wpts[i]?.getD default).gc_data =
      (t.wpts[i]?.getD default).gc_data := by
  have hsome : t.wpts[i]? = some (t.wpts[i]) := by simp [hi]
  simp only [gpx_read_token, gpx_end, hpath]
  cases hl : t.link_ with
  | none => simp [close_link, hl, hw]
  | some l =>
    by_cases hurl : isEmpty l.url_ = true
    · simp [close_link, hl, hw, hurl]
    · simp [close_link, hl, hw, hurl, with_wpt, upd_get_same _ _ _ hi, hsome]

/-- C1 (counterexample): in a document whose root holds the unrecognised element foo
before any wpt, rte or trk, no node is created for foo (the arena stays empty) and
gpx_write emits only the end of the gpx element. -/
theorem unknown_element_before_points_dropped :
    (get_tag hash "/gpx/foo").1 = tt_unknown ∧
    (gpx_read Externals.fixed (gpx_rd_init {}) example_document_no_point).tags = [] ∧
    gpx_write Externals.fixed {}
      (gpx_read Externals.fixed (gpx_rd_init {}) example_document_no_point) =
      [WEvent.EndElement] := by
  decide

/-- C1 (amended): for every element whose path and the paths of whose descendants are not in
the tag path table and that opens directly inside an open wpt (no preserved node open)
whose point has no Garmin data and no export time, reading the element and the end of
the wpt and then writing the point with gpx_waypt_pr, no vendor toggle set, gives the
wpt element with the known fields, the elements preserved before, and then an element
with the same tag name, the same attributes in the same order (then the namespace
declarations) and the same children and trimmed texts. -/
theorem unknown_element_of_wpt_round_trip (ext : Externals) (cfg : WriterCfg) (s : State)
    (i : Nat) (F0 : Shape) (A : List xml_tag) (name : String) (attr : List Attr)
    (ns : List NsDecl) (body : Content)
    (hpath : s.current_tag = "/gpx/wpt") (hw : s.wpt_tmp = some i)
    (hfs : s.fs_ptr = some (FsPtr.wpt i)) (hi : i < s.wpts.length) (hcur : s.cur_tag = none)
    (htags : s.tags = A ++ F0.layout A.length none)
    (hfind : fs_chain_find_gpx (fs_of s (FsPtr.wpt i)) = (F0.ptr A.length).map some)
    (hu : AllUnknown "/gpx/wpt" (Content.elem name attr ns body Content.nil) = true)
    (hcfg : cfg.opt_humminbirdext = false ∧ cfg.opt_garminext = false)
    (hgmsd : GMSD_FIND (fs_of s (FsPtr.wpt i)) = false)
    (hexp : ((s.wpts[i]?.getD default).gc_data.getD {}).exported = none) :
    (gpx_read ext s ((Content.elem name attr ns body Content.nil).tokens ++
        [Token.EndElement "wpt"])).waypt_list = s.waypt_list ++ [i] ∧
    gpx_waypt_pr ext cfg
      (gpx_read ext s ((Content.elem name attr ns body Content.nil).tokens ++
        [Token.EndElement "wpt"])).tags
      ((gpx_read ext s ((Content.elem name attr ns body Content.nil).tokens ++
        [Token.EndElement "wpt"])).wpts[i]?.getD default) =
      [WEvent.StartElement "wpt",
       WEvent.Attribute "lat" (toString_double
         ((gpx_read ext s ((Content.elem name attr ns body Content.nil).tokens ++
           [Token.EndElement "wpt"])).wpts[i]?.getD default).latitude),
       WEvent.Attribute "lon" (toString_double
         ((gpx_read ext s ((Content.elem name attr ns body Content.nil).tokens ++
           [Token.EndElement "wpt"])).wpts[i]?.getD default).longitude)] ++
      gpx_write_common_position ext cfg
        ((gpx_read ext s ((Content.elem name attr ns body Content.nil).tokens ++
          [Token.EndElement "wpt"])).wpts[i]?.getD default) gpx_point_type.gpxpt_waypoint ++
      gpx_write_common_description cfg
        ((gpx_read ext s ((Content.elem name attr ns body Content.nil).tokens ++
          [Token.EndElement "wpt"])).wpts[i]?.getD default)
        (oname_of ext cfg
          ((gpx_read ext s ((Content.elem name attr ns body Content.nil).tokens ++
            [Token.EndElement "wpt"])).wpts[i]?.getD default)) ++
      gpx_write_common_acc
        ((gpx_read ext s ((Content.elem name attr ns body Content.nil).tokens ++
          [Token.EndElement "wpt"])).wpts[i]?.getD default) ++
      (shape_events F0 ++ element_events name attr ns body) ++
      [WEvent.EndElement] := by
  have hu' : AllUnknown s.current_tag (Content.elem name attr ns body Content.nil) = true := by
    rw [hpath]; exact hu
  have h := read_root_element ext s (FsPtr.wpt i) F0 A name attr ns body
    [Token.EndElement "wpt"] hfs hcur htags hfind hu'
  rw [h]
  have hend : ∀ t : State, gpx_read ext t [Token.EndElement "wpt"] =
      gpx_read_token ext t (Token.EndElement "wpt") := fun _ => rfl
  rw [hend]
  generalize hT : (set_fs s (FsPtr.wpt i)
    (chain_fs (fs_of s (FsPtr.wpt i)) F0 A.length)).core s.current_tag "" none
    (A ++ (F0.append (element_shape name attr ns body)).layout A.length none) = t
  have hvalid : (FsPtr.wpt i).valid s = true := by simp [FsPtr.valid, hi]
  have htpath : get_tag hash t.current_tag = (tt_wpt, false) := by
    rw [← hT]
    show get_tag hash s.current_tag = _
    rw [hpath]; decide
  have htw : t.wpt_tmp = some i := by rw [← hT]; exact hw
  have hti : i < t.wpts.length := by
    rw [← hT]
    show i < (upd s.wpts i _).length
    rw [upd_length]; exact hi
  have htfs : (t.wpts[i]?.getD default).fs =
      chain_fs (fs_of s (FsPtr.wpt i)) F0 A.length := by
    have := fs_of_set_fs s (FsPtr.wpt i) (chain_fs (fs_of s (FsPtr.wpt i)) F0 A.length) hvalid
    rw [← hT]
    exact this
  have htgc : (t.wpts[i]?.getD default).gc_data = (s.wpts[i]?.getD default).gc_data := by
    have hsome : s.wpts[i]? = some (s.wpts[i]) := by simp [hi]
    rw [← hT]
    show ((upd s.wpts i _)[i]?.getD default).gc_data = _
    rw [upd_get_same _ _ _ hi, hsome]
    rfl
  have httags : t.tags =
      A ++ (F0.append (element_shape name attr ns body)).layout A.length none := by
    rw [← hT]; rfl
  have htl : t.waypt_list = s.waypt_list := by rw [← hT]; rfl
  obtain ⟨r1, r2, r3, r4⟩ := read_end_wpt ext t i "wpt" htpath htw hti
  refine ⟨by rw [r2, htl], ?_⟩
  generalize hwdef : (gpx_read_token ext t (Token.EndElement "wpt")).wpts[i]?.getD default = w
    at r3 r4 ⊢
  have hwfs : w.fs = chain_fs (fs_of s (FsPtr.wpt i)) F0 A.length := by rw [r3, htfs]
  have hwexp : (w.gc_data.getD {}).exported = none := by rw [r4, htgc]; exact hexp
  have hG : element_shape name attr ns body ≠ Shape.nil := fun e => Shape.noConfusion e
  have hfp := fprint_chain_layout ext (some w) F0 (element_shape name attr ns body) A hG
    (fun w' hw' => by cases hw'; exact hwexp)
  rw [element_events_shape] at hfp
  unfold gpx_waypt_pr
  rw [r1, httags, hwfs, chain_fs_GMSD, hgmsd, chain_fs_find _ F0 A.length hfind]
  simp only [hcfg.1, hcfg.2, Bool.or_self, Bool.not_false, if_true, Bool.false_and,
    Bool.false_eq_true, if_false, List.append_nil, hfp]

/-- Witness of C1 (amended): the element foo with the text baz in the wpt that has just
been opened. -/
theorem unknown_element_of_wpt_round_trip_witness :
    (example_open_wpt.current_tag = "/gpx/wpt" ∧ example_open_wpt.wpt_tmp = some 0 ∧
      example_open_wpt.fs_ptr = some (FsPtr.wpt 0) ∧ 0 < example_open_wpt.wpts.length ∧
      example_open_wpt.cur_tag = none ∧
      example_open_wpt.tags = [] ++ Shape.nil.layout ([] : List xml_tag).length none ∧
      fs_chain_find_gpx (fs_of example_open_wpt (FsPtr.wpt 0)) =
        (Shape.nil.ptr ([] : List xml_tag).length).map some ∧
      AllUnknown "/gpx/wpt"
        (Content.elem "foo" [("bar", "1")] [] (Content.text "baz" Content.nil) Content.nil) =
        true ∧
      GMSD_FIND (fs_of example_open_wpt (FsPtr.wpt 0)) = false ∧
      ((example_open_wpt.wpts[0]?.getD default).gc_data.getD {}).exported = none) ∧
    (gpx_read Externals.fixed example_open_wpt
      ((Content.elem "foo" [("bar", "1")] [] (Content.text "baz" Content.nil)
        Content.nil).tokens ++ [Token.EndElement "wpt"])).waypt_list =
      example_open_wpt.waypt_list ++ [0] :=
  ⟨⟨by decide, by decide, by decide, by decide, by decide, by decide, by decide, by decide,
    by decide, by decide⟩,
   (unknown_element_of_wpt_round_trip Externals.fixed {} example_open_wpt 0 Shape.nil []
     "foo" [("bar", "1")] [] (Content.text "baz" Content.nil)
     (by decide) (by decide) (by decide) (by decide) (by decide) (by decide) (by decide)
     (by decide) ⟨rfl, rfl⟩ (by decide) (by decide)).1⟩

/-- Witness of C9 (amended): the text " dgps" followed by a line break at the end of the
fix element of a waypoint is written back as the fix element dgps. -/
theorem fix_round_trip_witness :
    (0 < example_fix_state.wpts.length ∧ example_fix_state.wpt_tmp = some 0 ∧
      get_tag hash example_fix_state.current_tag = (tt_wpttype_fix, false) ∧
      trimmed example_fix_state.cdatastr ∈ ["none", "2d", "3d", "dgps", "pps"]) ∧
    writeTextElement "fix" (trimmed example_fix_state.cdatastr) <+:
      gpx_write_common_acc
        ((gpx_end Externals.fixed example_fix_state).wpts[0]?.getD default) :=
  ⟨⟨by decide, by decide, by decide, by decide⟩,
   (fix_round_trip Externals.fixed example_fix_state 0 (by decide) (by decide)
     (by decide)).1 (by decide)⟩

/-- Witness of C8 (amended): the text 3.5 at the end of a difficulty element of a
waypoint is stored as 35. -/
theorem rating_times_ten_witness :
    (0 < example_rating_state.wpts.length ∧ example_rating_state.wpt_tmp = some 0 ∧
      ([3] : List Nat) ≠ [] ∧
      example_rating_state.cdatastr = ⟨([3] : List Nat).map digitChar ++ frac_text [5]⟩ ∧
      digits_value ([3] ++ [5]) < 10 ^ (([5] : List Nat).length + 8) ∧
      get_tag hash example_rating_state.current_tag = (tt_cache_difficulty, true)) ∧
    (((gpx_end Externals.fixed example_rating_state).wpts[0]?.getD default).gc_data.getD
      {}).diff = 35 :=
  ⟨⟨by decide, by decide, by decide, by decide, by decide, by decide⟩,
   ((rating_times_ten Externals.fixed example_rating_state 0 [3] [5] (by decide) (by decide)
     (by decide) (by decide) (by decide)).1 (by decide)).trans (by decide)⟩

/-! ## The entries of the tag path table -/

theorem hash_find_of_nodup :
    ∀ (h : TagHash), (h.map Prod.fst).Nodup → ∀ kv ∈ h, hash_find h kv.1 = some kv.2 := by
  intro h
  induction h with
  | nil => intro _ kv hkv; simp at hkv
  | cons x rest ih =>
    intro hn kv hkv
    obtain ⟨k, v⟩ := x
    rw [List.map_cons, List.nodup_cons] at hn
    rcases List.mem_cons.mp hkv with rfl | hmem
    · simp [hash_find]
    · have hne : k ≠ kv.1 := by
        intro hk
        exact hn.1 (hk ▸ List.mem_map.mpr ⟨kv, hmem, rfl⟩)
      simp only [hash_find, hne, if_false]
      exact ih hn.2 kv hmem

theorem prescan_loop_eq :
    ∀ (tbl : List tag_mapping) (h0 : TagHash),
      prescan_loop tbl h0 =
        ((tbl.takeWhile (fun tm => tm.tag_type_ ≠ tt_unknown)).map
          (fun tm => (tm.tag_name, tm))).reverse ++ h0 := by
  intro tbl
  induction tbl with
  | nil => intro h0; rfl
  | cons tm rest ih =>
    intro h0
    unfold prescan_loop
    by_cases hz : tm.tag_type_ = tt_unknown
    · simp [hz, List.takeWhile]
    · rw [if_neg hz, ih]
      simp [List.takeWhile, hz]

theorem tag_path_map_entries :
    tag_path_map.takeWhile (fun tm => tm.tag_type_ ≠ tt_unknown) = tag_path_map.dropLast := by
  decide!

theorem tag_path_map_keys_nodup :
    ((tag_path_map.dropLast.map (fun tm => tm.tag_name)).map
      (fun s => s.data.foldl (fun a c => a * 256 + c.toNat) 0)).Nodup := by
  decide!

/-- C11: the entries of tag_path_map before its terminator (the entries the loop of
prescan_tags visits) have pairwise different paths and tag ids other than 0, prescan_tags
stores all of them, and for every such entry get_tag of its path returns the tag id and
the passthrough flag of that entry. -/
theorem tag_path_map_unique_paths :
    tag_path_map.takeWhile (fun tm => tm.tag_type_ ≠ tt_unknown) = tag_path_map.dropLast ∧
    (tag_path_map.dropLast.map (fun tm => tm.tag_name)).Nodup ∧
    (∀ tm ∈ tag_path_map.dropLast, tm.tag_type_ ≠ tt_unknown) ∧
    (prescan_tags []).length = tag_path_map.dropLast.length ∧
    (∀ tm ∈ tag_path_map.dropLast,
      get_tag (prescan_tags []) tm.tag_name = (tm.tag_type_, tm.tag_passthrough)) := by
  have hnd : (tag_path_map.dropLast.map (fun tm => tm.tag_name)).Nodup :=
    List.Nodup.of_map _ tag_path_map_keys_nodup
  have hpre : prescan_tags [] =
      (tag_path_map.dropLast.map (fun tm => (tm.tag_name, tm))).reverse := by
    unfold prescan_tags
    rw [prescan_loop_eq, tag_path_map_entries, List.append_nil]
  refine ⟨tag_path_map_entries, hnd, ?_, ?_, ?_⟩
  · intro tm htm
    rw [← tag_path_map_entries] at htm
    simpa using List.mem_takeWhile_imp htm
  · rw [hpre]; simp
  · intro tm htm
    have hkeys : ((tag_path_map.dropLast.map (fun tm => (tm.tag_name, tm))).reverse.map
        Prod.fst).Nodup := by
      rw [List.map_reverse, List.map_map, List.nodup_reverse]
      exact hnd
    have hmem : (tm.tag_name, tm) ∈
        (tag_path_map.dropLast.map (fun tm => (tm.tag_name, tm))).reverse :=
      List.mem_reverse.mpr (List.mem_map.mpr ⟨tm, htm, rfl⟩)
    have hf := hash_find_of_nodup _ hkeys _ hmem
    unfold get_tag
    rw [hpre, hf]

/-! ## The version written by gpx_wr_init -/

theorem cstr_no_nul (s : String) (h : '\x00' ∉ s.data) : (⟨cstr s⟩ : String) = s := by
  have : cstr s = s.data := by
    unfold cstr
    rw [List.takeWhile_eq_self_iff]
    intro c hc
    simp only [decide_eq_true_eq]
    intro e
    exact h (e ▸ hc)
  rw [this]

theorem gpx_wr_init_written (ext : Externals) (now : Int) (all_bounds : Option bounds)
    (cfg : WriterCfg) (s : State)
    (hf : (gpx_wr_init ext now all_bounds cfg s).fatal = false)
    (hfault : (gpx_wr_init ext now all_bounds cfg s).fault = false) :
    ∃ (v : String) (padded : Bool) (d : Dbl) (c0 c2 : Char),
      gpx_wr_init_version cfg s = some (v, padded) ∧ strtod v.data = some d ∧
      0 < d.times_ten_int ∧
      (gpx_wr_init ext now all_bounds cfg s).cfg =
        { cfg with gpx_wversion := some v, gpx_wversion_num := d.times_ten_int } ∧
      (gpx_wr_init ext now all_bounds cfg s).events =
        [WEvent.StartDocument, WEvent.Characters "\n", WEvent.StartElement "gpx",
         WEvent.Attribute "version" v, WEvent.Attribute "creator" CREATOR_NAME_URL,
         WEvent.Attribute "xmlns"
           ("http://www.topografix.com/GPX/" ++ String.singleton c0 ++ "/" ++
             String.singleton c2)] ++
        gpx_wr_init_namespaces cfg s ++
        gpx_wr_init_metadata ext now all_bounds d.times_ten_int s.gpx_global := by
  revert hf hfault
  unfold gpx_wr_init
  simp only []
  cases hv : gpx_wr_init_version cfg s with
  | none => simp
  | some vp =>
    obtain ⟨v, padded⟩ := vp
    simp only []
    cases hd : strtod v.data with
    | none => simp
    | some d =>
      simp only []
      by_cases h1 : d.times_ten_int < -2147483648 ∨ 2147483647 < d.times_ten_int
      · simp [h1]
      · by_cases h2 : d.times_ten_int ≤ 0
        · simp [h1, h2]
        · simp only [h1, h2, if_false]
          cases h0 : c_index v.data padded 0 with
          | none => simp
          | some c0 =>
            cases hc2 : c_index v.data padded 2 with
            | none => simp
            | some c2 =>
              intro _ _
              exact ⟨v, padded, d, c0, c2, rfl, hd, by omega, rfl, by simp⟩

theorem gpx_wr_init_fatal (ext : Externals) (now : Int) (all_bounds : Option bounds)
    (cfg : WriterCfg) (s : State)
    (hf : (gpx_wr_init ext now all_bounds cfg s).fatal = true) :
    (gpx_wr_init ext now all_bounds cfg s).events = [WEvent.StartDocument] := by
  revert hf
  unfold gpx_wr_init
  simp only []
  cases hv : gpx_wr_init_version cfg s with
  | none => simp
  | some vp =>
    obtain ⟨v, padded⟩ := vp
    simp only []
    cases hd : strtod v.data with
    | none => simp
    | some d =>
      simp only []
      by_cases h1 : d.times_ten_int < -2147483648 ∨ 2147483647 < d.times_ten_int
      · simp [h1]
      · by_cases h2 : d.times_ten_int ≤ 0
        · simp [h1, h2]
        · simp only [h1, h2, if_false]
          cases h0 : c_index v.data padded 0 with
          | none => simp
          | some c0 =>
            cases hc2 : c_index v.data padded 2 with
            | none => simp
            | some c2 => simp

theorem gpx_wr_init_version_plain (cfg : WriterCfg) (s : State)
    (htog : cfg.opt_humminbirdext = false ∧ cfg.opt_garminext = false)
    (hnul : '\x00' ∉ s.gpx_version.data) (v : String) (padded : Bool)
    (h : gpx_wr_init_version cfg s = some (v, padded)) : v = selected_version cfg s := by
  revert h
  unfold gpx_wr_init_version selected_version
  simp only [htog.1, htog.2, Bool.or_self, Bool.false_eq_true, if_false]
  cases cfg.gpx_wversion with
  | some w => simp only [Option.some.injEq, Prod.mk.injEq]; intro h; exact h.1.symm
  | none =>
    simp only []
    by_cases he : isEmpty s.gpx_version = true
    · simp only [he, if_true, Option.some.injEq, Prod.mk.injEq]; intro h; exact h.1.symm
    · simp only [he, Bool.false_eq_true, if_false]
      by_cases hsz : utf8_size (cstr s.gpx_version) < 16
      · simp only [hsz, if_true, cstr_no_nul s.gpx_version hnul, Option.some.injEq,
          Prod.mk.injEq]
        intro h; exact h.1.symm
      · simp [hsz]

theorem gpx_wr_init_version_fits (cfg : WriterCfg) (s : State)
    (htog : cfg.opt_humminbirdext = false ∧ cfg.opt_garminext = false)
    (hnul : '\x00' ∉ s.gpx_version.data)
    (hfit : cfg.gpx_wversion = none → utf8_size s.gpx_version.data < 16) :
    ∃ padded, gpx_wr_init_version cfg s = some (selected_version cfg s, padded) := by
  have hc : cstr s.gpx_version = s.gpx_version.data := by
    have := cstr_no_nul s.gpx_version hnul
    exact congrArg String.data this
  unfold gpx_wr_init_version selected_version
  simp only [htog.1, htog.2, Bool.or_self, Bool.false_eq_true, if_false]
  cases hv : cfg.gpx_wversion with
  | some w => exact ⟨false, rfl⟩
  | none =>
    simp only []
    by_cases he : isEmpty s.gpx_version = true
    · simp only [he, if_true]; exact ⟨false, rfl⟩
    · simp only [he, Bool.false_eq_true, if_false]
      have hsz : utf8_size (cstr s.gpx_version) < 16 := by rw [hc]; exact hfit hv
      simp only [hsz, if_true, cstr_no_nul s.gpx_version hnul]
      exact ⟨true, rfl⟩

theorem gpx_wr_init_gpx_wversion (ext : Externals) (now : Int) (all_bounds : Option bounds)
    (cfg : WriterCfg) (s : State) (v : String) (padded : Bool)
    (hv : gpx_wr_init_version cfg s = some (v, padded)) :
    (gpx_wr_init ext now all_bounds cfg s).cfg.gpx_wversion = some v := by
  unfold gpx_wr_init
  simp only [hv]
  cases hd : strtod v.data with
  | none => simp
  | some d =>
    simp only []
    by_cases h1 : d.times_ten_int < -2147483648 ∨ 2147483647 < d.times_ten_int
    · simp [h1]
    · by_cases h2 : d.times_ten_int ≤ 0
      · simp [h1, h2]
      · simp only [h1, h2, if_false]
        cases h0 : c_index v.data padded 0 with
        | none => simp
        | some c0 =>
          cases hc2 : c_index v.data padded 2 with
          | none => simp
          | some c2 => simp

/-- C12 (failing input): after a document of version 1.1 and then a document of version
1.0 have been read, gpx_wr_init without gpxver argument and without vendor toggle writes
the version 1.0, which is not the highest version detected: tag_gpx has replaced the
detected version 1.1 by 1.0. And a detected version of 18 bytes is not written at all:
strncpy fills the 16 byte buffer without the end of the text, so that reading
gpx_wversion runs past the buffer. -/
theorem gpx_wr_init_writes_last_detected_version :
    example_two_versions.gpx_version = "1.0" ∧
    (gpx_wr_init Externals.fixed 0 none {} example_two_versions).fatal = false ∧
    (gpx_wr_init Externals.fixed 0 none {} example_two_versions).fault = false ∧
    (gpx_wr_init Externals.fixed 0 none {} example_two_versions).events.take 4 =
      [WEvent.StartDocument, WEvent.Characters "\n", WEvent.StartElement "gpx",
       WEvent.Attribute "version" "1.0"] ∧
    (gpx_wr_init Externals.fixed 0 none {}
      (gpx_read Externals.fixed (gpx_rd_init {})
        (example_document_version "1.0000000000000000"))).fault = true ∧
    (gpx_wr_init Externals.fixed 0 none {}
      (gpx_read Externals.fixed (gpx_rd_init {})
        (example_document_version "1.0000000000000000"))).events = [WEvent.StartDocument] := by
  decide

/-- The order of the version selection: when no vendor toggle is set, the variable
gpx_wversion after gpx_wr_init holds the gpxver argument if one is given, otherwise the
text tag_gpx left in gpx_version if it is not empty (a text shorter than the 16 byte
buffer it is copied to), otherwise the default 1.0; and when gpx_wr_init does not abort,
this text is the version attribute it writes on the gpx element. -/
theorem gpx_wr_init_version_selection (ext : Externals) (now : Int)
    (all_bounds : Option bounds) (cfg : WriterCfg) (s : State)
    (htog : cfg.opt_humminbirdext = false ∧ cfg.opt_garminext = false)
    (hnul : '\x00' ∉ s.gpx_version.data)
    (hfit : cfg.gpx_wversion = none → utf8_size s.gpx_version.data < 16) :
    (gpx_wr_init ext now all_bounds cfg s).cfg.gpx_wversion =
      some (selected_version cfg s) ∧
    ((gpx_wr_init ext now all_bounds cfg s).fatal = false →
      (gpx_wr_init ext now all_bounds cfg s).fault = false →
      (gpx_wr_init ext now all_bounds cfg s).events.take 4 =
        [WEvent.StartDocument, WEvent.Characters "\n", WEvent.StartElement "gpx",
         WEvent.Attribute "version" (selected_version cfg s)]) ∧
    selected_version { gpx_wversion := some "1.1" } { gpx_version := "1.0" } = "1.1" ∧
    selected_version {} { gpx_version := "1.1" } = "1.1" ∧
    selected_version {} {} = "1.0" ∧
    (gpx_wr_init ext now all_bounds {} {}).events.take 4 =
      [WEvent.StartDocument, WEvent.Characters "\n", WEvent.StartElement "gpx",
       WEvent.Attribute "version" "1.0"] := by
  obtain ⟨p, hp⟩ := gpx_wr_init_version_fits cfg s htog hnul hfit
  refine ⟨gpx_wr_init_gpx_wversion ext now all_bounds cfg s _ p hp, ?_,
    by decide, by decide, by decide, ?_⟩
  · intro hf hfault
    obtain ⟨v, padded, d, c0, c2, hv, _, _, _, hev⟩ :=
      gpx_wr_init_written ext now all_bounds cfg s hf hfault
    have hsel := gpx_wr_init_version_plain cfg s htog hnul v padded hv
    rw [hev, hsel]; simp
  · have hver : gpx_wr_init_version {} {} = some ("1.0", false) := by decide
    have hs : strtod ("1.0" : String).data = some ⟨10, 1⟩ := by decide
    have hn : (⟨10, 1⟩ : Dbl).times_ten_int = 10 := by decide
    have h0 : c_index ("1.0" : String).data false 0 = some '1' := by decide
    have h2 : c_index ("1.0" : String).data false 2 = some '0' := by decide
    unfold gpx_wr_init
    simp only [hver, hs, hn, h0, h2]
    simp

/-- The version selection for the detected version 1.1 and no gpxver argument. -/
theorem gpx_wr_init_version_selection_witness :
    (gpx_wr_init Externals.fixed 0 none {} { gpx_version := "1.1" }).cfg.gpx_wversion =
        some "1.1" ∧
    (gpx_wr_init Externals.fixed 0 none {} { gpx_version := "1.1" }).events.take 4 =
      [WEvent.StartDocument, WEvent.Characters "\n", WEvent.StartElement "gpx",
       WEvent.Attribute "version" "1.1"] :=
  ⟨(gpx_wr_init_version_selection Externals.fixed 0 none {} { gpx_version := "1.1" }
      ⟨rfl, rfl⟩ (by decide) (by decide)).1,
   (gpx_wr_init_version_selection Externals.fixed 0 none {} { gpx_version := "1.1" }
      ⟨rfl, rfl⟩ (by decide) (by decide)).2.1 (by decide) (by decide)⟩

/-- C13: whenever the humminbirdextensions or the garminextensions toggle is set,
gpx_wr_init does not abort and writes the version attribute 1.1 and the namespace of
GPX 1.1; gpx_wversion_num is 11, whatever the gpxver argument and the detected version
are. -/
theorem gpx_wr_init_extension_version (ext : Externals) (now : Int)
    (all_bounds : Option bounds) (cfg : WriterCfg) (s : State)
    (htog : cfg.opt_humminbirdext = true ∨ cfg.opt_garminext = true) :
    (gpx_wr_init ext now all_bounds cfg s).fatal = false ∧
    (gpx_wr_init ext now all_bounds cfg s).fault = false ∧
    (gpx_wr_init ext now all_bounds cfg s).cfg.gpx_wversion = some "1.1" ∧
    (gpx_wr_init ext now all_bounds cfg s).cfg.gpx_wversion_num = 11 ∧
    (gpx_wr_init ext now all_bounds cfg s).events.take 6 =
      [WEvent.StartDocument, WEvent.Characters "\n", WEvent.StartElement "gpx",
       WEvent.Attribute "version" "1.1", WEvent.Attribute "creator" CREATOR_NAME_URL,
       WEvent.Attribute "xmlns" "http://www.topografix.com/GPX/1/1"] := by
  have hor : (cfg.opt_humminbirdext || cfg.opt_garminext) = true := by
    rcases htog with h | h <;> simp [h]
  have hver : gpx_wr_init_version cfg s = some ("1.1", false) := by
    simp [gpx_wr_init_version, hor]
  have hs : strtod ("1.1" : String).data = some ⟨11, 1⟩ := by decide
  have hn : (⟨11, 1⟩ : Dbl).times_ten_int = 11 := by decide
  have h0 : c_index ("1.1" : String).data false 0 = some '1' := by decide
  have h2 : c_index ("1.1" : String).data false 2 = some '1' := by decide
  unfold gpx_wr_init
  simp only [hver, hs, hn, h0, h2]
  refine ⟨by simp, by simp, by simp, by simp, ?_⟩
  simp
  decide

/-- Witness of C13: the garminextensions toggle with the gpxver argument 1.0. -/
theorem gpx_wr_init_extension_version_witness :
    (gpx_wr_init Externals.fixed 0 none { opt_garminext := true, gpx_wversion := some "1.0" }
      { gpx_version := "1.0" }).cfg.gpx_wversion_num = 11 :=
  (gpx_wr_init_extension_version Externals.fixed 0 none
    { opt_garminext := true, gpx_wversion := some "1.0" } { gpx_version := "1.0" }
    (Or.inr rfl)).2.2.2.1

/-- C14 (counterexample): with the gpxver argument abc gpx_wr_init aborts, and at that
moment the start of the document has already been written to the writer. -/
theorem gpx_wr_init_abort_after_start_document :
    (gpx_wr_init Externals.fixed 0 none { gpx_wversion := some "abc" } {}).fatal = true ∧
    (gpx_wr_init Externals.fixed 0 none { gpx_wversion := some "abc" } {}).events =
      [WEvent.StartDocument] ∧
    (gpx_wr_init Externals.fixed 0 none { gpx_wversion := some "abc" } {}).events ≠ [] := by
  decide

/-- C14 (amended): let v be the version text gpx_wr_init selects: the gpxver argument, or
else the detected version, or else 1.0, and 1.1 when a vendor toggle is set. When ten
times the double strtod reads at the start of v, rounded to a double and converted to
int, is not positive, gpx_wr_init aborts, whether v is the gpxver argument (as abc) or
the version detected in the input; and whenever it aborts, the only call made on the
writer so far is the start of the document: no element, attribute or text has been
written. The number is the product in double arithmetic: for the text
0.09999999999999999999 it is 1, so this version is accepted. -/
theorem gpx_wr_init_invalid_version (ext : Externals) (now : Int)
    (all_bounds : Option bounds) (cfg : WriterCfg) (s : State) (v : String) (padded : Bool)
    (d : Dbl) (hv : gpx_wr_init_version cfg s = some (v, padded))
    (hd : strtod v.data = some d)
    (hn : -2147483648 ≤ d.times_ten_int ∧ d.times_ten_int ≤ 0) :
    (gpx_wr_init ext now all_bounds cfg s).fatal = true ∧
    (gpx_wr_init ext now all_bounds cfg s).events = [WEvent.StartDocument] ∧
    (∀ (cfg' : WriterCfg) (s' : State), (gpx_wr_init ext now all_bounds cfg' s').fatal = true →
      (gpx_wr_init ext now all_bounds cfg' s').events = [WEvent.StartDocument]) ∧
    (cfg.opt_humminbirdext = false ∧ cfg.opt_garminext = false →
      '\x00' ∉ s.gpx_version.data → v = selected_version cfg s) ∧
    strtod ("abc" : String).data = some ⟨0, 0⟩ ∧
    (⟨0, 0⟩ : Dbl).times_ten_int = 0 ∧
    (gpx_wr_init Externals.fixed 0 none { gpx_wversion := some "0.09999999999999999999" }
      {}).fatal = false := by
  have h1 : ¬ (d.times_ten_int < -2147483648 ∨ 2147483647 < d.times_ten_int) := by
    omega
  have hfat : (gpx_wr_init ext now all_bounds cfg s).fatal = true := by
    unfold gpx_wr_init
    simp [hv, hd, h1, hn.2]
  exact ⟨hfat, gpx_wr_init_fatal ext now all_bounds cfg s hfat,
    fun cfg' s' h => gpx_wr_init_fatal ext now all_bounds cfg' s' h,
    fun htog hnul => gpx_wr_init_version_plain cfg s htog hnul v padded hv,
    by decide, by decide, by decide⟩

/-- Witness of C14 (amended): the gpxver argument abc, and the version abc detected in
the input with no gpxver argument. -/
theorem gpx_wr_init_invalid_version_witness :
    (gpx_wr_init Externals.fixed 0 none { gpx_wversion := some "abc" } {}).fatal = true ∧
    (gpx_wr_init Externals.fixed 0 none {}
      (gpx_read Externals.fixed (gpx_rd_init {}) (example_document_version "abc"))).fatal =
      true ∧
    (gpx_wr_init Externals.fixed 0 none {}
      (gpx_read Externals.fixed (gpx_rd_init {}) (example_document_version "abc"))).events =
      [WEvent.StartDocument] :=
  ⟨(gpx_wr_init_invalid_version Externals.fixed 0 none { gpx_wversion := some "abc" } {}
      "abc" false ⟨0, 0⟩ (by decide) (by decide) (by decide)).1,
   (gpx_wr_init_invalid_version Externals.fixed 0 none {}
      (gpx_read Externals.fixed (gpx_rd_init {}) (example_document_version "abc"))
      "abc" true ⟨0, 0⟩ (by decide) (by decide) (by decide)).1,
   (gpx_wr_init_invalid_version Externals.fixed 0 none {}
      (gpx_read Externals.fixed (gpx_rd_init {}) (example_document_version "abc"))
      "abc" true ⟨0, 0⟩ (by decide) (by decide) (by decide)).2.1⟩

/-! ## Nesting and order of the elements the writer emits -/

theorem depth_after_append :
    ∀ (a b : List WEvent) (d : Nat),
      depth_after d (a ++ b) = (depth_after d a).bind (fun e => depth_after e b) := by
  intro a
  induction a with
  | nil => intro b d; simp [depth_after]
  | cons x xs ih =>
    intro b d
    cases x with
    | StartDocument => simp [depth_after, ih]
    | StartElement n => simp [depth_after, ih]
    | Attribute n v => simp [depth_after, ih]
    | Characters t => simp [depth_after, ih]
    | EndElement =>
      cases d with
      | zero => simp [depth_after]
      | succ d => simp [depth_after, ih]

theorem depth_after_shift :
    ∀ (a : List WEvent) (d e k : Nat), depth_after d a = some e →
      depth_after (d + k) a = some (e + k) := by
  intro a
  induction a with
  | nil => intro d e k h; simp [depth_after] at h ⊢; omega
  | cons x xs ih =>
    intro d e k h
    cases x with
    | StartDocument => simp only [depth_after] at h ⊢; exact ih d e k h
    | StartElement n =>
      simp only [depth_after] at h ⊢
      have := ih (d + 1) e k h
      rw [show d + k + 1 = d + 1 + k by omega]; exact this
    | Attribute n v => simp only [depth_after] at h ⊢; exact ih d e k h
    | Characters t => simp only [depth_after] at h ⊢; exact ih d e k h
    | EndElement =>
      cases d with
      | zero => simp [depth_after] at h
      | succ d =>
        simp only [depth_after] at h
        rw [show d + 1 + k = (d + k) + 1 by omega]
        simp only [depth_after]
        exact ih d e k h

/-- A sequence of writer calls that closes exactly the elements it opens. -/
theorem balanced_shift (a : List WEvent) (h : depth_after 0 a = some 0) (d : Nat) :
    depth_after d a = some d := by
  have := depth_after_shift a 0 0 d h
  simpa using this

theorem balanced_append (a b : List WEvent) (ha : depth_after 0 a = some 0)
    (hb : depth_after 0 b = some 0) : depth_after 0 (a ++ b) = some 0 := by
  rw [depth_after_append, ha]; exact hb

theorem balanced_element (n : String) (a : List WEvent) (ha : depth_after 0 a = some 0) :
    depth_after 0 (WEvent.StartElement n :: (a ++ [WEvent.EndElement])) = some 0 := by
  simp only [depth_after]
  rw [depth_after_append, balanced_shift a ha 1]
  rfl

theorem balanced_flatten :
    ∀ (l : List (List WEvent)), (∀ a ∈ l, depth_after 0 a = some 0) →
      depth_after 0 l.flatten = some 0 := by
  intro l
  induction l with
  | nil => intro _; rfl
  | cons a as ih =>
    intro h
    rw [List.flatten_cons]
    exact balanced_append _ _ (h a (List.mem_cons_self _ _))
      (ih (fun b hb => h b (List.mem_cons_of_mem _ hb)))

theorem names_at_append :
    ∀ (a b : List WEvent) (k d e : Nat), depth_after d a = some e →
      names_at k d (a ++ b) = names_at k d a ++ names_at k e b := by
  intro a
  induction a with
  | nil => intro b k d e h; simp [depth_after] at h; simp [names_at, h]
  | cons x xs ih =>
    intro b k d e h
    cases x with
    | StartDocument => simp only [depth_after] at h; simp [names_at, ih b k d e h]
    | StartElement n =>
      simp only [depth_after] at h
      simp only [List.cons_append, names_at]
      split <;> simp [ih b k (d + 1) e h]
    | Attribute n v => simp only [depth_after] at h; simp [names_at, ih b k d e h]
    | Characters t => simp only [depth_after] at h; simp [names_at, ih b k d e h]
    | EndElement =>
      cases d with
      | zero => simp [depth_after] at h
      | succ d =>
        simp only [depth_after] at h
        simp [names_at, ih b k d e h]

/-- An element opened deeper than level k adds no name at level k. -/
theorem names_at_deeper :
    ∀ (a : List WEvent) (k d : Nat), k < d → depth_after 0 a = some 0 →
      names_at k d a = [] := by
  intro a
  suffices h : ∀ (n : Nat) (a : List WEvent), a.length ≤ n → ∀ (k d j e : Nat), k < d →
      depth_after j a = some e → names_at k (d + j) a = [] from
    fun k d hk hb => by simpa using h a.length a (Nat.le_refl _) k d 0 0 hk hb
  intro n
  induction n with
  | zero =>
    intro a ha k d j e _ _
    have : a = [] := List.length_eq_zero.mp (Nat.le_zero.mp ha)
    subst this; rfl
  | succ n ih =>
    intro a ha k d j e hk hb
    cases a with
    | nil => rfl
    | cons x xs =>
      have hl : xs.length ≤ n := by simpa using ha
      cases x with
      | StartDocument => simp only [depth_after] at hb; simp only [names_at]; exact ih xs hl k d j e hk hb
      | StartElement m =>
        simp only [depth_after] at hb
        simp only [names_at]
        have hne : ¬ d + j = k := by omega
        simp only [hne, if_false]
        exact ih xs hl k d (j + 1) e hk hb
      | Attribute m v => simp only [depth_after] at hb; simp only [names_at]; exact ih xs hl k d j e hk hb
      | Characters t => simp only [depth_after] at hb; simp only [names_at]; exact ih xs hl k d j e hk hb
      | EndElement =>
        cases j with
        | zero => simp [depth_after] at hb
        | succ j =>
          simp only [depth_after] at hb
          simp only [names_at]
          have : d + (j + 1) - 1 = d + j := by omega
          rw [this]
          exact ih xs hl k d j e hk hb

/-- The names at level k of an element written at level d and what follows it. -/
theorem names_at_element (n : String) (a rest : List WEvent) (k d : Nat) (hk : k ≤ d)
    (ha : depth_after 0 a = some 0) :
    names_at k d (WEvent.StartElement n :: (a ++ WEvent.EndElement :: rest)) =
      (if d = k then [n] else []) ++ names_at k d rest := by
  have h1 : names_at k (d + 1) (a ++ WEvent.EndElement :: rest) = names_at k d rest := by
    rw [names_at_append a _ k (d + 1) (d + 1) (balanced_shift a ha (d + 1)),
      names_at_deeper a k (d + 1) (by omega) ha]
    simp [names_at]
  simp only [names_at, h1]
  split <;> simp

theorem balanced_text (n t : String) : depth_after 0 (writeTextElement n t) = some 0 := rfl

theorem balanced_optional (n t : String) :
    depth_after 0 (writeOptionalTextElement n t) = some 0 := by
  unfold writeOptionalTextElement
  split <;> rfl

theorem names_at_text (n t : String) (rest : List WEvent) (k d : Nat) (hk : k ≤ d) :
    names_at k d (writeTextElement n t ++ rest) =
      (if d = k then [n] else []) ++ names_at k d rest := by
  have := names_at_element n [WEvent.Characters t] rest k d hk rfl
  simpa [writeTextElement] using this

theorem names_at_optional (n t : String) (rest : List WEvent) (k d : Nat) (hk : k ≤ d) :
    names_at k d (writeOptionalTextElement n t ++ rest) =
      (if d = k ∧ isEmpty t = false then [n] else []) ++ names_at k d rest := by
  unfold writeOptionalTextElement
  cases h : isEmpty t
  · simp [names_at_text n t rest k d hk]
  · simp

theorem balanced_characters (l : List String) :
    depth_after 0 (l.map WEvent.Characters) = some 0 := by
  induction l with
  | nil => rfl
  | cons a as ih => simpa [depth_after] using ih

theorem balanced_attributes (l : List Attr) :
    depth_after 0 (l.map (fun a => WEvent.Attribute a.1 a.2)) = some 0 := by
  induction l with
  | nil => rfl
  | cons a as ih => simpa [depth_after] using ih

theorem balanced_gdata (ge : List String) (tag : String) :
    depth_after 0 (gpx_write_gdata ge tag) = some 0 := by
  unfold gpx_write_gdata
  split
  · have := balanced_element tag _ (balanced_characters (if tag = "url" ∨ tag = "email" then ge.take 1 else ge))
    simpa using this
  · rfl

theorem names_at_gdata (ge : List String) (tag : String) (rest : List WEvent) (k d : Nat)
    (hk : k ≤ d) :
    names_at k d (gpx_write_gdata ge tag ++ rest) =
      (if d = k ∧ ge.isEmpty = false then [tag] else []) ++ names_at k d rest := by
  unfold gpx_write_gdata
  cases h : ge.isEmpty
  · have := names_at_element tag _ rest k d hk
      (balanced_characters (if tag = "url" ∨ tag = "email" then ge.take 1 else ge))
    simpa using this
  · simp

theorem balanced_link (l : UrlLink) : depth_after 0 (write_link l) = some 0 := by
  unfold write_link
  have h : depth_after 0 ([WEvent.Attribute "href" l.url_] ++
      writeOptionalTextElement "text" l.url_link_text_ ++
      writeOptionalTextElement "type" l.url_link_type_) = some 0 := by
    rw [List.append_assoc]
    exact balanced_append _ _ rfl
      (balanced_append _ _ (balanced_optional _ _) (balanced_optional _ _))
  have := balanced_element "link" _ h
  simpa using this

theorem names_at_link (l : UrlLink) (rest : List WEvent) (k d : Nat) (hk : k ≤ d) :
    names_at k d (write_link l ++ rest) = (if d = k then ["link"] else []) ++ names_at k d rest := by
  have h : depth_after 0 ([WEvent.Attribute "href" l.url_] ++
      writeOptionalTextElement "text" l.url_link_text_ ++
      writeOptionalTextElement "type" l.url_link_type_) = some 0 := by
    rw [List.append_assoc]
    exact balanced_append _ _ rfl
      (balanced_append _ _ (balanced_optional _ _) (balanced_optional _ _))
  have := names_at_element "link" _ rest k d hk h
  simpa [write_link] using this

theorem balanced_bounds (b : Option bounds) : depth_after 0 (gpx_write_bounds b) = some 0 := by
  cases b <;> rfl

theorem names_at_bounds (b : Option bounds) (rest : List WEvent) (k d : Nat) (hk : k ≤ d) :
    names_at k d (gpx_write_bounds b ++ rest) =
      (if d = k ∧ b.isSome = true then ["bounds"] else []) ++ names_at k d rest := by
  cases b with
  | none => simp [gpx_write_bounds]
  | some b =>
    have := names_at_element "bounds"
      [WEvent.Attribute "minlat" (toString_double b.min_lat),
       WEvent.Attribute "minlon" (toString_double b.min_lon),
       WEvent.Attribute "maxlat" (toString_double b.max_lat),
       WEvent.Attribute "maxlon" (toString_double b.max_lon)] rest k d hk rfl
    simpa [gpx_write_bounds] using this

theorem names_at_links :
    ∀ (ls : List UrlLink) (rest : List WEvent) (k d : Nat), k ≤ d →
      names_at k d ((ls.map write_link).flatten ++ rest) =
        (if d = k then List.replicate ls.length "link" else []) ++ names_at k d rest := by
  intro ls
  induction ls with
  | nil => intro rest k d _; simp
  | cons l ls ih =>
    intro rest k d hk
    rw [List.map_cons, List.flatten_cons, List.append_assoc, names_at_link l _ k d hk,
      ih rest k d hk]
    split <;> simp [List.replicate_succ]

theorem balanced_links (ls : List UrlLink) :
    depth_after 0 (ls.map write_link).flatten = some 0 := by
  apply balanced_flatten
  intro a ha
  obtain ⟨l, _, rfl⟩ := List.mem_map.mp ha
  exact balanced_link l

theorem gpx_wr_init_metadata_none (ext : Externals) (now : Int) (all_bounds : Option bounds)
    (n : Int) :
    gpx_wr_init_metadata ext now all_bounds n none =
      gpx_wr_init_metadata ext now all_bounds n (some {}) := by
  unfold gpx_wr_init_metadata
  simp [gpx_write_gdata]

theorem names_at_start_ne (n : String) (es : List WEvent) (k d : Nat) (h : d ≠ k) :
    names_at k d (WEvent.StartElement n :: es) = names_at k (d + 1) es := by
  simp [names_at, h]

theorem names_at_metadata (ext : Externals) (now : Int) (all_bounds : Option bounds)
    (n : Int) (g : GpxGlobal) :
    names_at (if n > 10 then 1 else 0) 0 (gpx_wr_init_metadata ext now all_bounds n (some g)) =
      (if g.name.isEmpty = false then ["name"] else []) ++
      ((if g.desc.isEmpty = false then ["desc"] else []) ++
      ((if n < 11 then
          (if g.author.isEmpty = false then ["author"] else []) ++
          ((if g.email.isEmpty = false then ["email"] else []) ++
          ((if g.url.isEmpty = false then ["url"] else []) ++
          (if g.urlname.isEmpty = false then ["urlname"] else [])))
        else List.replicate g.link.length "link") ++
      (["time"] ++
      ((if g.keywords.isEmpty = false then ["keywords"] else []) ++
      (if all_bounds.isSome = true then ["bounds"] else []))))) := by
  unfold gpx_wr_init_metadata
  by_cases hn : n > 10
  · have h11 : ¬ n < 11 := by omega
    simp only [hn, h11, if_true, if_false, List.append_assoc, List.singleton_append,
      List.nil_append, List.cons_append]
    rw [names_at_start_ne _ _ 1 0 (by decide),names_at_gdata _ _ _ 1 1 (Nat.le_refl _), names_at_gdata _ _ _ 1 1 (Nat.le_refl _),
      names_at_links _ _ 1 1 (Nat.le_refl _), names_at_text _ _ _ 1 1 (Nat.le_refl _),
      names_at_gdata _ _ _ 1 1 (Nat.le_refl _), names_at_bounds _ _ 1 1 (Nat.le_refl _)]
    simp [names_at]
  · have h11 : n < 11 := by omega
    simp only [hn, h11, if_true, if_false, List.append_assoc, List.nil_append]
    rw [names_at_gdata _ _ _ 0 0 (Nat.le_refl _), names_at_gdata _ _ _ 0 0 (Nat.le_refl _),
      names_at_gdata _ _ _ 0 0 (Nat.le_refl _), names_at_gdata _ _ _ 0 0 (Nat.le_refl _),
      names_at_gdata _ _ _ 0 0 (Nat.le_refl _), names_at_gdata _ _ _ 0 0 (Nat.le_refl _),
      names_at_text _ _ _ 0 0 (Nat.le_refl _),
      names_at_gdata _ _ _ 0 0 (Nat.le_refl _), names_at_bounds _ _ 0 0 (Nat.le_refl _)]
    simp [names_at]

theorem balanced_metadata_fields (ext : Externals) (now : Int) (all_bounds : Option bounds)
    (n : Int) (g : GpxGlobal) :
    depth_after 0
      (gpx_write_gdata g.name "name" ++ (gpx_write_gdata g.desc "desc" ++
        ((if n < 11 then gpx_write_gdata g.author "author" else []) ++
        ((if n < 11 then
            gpx_write_gdata g.email "email" ++ (gpx_write_gdata g.url "url" ++
              gpx_write_gdata g.urlname "urlname")
          else (g.link.map write_link).flatten) ++
        (writeTextElement "time" (ext.toPrettyString now) ++
        (gpx_write_gdata g.keywords "keywords" ++ gpx_write_bounds all_bounds)))))) =
      some 0 := by
  refine balanced_append _ _ (balanced_gdata _ _) (balanced_append _ _ (balanced_gdata _ _)
    (balanced_append _ _ ?_ (balanced_append _ _ ?_ (balanced_append _ _ (balanced_text _ _)
      (balanced_append _ _ (balanced_gdata _ _) (balanced_bounds _))))))
  · split
    · exact balanced_gdata _ _
    · rfl
  · split
    · exact balanced_append _ _ (balanced_gdata _ _)
        (balanced_append _ _ (balanced_gdata _ _) (balanced_gdata _ _))
    · exact balanced_links _

theorem gpx_wr_init_metadata_eq (ext : Externals) (now : Int) (all_bounds : Option bounds)
    (n : Int) (g : GpxGlobal) :
    gpx_wr_init_metadata ext now all_bounds n (some g) =
      (if n > 10 then [WEvent.StartElement "metadata"] else []) ++
      ((gpx_write_gdata g.name "name" ++ (gpx_write_gdata g.desc "desc" ++
        ((if n < 11 then gpx_write_gdata g.author "author" else []) ++
        ((if n < 11 then
            gpx_write_gdata g.email "email" ++ (gpx_write_gdata g.url "url" ++
              gpx_write_gdata g.urlname "urlname")
          else (g.link.map write_link).flatten) ++
        (writeTextElement "time" (ext.toPrettyString now) ++
        (gpx_write_gdata g.keywords "keywords" ++ gpx_write_bounds all_bounds)))))) ++
      (if n > 10 then [WEvent.EndElement] else [])) := by
  unfold gpx_wr_init_metadata
  simp only [List.append_assoc]

theorem balanced_metadata (ext : Externals) (now : Int) (all_bounds : Option bounds)
    (n : Int) (g : GpxGlobal) :
    depth_after 0 (gpx_wr_init_metadata ext now all_bounds n (some g)) = some 0 := by
  rw [gpx_wr_init_metadata_eq]
  have hb := balanced_metadata_fields ext now all_bounds n g
  by_cases hn : n > 10
  · simp only [hn, if_true, List.singleton_append]
    exact balanced_element "metadata" _ hb
  · simp only [hn, if_false, List.nil_append, List.append_nil]
    exact hb

theorem names_at_metadata_top (ext : Externals) (now : Int) (all_bounds : Option bounds)
    (n : Int) (g : GpxGlobal) (hn : n > 10) :
    names_at 0 0 (gpx_wr_init_metadata ext now all_bounds n (some g)) = ["metadata"] := by
  rw [gpx_wr_init_metadata_eq]
  have hb := balanced_metadata_fields ext now all_bounds n g
  simp only [hn, if_true, List.singleton_append]
  have := names_at_element "metadata" _ [] 0 0 (Nat.le_refl _) hb
  simpa [names_at] using this

theorem sublist_optional (c : Prop) [Decidable c] (x : String) :
    List.Sublist (if c then [x] else []) [x] := by
  split
  · exact List.Sublist.refl _
  · exact List.nil_sublist _

/-- C17: when gpx_wr_init writes the document head, the last part of what it writes is
the global metadata, a well nested sequence; with n the number gpx_wversion_num, the
fields are the children of one metadata element when n is above 10 and stand directly
in the gpx element otherwise; their names are a subsequence of name, desc, author,
email, url, urlname, link (once per link record), time, keywords, bounds; author, email,
url and urlname occur only when n is below 11 and link only when n is 11 or above. -/
theorem gpx_wr_init_metadata_order (ext : Externals) (now : Int)
    (all_bounds : Option bounds) (cfg : WriterCfg) (s : State)
    (hok : (gpx_wr_init ext now all_bounds cfg s).fatal = false ∧
      (gpx_wr_init ext now all_bounds cfg s).fault = false)
    (n : Int) (hn : n = (gpx_wr_init ext now all_bounds cfg s).cfg.gpx_wversion_num)
    (sec : List WEvent)
    (hsec : sec = (gpx_wr_init ext now all_bounds cfg s).events.drop
      (6 + (gpx_wr_init_namespaces cfg s).length))
    (level : Nat) (hlevel : level = if n > 10 then 1 else 0) :
    sec = gpx_wr_init_metadata ext now all_bounds n s.gpx_global ∧
    depth_after 0 sec = some 0 ∧
    (n > 10 → names_at 0 0 sec = ["metadata"]) ∧
    (¬ n > 10 → "metadata" ∉ names_at 0 0 sec) ∧
    List.Sublist (names_at level 0 sec)
      (metadata_order (s.gpx_global.getD {}).link.length) ∧
    (∀ x ∈ ["author", "email", "url", "urlname"], x ∈ names_at level 0 sec → n < 11) ∧
    ("link" ∈ names_at level 0 sec → 11 ≤ n) ∧
    "time" ∈ names_at level 0 sec := by
  obtain ⟨v, padded, d, c0, c2, _, _, _, hcfg, hev⟩ :=
    gpx_wr_init_written ext now all_bounds cfg s hok.1 hok.2
  have hn' : n = d.times_ten_int := by rw [hn, hcfg]
  have hsec' : sec = gpx_wr_init_metadata ext now all_bounds n (some (s.gpx_global.getD {})) := by
    rw [hsec, hev, hn', List.append_assoc, List.drop_append_eq_append_drop]
    have : s.gpx_global = none ∨ ∃ g, s.gpx_global = some g := by
      cases s.gpx_global with
      | none => exact Or.inl rfl
      | some g => exact Or.inr ⟨g, rfl⟩
    rcases this with h | ⟨g, h⟩
    · rw [h, gpx_wr_init_metadata_none]
      simp
    · rw [h]; simp
  have hsec'' : sec = gpx_wr_init_metadata ext now all_bounds n s.gpx_global := by
    rw [hsec']
    cases s.gpx_global with
    | none => rw [gpx_wr_init_metadata_none]; rfl
    | some g => rfl
  have hnames := names_at_metadata ext now all_bounds n (s.gpx_global.getD {})
  rw [← hlevel, ← hsec'] at hnames
  refine ⟨hsec'', ?_, ?_, ?_, ?_, ?_, ?_, ?_⟩
  · rw [hsec']; exact balanced_metadata _ _ _ _ _
  · intro h; rw [hsec']; exact names_at_metadata_top _ _ _ _ _ h
  · intro h
    have hl : level = 0 := by rw [hlevel]; simp [h]
    rw [hl] at hnames
    rw [hnames]
    have h11 : n < 11 := by omega
    simp only [h11, if_true]
    intro hm
    simp only [List.mem_append, List.mem_cons, List.mem_singleton] at hm
    rcases hm with hm | hm | (hm | hm | hm | hm) | hm | hm | hm
    all_goals (first | (split at hm <;> simp at hm) | simp at hm)
  · rw [hnames]
    have horder : metadata_order (s.gpx_global.getD {}).link.length =
        ["name"] ++ (["desc"] ++ ((["author", "email", "url", "urlname"] ++
          List.replicate (s.gpx_global.getD {}).link.length "link") ++
          (["time"] ++ (["keywords"] ++ ["bounds"])))) := by
      simp [metadata_order]
    rw [horder]
    refine List.Sublist.append (sublist_optional _ _) ?_
    refine List.Sublist.append (sublist_optional _ _) ?_
    refine List.Sublist.append ?_ (List.Sublist.append (List.Sublist.refl _)
      (List.Sublist.append (sublist_optional _ _) (sublist_optional _ _)))
    split
    · refine (List.Sublist.append (sublist_optional _ "author")
        (List.Sublist.append (sublist_optional _ "email")
          (List.Sublist.append (sublist_optional _ "url")
            (sublist_optional _ "urlname")))).trans ?_
      exact List.sublist_append_left _ _
    · exact List.sublist_append_right _ _
  · intro x hx hm
    by_contra h11
    rw [hnames] at hm
    simp only [h11, if_false] at hm
    simp only [List.mem_cons, List.mem_singleton, List.not_mem_nil, or_false] at hx
    simp only [List.mem_append, List.mem_cons, List.mem_singleton, List.mem_replicate] at hm
    rcases hx with rfl | rfl | rfl | rfl <;>
      (rcases hm with hm | hm | hm | hm | hm | hm
       all_goals (first | (split at hm <;> simp at hm) | simp at hm))
  · intro hm
    by_contra h11
    have h11' : n < 11 := by omega
    rw [hnames] at hm
    simp only [h11', if_true] at hm
    simp only [List.mem_append, List.mem_cons, List.mem_singleton] at hm
    rcases hm with hm | hm | (hm | hm | hm | hm) | hm | hm | hm
    all_goals (first | (split at hm <;> simp at hm) | simp at hm)
  · rw [hnames]
    simp

/-- Witness of C17: the document head for the detected version 1.1 and a file name. -/
theorem gpx_wr_init_metadata_order_witness :
    names_at 0 0
      ((gpx_wr_init Externals.fixed 0 none {}
        { gpx_version := "1.1", gpx_global := some { name := ["a"] } }).events.drop
        (6 + (gpx_wr_init_namespaces {}
          { gpx_version := "1.1", gpx_global := some { name := ["a"] } }).length)) =
      ["metadata"] :=
  (gpx_wr_init_metadata_order Externals.fixed 0 none {}
    { gpx_version := "1.1", gpx_global := some { name := ["a"] } } ⟨by decide, by decide⟩
    11 (by decide) _ rfl 1 (by decide)).2.2.1 (by decide)

/-! ## The order of the child elements of a point -/

theorem fields_append {a b : List WEvent} {l1 l2 : List String} (ha : Fields a l1)
    (hb : Fields b l2) : Fields (a ++ b) (l1 ++ l2) := by
  refine ⟨balanced_append a b ha.1 hb.1, ?_⟩
  rw [names_at_append a b 0 0 0 ha.1]
  exact List.Sublist.append ha.2 hb.2

theorem fields_nil (l : List String) : Fields [] l := ⟨rfl, List.nil_sublist _⟩

theorem fields_text (n t : String) : Fields (writeTextElement n t) [n] :=
  ⟨rfl, by simp [writeTextElement, names_at]⟩

theorem fields_optional (n t : String) : Fields (writeOptionalTextElement n t) [n] := by
  unfold writeOptionalTextElement
  split
  · exact fields_nil _
  · exact fields_text n t

theorem fields_ite {c : Prop} [Decidable c] {a b : List WEvent} {l : List String}
    (ha : Fields a l) (hb : Fields b l) : Fields (if c then a else b) l := by
  split
  · exact ha
  · exact hb

theorem fields_mono {a : List WEvent} {l1 l2 : List String} (ha : Fields a l1)
    (h : List.Sublist l1 l2) : Fields a l2 := ⟨ha.1, ha.2.trans h⟩

theorem fields_link (l : UrlLink) : Fields (write_link l) ["link"] := by
  refine ⟨balanced_link l, ?_⟩
  have := names_at_link l [] 0 0 (Nat.le_refl _)
  simp only [List.append_nil] at this
  rw [this]
  simp [names_at]

theorem fields_links :
    ∀ (ls : List UrlLink),
      Fields (ls.map (fun l => if !isEmpty l.url_ then write_link l else [])).flatten
        (List.replicate ls.length "link") := by
  intro ls
  induction ls with
  | nil => exact fields_nil _
  | cons l ls ih =>
    rw [List.map_cons, List.flatten_cons, List.length_cons, List.replicate_succ]
    exact @fields_append _ _ ["link"] _ (fields_ite (fields_link l) (fields_nil _)) ih

theorem fields_url (cfg : WriterCfg) (urls : List UrlLink) :
    Fields (write_gpx_url cfg urls)
      (if cfg.gpx_wversion_num > 10 then List.replicate urls.length "link"
       else ["url", "urlname"]) := by
  unfold write_gpx_url
  refine fields_ite ?_ (fields_nil _)
  unfold write_gpx_url_list
  by_cases h : cfg.gpx_wversion_num > 10
  · simp only [h, if_true]
    exact fields_links urls
  · simp only [h, if_false]
    exact fields_ite (fields_append (fields_text _ _) (fields_optional _ _)) (fields_nil _)

theorem fields_position (ext : Externals) (cfg : WriterCfg) (w : Waypoint)
    (point_type : gpx_point_type) :
    Fields (gpx_write_common_position ext cfg w point_type)
      (["ele"] ++ ["time"] ++
        (if point_type = gpxpt_track ∧ cfg.gpx_wversion_num = 10 then ["course"] ++ ["speed"]
         else []) ++ ["geoidheight"]) := by
  unfold gpx_write_common_position
  refine fields_append (fields_append (fields_append
    (fields_ite (fields_text _ _) (fields_nil _)) (fields_optional _ _)) ?_) ?_
  · by_cases h : point_type = gpxpt_track ∧ cfg.gpx_wversion_num = 10
    · simp only [h, and_self, if_true]
      refine fields_append ?_ ?_
      · cases w.course with
        | none => exact fields_nil _
        | some c => exact fields_text _ _
      · cases w.speed with
        | none => exact fields_nil _
        | some c => exact fields_text _ _
    · simp only [h, if_false]
      exact fields_nil _
  · cases w.geoidheight with
    | none => exact fields_nil _
    | some g => exact fields_optional _ _

theorem fields_description (cfg : WriterCfg) (w : Waypoint) (oname : String) :
    Fields (gpx_write_common_description cfg w oname)
      (["name"] ++ ["cmt"] ++ ["desc"] ++
        (if cfg.gpx_wversion_num > 10 then List.replicate w.urls.length "link"
         else ["url", "urlname"]) ++ ["sym"]) := by
  unfold gpx_write_common_description
  exact fields_append (fields_append (fields_append (fields_append
    (fields_optional _ _) (fields_optional _ _))
    (fields_ite (fields_text _ _) (fields_optional _ _))) (fields_url cfg w.urls))
    (fields_optional _ _)

theorem fields_acc (w : Waypoint) :
    Fields (gpx_write_common_acc w) (["fix"] ++ ["sat"] ++ ["hdop"] ++ ["vdop"] ++ ["pdop"]) := by
  unfold gpx_write_common_acc
  refine fields_append (fields_append (fields_append (fields_append ?_
    (fields_ite (fields_text _ _) (fields_nil _)))
    (fields_ite (fields_text _ _) (fields_nil _)))
    (fields_ite (fields_text _ _) (fields_nil _)))
    (fields_ite (fields_text _ _) (fields_nil _))
  cases w.fix <;> first | exact fields_nil _ | exact fields_text _ _

theorem fields_point (ext : Externals) (cfg : WriterCfg) (w : Waypoint)
    (point_type : gpx_point_type) (oname : String) :
    Fields (point_fields ext cfg w point_type oname)
      (point_fields_order cfg point_type w.urls.length) := by
  have h := fields_append (fields_append (fields_position ext cfg w point_type)
    (fields_description cfg w oname)) (fields_acc w)
  unfold point_fields
  refine ⟨h.1, ?_⟩
  have e : point_fields_order cfg point_type w.urls.length =
      ["ele"] ++ ["time"] ++
        (if point_type = gpxpt_track ∧ cfg.gpx_wversion_num = 10 then ["course"] ++ ["speed"]
         else []) ++ ["geoidheight"] ++
      (["name"] ++ ["cmt"] ++ ["desc"] ++
        (if cfg.gpx_wversion_num > 10 then List.replicate w.urls.length "link"
         else ["url", "urlname"]) ++ ["sym"]) ++
      (["fix"] ++ ["sat"] ++ ["hdop"] ++ ["vdop"] ++ ["pdop"]) := by
    simp [point_fields_order]
  rw [e]
  exact h.2

theorem point_fields_order_sublist (cfg : WriterCfg) (point_type : gpx_point_type)
    (links : Nat) :
    List.Sublist (point_fields_order cfg point_type links) (point_order links) := by
  unfold point_fields_order point_order
  have e : (["ele", "time", "course", "speed", "geoidheight", "name", "cmt", "desc", "url",
      "urlname"] : List String) ++ List.replicate links "link" ++
      ["sym", "fix", "sat", "hdop", "vdop", "pdop"] =
      ["ele", "time"] ++ ["course", "speed"] ++ ["geoidheight", "name", "cmt", "desc"] ++
        (["url", "urlname"] ++ List.replicate links "link") ++
        ["sym", "fix", "sat", "hdop", "vdop", "pdop"] := by simp
  rw [e]
  refine List.Sublist.append (List.Sublist.append (List.Sublist.append
    (List.Sublist.append (List.Sublist.refl _) ?_) (List.Sublist.refl _)) ?_)
    (List.Sublist.refl _)
  · split
    · exact List.Sublist.refl _
    · exact List.nil_sublist _
  · split
    · exact List.sublist_append_right _ _
    · exact List.sublist_append_left _ _

theorem not_mem_point_fields_order (cfg : WriterCfg) (point_type : gpx_point_type)
    (links : Nat) (x : String) (hx : x = "course" ∨ x = "speed")
    (h : x ∈ point_fields_order cfg point_type links) :
    point_type = gpxpt_track ∧ cfg.gpx_wversion_num = 10 := by
  by_contra hc
  unfold point_fields_order at h
  simp only [hc, if_false, List.append_nil, List.mem_append, List.mem_cons, List.mem_singleton,
    List.not_mem_nil, or_false, List.mem_replicate] at h
  rcases hx with rfl | rfl
  · rcases h with ((h | h) | h) | h
    · rcases h with h | h <;> simp at h
    · rcases h with h | h | h | h <;> simp at h
    · split at h
      · simp at h
      · simp at h
    · rcases h with h | h | h | h | h | h <;> simp at h
  · rcases h with ((h | h) | h) | h
    · rcases h with h | h <;> simp at h
    · rcases h with h | h | h | h <;> simp at h
    · split at h
      · simp at h
      · simp at h
    · rcases h with h | h | h | h | h | h <;> simp at h

/-- C18: the child elements that gpx_waypt_pr, gpx_route_disp and gpx_track_disp write
for a point after its lat and lon attributes and before the extensions or the preserved
chain are well nested, and their names form a subsequence of ele, time, course, speed,
geoidheight, name, cmt, desc, url, urlname, link (once per link), sym, fix, sat, hdop,
vdop, pdop; course and speed occur only for a track point when gpx_wversion_num is 10. -/
theorem point_children_order (ext : Externals) (cfg : WriterCfg) (tags : List xml_tag)
    (w : Waypoint) (point_type : gpx_point_type) (oname : String) (first_in_trk : Bool) :
    depth_after 0 (point_fields ext cfg w point_type oname) = some 0 ∧
    List.Sublist (names_at 0 0 (point_fields ext cfg w point_type oname))
      (point_order w.urls.length) ∧
    (∀ x, x = "course" ∨ x = "speed" →
      x ∈ names_at 0 0 (point_fields ext cfg w point_type oname) →
      point_type = gpxpt_track ∧ cfg.gpx_wversion_num = 10) ∧
    ([WEvent.StartElement "wpt", WEvent.Attribute "lat" (toString_double w.latitude),
      WEvent.Attribute "lon" (toString_double w.longitude)] ++
      point_fields ext cfg w gpxpt_waypoint (oname_of ext cfg w)) <+:
      gpx_waypt_pr ext cfg tags w ∧
    gpx_route_disp ext cfg tags w =
      [WEvent.StartElement "rtept", WEvent.Attribute "lat" (toString_double w.latitude),
       WEvent.Attribute "lon" (toString_double w.longitude)] ++
      point_fields ext cfg w gpxpt_route (oname_of ext cfg w) ++
      point_extras ext cfg tags w gpxpt_route ++ [WEvent.EndElement] ∧
    gpx_track_disp ext cfg tags first_in_trk w =
      (if w.new_trkseg then
        (if !first_in_trk then [WEvent.EndElement] else []) ++ [WEvent.StartElement "trkseg"]
       else []) ++
      [WEvent.StartElement "trkpt", WEvent.Attribute "lat" (toString_double w.latitude),
       WEvent.Attribute "lon" (toString_double w.longitude)] ++
      point_fields ext cfg w gpxpt_track
        (if w.shortname_is_synthetic then "" else oname_of ext cfg w) ++
      point_extras ext cfg tags w gpxpt_track ++ [WEvent.EndElement] := by
  have hf := fields_point ext cfg w point_type oname
  refine ⟨hf.1, hf.2.trans (point_fields_order_sublist _ _ _), ?_, ?_, ?_, ?_⟩
  · intro x hx hm
    exact not_mem_point_fields_order cfg point_type w.urls.length x hx (hf.2.subset hm)
  · unfold gpx_waypt_pr point_fields
    simp only [List.append_assoc, List.prefix_append_right_inj]
    exact List.prefix_append _ _
  · unfold gpx_route_disp point_fields
    simp only [List.append_assoc]
  · unfold gpx_track_disp point_fields
    simp only [List.append_assoc]

/-! ## Preserved chain and vendor extensions of a point -/

/-- C19 (counterexample): in a waypoint whose unrecognised element foo precedes the
name element, the name is written first and foo after it. -/
theorem unknown_element_written_after_name :
    gpx_write_waypoints Externals.fixed {}
      (gpx_read Externals.fixed (gpx_rd_init {}) example_document_unknown_first) =
      [WEvent.StartElement "wpt", WEvent.Attribute "lat" "1.000000000",
       WEvent.Attribute "lon" "2.000000000",
       WEvent.StartElement "name", WEvent.Characters "n", WEvent.EndElement,
       WEvent.StartElement "foo", WEvent.EndElement,
       WEvent.EndElement] := by
  decide

/-- C19 (amended): when no vendor toggle is set, gpx_route_disp and gpx_track_disp
write the preserved chain of a point after all its known child elements, as the last
children of the point, and gpx_waypt_pr does so for a point without Garmin data; the
place the unrecognised elements had among the known ones in the input is not kept. -/
theorem preserved_chain_written_last (ext : Externals) (cfg : WriterCfg)
    (tags : List xml_tag) (w : Waypoint) (first_in_trk : Bool)
    (htog : cfg.opt_humminbirdext = false ∧ cfg.opt_garminext = false) :
    gpx_route_disp ext cfg tags w =
      [WEvent.StartElement "rtept", WEvent.Attribute "lat" (toString_double w.latitude),
       WEvent.Attribute "lon" (toString_double w.longitude)] ++
      point_fields ext cfg w gpxpt_route (oname_of ext cfg w) ++
      point_chain ext tags w ++ [WEvent.EndElement] ∧
    gpx_track_disp ext cfg tags first_in_trk w =
      (if w.new_trkseg then
        (if !first_in_trk then [WEvent.EndElement] else []) ++ [WEvent.StartElement "trkseg"]
       else []) ++
      [WEvent.StartElement "trkpt", WEvent.Attribute "lat" (toString_double w.latitude),
       WEvent.Attribute "lon" (toString_double w.longitude)] ++
      point_fields ext cfg w gpxpt_track
        (if w.shortname_is_synthetic then "" else oname_of ext cfg w) ++
      point_chain ext tags w ++ [WEvent.EndElement] ∧
    (GMSD_FIND w.fs = false →
      gpx_waypt_pr ext cfg tags w =
        [WEvent.StartElement "wpt", WEvent.Attribute "lat" (toString_double w.latitude),
         WEvent.Attribute "lon" (toString_double w.longitude)] ++
        point_fields ext cfg w gpxpt_waypoint (oname_of ext cfg w) ++
        point_chain ext tags w ++ [WEvent.EndElement]) ∧
    depth_after 0 (point_fields ext cfg w gpxpt_waypoint (oname_of ext cfg w)) = some 0 := by
  refine ⟨?_, ?_, ?_, ?_⟩
  · unfold gpx_route_disp point_extras point_fields point_chain
    simp only [htog.1, htog.2, Bool.or_self, Bool.not_false, if_true, List.append_assoc]
  · unfold gpx_track_disp point_extras point_fields point_chain
    simp only [htog.1, htog.2, Bool.or_self, Bool.not_false, if_true, List.append_assoc]
  · intro hg
    unfold gpx_waypt_pr point_fields point_chain
    simp only [htog.1, htog.2, hg, Bool.or_self, Bool.not_false, if_true, Bool.false_and,
      Bool.false_eq_true, if_false, List.append_nil, List.append_assoc]
  · exact (fields_point ext cfg w gpxpt_waypoint (oname_of ext cfg w)).1

/-- Witness of C19 (amended): a route point without a preserved chain, no toggle set. -/
theorem preserved_chain_written_last_witness :
    gpx_route_disp Externals.fixed {} [] {} =
      [WEvent.StartElement "rtept",
       WEvent.Attribute "lat" (toString_double ({} : Waypoint).latitude),
       WEvent.Attribute "lon" (toString_double ({} : Waypoint).longitude)] ++
      point_fields Externals.fixed {} {} gpxpt_route (oname_of Externals.fixed {} {}) ++
      point_chain Externals.fixed [] {} ++ [WEvent.EndElement] :=
  (preserved_chain_written_last Externals.fixed {} [] {} true ⟨rfl, rfl⟩).1

theorem extensions_never_empty (cfg : WriterCfg) (w : Waypoint) (point_type : gpx_point_type) :
    gpx_write_common_extensions cfg w point_type = [] ∨
    (depth_after 0 (gpx_write_common_extensions cfg w point_type) = some 0 ∧
     names_at 0 0 (gpx_write_common_extensions cfg w point_type) = ["extensions"] ∧
     names_at 1 0 (gpx_write_common_extensions cfg w point_type) ≠ []) := by
  cases hh : cfg.opt_humminbirdext <;> cases hg : cfg.opt_garminext <;> cases point_type <;>
    cases hd : w.depth <;> cases ht : w.temperature <;> cases hp : w.proximity <;>
    by_cases hr : w.heartrate = 0 <;> by_cases hc : w.cadence = 0 <;>
    simp [gpx_write_common_extensions, hh, hg, hd, ht, hp, hr, hc, names_at, writeTextElement,
      depth_after]

theorem extensions_only_when_expressible (cfg : WriterCfg) (w : Waypoint)
    (point_type : gpx_point_type) (h : gpx_write_common_extensions cfg w point_type ≠ []) :
    (cfg.opt_humminbirdext = true ∧ (w.depth.isSome = true ∨ w.temperature.isSome = true)) ∨
    (cfg.opt_garminext = true ∧ point_type = gpxpt_waypoint ∧
      (w.proximity.isSome = true ∨ w.temperature.isSome = true ∨ w.depth.isSome = true)) ∨
    (cfg.opt_garminext = true ∧ point_type = gpxpt_track ∧
      (w.temperature.isSome = true ∨ w.depth.isSome = true ∨ w.heartrate ≠ 0 ∨
        w.cadence ≠ 0)) := by
  revert h
  cases hh : cfg.opt_humminbirdext <;> cases hg : cfg.opt_garminext <;> cases point_type <;>
    cases hd : w.depth <;> cases ht : w.temperature <;> cases hp : w.proximity <;>
    by_cases hr : w.heartrate = 0 <;> by_cases hc : w.cadence = 0 <;>
    simp [gpx_write_common_extensions, hh, hg, hd, ht, hp, hr, hc]

/-- C20: whenever a vendor toggle is set, gpx_waypt_pr, gpx_route_disp and
gpx_track_disp write after the known child elements of a point the result of
gpx_write_common_extensions and nothing of the preserved chain or of the Garmin data of
the point; what gpx_write_common_extensions writes is either nothing or one well
nested extensions element with at least one child, and it writes the element only when
the point has a field that a set toggle expresses for the point type. -/
theorem extensions_replace_chain (ext : Externals) (cfg : WriterCfg) (tags : List xml_tag)
    (w : Waypoint) (first_in_trk : Bool)
    (htog : cfg.opt_humminbirdext = true ∨ cfg.opt_garminext = true) :
    gpx_waypt_pr ext cfg tags w =
      [WEvent.StartElement "wpt", WEvent.Attribute "lat" (toString_double w.latitude),
       WEvent.Attribute "lon" (toString_double w.longitude)] ++
      point_fields ext cfg w gpxpt_waypoint (oname_of ext cfg w) ++
      gpx_write_common_extensions cfg w gpxpt_waypoint ++ [WEvent.EndElement] ∧
    gpx_route_disp ext cfg tags w =
      [WEvent.StartElement "rtept", WEvent.Attribute "lat" (toString_double w.latitude),
       WEvent.Attribute "lon" (toString_double w.longitude)] ++
      point_fields ext cfg w gpxpt_route (oname_of ext cfg w) ++
      gpx_write_common_extensions cfg w gpxpt_route ++ [WEvent.EndElement] ∧
    gpx_track_disp ext cfg tags first_in_trk w =
      (if w.new_trkseg then
        (if !first_in_trk then [WEvent.EndElement] else []) ++ [WEvent.StartElement "trkseg"]
       else []) ++
      [WEvent.StartElement "trkpt", WEvent.Attribute "lat" (toString_double w.latitude),
       WEvent.Attribute "lon" (toString_double w.longitude)] ++
      point_fields ext cfg w gpxpt_track
        (if w.shortname_is_synthetic then "" else oname_of ext cfg w) ++
      gpx_write_common_extensions cfg w gpxpt_track ++ [WEvent.EndElement] ∧
    (∀ point_type,
      gpx_write_common_extensions cfg w point_type = [] ∨
      (depth_after 0 (gpx_write_common_extensions cfg w point_type) = some 0 ∧
       names_at 0 0 (gpx_write_common_extensions cfg w point_type) = ["extensions"] ∧
       names_at 1 0 (gpx_write_common_extensions cfg w point_type) ≠ [])) ∧
    (∀ point_type, gpx_write_common_extensions cfg w point_type ≠ [] →
      (cfg.opt_humminbirdext = true ∧
        (w.depth.isSome = true ∨ w.temperature.isSome = true)) ∨
      (cfg.opt_garminext = true ∧ point_type = gpxpt_waypoint ∧
        (w.proximity.isSome = true ∨ w.temperature.isSome = true ∨ w.depth.isSome = true)) ∨
      (cfg.opt_garminext = true ∧ point_type = gpxpt_track ∧
        (w.temperature.isSome = true ∨ w.depth.isSome = true ∨ w.heartrate ≠ 0 ∨
          w.cadence ≠ 0))) := by
  have hor : (cfg.opt_humminbirdext || cfg.opt_garminext) = true := by
    rcases htog with h | h <;> simp [h]
  refine ⟨?_, ?_, ?_, fun t => extensions_never_empty cfg w t,
    fun t h => extensions_only_when_expressible cfg w t h⟩
  · unfold gpx_waypt_pr point_fields
    simp only [hor, Bool.not_true, Bool.false_eq_true, if_false, List.append_assoc]
  · unfold gpx_route_disp point_extras point_fields
    simp only [hor, Bool.not_true, Bool.false_eq_true, if_false, List.append_assoc]
  · unfold gpx_track_disp point_extras point_fields
    simp only [hor, Bool.not_true, Bool.false_eq_true, if_false, List.append_assoc]

/-- Witness of C20: a waypoint with a depth and a preserved chain, written with the
humminbirdextensions toggle. -/
theorem extensions_replace_chain_witness :
    gpx_waypt_pr Externals.fixed { opt_humminbirdext := true, gpx_wversion_num := 11 }
      [{ tagname := "foo" }]
      { example_depth_point with fs := [format_specific_data.fs_xml (some 0)] } =
      [WEvent.StartElement "wpt", WEvent.Attribute "lat" "0.000000000",
       WEvent.Attribute "lon" "0.000000000", WEvent.StartElement "extensions",
       WEvent.StartElement "h:depth", WEvent.Characters "250.000000000", WEvent.EndElement,
       WEvent.EndElement, WEvent.EndElement] :=
  (extensions_replace_chain Externals.fixed
    { opt_humminbirdext := true, gpx_wversion_num := 11 } [{ tagname := "foo" }]
    { example_depth_point with fs := [format_specific_data.fs_xml (some 0)] } true
    (Or.inl rfl)).1.trans (by decide)

/-! ## Track segments -/

theorem names_at_start_ne2 (n : String) (es : List WEvent) :
    names_at 2 1 (WEvent.StartElement n :: es) = names_at 2 2 es := by
  simp [names_at]

theorem names_at_end2 (es : List WEvent) :
    names_at 2 2 (WEvent.EndElement :: es) = names_at 2 1 es := rfl

theorem balanced_fprint (ext : Externals) (tags : List xml_tag) (wpt : Option Waypoint) :
    ∀ (fuel : Nat) (tag : Option Nat),
      depth_after 0 (fprint_xml_chain_fuel ext tags wpt fuel tag) = some 0 := by
  intro fuel
  induction fuel with
  | zero => intro tag; rfl
  | succ f ih =>
    intro tag
    cases tag with
    | none => rfl
    | some i =>
      unfold fprint_xml_chain_fuel
      simp only []
      have hexp : depth_after 0 (exported_time ext wpt (getTag tags i)) = some 0 := by
        unfold exported_time
        cases wpt with
        | none => rfl
        | some w =>
          simp only []
          cases (w.gc_data.getD {}).exported with
          | none => rfl
          | some t =>
            simp only []
            split
            · rfl
            · rfl
      have hattr : depth_after 0 (write_tag_attributes (getTag tags i)) = some 0 :=
        balanced_attributes _
      have hel : depth_after 0 ([WEvent.StartElement (getTag tags i).tagname] ++
          (if (isEmpty (getTag tags i).cdata && (getTag tags i).child.isNone) = true then
            write_tag_attributes (getTag tags i) ++ [WEvent.EndElement]
          else
            write_tag_attributes (getTag tags i) ++
            (if (!isEmpty (getTag tags i).cdata) = true then
              [WEvent.Characters (getTag tags i).cdata] else []) ++
            fprint_xml_chain_fuel ext tags wpt f (getTag tags i).child ++
            exported_time ext wpt (getTag tags i) ++
            [WEvent.EndElement])) = some 0 := by
        split
        · exact balanced_element _ _ hattr
        · have hin : depth_after 0 (write_tag_attributes (getTag tags i) ++
              (if (!isEmpty (getTag tags i).cdata) = true then
                [WEvent.Characters (getTag tags i).cdata] else []) ++
              fprint_xml_chain_fuel ext tags wpt f (getTag tags i).child ++
              exported_time ext wpt (getTag tags i)) = some 0 := by
            refine balanced_append _ _ (balanced_append _ _ (balanced_append _ _ hattr ?_)
              (ih _)) hexp
            split <;> rfl
          have := balanced_element (getTag tags i).tagname _ hin
          simpa using this
      refine balanced_append _ _ (balanced_append _ _ hel ?_) (ih _)
      split <;> rfl

theorem balanced_chain (ext : Externals) (tags : List xml_tag) (tag : Option Nat)
    (wpt : Option Waypoint) : depth_after 0 (fprint_xml_chain ext tags tag wpt) = some 0 :=
  balanced_fprint ext tags wpt _ tag

theorem balanced_point_extras (ext : Externals) (cfg : WriterCfg) (tags : List xml_tag)
    (w : Waypoint) (point_type : gpx_point_type) :
    depth_after 0 (point_extras ext cfg tags w point_type) = some 0 := by
  unfold point_extras
  split
  · cases fs_chain_find_gpx w.fs with
    | none => rfl
    | some tag => exact balanced_chain _ _ _ _
  · rcases extensions_never_empty cfg w point_type with h | h
    · rw [h]; rfl
    · exact h.1

theorem balanced_url (cfg : WriterCfg) (urls : List UrlLink) :
    depth_after 0 (write_gpx_url cfg urls) = some 0 := (fields_url cfg urls).1

theorem balanced_head_extras (ext : Externals) (cfg : WriterCfg) (tags : List xml_tag)
    (rte : route_head) (ext_name : String) (auto_named : List WEvent)
    (ha : depth_after 0 auto_named = some 0) :
    depth_after 0 (head_extras ext cfg tags rte ext_name auto_named) = some 0 := by
  unfold head_extras
  split
  · split
    · cases fs_chain_find_gpx rte.fs with
      | none => rfl
      | some tag => exact balanced_chain _ _ _ _
    · split
      · split
        · simp only []
          split
          · have h1 : depth_after 0 (auto_named ++
                writeTextElement "gpxx:DisplayColor"
                  (ext.gt_color_name (ext.gt_color_index_by_rgb rte.line_color_bbggrr))) =
                some 0 := balanced_append _ _ ha rfl
            have h2 := balanced_element ext_name _ h1
            have h3 := balanced_element "extensions" _ h2
            simpa using h3
          · rfl
        · rfl
      · rfl
  · rfl

theorem balanced_trkpt (ext : Externals) (cfg : WriterCfg) (tags : List xml_tag)
    (w : Waypoint) : depth_after 0 (trkpt_events ext cfg tags w) = some 0 := by
  unfold trkpt_events
  have h : depth_after 0 ([WEvent.Attribute "lat" (toString_double w.latitude),
      WEvent.Attribute "lon" (toString_double w.longitude)] ++
      point_fields ext cfg w gpxpt_track
        (if w.shortname_is_synthetic then "" else oname_of ext cfg w) ++
      point_extras ext cfg tags w gpxpt_track) = some 0 :=
    balanced_append _ _ (balanced_append _ _ rfl (fields_point _ _ _ _ _).1)
      (balanced_point_extras _ _ _ _ _)
  have := balanced_element "trkpt" _ h
  simpa using this

theorem balanced_trkpts (ext : Externals) (cfg : WriterCfg) (tags : List xml_tag)
    (seg : List Waypoint) :
    depth_after 0 (seg.map (trkpt_events ext cfg tags)).flatten = some 0 := by
  apply balanced_flatten
  intro a ha
  obtain ⟨w, _, rfl⟩ := List.mem_map.mp ha
  exact balanced_trkpt ext cfg tags w

theorem balanced_trkseg (ext : Externals) (cfg : WriterCfg) (tags : List xml_tag)
    (seg : List Waypoint) : depth_after 0 (trkseg_events ext cfg tags seg) = some 0 := by
  unfold trkseg_events
  have := balanced_element "trkseg" _ (balanced_trkpts ext cfg tags seg)
  simpa using this

theorem balanced_trksegs (ext : Externals) (cfg : WriterCfg) (tags : List xml_tag)
    (segs : List (List Waypoint)) :
    depth_after 0 (segs.map (trkseg_events ext cfg tags)).flatten = some 0 := by
  apply balanced_flatten
  intro a ha
  obtain ⟨w, _, rfl⟩ := List.mem_map.mp ha
  exact balanced_trkseg ext cfg tags w

theorem gpx_track_hdr_depth (ext : Externals) (cfg : WriterCfg) (tags : List xml_tag)
    (rte : route_head) : depth_after 0 (gpx_track_hdr ext cfg tags rte) = some 1 := by
  have h : depth_after 0 (writeOptionalTextElement "name" rte.rte_name ++
      (writeOptionalTextElement "desc" rte.rte_desc ++
      (write_gpx_url cfg rte.rte_urls ++
      ((if rte.rte_num ≠ 0 then writeTextElement "number" (number_int rte.rte_num) else []) ++
      head_extras ext cfg tags rte "gpxx:TrackExtension" [])))) = some 0 := by
    refine balanced_append _ _ (balanced_optional _ _) (balanced_append _ _
      (balanced_optional _ _) (balanced_append _ _ (balanced_url _ _) (balanced_append _ _ ?_
      (balanced_head_extras _ _ _ _ _ _ rfl))))
    split <;> rfl
  have e : gpx_track_hdr ext cfg tags rte = WEvent.StartElement "trk" ::
      (writeOptionalTextElement "name" rte.rte_name ++
      (writeOptionalTextElement "desc" rte.rte_desc ++
      (write_gpx_url cfg rte.rte_urls ++
      ((if rte.rte_num ≠ 0 then writeTextElement "number" (number_int rte.rte_num) else []) ++
      head_extras ext cfg tags rte "gpxx:TrackExtension" [])))) := by
    unfold gpx_track_hdr
    simp only [List.append_assoc, List.singleton_append, List.cons_append, List.nil_append]
  rw [e]
  simp only [depth_after]
  exact depth_after_shift _ 0 0 1 h

theorem gpx_track_disp_eq (ext : Externals) (cfg : WriterCfg) (tags : List xml_tag)
    (first_in_trk : Bool) (w : Waypoint) :
    gpx_track_disp ext cfg tags first_in_trk w =
      (if w.new_trkseg then
        (if !first_in_trk then [WEvent.EndElement] else []) ++ [WEvent.StartElement "trkseg"]
       else []) ++ trkpt_events ext cfg tags w := by
  unfold gpx_track_disp trkpt_events point_fields
  simp only [List.append_assoc]

theorem split_segments_spec (ext : Externals) (cfg : WriterCfg) (tags : List xml_tag) :
    ∀ (ws : List Waypoint) (w : Waypoint),
      ∃ (seg : List Waypoint) (rest : List (List Waypoint)),
        split_segments (w :: ws) = (w :: seg) :: rest ∧
        (∀ u ∈ seg, u.new_trkseg = false) ∧
        (w :: seg) ++ rest.flatten = w :: ws ∧
        rest.length = (ws.filter (fun u => u.new_trkseg)).length ∧
        (∀ sg ∈ rest, ∃ v r, sg = v :: r ∧ v.new_trkseg = true ∧
          ∀ u ∈ r, u.new_trkseg = false) ∧
        trkpt_events ext cfg tags w ++
          (ws.map (gpx_track_disp ext cfg tags false)).flatten ++ [WEvent.EndElement] =
          ((w :: seg).map (trkpt_events ext cfg tags)).flatten ++ [WEvent.EndElement] ++
          (rest.map (trkseg_events ext cfg tags)).flatten := by
  intro ws
  induction ws with
  | nil =>
    intro w
    exact ⟨[], [], rfl, by simp, by simp, by simp, by simp, by simp⟩
  | cons v vs ih =>
    intro w
    obtain ⟨seg', rest', hs, hun, hfl, hlen, hrest, hev⟩ := ih v
    by_cases hv : v.new_trkseg = true
    · refine ⟨[], (v :: seg') :: rest', ?_, by simp, ?_, ?_, ?_, ?_⟩
      · simp [split_segments, hv, hs]
      · simp only [List.flatten_cons]
        rw [hfl]; simp
      · simp [hv, hlen]
      · intro sg hsg
        rcases List.mem_cons.mp hsg with h | h
        · exact ⟨v, seg', h, hv, hun⟩
        · exact hrest sg h
      · simp only [List.map_cons, List.flatten_cons, List.flatten_nil, List.append_nil,
          gpx_track_disp_eq, hv, if_true, Bool.not_false, List.map_nil]
        have e : trkseg_events ext cfg tags (v :: seg') =
            [WEvent.StartElement "trkseg"] ++ (trkpt_events ext cfg tags v ++
              ((seg'.map (trkpt_events ext cfg tags)).flatten ++ [WEvent.EndElement])) := by
          simp [trkseg_events]
        rw [e]
        simp only [List.map_cons, List.flatten_cons, List.append_assoc] at hev ⊢
        rw [hev]
    · have hv' : v.new_trkseg = false := by simpa using hv
      refine ⟨v :: seg', rest', ?_, ?_, ?_, ?_, hrest, ?_⟩
      · simp [split_segments, hv', hs]
      · intro u hu
        rcases List.mem_cons.mp hu with h | h
        · rw [h]; exact hv'
        · exact hun u h
      · rw [List.cons_append, hfl]
      · simp [hv', hlen]
      · simp only [List.map_cons, List.flatten_cons, gpx_track_disp_eq, hv',
          Bool.false_eq_true, if_false, List.nil_append, List.append_assoc] at hev ⊢
        rw [hev]

theorem track_points_nodup (ext : Externals) (cfg : WriterCfg) (s : State) (rte : route_head)
    (i : Nat) (rest : List Nat) (h : rte.waypoint_list = i :: rest)
    (hn : rte.waypoint_list.Nodup) :
    track_points ext cfg s rte =
      gpx_track_disp ext cfg s.tags true (s.wpts[i]?.getD default) ++
      ((rest.map (fun j => s.wpts[j]?.getD default)).map
        (gpx_track_disp ext cfg s.tags false)).flatten := by
  unfold track_points
  rw [h] at hn ⊢
  have hni : i ∉ rest := (List.nodup_cons.mp hn).1
  simp only [List.map_cons, List.flatten_cons, List.head?_cons, decide_True, List.map_map]
  congr 2
  apply List.map_congr_left
  intro j hj
  have hne : ¬ (some i = some j) := by
    intro e
    exact hni (Option.some.inj e ▸ hj)
  simp [hne]

theorem trkpt_events_eq (ext : Externals) (cfg : WriterCfg) (tags : List xml_tag)
    (w : Waypoint) :
    trkpt_events ext cfg tags w =
      WEvent.StartElement "trkpt" ::
        (([WEvent.Attribute "lat" (toString_double w.latitude),
           WEvent.Attribute "lon" (toString_double w.longitude)] ++
          point_fields ext cfg w gpxpt_track
            (if w.shortname_is_synthetic then "" else oname_of ext cfg w) ++
          point_extras ext cfg tags w gpxpt_track) ++ [WEvent.EndElement]) := by
  unfold trkpt_events
  simp only [List.append_assoc, List.cons_append, List.nil_append]

theorem trkpt_inner_balanced (ext : Externals) (cfg : WriterCfg) (tags : List xml_tag)
    (w : Waypoint) :
    depth_after 0 ([WEvent.Attribute "lat" (toString_double w.latitude),
        WEvent.Attribute "lon" (toString_double w.longitude)] ++
      point_fields ext cfg w gpxpt_track
        (if w.shortname_is_synthetic then "" else oname_of ext cfg w) ++
      point_extras ext cfg tags w gpxpt_track) = some 0 :=
  balanced_append _ _ (balanced_append _ _ rfl (fields_point _ _ _ _ _).1)
    (balanced_point_extras _ _ _ _ _)

theorem names_at_trkpts (ext : Externals) (cfg : WriterCfg) (tags : List xml_tag) :
    ∀ (seg : List Waypoint) (rest : List WEvent) (k d : Nat), k ≤ d →
      names_at k d ((seg.map (trkpt_events ext cfg tags)).flatten ++ rest) =
        (if d = k then List.replicate seg.length "trkpt" else []) ++ names_at k d rest := by
  intro seg
  induction seg with
  | nil => intro rest k d _; simp
  | cons w ws ih =>
    intro rest k d hk
    rw [List.map_cons, List.flatten_cons, List.append_assoc, trkpt_events_eq,
      List.cons_append, List.append_assoc, List.singleton_append,
      names_at_element "trkpt" _ _ k d hk (trkpt_inner_balanced ext cfg tags w),
      ih rest k d hk]
    split <;> simp [List.replicate_succ]

theorem trkseg_events_eq (ext : Externals) (cfg : WriterCfg) (tags : List xml_tag)
    (seg : List Waypoint) :
    trkseg_events ext cfg tags seg =
      WEvent.StartElement "trkseg" ::
        ((seg.map (trkpt_events ext cfg tags)).flatten ++ [WEvent.EndElement]) := by
  simp [trkseg_events]

theorem names_at_trksegs_one (ext : Externals) (cfg : WriterCfg) (tags : List xml_tag) :
    ∀ (segs : List (List Waypoint)) (rest : List WEvent),
      names_at 1 1 ((segs.map (trkseg_events ext cfg tags)).flatten ++ rest) =
        List.replicate segs.length "trkseg" ++ names_at 1 1 rest := by
  intro segs
  induction segs with
  | nil => intro rest; simp
  | cons sg sgs ih =>
    intro rest
    rw [List.map_cons, List.flatten_cons, List.append_assoc]
    rw [trkseg_events_eq, List.cons_append, List.append_assoc, List.singleton_append,
      names_at_element "trkseg" _ _ 1 1 (Nat.le_refl _) (balanced_trkpts ext cfg tags sg),
      ih rest]
    simp [List.replicate_succ]

theorem names_at_trksegs_two (ext : Externals) (cfg : WriterCfg) (tags : List xml_tag) :
    ∀ (segs : List (List Waypoint)) (rest : List WEvent),
      names_at 2 1 ((segs.map (trkseg_events ext cfg tags)).flatten ++ rest) =
        List.replicate segs.flatten.length "trkpt" ++ names_at 2 1 rest := by
  intro segs
  induction segs with
  | nil => intro rest; simp
  | cons sg sgs ih =>
    intro rest
    rw [List.map_cons, List.flatten_cons, List.append_assoc]
    rw [trkseg_events_eq, List.cons_append, List.append_assoc, List.singleton_append,
      names_at_start_ne2, names_at_trkpts ext cfg tags sg _ 2 2 (Nat.le_refl _)]
    rw [if_pos rfl, names_at_end2, ih rest, List.flatten_cons, List.length_append,
      List.replicate_add, List.append_assoc]

/-- C15: for every track whose points are distinct objects and whose first point carries
the flag new_trkseg, what gpx_track_hdr, gpx_track_disp for each point in order and
gpx_track_tlr write is well nested: the header, then one trkseg element for every
segment of the points, each holding the trkpt elements of its points, then the end of
the trk element. A segment starts exactly at each flagged point, so that the number of
trkseg elements is the number of flagged points and every trkpt element is a child of
one trkseg element; a track without points gives the header and the end of trk. -/
theorem track_segments_well_nested (ext : Externals) (cfg : WriterCfg) (s : State)
    (rte : route_head) (hnodup : rte.waypoint_list.Nodup)
    (hfirst : ∀ w ws, track_waypoints s rte = w :: ws → w.new_trkseg = true) :
    depth_after 0 (track_events ext cfg s rte) = some 0 ∧
    track_events ext cfg s rte =
      gpx_track_hdr ext cfg s.tags rte ++
      ((split_segments (track_waypoints s rte)).map (trkseg_events ext cfg s.tags)).flatten ++
      [WEvent.EndElement] ∧
    (split_segments (track_waypoints s rte)).flatten = track_waypoints s rte ∧
    (split_segments (track_waypoints s rte)).length =
      ((track_waypoints s rte).filter (fun u => u.new_trkseg)).length ∧
    (∀ seg ∈ split_segments (track_waypoints s rte),
      ∃ v r, seg = v :: r ∧ v.new_trkseg = true ∧ ∀ u ∈ r, u.new_trkseg = false) ∧
    names_at 1 1 (track_points ext cfg s rte ++ gpx_track_tlr rte) =
      List.replicate ((track_waypoints s rte).filter (fun u => u.new_trkseg)).length
        "trkseg" ∧
    names_at 2 1 (track_points ext cfg s rte ++ gpx_track_tlr rte) =
      List.replicate (track_waypoints s rte).length "trkpt" ∧
    (∀ w, depth_after 0 (trkpt_events ext cfg s.tags w) = some 0) ∧
    (rte.waypoint_list = [] →
      track_events ext cfg s rte = gpx_track_hdr ext cfg s.tags rte ++ [WEvent.EndElement]) := by
  have hbody : track_points ext cfg s rte ++ gpx_track_tlr rte =
      ((split_segments (track_waypoints s rte)).map (trkseg_events ext cfg s.tags)).flatten ++
        [WEvent.EndElement] ∧
      (split_segments (track_waypoints s rte)).flatten = track_waypoints s rte ∧
      (split_segments (track_waypoints s rte)).length =
        ((track_waypoints s rte).filter (fun u => u.new_trkseg)).length ∧
      (∀ seg ∈ split_segments (track_waypoints s rte),
        ∃ v r, seg = v :: r ∧ v.new_trkseg = true ∧ ∀ u ∈ r, u.new_trkseg = false) := by
    cases hl : rte.waypoint_list with
    | nil =>
      have hw : track_waypoints s rte = [] := by simp [track_waypoints, hl]
      rw [hw]
      refine ⟨?_, rfl, rfl, by simp [split_segments]⟩
      simp [track_points, gpx_track_tlr, hl, split_segments]
    | cons i rest =>
      have hw : track_waypoints s rte =
          (s.wpts[i]?.getD default) :: rest.map (fun j => s.wpts[j]?.getD default) := by
        simp [track_waypoints, hl]
      have hflag : (s.wpts[i]?.getD default).new_trkseg = true := hfirst _ _ hw
      obtain ⟨seg, rs, hs, hun, hfl, hlen, hrest, hev⟩ :=
        split_segments_spec ext cfg s.tags (rest.map (fun j => s.wpts[j]?.getD default))
          (s.wpts[i]?.getD default)
      rw [hw, hs]
      refine ⟨?_, ?_, ?_, ?_⟩
      · rw [track_points_nodup ext cfg s rte i rest hl hnodup, gpx_track_disp_eq]
        have htlr : gpx_track_tlr rte = [WEvent.EndElement] ++ [WEvent.EndElement] := by
          simp [gpx_track_tlr, hl]
        rw [htlr]
        simp only [hflag, if_true, Bool.not_true, Bool.false_eq_true, if_false,
          List.nil_append, List.map_cons, List.flatten_cons, trkseg_events_eq,
          List.append_assoc, List.singleton_append, List.cons_append] at hev ⊢
        congr 1
        rw [← List.append_assoc, ← List.singleton_append, ← List.append_assoc,
          ← List.append_assoc]
        rw [show trkpt_events ext cfg s.tags (s.wpts[i]?.getD default) ++
            (List.map (gpx_track_disp ext cfg s.tags false)
              (List.map (fun j => s.wpts[j]?.getD default) rest)).flatten ++
            [WEvent.EndElement] =
          trkpt_events ext cfg s.tags (s.wpts[i]?.getD default) ++
            ((List.map (gpx_track_disp ext cfg s.tags false)
              (List.map (fun j => s.wpts[j]?.getD default) rest)).flatten ++
            [WEvent.EndElement]) by simp]
        rw [hev]
        simp
      · simpa using hfl
      · simp [hflag, hlen]
      · intro sg hsg
        rcases List.mem_cons.mp hsg with h | h
        · exact ⟨_, seg, h, hflag, hun⟩
        · exact hrest sg h
  obtain ⟨hb1, hb2, hb3, hb4⟩ := hbody
  have hseg := balanced_trksegs ext cfg s.tags (split_segments (track_waypoints s rte))
  have hev : track_events ext cfg s rte =
      gpx_track_hdr ext cfg s.tags rte ++
      ((split_segments (track_waypoints s rte)).map (trkseg_events ext cfg s.tags)).flatten ++
      [WEvent.EndElement] := by
    unfold track_events
    rw [List.append_assoc, hb1, List.append_assoc]
  refine ⟨?_, hev, hb2, hb3, hb4, ?_, ?_, fun w => balanced_trkpt ext cfg s.tags w, ?_⟩
  · rw [hev, List.append_assoc, depth_after_append, gpx_track_hdr_depth]
    simp only [Option.some_bind]
    rw [depth_after_append, balanced_shift _ hseg 1]
    rfl
  · rw [hb1, names_at_trksegs_one, hb3]
    simp [names_at]
  · rw [hb1, names_at_trksegs_two, hb2]
    simp [names_at]
  · intro hl
    unfold track_events
    simp [track_points, gpx_track_tlr, hl]

/-- Witness of C15: a track of three points of which the first and the third carry the
flag gives two trkseg elements and three trkpt elements. -/
theorem track_segments_well_nested_witness :
    depth_after 0 (track_events Externals.fixed {} example_track_state
      (example_track_state.heads[0]?.getD default)) = some 0 ∧
    names_at 1 1 (track_points Externals.fixed {} example_track_state
        (example_track_state.heads[0]?.getD default) ++
      gpx_track_tlr (example_track_state.heads[0]?.getD default)) = ["trkseg", "trkseg"] :=
  ⟨(track_segments_well_nested Externals.fixed {} example_track_state
      (example_track_state.heads[0]?.getD default) (by decide)
      (by intro w ws h; cases h; rfl)).1,
   (track_segments_well_nested Externals.fixed {} example_track_state
      (example_track_state.heads[0]?.getD default) (by decide)
      (by intro w ws h; cases h; rfl)).2.2.2.2.2.1.trans (by decide)⟩

/-! ## The reader and the segments of a track -/

theorem map_upd {α β : Type} (g : α → β) (f : α → α) (hf : ∀ a, g (f a) = g a) :
    ∀ (l : List α) (i : Nat), (upd l i f).map g = l.map g := by
  intro l
  induction l with
  | nil => intro i; rfl
  | cons a as ih =>
    intro i
    cases i with
    | zero => simp [upd, hf]
    | succ i => simp [upd, ih]

theorem track_view_with_wpt (s : State) (f : Waypoint → Waypoint)
    (hf : ∀ w, (f w).new_trkseg = w.new_trkseg) : track_view (with_wpt s f) = track_view s := by
  unfold with_wpt
  split
  · simp only [track_view]
    rw [map_upd (fun w => w.new_trkseg) f hf]
  · rfl

theorem track_view_with_rte (s : State) (f : route_head → route_head)
    (hf : ∀ h, (f h).waypoint_list = h.waypoint_list) :
    track_view (with_rte s f) = track_view s := by
  unfold with_rte
  split
  · simp only [track_view]
    rw [map_upd (fun h => h.waypoint_list) f hf]
  · rfl

theorem track_view_with_trk (s : State) (f : route_head → route_head)
    (hf : ∀ h, (f h).waypoint_list = h.waypoint_list) :
    track_view (with_trk s f) = track_view s := by
  unfold with_trk
  split
  · simp only [track_view]
    rw [map_upd (fun h => h.waypoint_list) f hf]
  · rfl

theorem track_view_with_global (s : State) (f : GpxGlobal → GpxGlobal) :
    track_view (with_global s f) = track_view s := by
  unfold with_global
  split <;> rfl

theorem track_view_with_link (s : State) (f : UrlLink → UrlLink) :
    track_view (with_link s f) = track_view s := by
  unfold with_link
  split <;> rfl

theorem track_view_with_rh_link (s : State) (f : UrlLink → UrlLink) :
    track_view (with_rh_link s f) = track_view s := by
  unfold with_rh_link
  split <;> rfl

theorem track_view_clear_link (s : State) : track_view (clear_link s) = track_view s := rfl

theorem track_view_set_fs (s : State) (p : FsPtr) (fs : List format_specific_data) :
    track_view (set_fs s p fs) = track_view s := by
  cases p with
  | wpt i =>
    simp only [set_fs, track_view]
    rw [map_upd (fun (w : Waypoint) => w.new_trkseg) (fun w => { w with fs := fs })
      (fun _ => rfl)]
  | head i =>
    simp only [set_fs, track_view]
    rw [map_upd (fun (h : route_head) => h.waypoint_list) (fun h => { h with fs := fs })
      (fun _ => rfl)]

theorem track_view_start_something_else (s : State) (el : String) (attr : List Attr)
    (nsdecl : List NsDecl) :
    track_view (start_something_else s el attr nsdecl) = track_view s := by
  unfold start_something_else
  split
  · rfl
  · simp only []
    split
    · split <;> rfl
    · split
      · rfl
      · rw [track_view_set_fs]; rfl

theorem track_view_end_something_else (s : State) :
    track_view (end_something_else s) = track_view s := by
  unfold end_something_else
  split <;> rfl

theorem track_view_close_link (s : State) :
    (track_view (close_link s)) = track_view s := by
  unfold close_link
  split
  · rename_i l _
    simp only []
    split
    · have := track_view_with_wpt s (fun w => { w with urls := w.urls ++ [l] }) (fun _ => rfl)
      rw [← this]; rfl
    · rfl
  · rfl

theorem track_view_close_rh_link_rte (s : State) :
    track_view (close_rh_link s with_rte) = track_view s := by
  unfold close_rh_link
  split
  · rename_i l _
    simp only []
    split
    · have := track_view_with_rte s (fun h => { h with rte_urls := h.rte_urls ++ [l] })
        (fun _ => rfl)
      rw [← this]; rfl
    · rfl
  · rfl

theorem track_view_close_rh_link_trk (s : State) :
    track_view (close_rh_link s with_trk) = track_view s := by
  unfold close_rh_link
  split
  · rename_i l _
    simp only []
    split
    · have := track_view_with_trk s (fun h => { h with rte_urls := h.rte_urls ++ [l] })
        (fun _ => rfl)
      rw [← this]; rfl
    · rfl
  · rfl

theorem garmin_fs_xml_convert_new_trkseg (tag : tag_type) (cdatastr : String) (w : Waypoint) :
    (garmin_fs_xml_convert tag cdatastr w).new_trkseg = w.new_trkseg := by
  unfold garmin_fs_xml_convert
  simp only []
  split <;> (try split) <;> (try split) <;> rfl

theorem track_view_cdatastr (s : State) (t : String) :
    track_view { s with cdatastr := t } = track_view s := rfl

theorem track_view_passthrough (s s1 : State) (pt : Bool) (h : track_view s1 = track_view s) :
    track_view (if pt = true then end_something_else s1 else s1) = track_view s := by
  split
  · rw [track_view_end_something_else]; exact h
  · exact h

theorem track_view_gc_log_date (s : State) (d : QDateTime) :
    track_view { s with gc_log_date := d } = track_view s := rfl

set_option maxHeartbeats 4000000 in
theorem track_view_gpx_end (ext : Externals) (s : State)
    (h : (get_tag hash s.current_tag).1 ∉ point_tags) :
    track_view (gpx_end ext s) = track_view s := by
  unfold gpx_end
  simp only []
  revert h
  generalize get_tag hash s.current_tag = tp
  obtain ⟨t, pt⟩ := tp
  intro h
  dsimp only at h
  by_cases hu : t = tt_unknown
  · simp only [hu, if_true]
    exact (track_view_end_something_else _).trans rfl
  · simp only [hu, if_false]
    apply track_view_passthrough
    cases t <;> dsimp only <;>
      first
      | exact (h (by decide)).elim
      | (refine (track_view_with_wpt _ _ ?_).trans rfl
         intro _
         first | rfl | exact garmin_fs_xml_convert_new_trkseg _ _ _)
      | exact (track_view_with_global _ _).trans rfl
      | (refine (track_view_with_rte _ _ ?_).trans rfl
         intro _
         rfl)
      | (refine (track_view_with_trk _ _ ?_).trans rfl
         intro _
         rfl)
      | exact (track_view_with_link _ _).trans rfl
      | exact (track_view_with_rh_link _ _).trans rfl
      | exact (track_view_clear_link _).trans ((track_view_with_global _ _).trans rfl)
      | (refine (track_view_gc_log_date _ _).trans ?_
         split
         · rfl
         · split
           · refine (track_view_with_wpt _ _ ?_).trans rfl
             intro _
             rfl
           · rfl)
      | rfl

theorem track_view_tag_gpx (s : State) (attr : List Attr) (ns : List NsDecl) :
    track_view (tag_gpx s attr ns) = track_view s := by
  unfold tag_gpx
  simp only []
  split
  · split
    · rfl
    · split <;> rfl
  · rfl

theorem track_view_start_link (s : State) (attr : List Attr) :
    track_view (start_link s attr) = track_view s := by
  unfold start_link
  split <;> rfl

theorem track_view_tag_gs_cache (s : State) (attr : List Attr) :
    track_view (tag_gs_cache s attr) = track_view s := by
  unfold tag_gs_cache
  refine track_view_with_wpt _ _ ?_
  intro _
  rfl

set_option maxHeartbeats 4000000 in
theorem track_view_gpx_start (s : State) (el : String) (attr : List Attr)
    (nsdecl : List NsDecl) (h : (get_tag hash s.current_tag).1 ∉ point_tags) :
    track_view (gpx_start s el attr nsdecl) = track_view s := by
  unfold gpx_start
  simp only []
  revert h
  generalize get_tag hash s.current_tag = tp
  obtain ⟨t, pt⟩ := tp
  intro h
  dsimp only at h
  by_cases hu : t = tt_unknown
  · simp only [hu, if_true]
    exact (track_view_start_something_else _ _ _ _).trans rfl
  · simp only [hu, if_false]
    have key : ∀ s1 : State, track_view s1 = track_view s →
        track_view (if pt = true then start_something_else s1 el attr nsdecl else s1) =
          track_view s := by
      intro s1 h1
      split
      · rw [track_view_start_something_else]; exact h1
      · exact h1
    apply key
    cases t <;> dsimp only <;>
      first
      | exact (h (by decide)).elim
      | exact (track_view_tag_gpx _ _ _).trans rfl
      | exact (track_view_start_link _ _).trans rfl
      | exact (track_view_tag_gs_cache _ _).trans rfl
      | (split
         · refine (track_view_with_wpt _ _ ?_).trans rfl
           intro _
           rfl
         · rfl)
      | rfl

theorem track_view_gpx_cdata (s : State) (text : String) :
    track_view (gpx_cdata s text) = track_view s := by
  unfold gpx_cdata
  simp only []
  split
  · rfl
  · split <;> rfl

/-! The paths below a trkpt element -/

theorem hash_find_prescan_some (t : String) (tm : tag_mapping) :
    ∀ (tbl : List tag_mapping) (h0 : TagHash),
      hash_find (prescan_loop tbl h0) t = some tm →
      (tm ∈ tbl ∧ tm.tag_name = t) ∨ hash_find h0 t = some tm := by
  intro tbl
  induction tbl with
  | nil => intro h0 h; exact Or.inr (by simpa [prescan_loop] using h)
  | cons x rest ih =>
    intro h0 h
    unfold prescan_loop at h
    by_cases hz : x.tag_type_ = tt_unknown
    · simp only [hz, if_true] at h
      exact Or.inr h
    · simp only [hz, if_false] at h
      rcases ih _ h with ⟨hm, hn⟩ | h2
      · exact Or.inl ⟨List.mem_cons_of_mem _ hm, hn⟩
      · simp only [hash_find] at h2
        by_cases hk : x.tag_name = t
        · simp only [hk, if_true, Option.some.injEq] at h2
          exact Or.inl ⟨h2 ▸ List.mem_cons_self _ _, h2 ▸ hk⟩
        · simp only [hk, if_false] at h2
          exact Or.inr h2

theorem get_tag_cases (t : String) :
    get_tag hash t = (tt_unknown, true) ∨
    ∃ tm ∈ tag_path_map, tm.tag_name = t ∧ get_tag hash t = (tm.tag_type_, tm.tag_passthrough) := by
  unfold get_tag
  cases hf : hash_find hash t with
  | none => exact Or.inl rfl
  | some tm =>
    rcases hash_find_prescan_some t tm tag_path_map [] hf with ⟨hm, hn⟩ | h2
    · exact Or.inr ⟨tm, hm, hn, rfl⟩
    · simp [hash_find] at h2

theorem point_tags_not_below_trkpt :
    ∀ tm ∈ tag_path_map, tm.tag_type_ ∈ point_tags →
      ("/gpx/trk/trkseg/trkpt/" : String).data.isPrefixOf tm.tag_name.data = false := by
  decide

theorem get_tag_below_trkpt (q : String) (r : List Char)
    (hq : q.data = ("/gpx/trk/trkseg/trkpt/" : String).data ++ r) :
    (get_tag hash q).1 ∉ point_tags := by
  rcases get_tag_cases q with h | ⟨tm, hm, hn, h⟩
  · rw [h]; decide
  · rw [h]
    intro hp
    have := point_tags_not_below_trkpt tm hm hp
    rw [hn, hq] at this
    have hpre : ("/gpx/trk/trkseg/trkpt/" : String).data.isPrefixOf
        (("/gpx/trk/trkseg/trkpt/" : String).data ++ r) = true := by
      rw [List.isPrefixOf_iff_prefix]
      exact List.prefix_append _ _
    rw [hpre] at this
    exact Bool.noConfusion this

theorem string_data_append (a b : String) : (a ++ b).data = a.data ++ b.data :=
  String.data_append a b

theorem read_content_track_view (ext : Externals) :
    ∀ (b : Content) (s : State) (r : List Char),
      (s.current_tag ++ "/").data = ("/gpx/trk/trkseg/trkpt/" : String).data ++ r →
      track_view (gpx_read ext s b.tokens) = track_view s := by
  intro b
  induction b with
  | nil => intro s r _; rfl
  | text t rest ih =>
    intro s r hr
    rw [Content.tokens, gpx_read_characters]
    have hv : track_view (gpx_read_token ext s (Token.Characters t)) = track_view s :=
      track_view_gpx_cdata s t
    have hc : (gpx_read_token ext s (Token.Characters t)).current_tag = s.current_tag :=
      congrArg TrackView.current_tag hv
    rw [ih _ r (by rw [hc]; exact hr), hv]
  | elem name attr ns body rest ihb ihr =>
    intro s r hr
    rw [Content.tokens, gpx_read_start, gpx_read_content_append, gpx_read_end]
    have hdeep : (s.current_tag ++ "/" ++ name).data =
        ("/gpx/trk/trkseg/trkpt/" : String).data ++ (r ++ name.data) := by
      rw [string_data_append, hr, List.append_assoc]
    have h1 : track_view (gpx_read_token ext s (Token.StartElement name attr ns)) =
        track_view { s with current_tag := s.current_tag ++ "/" ++ name } :=
      track_view_gpx_start _ name attr ns (get_tag_below_trkpt _ _ hdeep)
    have hc1 : (gpx_read_token ext s (Token.StartElement name attr ns)).current_tag =
        s.current_tag ++ "/" ++ name := congrArg TrackView.current_tag h1
    have hr1 : ((gpx_read_token ext s (Token.StartElement name attr ns)).current_tag ++ "/").data =
        ("/gpx/trk/trkseg/trkpt/" : String).data ++ (r ++ name.data ++ ("/" : String).data) := by
      rw [hc1, string_data_append, hdeep, List.append_assoc]
    have h2 := ihb (gpx_read_token ext s (Token.StartElement name attr ns)) _ hr1
    generalize gpx_read ext (gpx_read_token ext s (Token.StartElement name attr ns))
      body.tokens = s2 at h2 ⊢
    have hc2 : s2.current_tag = s.current_tag ++ "/" ++ name :=
      (congrArg TrackView.current_tag h2).trans hc1
    have h3 : track_view (gpx_end ext s2) = track_view s2 :=
      track_view_gpx_end ext s2 (get_tag_below_trkpt _ _ (hc2 ▸ hdeep))
    have hc3 : (gpx_end ext s2).current_tag = s.current_tag ++ "/" ++ name :=
      (congrArg TrackView.current_tag h3).trans hc2
    have h4 : track_view (gpx_read_token ext s2 (Token.EndElement name)) = track_view s := by
      show track_view { gpx_end ext s2 with
        current_tag := chop (gpx_end ext s2).current_tag (name.length + 1), cdatastr := "" } = _
      have e : track_view { gpx_end ext s2 with
          current_tag := chop (gpx_end ext s2).current_tag (name.length + 1), cdatastr := "" } =
          { track_view (gpx_end ext s2) with
            current_tag := chop (gpx_end ext s2).current_tag (name.length + 1) } := rfl
      rw [e, hc3, chop_append, h3, h2, h1]
      rfl
    have hc4 : (gpx_read_token ext s2 (Token.EndElement name)).current_tag = s.current_tag :=
      congrArg TrackView.current_tag h4
    rw [ihr _ r (by rw [hc4]; exact hr), h4]

theorem upd_append_length {α : Type} (f : α → α) (a : α) :
    ∀ (l : List α), upd (l ++ [a]) l.length f = l ++ [f a] := by
  intro l
  induction l with
  | nil => rfl
  | cons x xs ih => simp [upd, ih]

theorem map_upd_comm {α β : Type} (g : α → β) (f : α → α) (f' : β → β)
    (hf : ∀ a, g (f a) = f' (g a)) :
    ∀ (l : List α) (i : Nat), (upd l i f).map g = upd (l.map g) i f' := by
  intro l
  induction l with
  | nil => intro i; rfl
  | cons a as ih =>
    intro i
    cases i with
    | zero => simp [upd, hf]
    | succ i => simp [upd, ih]

theorem seed_lat_lon_new_trkseg (attr : List Attr) :
    (seed_lat_lon attr).new_trkseg = false := by
  unfold seed_lat_lon
  simp only []
  split <;> split <;> rfl

theorem view_start_trkpt (ext : Externals) (s : State) (attr : List Attr) (ns : List NsDecl)
    (hc : s.current_tag = "/gpx/trk/trkseg") :
    track_view (gpx_read_token ext s (Token.StartElement "trkpt" attr ns)) =
      { track_view s with
        current_tag := "/gpx/trk/trkseg/trkpt"
        next_trkpt_is_new_seg := false
        wpt_tmp := some s.wpts.length
        flags := (track_view s).flags ++ [s.next_trkpt_is_new_seg] } := by
  have htag : get_tag hash ("/gpx/trk/trkseg" ++ "/" ++ "trkpt") =
      (tt_trk_trkseg_trkpt, false) := by decide
  have hpath : ("/gpx/trk/trkseg" : String) ++ "/" ++ "trkpt" = "/gpx/trk/trkseg/trkpt" := by
    decide
  unfold gpx_read_token gpx_start
  simp only [hc, htag, reduceCtorEq, if_false, Bool.false_eq_true]
  cases hn : s.next_trkpt_is_new_seg
  · simp [tag_wpt, track_view, hn, hpath, seed_lat_lon_new_trkseg]
  · simp only [tag_wpt, hn, if_true, with_wpt, track_view, hpath]
    rw [upd_append_length]
    simp

theorem view_end_trkpt (ext : Externals) (s : State) (h n : Nat)
    (hc : s.current_tag = "/gpx/trk/trkseg/trkpt") (ht : s.trk_head = some h)
    (hw : s.wpt_tmp = some n) :
    track_view (gpx_read_token ext s (Token.EndElement "trkpt")) =
      { track_view s with
        current_tag := "/gpx/trk/trkseg"
        wpt_tmp := none
        lists := upd (track_view s).lists h (fun l => l ++ [n]) } := by
  have htag : get_tag hash "/gpx/trk/trkseg/trkpt" = (tt_trk_trkseg_trkpt, false) := by decide
  have hchop : chop ("/gpx/trk/trkseg/trkpt" : String) (("trkpt" : String).length + 1) =
      "/gpx/trk/trkseg" := by decide
  have hcl := track_view_close_link { s with cdatastr := trimmed s.cdatastr }
  have hclw : (close_link { s with cdatastr := trimmed s.cdatastr }).wpt_tmp = some n :=
    (congrArg TrackView.wpt_tmp hcl).trans hw
  have hclt : (close_link { s with cdatastr := trimmed s.cdatastr }).trk_head = some h :=
    (congrArg TrackView.trk_head hcl).trans ht
  have hclc : (close_link { s with cdatastr := trimmed s.cdatastr }).current_tag =
      "/gpx/trk/trkseg/trkpt" := (congrArg TrackView.current_tag hcl).trans hc
  have htag' : get_tag hash s.current_tag = (tt_trk_trkseg_trkpt, false) := by
    rw [hc]; exact htag
  unfold gpx_read_token gpx_end
  simp only [htag', reduceCtorEq, if_false, Bool.false_eq_true, hclw]
  generalize close_link { s with cdatastr := trimmed s.cdatastr } = s2 at hcl hclw hclt hclc ⊢
  simp only [with_trk, hclt, track_view, hclc, hchop]
  rw [map_upd_comm (fun (x : route_head) => x.waypoint_list)
    (fun x => { x with waypoint_list := x.waypoint_list ++ [n] }) (fun l => l ++ [n])
    (fun _ => rfl)]
  have e1 := congrArg TrackView.next_trkpt_is_new_seg hcl
  have e2 := congrArg TrackView.flags hcl
  have e3 := congrArg TrackView.lists hcl
  simp only [track_view] at e1 e2 e3
  rw [e1, e2, e3, ht]

theorem gpx_read_append (ext : Externals) :
    ∀ (ts1 : List Token) (s : State) (ts2 : List Token),
      (∀ t ∈ ts1, t ≠ Token.EndDocument ∧ t ≠ Token.Invalid) →
      gpx_read ext s (ts1 ++ ts2) = gpx_read ext (gpx_read ext s ts1) ts2 := by
  intro ts1
  induction ts1 with
  | nil => intro s ts2 _; rfl
  | cons t ts ih =>
    intro s ts2 h
    have ht := h t (List.mem_cons_self _ _)
    have hts : ∀ t' ∈ ts, t' ≠ Token.EndDocument ∧ t' ≠ Token.Invalid :=
      fun t' ht' => h t' (List.mem_cons_of_mem _ ht')
    cases t with
    | StartElement n a d => exact ih _ ts2 hts
    | EndElement n => exact ih _ ts2 hts
    | Characters c => exact ih _ ts2 hts
    | EndDocument => exact absurd rfl ht.1
    | Invalid => exact absurd rfl ht.2
    | Other => exact ih _ ts2 hts

theorem content_tokens_plain :
    ∀ (b : Content), ∀ t ∈ b.tokens, t ≠ Token.EndDocument ∧ t ≠ Token.Invalid := by
  intro b
  induction b with
  | nil => intro t ht; simp [Content.tokens] at ht
  | text c rest ih =>
    intro t ht
    simp only [Content.tokens, List.mem_cons] at ht
    rcases ht with rfl | ht
    · exact ⟨by simp, by simp⟩
    · exact ih t ht
  | elem name attr ns body rest ihb ihr =>
    intro t ht
    simp only [Content.tokens, List.mem_cons, List.mem_append] at ht
    rcases ht with rfl | ht | rfl | ht
    · exact ⟨by simp, by simp⟩
    · exact ihb t ht
    · exact ⟨by simp, by simp⟩
    · exact ihr t ht

theorem lead_cases (lead : Option String) :
    text_tokens lead = [] ∨ ∃ t, text_tokens lead = [Token.Characters t] := by
  cases lead with
  | none => exact Or.inl rfl
  | some t => exact Or.inr ⟨t, rfl⟩

theorem text_tokens_plain (lead : Option String) :
    ∀ t ∈ text_tokens lead, t ≠ Token.EndDocument ∧ t ≠ Token.Invalid := by
  intro t ht
  rcases lead_cases lead with h | ⟨c, h⟩
  · simp [h] at ht
  · simp only [h, List.mem_singleton] at ht
    subst ht
    exact ⟨by simp, by simp⟩

theorem trkpt_tokens_plain (p : TrkPt) :
    ∀ t ∈ p.tokens, t ≠ Token.EndDocument ∧ t ≠ Token.Invalid := by
  intro t ht
  unfold TrkPt.tokens at ht
  simp only [List.mem_append, List.mem_singleton] at ht
  rcases ht with ((ht | rfl) | ht) | rfl
  · exact text_tokens_plain _ t ht
  · exact ⟨by simp, by simp⟩
  · exact content_tokens_plain p.body t ht
  · exact ⟨by simp, by simp⟩

theorem trkpts_tokens_plain (pts : List TrkPt) :
    ∀ t ∈ (pts.map TrkPt.tokens).flatten, t ≠ Token.EndDocument ∧ t ≠ Token.Invalid := by
  intro t ht
  obtain ⟨l, hl, htl⟩ := List.mem_flatten.mp ht
  obtain ⟨p, _, rfl⟩ := List.mem_map.mp hl
  exact trkpt_tokens_plain p t htl

theorem trkseg_tokens_plain (g : TrkSeg) :
    ∀ t ∈ g.tokens, t ≠ Token.EndDocument ∧ t ≠ Token.Invalid := by
  intro t ht
  unfold TrkSeg.tokens at ht
  simp only [List.mem_append, List.mem_singleton] at ht
  rcases ht with (((ht | rfl) | ht) | ht) | rfl
  · exact text_tokens_plain _ t ht
  · exact ⟨by simp, by simp⟩
  · exact trkpts_tokens_plain g.pts t ht
  · exact text_tokens_plain _ t ht
  · exact ⟨by simp, by simp⟩

theorem read_lead_view (ext : Externals) (s : State) (l : List Token)
    (hl : l = [] ∨ ∃ t, l = [Token.Characters t]) (ts : List Token) :
    ∃ s1, gpx_read ext s (l ++ ts) = gpx_read ext s1 ts ∧ track_view s1 = track_view s := by
  rcases hl with rfl | ⟨t, rfl⟩
  · exact ⟨s, rfl, rfl⟩
  · exact ⟨gpx_cdata s t, rfl, track_view_gpx_cdata s t⟩

theorem read_trkpt_view (ext : Externals) (s : State) (p : TrkPt) (h : Nat)
    (hc : s.current_tag = "/gpx/trk/trkseg") (ht : s.trk_head = some h) :
    track_view (gpx_read ext s p.tokens) = (track_view s).after_point h := by
  unfold TrkPt.tokens
  rw [List.append_assoc, List.append_assoc]
  obtain ⟨s1, hr1, hv1⟩ := read_lead_view ext s _ (lead_cases p.lead)
    ([Token.StartElement "trkpt" p.attr p.nsdecl] ++ (p.body.tokens ++ [Token.EndElement "trkpt"]))
  rw [hr1, List.singleton_append, gpx_read_start, gpx_read_content_append]
  have hc1 : s1.current_tag = "/gpx/trk/trkseg" := (congrArg TrackView.current_tag hv1).trans hc
  have hst := view_start_trkpt ext s1 p.attr p.nsdecl hc1
  have hbody := read_content_track_view ext p.body
    (gpx_read_token ext s1 (Token.StartElement "trkpt" p.attr p.nsdecl)) []
    (by
      have e : (gpx_read_token ext s1 (Token.StartElement "trkpt" p.attr p.nsdecl)).current_tag
          = "/gpx/trk/trkseg/trkpt" := congrArg TrackView.current_tag hst
      rw [e]; rfl)
  generalize gpx_read ext (gpx_read_token ext s1 (Token.StartElement "trkpt" p.attr p.nsdecl))
    p.body.tokens = s2 at hbody ⊢
  have hv2 := hbody.trans hst
  have hen := view_end_trkpt ext s2 h s1.wpts.length
    (congrArg TrackView.current_tag hv2)
    ((congrArg TrackView.trk_head hv2).trans ((congrArg TrackView.trk_head hv1).trans ht))
    (congrArg TrackView.wpt_tmp hv2)
  show track_view (gpx_read_token ext s2 (Token.EndElement "trkpt")) = _
  rw [hen, hv2, hv1]
  have hlen : s1.wpts.length = (track_view s).flags.length := by
    have := congrArg (fun v => v.flags.length) hv1
    simpa [track_view] using this
  have hn : s1.next_trkpt_is_new_seg = (track_view s).next_trkpt_is_new_seg :=
    congrArg TrackView.next_trkpt_is_new_seg hv1
  have hcv : (track_view s).current_tag = "/gpx/trk/trkseg" := hc
  simp only [TrackView.after_point, hlen, hn]
  rw [← hcv]

theorem after_point_current_tag (h : Nat) (v : TrackView) :
    (v.after_point h).current_tag = v.current_tag ∧ (v.after_point h).trk_head = v.trk_head :=
  ⟨rfl, rfl⟩

theorem read_trkpts_view (ext : Externals) (h : Nat) :
    ∀ (pts : List TrkPt) (s : State), s.current_tag = "/gpx/trk/trkseg" →
      s.trk_head = some h →
      track_view (gpx_read ext s (pts.map TrkPt.tokens).flatten) =
        Nat.iterate (TrackView.after_point h) pts.length (track_view s) := by
  intro pts
  induction pts with
  | nil => intro s _ _; rfl
  | cons p ps ih =>
    intro s hc ht
    rw [List.map_cons, List.flatten_cons, gpx_read_append ext _ _ _ (trkpt_tokens_plain p)]
    have hp := read_trkpt_view ext s p h hc ht
    rw [ih _ ((congrArg TrackView.current_tag hp).trans hc)
      ((congrArg TrackView.trk_head hp).trans ht), hp]
    rfl

theorem view_start_trkseg (ext : Externals) (s : State) (attr : List Attr) (ns : List NsDecl)
    (hc : s.current_tag = "/gpx/trk") :
    track_view (gpx_read_token ext s (Token.StartElement "trkseg" attr ns)) =
      { track_view s with current_tag := "/gpx/trk/trkseg" } := by
  have htag : get_tag hash ("/gpx/trk" ++ "/" ++ "trkseg") = (tt_trk_trkseg, false) := by decide
  have hpath : ("/gpx/trk" : String) ++ "/" ++ "trkseg" = "/gpx/trk/trkseg" := by decide
  unfold gpx_read_token gpx_start
  simp only [hc, htag, reduceCtorEq, if_false, Bool.false_eq_true]
  simp [track_view, hpath]

theorem view_end_trkseg (ext : Externals) (s : State)
    (hc : s.current_tag = "/gpx/trk/trkseg") :
    track_view (gpx_read_token ext s (Token.EndElement "trkseg")) =
      { track_view s with
        current_tag := "/gpx/trk"
        next_trkpt_is_new_seg := true } := by
  have htag : get_tag hash s.current_tag = (tt_trk_trkseg, false) := by rw [hc]; decide
  have hchop : chop ("/gpx/trk/trkseg" : String) (("trkseg" : String).length + 1) =
      "/gpx/trk" := by decide
  unfold gpx_read_token gpx_end
  simp only [htag, reduceCtorEq, if_false, Bool.false_eq_true]
  simp [track_view, hc, hchop]

theorem iterate_after_point_tag (h : Nat) (c : String) :
    ∀ (n : Nat) (v : TrackView),
      Nat.iterate (TrackView.after_point h) n { v with current_tag := c } =
        { Nat.iterate (TrackView.after_point h) n v with current_tag := c } := by
  intro n
  induction n with
  | zero => intro v; rfl
  | succ n ih =>
    intro v
    rw [Function.iterate_succ_apply, Function.iterate_succ_apply, ← ih]
    rfl

theorem iterate_after_point_keeps (h : Nat) :
    ∀ (n : Nat) (v : TrackView),
      (Nat.iterate (TrackView.after_point h) n v).current_tag = v.current_tag ∧
      (Nat.iterate (TrackView.after_point h) n v).trk_head = v.trk_head := by
  intro n
  induction n with
  | zero => intro v; exact ⟨rfl, rfl⟩
  | succ n ih =>
    intro v
    rw [Function.iterate_succ_apply]
    exact ih _

theorem read_trkseg_view (ext : Externals) (s : State) (g : TrkSeg) (h : Nat)
    (hc : s.current_tag = "/gpx/trk") (ht : s.trk_head = some h) :
    track_view (gpx_read ext s g.tokens) = (track_view s).after_segment h g.pts.length := by
  unfold TrkSeg.tokens
  rw [List.append_assoc, List.append_assoc, List.append_assoc]
  obtain ⟨s1, hr1, hv1⟩ := read_lead_view ext s _ (lead_cases g.lead)
    ([Token.StartElement "trkseg" g.attr g.nsdecl] ++ ((g.pts.map TrkPt.tokens).flatten ++
      (text_tokens g.trail ++ [Token.EndElement "trkseg"])))
  rw [hr1, List.singleton_append, gpx_read_start,
    gpx_read_append ext _ _ _ (trkpts_tokens_plain g.pts)]
  have hc1 : s1.current_tag = "/gpx/trk" := (congrArg TrackView.current_tag hv1).trans hc
  have ht1 : s1.trk_head = some h := (congrArg TrackView.trk_head hv1).trans ht
  have hst := view_start_trkseg ext s1 g.attr g.nsdecl hc1
  have hpts := read_trkpts_view ext h g.pts
    (gpx_read_token ext s1 (Token.StartElement "trkseg" g.attr g.nsdecl))
    (congrArg TrackView.current_tag hst) ((congrArg TrackView.trk_head hst).trans ht1)
  rw [hst, iterate_after_point_tag] at hpts
  generalize gpx_read ext (gpx_read_token ext s1 (Token.StartElement "trkseg" g.attr g.nsdecl))
    (g.pts.map TrkPt.tokens).flatten = s2 at hpts ⊢
  obtain ⟨s3, hr3, hv3⟩ := read_lead_view ext s2 _ (lead_cases g.trail)
    [Token.EndElement "trkseg"]
  rw [hr3]
  have hc3 : s3.current_tag = "/gpx/trk/trkseg" :=
    (congrArg TrackView.current_tag (hv3.trans hpts))
  show track_view (gpx_read_token ext s3 (Token.EndElement "trkseg")) = _
  rw [view_end_trkseg ext s3 hc3, hv3, hpts, hv1]
  have hcv : (track_view s).current_tag = "/gpx/trk" := hc
  have hk := (iterate_after_point_keeps h g.pts.length (track_view s)).1
  simp only [TrackView.after_segment]
  rw [← hcv, ← hk]

theorem after_segment_keeps (h : Nat) (v : TrackView) (n : Nat) :
    (v.after_segment h n).current_tag = v.current_tag ∧
    (v.after_segment h n).trk_head = v.trk_head :=
  iterate_after_point_keeps h n v

theorem read_trksegs_view (ext : Externals) (h : Nat) :
    ∀ (segs : List TrkSeg) (s : State), s.current_tag = "/gpx/trk" →
      s.trk_head = some h →
      track_view (gpx_read ext s (segs.map TrkSeg.tokens).flatten) =
        segs.foldl (fun v g => v.after_segment h g.pts.length) (track_view s) := by
  intro segs
  induction segs with
  | nil => intro s _ _; rfl
  | cons g gs ih =>
    intro s hc ht
    rw [List.map_cons, List.flatten_cons, gpx_read_append ext _ _ _ (trkseg_tokens_plain g)]
    have hg := read_trkseg_view ext s g h hc ht
    have hk := after_segment_keeps h (track_view s) g.pts.length
    rw [ih _ ((congrArg TrackView.current_tag hg).trans (hk.1.trans hc))
      ((congrArg TrackView.trk_head hg).trans (hk.2.trans ht)), hg]
    rfl

theorem upd_upd {α : Type} (f g : α → α) :
    ∀ (l : List α) (i : Nat), upd (upd l i f) i g = upd l i (fun a => g (f a)) := by
  intro l
  induction l with
  | nil => intro i; rfl
  | cons a as ih =>
    intro i
    cases i with
    | zero => rfl
    | succ i => simp [upd, ih]

theorem upd_id {α : Type} :
    ∀ (l : List α) (i : Nat), upd l i id = l := by
  intro l
  induction l with
  | nil => intro i; rfl
  | cons a as ih =>
    intro i
    cases i with
    | zero => rfl
    | succ i => simp [upd, ih]

theorem seg_flags_cons (b : Bool) (p : TrkPt) (ps : List TrkPt) :
    seg_flags b (p :: ps) = b :: seg_flags false ps := by
  cases ps with
  | nil => rfl
  | cons q qs => simp [seg_flags]

theorem seg_flags_length (b : Bool) (ps : List TrkPt) : (seg_flags b ps).length = ps.length := by
  cases ps with
  | nil => rfl
  | cons q qs => simp [seg_flags]

theorem seg_flags_false (ps : List TrkPt) : ∀ f ∈ seg_flags false ps, f = false := by
  intro f hf
  cases ps with
  | nil => simp [seg_flags] at hf
  | cons q qs =>
    simp only [seg_flags, List.mem_cons, List.mem_map] at hf
    rcases hf with rfl | ⟨_, _, rfl⟩ <;> rfl

theorem iterate_after_point_spec (h : Nat) :
    ∀ (pts : List TrkPt) (v : TrackView),
      (Nat.iterate (TrackView.after_point h) pts.length v).flags =
        v.flags ++ seg_flags v.next_trkpt_is_new_seg pts ∧
      (Nat.iterate (TrackView.after_point h) pts.length v).lists =
        upd v.lists h (fun l => l ++ List.range' v.flags.length pts.length) := by
  intro pts
  induction pts with
  | nil =>
    intro v
    refine ⟨by simp [seg_flags], ?_⟩
    show v.lists = upd v.lists h (fun l => l ++ [])
    have e : (fun (l : List Nat) => l ++ []) = id := by funext l; simp
    rw [e, upd_id]
  | cons p ps ih =>
    intro v
    rw [List.length_cons, Function.iterate_succ_apply, seg_flags_cons]
    obtain ⟨h1, h2⟩ := ih (v.after_point h)
    rw [h1, h2]
    refine ⟨by simp [TrackView.after_point], ?_⟩
    simp only [TrackView.after_point]
    rw [upd_upd]
    congr 1
    funext l
    simp [List.range'_succ]

theorem after_segment_spec (h : Nat) (v : TrackView) (pts : List TrkPt) :
    (v.after_segment h pts.length).flags = v.flags ++ seg_flags v.next_trkpt_is_new_seg pts ∧
    (v.after_segment h pts.length).lists =
      upd v.lists h (fun l => l ++ List.range' v.flags.length pts.length) ∧
    (v.after_segment h pts.length).next_trkpt_is_new_seg = true :=
  ⟨(iterate_after_point_spec h pts v).1, (iterate_after_point_spec h pts v).2, rfl⟩

theorem after_segments_spec (h : Nat) :
    ∀ (segs : List TrkSeg) (v : TrackView),
      (segs.foldl (fun v g => v.after_segment h g.pts.length) v).flags =
        v.flags ++ track_flags v.next_trkpt_is_new_seg segs ∧
      (segs.foldl (fun v g => v.after_segment h g.pts.length) v).lists =
        upd v.lists h (fun l => l ++ List.range' v.flags.length (track_size segs)) := by
  intro segs
  induction segs with
  | nil =>
    intro v
    refine ⟨by simp [track_flags], ?_⟩
    have e : (fun (l : List Nat) => l ++ List.range' v.flags.length (track_size [])) = id := by
      funext l; simp [track_size]
    rw [e, upd_id]
    rfl
  | cons g gs ih =>
    intro v
    obtain ⟨h1, h2, h3⟩ := after_segment_spec h v g.pts
    obtain ⟨i1, i2⟩ := ih (v.after_segment h g.pts.length)
    rw [List.foldl_cons, i1, i2, h1, h2, h3]
    refine ⟨by simp [track_flags], ?_⟩
    rw [upd_upd]
    congr 1
    funext l
    simp only [List.length_append, seg_flags_length, track_size, List.map_cons, List.sum_cons,
      List.append_assoc]
    rw [Nat.add_comm g.pts.length, ← List.range'_append v.flags.length g.pts.length _ 1,
      Nat.one_mul]

theorem after_segments_keeps (h : Nat) :
    ∀ (segs : List TrkSeg) (v : TrackView),
      (segs.foldl (fun v g => v.after_segment h g.pts.length) v).current_tag = v.current_tag ∧
      (segs.foldl (fun v g => v.after_segment h g.pts.length) v).trk_head = v.trk_head := by
  intro segs
  induction segs with
  | nil => intro v; exact ⟨rfl, rfl⟩
  | cons g gs ih =>
    intro v
    rw [List.foldl_cons]
    have hg := after_segment_keeps h v g.pts.length
    exact ⟨(ih _).1.trans hg.1, (ih _).2.trans hg.2⟩

theorem split_segments_first_segment :
    ∀ (us : List Waypoint) (w : Waypoint) (rest : List Waypoint),
      (∀ u ∈ us, u.new_trkseg = false) →
      (rest = [] ∨ ∃ v vs, rest = v :: vs ∧ v.new_trkseg = true) →
      split_segments (w :: (us ++ rest)) = (w :: us) :: split_segments rest := by
  intro us
  induction us with
  | nil =>
    intro w rest _ hr
    rcases hr with rfl | ⟨v, vs, rfl, hv⟩
    · rfl
    · simp [split_segments, hv]
  | cons u us ih =>
    intro w rest hu hr
    have hu0 : u.new_trkseg = false := hu u (List.mem_cons_self _ _)
    have hi := ih u rest (fun x hx => hu x (List.mem_cons_of_mem _ hx)) hr
    rw [List.cons_append]
    simp only [split_segments, hu0, Bool.false_eq_true, if_false]
    rw [hi]

theorem track_flags_head (segs : List TrkSeg) (hne : ∀ g ∈ segs, g.pts ≠ []) :
    segs = [] ∨ ∃ fs, track_flags true segs = true :: fs := by
  cases segs with
  | nil => exact Or.inl rfl
  | cons g gs =>
    right
    have hg := hne g (List.mem_cons_self _ _)
    cases hp : g.pts with
    | nil => exact absurd hp hg
    | cons p ps =>
      refine ⟨seg_flags false ps ++ track_flags true gs, ?_⟩
      simp only [track_flags, hp, seg_flags_cons, List.cons_append]

theorem split_segments_chunks :
    ∀ (segs : List TrkSeg) (next : Bool) (ws : List Waypoint),
      (∀ g ∈ segs, g.pts ≠ []) →
      ws.map (fun w => w.new_trkseg) = track_flags next segs →
      split_segments ws = chunks (segs.map (fun g => g.pts.length)) ws := by
  intro segs
  induction segs with
  | nil =>
    intro next ws _ hf
    have : ws = [] := List.map_eq_nil_iff.mp hf
    subst this
    rfl
  | cons g gs ih =>
    intro next ws hne hf
    have hg := hne g (List.mem_cons_self _ _)
    have hgs : ∀ g' ∈ gs, g'.pts ≠ [] := fun g' hg' => hne g' (List.mem_cons_of_mem _ hg')
    cases hp : g.pts with
    | nil => exact absurd hp hg
    | cons p ps =>
      simp only [track_flags, hp, seg_flags_cons, List.cons_append] at hf
      obtain ⟨w, ws1, rfl, _, hf1⟩ := List.map_eq_cons_iff.mp hf
      obtain ⟨us, rest, rfl, hus, hrest⟩ := List.map_eq_append_iff.mp hf1
      have hlen : us.length = ps.length := by
        have := congrArg List.length hus
        simpa [seg_flags_length] using this
      have hun : ∀ u ∈ us, u.new_trkseg = false := by
        intro u hu
        apply seg_flags_false ps
        rw [← hus]
        exact List.mem_map.mpr ⟨u, hu, rfl⟩
      have hr : rest = [] ∨ ∃ v vs, rest = v :: vs ∧ v.new_trkseg = true := by
        rcases track_flags_head gs hgs with rfl | ⟨fs, hfs⟩
        · left
          exact List.map_eq_nil_iff.mp hrest
        · right
          rw [hfs] at hrest
          obtain ⟨v, vs, rfl, hv, _⟩ := List.map_eq_cons_iff.mp hrest
          exact ⟨v, vs, rfl, hv⟩
      rw [split_segments_first_segment us w rest hun hr, ih true rest hgs hrest]
      simp only [List.map_cons, hp, List.length_cons, chunks, List.take_succ_cons,
        List.drop_succ_cons]
      rw [List.take_left' hlen, List.drop_left' hlen]

/-- C16: when the reader stands inside an open trk element (the path is /gpx/trk and the
track under construction is the head h) and reads trkseg elements, each made of trkpt
elements with any well nested content and any text between them, it ends at the same path
with the same track, it adds one waypoint for every trkpt, in the order of the input, to
the waypoint list of that track and of no other track or route, the flags new_trkseg of
the waypoints read before are unchanged, and the flags of the new waypoints are
track_flags: the first trkpt of every trkseg after the first is flagged, no trkpt that is
not the first of its trkseg is flagged, and the first trkpt of the first trkseg takes the
value that next_trkpt_is_new_seg had before the trk element. When every trkseg has at
least one trkpt, the segments of the new waypoints, cut before each flagged waypoint after
the first as the writer does, are therefore the consecutive pieces whose lengths are the
numbers of trkpt elements of the trkseg elements of the input. -/
theorem trkseg_flags_parsed (ext : Externals) (s : State) (segs : List TrkSeg) (h : Nat)
    (hc : s.current_tag = "/gpx/trk") (ht : s.trk_head = some h) :
    (gpx_read ext s (segs.map TrkSeg.tokens).flatten).current_tag = "/gpx/trk" ∧
    (gpx_read ext s (segs.map TrkSeg.tokens).flatten).trk_head = some h ∧
    (gpx_read ext s (segs.map TrkSeg.tokens).flatten).wpts.length =
      s.wpts.length + track_size segs ∧
    ((gpx_read ext s (segs.map TrkSeg.tokens).flatten).wpts.take s.wpts.length).map
      (fun w => w.new_trkseg) = s.wpts.map (fun w => w.new_trkseg) ∧
    ((gpx_read ext s (segs.map TrkSeg.tokens).flatten).wpts.drop s.wpts.length).map
      (fun w => w.new_trkseg) = track_flags s.next_trkpt_is_new_seg segs ∧
    (gpx_read ext s (segs.map TrkSeg.tokens).flatten).heads.map (fun r => r.waypoint_list) =
      upd (s.heads.map (fun r => r.waypoint_list)) h
        (fun l => l ++ List.range' s.wpts.length (track_size segs)) ∧
    ((∀ g ∈ segs, g.pts ≠ []) →
      split_segments ((gpx_read ext s (segs.map TrkSeg.tokens).flatten).wpts.drop s.wpts.length) =
        chunks (segs.map (fun g => g.pts.length))
          ((gpx_read ext s (segs.map TrkSeg.tokens).flatten).wpts.drop s.wpts.length)) := by
  have hv := read_trksegs_view ext h segs s hc ht
  obtain ⟨f1, f2⟩ := after_segments_spec h segs (track_view s)
  generalize gpx_read ext s (segs.map TrkSeg.tokens).flatten = s2 at hv ⊢
  have hflags : s2.wpts.map (fun w => w.new_trkseg) =
      s.wpts.map (fun w => w.new_trkseg) ++ track_flags s.next_trkpt_is_new_seg segs :=
    (congrArg TrackView.flags hv).trans f1
  have hlists : s2.heads.map (fun r => r.waypoint_list) =
      upd (s.heads.map (fun r => r.waypoint_list)) h
        (fun l => l ++ List.range' (s.wpts.map (fun w => w.new_trkseg)).length
          (track_size segs)) :=
    (congrArg TrackView.lists hv).trans f2
  rw [List.length_map] at hlists
  have hsize : ∀ (gs : List TrkSeg) (b : Bool), (track_flags b gs).length = track_size gs := by
    intro gs
    induction gs with
    | nil => intro b; rfl
    | cons g gs ih =>
      intro b
      simp [track_flags, track_size, seg_flags_length, ih true]
  have hdrop : (s2.wpts.drop s.wpts.length).map (fun w => w.new_trkseg) =
      track_flags s.next_trkpt_is_new_seg segs := by
    rw [List.map_drop, hflags, List.drop_left' (List.length_map _ _)]
  have hk := after_segments_keeps h segs (track_view s)
  refine ⟨?_, ?_, ?_, ?_, hdrop, hlists, ?_⟩
  · exact ((congrArg TrackView.current_tag hv).trans hk.1).trans hc
  · exact ((congrArg TrackView.trk_head hv).trans hk.2).trans ht
  · have := congrArg List.length hflags
    simpa [hsize] using this
  · rw [List.map_take, hflags, List.take_left' (List.length_map _ _)]
  · intro hne
    exact split_segments_chunks segs s.next_trkpt_is_new_seg _ hne hdrop

/-- Witness of C16: after the start of a gpx and of a trk element, a trkseg with two trkpt
elements and a trkseg with one give three waypoints of which only the third is flagged,
all in the waypoint list of the track, and the segments have two points and one. -/
theorem trkseg_flags_parsed_witness :
    (example_open_trk.current_tag = "/gpx/trk" ∧ example_open_trk.trk_head = some 0) ∧
    (gpx_read Externals.fixed example_open_trk
      (example_segments.map TrkSeg.tokens).flatten).wpts.map (fun w => w.new_trkseg) =
      [false, false, true] ∧
    (gpx_read Externals.fixed example_open_trk
      (example_segments.map TrkSeg.tokens).flatten).heads.map (fun r => r.waypoint_list) =
      [[0, 1, 2]] ∧
    split_segments ((gpx_read Externals.fixed example_open_trk
      (example_segments.map TrkSeg.tokens).flatten).wpts.drop 0) =
      chunks [2, 1] ((gpx_read Externals.fixed example_open_trk
        (example_segments.map TrkSeg.tokens).flatten).wpts.drop 0) := by
  have hw := trkseg_flags_parsed Externals.fixed example_open_trk example_segments 0 rfl rfl
  refine ⟨⟨rfl, rfl⟩, ?_, ?_, ?_⟩
  · have h1 := hw.2.2.2.2.1
    exact h1
  · exact hw.2.2.2.2.2.1
  · refine hw.2.2.2.2.2.2 ?_
    intro g hg
    simp only [example_segments, List.mem_cons, List.mem_singleton, List.not_mem_nil,
      or_false] at hg
    rcases hg with rfl | rfl <;> simp

/-! ## Geocache vocabularies -/

theorem eqNoCase_congr (s s' e : String)
    (h : s.data.map lowerChar = s'.data.map lowerChar) : eqNoCase s e = eqNoCase s' e := by
  unfold eqNoCase
  rw [h]

theorem find_congr {α : Type} (p q : α → Bool) (h : ∀ a, p a = q a) :
    ∀ (l : List α), l.find? p = l.find? q := by
  intro l
  have : p = q := funext h
  rw [this]

theorem find_none_of_all_false {α : Type} (p : α → Bool) :
    ∀ (l : List α), (∀ a ∈ l, p a = false) → l.find? p = none := by
  intro l h
  exact List.find?_eq_none.mpr (fun a ha => by simp [h a ha])

/-- C27: for every value t of the enum geocache_type (the fourteen types of gs_type_map and
gt_unknown), gs_mktype (gs_get_cachetype t) = t. -/
theorem gs_mktype_gs_get_cachetype (t : geocache_type) :
    gs_mktype (gs_get_cachetype t) = t := by
  cases t <;> decide

/-- C28 (counterexample): the name gs_get_container gives for gc_unknown is Unknown, the
name of the first entry of gs_container_map, which belongs to gc_other: gs_mkcont reads it
back as gc_other. -/
theorem gs_mkcont_unknown_container :
    gs_get_container gc_unknown = "Unknown" ∧
    gs_mkcont (gs_get_container gc_unknown) = gc_other ∧
    gs_mkcont (gs_get_container gc_unknown) ≠ gc_unknown := by
  decide

/-- C28 (amended): for every container c of gs_container_map (every value of the enum
geocache_container other than gc_unknown), gs_mkcont (gs_get_container c) = c; the
container gc_unknown is read back as gc_other. -/
theorem gs_mkcont_gs_get_container (c : geocache_container) (hc : c ≠ gc_unknown) :
    gs_mkcont (gs_get_container c) = c ∧
    (∃ e ∈ gs_container_map, e.1 = c) ∧
    (∀ e ∈ gs_container_map, e.1 ≠ gc_unknown) ∧
    gs_mkcont (gs_get_container gc_unknown) = gc_other := by
  refine ⟨?_, ?_, by decide, by decide⟩
  · cases c <;> first | exact absurd rfl hc | decide
  · cases c <;> first | exact absurd rfl hc | decide

/-- Witness of C28 (amended): the container gc_micro. -/
theorem gs_mkcont_gs_get_container_witness :
    gs_mkcont (gs_get_container gc_micro) = gc_micro :=
  (gs_mkcont_gs_get_container gc_micro (by decide)).1

/-- C29: gs_mktype and gs_mkcont give the same result for two texts that differ only in
the case of letters (texts that are equal once every letter A to Z is replaced by its
lower case letter); every name listed in gs_type_map or gs_container_map, in any case of
its letters, resolves to the value listed with it; and a text that matches no name of the
map resolves to gt_unknown, or gc_unknown. -/
theorem gs_mktype_case_insensitive :
    (∀ s s' : String, s.data.map lowerChar = s'.data.map lowerChar →
      gs_mktype s = gs_mktype s' ∧ gs_mkcont s = gs_mkcont s') ∧
    (∀ e ∈ gs_type_map, ∀ s : String, eqNoCase s e.2 = true → gs_mktype s = e.1) ∧
    (∀ e ∈ gs_container_map, ∀ s : String, eqNoCase s e.2 = true → gs_mkcont s = e.1) ∧
    (∀ e ∈ gs_type_map, gs_mktype e.2 = e.1) ∧
    (∀ e ∈ gs_container_map, gs_mkcont e.2 = e.1) ∧
    (∀ s : String, (∀ e ∈ gs_type_map, eqNoCase s e.2 = false) → gs_mktype s = gt_unknown) ∧
    (∀ s : String, (∀ e ∈ gs_container_map, eqNoCase s e.2 = false) →
      gs_mkcont s = gc_unknown) ∧
    gs_mktype "traditional CACHE" = gt_traditional ∧
    gs_mkcont "MICRO" = gc_micro ∧
    gs_mktype "Traditional  Cache" = gt_unknown := by
  have hcase : ∀ s s' : String, s.data.map lowerChar = s'.data.map lowerChar →
      gs_mktype s = gs_mktype s' ∧ gs_mkcont s = gs_mkcont s' := by
    intro s s' h
    unfold gs_mktype gs_mkcont
    rw [find_congr (fun e : geocache_type × String => eqNoCase s e.2)
        (fun e => eqNoCase s' e.2) (fun e => eqNoCase_congr s s' e.2 h),
      find_congr (fun e : geocache_container × String => eqNoCase s e.2)
        (fun e => eqNoCase s' e.2) (fun e => eqNoCase_congr s s' e.2 h)]
    exact ⟨rfl, rfl⟩
  have htype : ∀ e ∈ gs_type_map, gs_mktype e.2 = e.1 := by decide
  have hcont : ∀ e ∈ gs_container_map, gs_mkcont e.2 = e.1 := by decide
  refine ⟨hcase, ?_, ?_, htype, hcont, ?_, ?_, by decide, by decide, by decide⟩
  · intro e he s hs
    have h : s.data.map lowerChar = e.2.data.map lowerChar := by
      simpa [eqNoCase] using hs
    rw [(hcase s e.2 h).1]
    exact htype e he
  · intro e he s hs
    have h : s.data.map lowerChar = e.2.data.map lowerChar := by
      simpa [eqNoCase] using hs
    rw [(hcase s e.2 h).2]
    exact hcont e he
  · intro s h
    unfold gs_mktype
    rw [find_none_of_all_false _ _ h]
  · intro s h
    unfold gs_mkcont
    rw [find_none_of_all_false _ _ h]

/-! ## Links and metadata texts -/

theorem write_link_flatten_filter :
    ∀ (urls : List UrlLink),
      (urls.map (fun l => if !isEmpty l.url_ then write_link l else [])).flatten =
        ((links_with_url urls).map write_link).flatten := by
  intro urls
  induction urls with
  | nil => rfl
  | cons l ls ih =>
    unfold links_with_url at ih ⊢
    rw [List.map_cons, List.flatten_cons, ih]
    cases h : isEmpty l.url_ <;> simp [List.filter, h]

theorem attributes_named_append (n : String) :
    ∀ (a b : List WEvent),
      attributes_named n (a ++ b) = attributes_named n a ++ attributes_named n b := by
  intro a
  induction a with
  | nil => intro b; rfl
  | cons x xs ih =>
    intro b
    cases x with
    | Attribute k v =>
      simp only [List.cons_append, attributes_named]
      split <;> simp [ih]
    | StartDocument => simpa [attributes_named] using ih b
    | StartElement m => simpa [attributes_named] using ih b
    | EndElement => simpa [attributes_named] using ih b
    | Characters t => simpa [attributes_named] using ih b

theorem attributes_named_optional (n m t : String) :
    attributes_named n (writeOptionalTextElement m t) = [] := by
  unfold writeOptionalTextElement writeTextElement
  split <;> rfl

theorem attributes_named_link (l : UrlLink) :
    attributes_named "href" (write_link l) = [l.url_] := by
  unfold write_link
  simp [attributes_named_append, attributes_named_optional, attributes_named]

theorem attributes_named_links :
    ∀ (ls : List UrlLink),
      attributes_named "href" (ls.map write_link).flatten = ls.map (fun l => l.url_) := by
  intro ls
  induction ls with
  | nil => rfl
  | cons l ls ih =>
    rw [List.map_cons, List.flatten_cons, attributes_named_append, attributes_named_link, ih]
    rfl

/-- C21: for every non-empty link list, write_gpx_url writes, when gpx_wversion_num is at
most 10 (version 1.0), nothing if the URL of the first link is empty and otherwise one url
element whose text is the urlbase option followed by the URL of the first link, then a
urlname element with the text of that link if it is not empty; and, when gpx_wversion_num
is above 10, the link elements of the links with a non-empty URL, one per link, in the
order of the list, each with the attribute href equal to the URL itself, without the
urlbase option. -/
theorem write_gpx_url_by_version (cfg : WriterCfg) (urls : List UrlLink) (hne : urls ≠ []) :
    (cfg.gpx_wversion_num ≤ 10 →
      write_gpx_url cfg urls =
        (if isEmpty (urls.headD {}).url_ then []
         else
          [WEvent.StartElement "url",
           WEvent.Characters (cfg.urlbase ++ (urls.headD {}).url_), WEvent.EndElement] ++
          (if isEmpty (urls.headD {}).url_link_text_ then []
           else [WEvent.StartElement "urlname",
                 WEvent.Characters (urls.headD {}).url_link_text_, WEvent.EndElement])) ∧
      (names_at 0 0 (write_gpx_url cfg urls)).count "url" ≤ 1 ∧
      "link" ∉ names_at 0 0 (write_gpx_url cfg urls)) ∧
    (cfg.gpx_wversion_num > 10 →
      write_gpx_url cfg urls = ((links_with_url urls).map write_link).flatten ∧
      names_at 0 0 (write_gpx_url cfg urls) =
        List.replicate (links_with_url urls).length "link" ∧
      attributes_named "href" (write_gpx_url cfg urls) =
        (links_with_url urls).map (fun l => l.url_) ∧
      characters_of (write_gpx_url cfg urls) =
        characters_of ((links_with_url urls).map write_link).flatten) ∧
    (∀ l : UrlLink, (write_link l).take 2 =
      [WEvent.StartElement "link", WEvent.Attribute "href" l.url_]) := by
  have hempty : urls.isEmpty = false := by
    cases urls with
    | nil => exact absurd rfl hne
    | cons _ _ => rfl
  refine ⟨?_, ?_, fun l => rfl⟩
  · intro hv
    have hv' : ¬ cfg.gpx_wversion_num > 10 := by omega
    have heq : write_gpx_url cfg urls =
        (if isEmpty (urls.headD {}).url_ then []
         else
          [WEvent.StartElement "url",
           WEvent.Characters (cfg.urlbase ++ (urls.headD {}).url_), WEvent.EndElement] ++
          (if isEmpty (urls.headD {}).url_link_text_ then []
           else [WEvent.StartElement "urlname",
                 WEvent.Characters (urls.headD {}).url_link_text_, WEvent.EndElement])) := by
      unfold write_gpx_url write_gpx_url_list writeOptionalTextElement writeTextElement
      simp only [hempty, hv', Bool.not_false, if_true, if_false]
      cases isEmpty (urls.headD {}).url_ <;> cases isEmpty (urls.headD {}).url_link_text_ <;>
        simp
    refine ⟨heq, ?_, ?_⟩
    · rw [heq]
      cases isEmpty (urls.headD {}).url_ <;> cases isEmpty (urls.headD {}).url_link_text_ <;>
        simp [names_at]
    · rw [heq]
      cases isEmpty (urls.headD {}).url_ <;> cases isEmpty (urls.headD {}).url_link_text_ <;>
        simp [names_at]
  · intro hv
    have heq : write_gpx_url cfg urls = ((links_with_url urls).map write_link).flatten := by
      unfold write_gpx_url write_gpx_url_list
      simp only [hempty, hv, Bool.not_false, if_true]
      exact write_link_flatten_filter urls
    refine ⟨heq, ?_, ?_, ?_⟩
    · rw [heq]
      have := names_at_links (links_with_url urls) [] 0 0 (Nat.le_refl _)
      simpa [names_at] using this
    · rw [heq]; exact attributes_named_links _
    · rw [heq]

/-- Witness of C21: two links of which the second has no URL, written for version 1.1. -/
theorem write_gpx_url_by_version_witness :
    attributes_named "href"
      (write_gpx_url { gpx_wversion_num := 11, urlbase := "http://b/" }
        [{ url_ := "x" }, { url_link_text_ := "t" }]) = ["x"] :=
  ((write_gpx_url_by_version { gpx_wversion_num := 11, urlbase := "http://b/" }
    [{ url_ := "x" }, { url_link_text_ := "t" }] (by simp)).2.1 (by decide)).2.2.1

/-- C22 (counterexample): for the list of two names a and b, gpx_write_gdata writes one
name element with the two texts a and b one after the other, not the first text alone. -/
theorem gpx_write_gdata_writes_all_values :
    gpx_write_gdata ["a", "b"] "name" =
      [WEvent.StartElement "name", WEvent.Characters "a", WEvent.Characters "b",
       WEvent.EndElement] ∧
    gpx_write_gdata ["a", "b"] "name" ≠
      [WEvent.StartElement "name", WEvent.Characters "a", WEvent.EndElement] := by
  decide

/-- C22 (amended): for a non-empty list, gpx_write_gdata writes a single element with
the given tag; its text is the first value alone when the tag is url or email, and, for
every other tag (name, desc, author, urlname and keywords among the lists of the global
metadata), all the values of the list one after the other, in order; for an empty list
it writes nothing. -/
theorem gpx_write_gdata_texts (ge : List String) (tag : String) (hne : ge ≠ []) :
    names_at 0 0 (gpx_write_gdata ge tag) = [tag] ∧
    depth_after 0 (gpx_write_gdata ge tag) = some 0 ∧
    (tag = "url" ∨ tag = "email" → characters_of (gpx_write_gdata ge tag) = ge.take 1) ∧
    (¬ (tag = "url" ∨ tag = "email") → characters_of (gpx_write_gdata ge tag) = ge) ∧
    (∀ t ∈ ["name", "desc", "author", "urlname", "keywords"],
      characters_of (gpx_write_gdata ge t) = ge) ∧
    (∀ t : String, gpx_write_gdata [] t = []) := by
  have hempty : ge.isEmpty = false := by
    cases ge with
    | nil => exact absurd rfl hne
    | cons _ _ => rfl
  have hchars : ∀ (l : List String),
      characters_of (l.map WEvent.Characters ++ [WEvent.EndElement]) = l := by
    intro l
    induction l with
    | nil => rfl
    | cons a as ih => simp [characters_of, ih]
  have hall : ∀ t : String, ¬ (t = "url" ∨ t = "email") →
      characters_of (gpx_write_gdata ge t) = ge := by
    intro t ht
    unfold gpx_write_gdata
    simp only [hempty, Bool.not_false, if_true, ht, if_false]
    simp [characters_of, hchars]
  refine ⟨?_, balanced_gdata ge tag, ?_, hall tag, ?_, fun t => rfl⟩
  · have := names_at_gdata ge tag [] 0 0 (Nat.le_refl _)
    simpa [names_at, hempty] using this
  · intro ht
    unfold gpx_write_gdata
    simp only [hempty, Bool.not_false, if_true, ht]
    simp only [List.singleton_append, characters_of, List.append_assoc]
    exact hchars (ge.take 1)
  · intro t ht
    apply hall
    simp only [List.mem_cons, List.mem_singleton, List.not_mem_nil, or_false] at ht
    rcases ht with rfl | rfl | rfl | rfl | rfl <;> decide

/-- Witness of C22 (amended): two urls, of which only the first is written. -/
theorem gpx_write_gdata_texts_witness :
    characters_of (gpx_write_gdata ["u", "v"] "url") = ["u"] :=
  (gpx_write_gdata_texts ["u", "v"] "url" (by simp)).2.2.1 (Or.inl rfl)

/-! ## Elevation -/

theorem dropSpace_subset : ∀ (l : List Char), ∀ c ∈ dropSpace l, c ∈ l := by
  intro l
  induction l with
  | nil => intro c hc; simp [dropSpace] at hc
  | cons a as ih =>
    intro c hc
    unfold dropSpace at hc
    split at hc
    · exact List.mem_cons_of_mem _ (ih c hc)
    · exact hc

theorem trimmed_subset (s : String) : ∀ c ∈ (trimmed s).data, c ∈ s.data := by
  intro c hc
  unfold trimmed at hc
  have h1 := dropSpace_subset _ c (List.mem_reverse.mp hc)
  exact dropSpace_subset _ c (List.mem_reverse.mp h1)

theorem scan_sign_subset (l : List Char) : ∀ c ∈ (scan_sign l).2, c ∈ l := by
  intro c hc
  cases l with
  | nil => simp [scan_sign] at hc
  | cons a as =>
    unfold scan_sign at hc
    by_cases h1 : a = '-'
    · simp only [h1, if_true] at hc
      exact List.mem_cons_of_mem _ hc
    · by_cases h2 : a = '+'
      · simp only [h1, h2, if_true, if_false] at hc
        exact List.mem_cons_of_mem _ hc
      · simp only [h1, h2, if_false] at hc
        exact hc

theorem scan_digits_no_digit (l : List Char) (h : ∀ c ∈ l, digitVal c = none) :
    scan_digits l 0 0 = (0, 0, l) := by
  cases l with
  | nil => rfl
  | cons a as => exact scan_digits_stop a as 0 0 (h a (List.mem_cons_self _ _))

theorem QString_toDouble_no_digit (s : String) (h : ∀ c ∈ s.data, digitVal c = none) :
    QString_toDouble s = ⟨0, 0⟩ := by
  have ht : ∀ c ∈ (scan_sign (trimmed s).data).2, digitVal c = none :=
    fun c hc => h c (trimmed_subset s c (scan_sign_subset _ c hc))
  unfold QString_toDouble
  simp only [scan_digits_no_digit _ ht]
  generalize (scan_sign (trimmed s).data).2 = r at ht
  cases r with
  | nil => rfl
  | cons a as =>
    by_cases ha : a = '.'
    · subst ha
      have has : ∀ c ∈ as, digitVal c = none := fun c hc => ht c (List.mem_cons_of_mem _ hc)
      simp [scan_digits_no_digit as has]
    · split
      · rfl
      · rename_i hn
        exfalso
        apply hn
        split
        · rename_i heq
          exact absurd (List.cons.inj heq).1 ha
        · rfl

theorem gpx_end_ele (ext : Externals) (s : State) (i : Nat)
    (hw : s.wpt_tmp = some i)
    (ht : get_tag hash s.current_tag = (tt_wpttype_ele, false)) :
    gpx_end ext s =
      { s with
        cdatastr := trimmed s.cdatastr
        wpts := upd s.wpts i
          (fun w => { w with altitude := QString_toDouble (trimmed s.cdatastr) }) } := by
  unfold gpx_end
  simp only [ht]
  simp [with_wpt, hw]

/-- C26 (counterexample): a waypoint whose ele element holds the text abc is read without
error, its elevation is 0, not the unset value, and gpx_waypt_pr writes an ele element
with the text 0.000 for it. -/
theorem ele_invalid_text_written_as_zero :
    (gpx_read Externals.fixed (gpx_rd_init {}) (example_document_ele "abc")).fault = false ∧
    (gpx_read Externals.fixed (gpx_rd_init {}) (example_document_ele "abc")).fatal = false ∧
    (gpx_read Externals.fixed (gpx_rd_init {}) (example_document_ele "abc")).wpts.map
      (fun w => w.altitude) = [⟨0, 0⟩] ∧
    (⟨0, 0⟩ : Dbl) ≠ unknown_alt ∧
    ((gpx_read Externals.fixed (gpx_rd_init {}) (example_document_ele "abc")).wpts.map
      (fun w => (gpx_waypt_pr Externals.fixed {} [] w).take 6)) =
      [[WEvent.StartElement "wpt", WEvent.Attribute "lat" "1.000000000",
        WEvent.Attribute "lon" "2.000000000", WEvent.StartElement "ele",
        WEvent.Characters "0.000", WEvent.EndElement]] := by
  decide

/-! ## The switch statements and the passthrough test -/

theorem gpx_start_eq (s : State) (el : String) (attr : List Attr) (nsdecl : List NsDecl) :
    gpx_start s el attr nsdecl =
      if (get_tag hash s.current_tag).1 = tt_unknown then
        start_something_else { s with cdatastr := "" } el attr nsdecl
      else if (get_tag hash s.current_tag).2 then
        start_something_else
          (gpx_start_switch { s with cdatastr := "" } (get_tag hash s.current_tag).1 attr nsdecl)
          el attr nsdecl
      else gpx_start_switch { s with cdatastr := "" } (get_tag hash s.current_tag).1 attr nsdecl := by
  unfold gpx_start gpx_start_switch
  simp only []

set_option maxHeartbeats 4000000 in
theorem gpx_end_eq (ext : Externals) (s : State) :
    gpx_end ext s =
      if (get_tag hash s.current_tag).1 = tt_unknown then
        end_something_else { s with cdatastr := trimmed s.cdatastr }
      else if (get_tag hash s.current_tag).2 then
        end_something_else
          (gpx_end_switch ext { s with cdatastr := trimmed s.cdatastr }
            (get_tag hash s.current_tag).1)
      else gpx_end_switch ext { s with cdatastr := trimmed s.cdatastr }
        (get_tag hash s.current_tag).1 := by
  unfold gpx_end gpx_end_switch
  simp only []

/-! ## Frames of the handling of preserved content -/

theorem start_something_else_frame {α : Type} (f : State → α)
    (h1 : ∀ (s : State) (tags : List xml_tag) (c : Option Nat),
      f { s with tags := tags, cur_tag := c } = f s)
    (h2 : ∀ (s : State) (p : FsPtr) (fs : List format_specific_data), f (set_fs s p fs) = f s)
    (s : State) (el : String) (attr : List Attr) (ns : List NsDecl) :
    f (start_something_else s el attr ns) = f s := by
  unfold start_something_else
  split
  · rfl
  · simp only []
    split
    · split <;> exact h1 _ _ _
    · split
      · exact h1 _ _ _
      · exact (h2 _ _ _).trans (h1 _ _ _)

theorem end_something_else_frame {α : Type} (f : State → α)
    (h1 : ∀ (s : State) (tags : List xml_tag) (c : Option Nat),
      f { s with tags := tags, cur_tag := c } = f s)
    (s : State) : f (end_something_else s) = f s := by
  unfold end_something_else
  split
  · exact h1 s s.tags _
  · rfl

theorem gpx_cdata_frame {α : Type} (f : State → α)
    (h1 : ∀ (s : State) (tags : List xml_tag) (c : Option Nat),
      f { s with tags := tags, cur_tag := c } = f s)
    (h3 : ∀ (s : State) (c : String), f { s with cdatastr := c } = f s)
    (s : State) (t : String) : f (gpx_cdata s t) = f s := by
  unfold gpx_cdata
  simp only []
  split
  · exact h3 _ _
  · split
    · exact (h1 { s with cdatastr := s.cdatastr ++ t } _ _).trans (h3 _ _)
    · exact (h1 { s with cdatastr := s.cdatastr ++ t } _ _).trans (h3 _ _)

theorem gpx_cdata_cdatastr (s : State) (t : String) :
    (gpx_cdata s t).cdatastr = s.cdatastr ++ t := by
  unfold gpx_cdata
  simp only []
  split
  · rfl
  · split <;> rfl

theorem start_something_else_cdatastr (s : State) (el : String) (attr : List Attr)
    (ns : List NsDecl) : (start_something_else s el attr ns).cdatastr = s.cdatastr :=
  start_something_else_frame (fun s => s.cdatastr) (fun _ _ _ => rfl)
    (fun s p fs => by cases p <;> rfl) s el attr ns

theorem end_something_else_cdatastr (s : State) :
    (end_something_else s).cdatastr = s.cdatastr :=
  end_something_else_frame (fun s => s.cdatastr) (fun _ _ _ => rfl) s

theorem gpx_read_texts (ext : Externals) :
    ∀ (texts : List String) (s : State) (ts : List Token),
      gpx_read ext s (texts.map Token.Characters ++ ts) =
        gpx_read ext (texts.foldl gpx_cdata s) ts := by
  intro texts
  induction texts with
  | nil => intro s ts; rfl
  | cons t rest ih => intro s ts; exact ih (gpx_cdata s t) ts

theorem foldl_gpx_cdata_frame {α : Type} (f : State → α)
    (hc : ∀ (s : State) (t : String), f (gpx_cdata s t) = f s) :
    ∀ (texts : List String) (s : State), f (texts.foldl gpx_cdata s) = f s := by
  intro texts
  induction texts with
  | nil => intro s; rfl
  | cons t rest ih => intro s; exact (ih _).trans (hc s t)

theorem foldl_gpx_cdata_cdatastr :
    ∀ (texts : List String) (s : State),
      (texts.foldl gpx_cdata s).cdatastr = texts.foldl (fun r t => r ++ t) s.cdatastr := by
  intro texts
  induction texts with
  | nil => intro s; rfl
  | cons t rest ih =>
    intro s
    rw [List.foldl_cons, ih, gpx_cdata_cdatastr, List.foldl_cons]

/-! ## The entity an unrecognised element is attached to -/

theorem fs_ptr_with_wpt (s : State) (f : Waypoint → Waypoint) :
    (with_wpt s f).fs_ptr = s.fs_ptr := by
  unfold with_wpt; split <;> rfl

theorem fs_ptr_with_rte (s : State) (f : route_head → route_head) :
    (with_rte s f).fs_ptr = s.fs_ptr := by
  unfold with_rte; split <;> rfl

theorem fs_ptr_with_trk (s : State) (f : route_head → route_head) :
    (with_trk s f).fs_ptr = s.fs_ptr := by
  unfold with_trk; split <;> rfl

theorem fs_ptr_with_global (s : State) (f : GpxGlobal → GpxGlobal) :
    (with_global s f).fs_ptr = s.fs_ptr := by
  unfold with_global; split <;> rfl

theorem fs_ptr_with_link (s : State) (f : UrlLink → UrlLink) :
    (with_link s f).fs_ptr = s.fs_ptr := by
  unfold with_link; split <;> rfl

theorem fs_ptr_with_rh_link (s : State) (f : UrlLink → UrlLink) :
    (with_rh_link s f).fs_ptr = s.fs_ptr := by
  unfold with_rh_link; split <;> rfl

theorem fs_ptr_close_link (s : State) : (close_link s).fs_ptr = s.fs_ptr := by
  unfold close_link
  split
  · split
    · exact fs_ptr_with_wpt _ _
    · rfl
  · rfl

theorem fs_ptr_close_rh_link_rte (s : State) : (close_rh_link s with_rte).fs_ptr = s.fs_ptr := by
  unfold close_rh_link
  split
  · split
    · exact fs_ptr_with_rte _ _
    · rfl
  · rfl

theorem fs_ptr_close_rh_link_trk (s : State) : (close_rh_link s with_trk).fs_ptr = s.fs_ptr := by
  unfold close_rh_link
  split
  · split
    · exact fs_ptr_with_trk _ _
    · rfl
  · rfl

theorem fs_ptr_end_something_else (s : State) : (end_something_else s).fs_ptr = s.fs_ptr := by
  unfold end_something_else; split <;> rfl

theorem fs_ptr_start_something_else (s : State) (el : String) (attr : List Attr)
    (ns : List NsDecl) : (start_something_else s el attr ns).fs_ptr = s.fs_ptr := by
  unfold start_something_else
  split
  · rfl
  · split
    · split <;> rfl
    · split
      · rfl
      · exact (set_fs_fs_ptr _ _ _).trans rfl

theorem fs_ptr_gpx_end_switch (ext : Externals) (s : State) (t : tag_type) :
    (gpx_end_switch ext s t).fs_ptr = s.fs_ptr := by
  unfold gpx_end_switch
  cases t <;> dsimp only <;>
    first
    | rfl
    | exact fs_ptr_with_wpt _ _
    | exact fs_ptr_with_global _ _
    | exact fs_ptr_with_rte _ _
    | exact fs_ptr_with_trk _ _
    | exact fs_ptr_with_link _ _
    | exact fs_ptr_with_rh_link _ _
    | exact fs_ptr_close_rh_link_rte _
    | exact fs_ptr_close_rh_link_trk _
    | (split
       · first
         | exact fs_ptr_close_link _
         | exact (fs_ptr_with_rte _ _).trans (fs_ptr_close_link _)
         | exact (fs_ptr_with_trk _ _).trans (fs_ptr_close_link _)
       · exact fs_ptr_close_link _)
    | (split
       · rfl
       · split
         · exact fs_ptr_with_wpt _ _
         · rfl)

theorem fs_ptr_gpx_end (ext : Externals) (s : State) : (gpx_end ext s).fs_ptr = s.fs_ptr := by
  rw [gpx_end_eq]
  split
  · exact fs_ptr_end_something_else _
  · split
    · exact (fs_ptr_end_something_else _).trans (fs_ptr_gpx_end_switch _ _ _)
    · exact fs_ptr_gpx_end_switch _ _ _


theorem fs_ptr_gpx_cdata (s : State) (t : String) : (gpx_cdata s t).fs_ptr = s.fs_ptr := by
  unfold gpx_cdata
  simp only []
  split
  · rfl
  · split <;> rfl

theorem tag_gpx_form (s : State) (attr : List Attr) (ns : List NsDecl) :
    ∃ (v : String) (a : List Attr),
      tag_gpx s attr ns = { s with gpx_version := v, gpx_namespace_attribute := a } := by
  unfold tag_gpx
  simp only []
  split
  · split
    · exact ⟨_, _, rfl⟩
    · split
      · exact ⟨_, _, rfl⟩
      · exact ⟨_, _, rfl⟩
  · exact ⟨_, _, rfl⟩

theorem fs_ptr_tag_gpx (s : State) (attr : List Attr) (ns : List NsDecl) :
    (tag_gpx s attr ns).fs_ptr = s.fs_ptr := by
  obtain ⟨v, a, h⟩ := tag_gpx_form s attr ns
  rw [h]

theorem fs_ptr_tag_log_wpt (s : State) (attr : List Attr) :
    (tag_log_wpt s attr).fs_ptr = s.fs_ptr := by
  unfold tag_log_wpt
  split
  · rfl
  · simp only []
    split <;> rfl

theorem fs_ptr_start_link (s : State) (attr : List Attr) :
    (start_link s attr).fs_ptr = s.fs_ptr := by
  unfold start_link; split <;> rfl

theorem fs_ptr_gpx_start_switch_other (s : State) (t : tag_type) (attr : List Attr)
    (ns : List NsDecl)
    (h : t ∉ [tt_wpt, tt_rte_rtept, tt_trk_trkseg_trkpt, tt_rte, tt_trk]) :
    (gpx_start_switch s t attr ns).fs_ptr = s.fs_ptr := by
  unfold gpx_start_switch
  cases t <;> dsimp only <;>
    first
    | exact (h (by decide)).elim
    | rfl
    | exact fs_ptr_tag_gpx _ _ _
    | exact fs_ptr_with_wpt _ _
    | exact fs_ptr_start_link _ _
    | (split
       · first | exact fs_ptr_with_wpt _ _ | exact fs_ptr_tag_log_wpt _ _
       · rfl)

theorem fs_ptr_gpx_start_switch_point (s : State) (t : tag_type) (attr : List Attr)
    (ns : List NsDecl) (h : t = tt_wpt ∨ t = tt_rte_rtept ∨ t = tt_trk_trkseg_trkpt) :
    (gpx_start_switch s t attr ns).fs_ptr = some (FsPtr.wpt s.wpts.length) := by
  rcases h with rfl | rfl | rfl
  · rfl
  · rfl
  · unfold gpx_start_switch
    dsimp only
    split
    · exact (fs_ptr_with_wpt _ _).trans rfl
    · rfl

theorem fs_ptr_gpx_start_switch_head (s : State) (t : tag_type) (attr : List Attr)
    (ns : List NsDecl) (h : t = tt_rte ∨ t = tt_trk) :
    (gpx_start_switch s t attr ns).fs_ptr = some (FsPtr.head s.heads.length) := by
  rcases h with rfl | rfl <;> rfl

/-- The entity gpx_start makes current for preserved content: the new point for the three
point tags, the new head for rte and trk, and the entity it was before for every other
tag id. -/
theorem fs_ptr_gpx_start_switch (s : State) (t : tag_type) (attr : List Attr)
    (ns : List NsDecl) :
    (gpx_start_switch s t attr ns).fs_ptr =
      if t = tt_wpt ∨ t = tt_rte_rtept ∨ t = tt_trk_trkseg_trkpt then
        some (FsPtr.wpt s.wpts.length)
      else if t = tt_rte ∨ t = tt_trk then some (FsPtr.head s.heads.length)
      else s.fs_ptr := by
  by_cases h1 : t = tt_wpt ∨ t = tt_rte_rtept ∨ t = tt_trk_trkseg_trkpt
  · rw [if_pos h1]; exact fs_ptr_gpx_start_switch_point s t attr ns h1
  · rw [if_neg h1]
    by_cases h2 : t = tt_rte ∨ t = tt_trk
    · rw [if_pos h2]; exact fs_ptr_gpx_start_switch_head s t attr ns h2
    · rw [if_neg h2]
      apply fs_ptr_gpx_start_switch_other
      simp only [List.mem_cons, List.mem_singleton, List.not_mem_nil, or_false]
      tauto

theorem fs_ptr_gpx_start (s : State) (el : String) (attr : List Attr) (ns : List NsDecl) :
    (gpx_start s el attr ns).fs_ptr =
      if (get_tag hash s.current_tag).1 = tt_wpt ∨ (get_tag hash s.current_tag).1 = tt_rte_rtept ∨
          (get_tag hash s.current_tag).1 = tt_trk_trkseg_trkpt then
        some (FsPtr.wpt s.wpts.length)
      else if (get_tag hash s.current_tag).1 = tt_rte ∨ (get_tag hash s.current_tag).1 = tt_trk then
        some (FsPtr.head s.heads.length)
      else s.fs_ptr := by
  rw [gpx_start_eq]
  by_cases hu : (get_tag hash s.current_tag).1 = tt_unknown
  · rw [if_pos hu, fs_ptr_start_something_else, hu]
    rfl
  · rw [if_neg hu]
    split
    · rw [fs_ptr_start_something_else, fs_ptr_gpx_start_switch]
    · rw [fs_ptr_gpx_start_switch]


theorem start_something_else_root_first (s : State) (p : FsPtr) (el : String)
    (attr : List Attr) (ns : List NsDecl) (hfs : s.fs_ptr = some p) (hcur : s.cur_tag = none)
    (hfind : fs_chain_find_gpx (fs_of s p) = none) :
    start_something_else s el attr ns =
      set_fs { s with tags := s.tags ++ [fresh_tag el (tag_attributes attr ns) none],
                      cur_tag := some s.tags.length }
        p (fs_chain_add (fs_of s p) (format_specific_data.fs_xml (some s.tags.length))) := by
  unfold start_something_else
  simp only [hfs, hcur, hfind]
  rfl

theorem start_something_else_root_next (s : State) (p : FsPtr) (el : String)
    (attr : List Attr) (ns : List NsDecl) (r : Nat) (hfs : s.fs_ptr = some p)
    (hcur : s.cur_tag = none) (hfind : fs_chain_find_gpx (fs_of s p) = some (some r)) :
    start_something_else s el attr ns =
      { s with
        tags := upd s.tags (last_sibling s.tags s.tags.length r)
            (fun t => { t with sibling := some s.tags.length }) ++
          [fresh_tag el (tag_attributes attr ns) none]
        cur_tag := some s.tags.length } := by
  unfold start_something_else
  simp only [hfs, hcur, hfind]
  rfl

theorem fs_of_tags (s : State) (tags : List xml_tag) (c : Option Nat) (p : FsPtr) :
    fs_of { s with tags := tags, cur_tag := c } p = fs_of s p := by
  cases p <;> rfl

theorem valid_tags (s : State) (tags : List xml_tag) (c : Option Nat) (p : FsPtr) :
    p.valid { s with tags := tags, cur_tag := c } = p.valid s := by
  cases p <;> rfl

theorem set_fs_tags (s : State) (p : FsPtr) (fs : List format_specific_data) :
    (set_fs s p fs).tags = s.tags ∧ (set_fs s p fs).cur_tag = s.cur_tag := by
  cases p <;> exact ⟨rfl, rfl⟩

theorem start_something_else_root (s : State) (p : FsPtr) (el : String)
    (attr : List Attr) (ns : List NsDecl) (hfs : s.fs_ptr = some p) (hv : p.valid s = true)
    (hcur : s.cur_tag = none) :
    (start_something_else s el attr ns).cur_tag = some s.tags.length ∧
    (fs_chain_find_gpx (fs_of s p) = none →
      (start_something_else s el attr ns).tags =
        s.tags ++ [fresh_tag el (tag_attributes attr ns) none] ∧
      fs_chain_find_gpx (fs_of (start_something_else s el attr ns) p) =
        some (some s.tags.length)) ∧
    (∀ r, fs_chain_find_gpx (fs_of s p) = some (some r) →
      (start_something_else s el attr ns).tags =
        upd s.tags (last_sibling s.tags s.tags.length r)
          (fun t => { t with sibling := some s.tags.length }) ++
        [fresh_tag el (tag_attributes attr ns) none] ∧
      fs_of (start_something_else s el attr ns) p = fs_of s p) := by
  refine ⟨?_, ?_, ?_⟩
  · cases hfind : fs_chain_find_gpx (fs_of s p) with
    | none =>
      rw [start_something_else_root_first s p _ _ _ hfs hcur hfind]
      exact (set_fs_tags _ _ _).2
    | some o =>
      cases o with
      | none =>
        unfold start_something_else
        simp only [hfs, hcur, hfind]
        exact (set_fs_tags _ _ _).2
      | some r =>
        rw [start_something_else_root_next s p _ _ _ r hfs hcur hfind]
  · intro hfind
    rw [start_something_else_root_first s p _ _ _ hfs hcur hfind]
    refine ⟨(set_fs_tags _ _ _).1, ?_⟩
    rw [fs_of_set_fs _ _ _ (by rw [valid_tags]; exact hv), fs_of_tags]
    exact fs_chain_find_gpx_add _ _ hfind
  · intro r hfind
    rw [start_something_else_root_next s p _ _ _ r hfs hcur hfind]
    refine ⟨rfl, ?_⟩
    cases p <;> rfl

/-- C25 (counterexample): an unrecognised element foo of the root that follows a closed
waypoint is attached to that waypoint, which has been added to the waypoint list before
foo opens, and is written inside its wpt element; an unrecognised element foo of a route
that follows a closed route point is attached to that route point, not to the open
route. -/
theorem unknown_element_attached_to_closed_point :
    (get_tag hash "/gpx/foo").1 = tt_unknown ∧
    (gpx_read Externals.fixed (gpx_rd_init {})
      (example_document_after_wpt.take 3)).waypt_list = [0] ∧
    (gpx_read Externals.fixed (gpx_rd_init {})
      (example_document_after_wpt.take 3)).wpts.map (fun w => w.fs) = [[]] ∧
    (gpx_read Externals.fixed (gpx_rd_init {}) example_document_after_wpt).wpts.map
      (fun w => w.fs) = [[format_specific_data.fs_xml (some 0)]] ∧
    (gpx_read Externals.fixed (gpx_rd_init {}) example_document_after_wpt).tags.map
      (fun t => t.tagname) = ["foo"] ∧
    gpx_write Externals.fixed {}
      (gpx_read Externals.fixed (gpx_rd_init {}) example_document_after_wpt) =
      [WEvent.StartElement "wpt", WEvent.Attribute "lat" "1.000000000",
       WEvent.Attribute "lon" "2.000000000", WEvent.StartElement "foo", WEvent.EndElement,
       WEvent.EndElement, WEvent.EndElement] ∧
    (get_tag hash "/gpx/rte/foo").1 = tt_unknown ∧
    (gpx_read Externals.fixed (gpx_rd_init {}) example_document_after_rtept).heads.map
      (fun h => (h.fs, h.waypoint_list)) = [([], [0])] ∧
    (gpx_read Externals.fixed (gpx_rd_init {}) example_document_after_rtept).wpts.map
      (fun w => w.fs) = [[format_specific_data.fs_xml (some 0)]] := by
  decide

/-- C25 (amended): when an unrecognised element opens while no preserved node is open,
its node becomes the root of a new preserved chain of the entity fs_ptr points to, when
that entity has no chain yet, and is otherwise appended after the last node of the top
level of that chain. The entity fs_ptr points to is the wpt, rtept, trkpt, rte or trk
element that was opened last, whether or not it is still open: gpx_start sets fs_ptr at
these five tags only, and neither gpx_end nor gpx_cdata changes it. -/
theorem unknown_element_attached_to_last_entity (ext : Externals) (s : State) (p : FsPtr)
    (name : String) (attr : List Attr) (ns : List NsDecl)
    (hfs : s.fs_ptr = some p) (hv : p.valid s = true) (hcur : s.cur_tag = none)
    (hu : (get_tag hash (s.current_tag ++ "/" ++ name)).1 = tt_unknown) :
    (gpx_read_token ext s (Token.StartElement name attr ns)).fs_ptr = some p ∧
    (gpx_read_token ext s (Token.StartElement name attr ns)).cur_tag = some s.tags.length ∧
    (fs_chain_find_gpx (fs_of s p) = none →
      (gpx_read_token ext s (Token.StartElement name attr ns)).tags =
        s.tags ++ [fresh_tag name (tag_attributes attr ns) none] ∧
      fs_chain_find_gpx (fs_of (gpx_read_token ext s (Token.StartElement name attr ns)) p) =
        some (some s.tags.length)) ∧
    (∀ r, fs_chain_find_gpx (fs_of s p) = some (some r) →
      (gpx_read_token ext s (Token.StartElement name attr ns)).tags =
        upd s.tags (last_sibling s.tags s.tags.length r)
          (fun t => { t with sibling := some s.tags.length }) ++
        [fresh_tag name (tag_attributes attr ns) none] ∧
      fs_of (gpx_read_token ext s (Token.StartElement name attr ns)) p = fs_of s p) ∧
    (∀ (s1 : State) (n : String),
      (gpx_read_token ext s1 (Token.EndElement n)).fs_ptr = s1.fs_ptr) ∧
    (∀ (s1 : State) (t : String),
      (gpx_read_token ext s1 (Token.Characters t)).fs_ptr = s1.fs_ptr) ∧
    (∀ (s1 : State) (n : String) (a : List Attr) (d : List NsDecl),
      (gpx_read_token ext s1 (Token.StartElement n a d)).fs_ptr =
        if (get_tag hash (s1.current_tag ++ "/" ++ n)).1 = tt_wpt ∨
            (get_tag hash (s1.current_tag ++ "/" ++ n)).1 = tt_rte_rtept ∨
            (get_tag hash (s1.current_tag ++ "/" ++ n)).1 = tt_trk_trkseg_trkpt then
          some (FsPtr.wpt s1.wpts.length)
        else if (get_tag hash (s1.current_tag ++ "/" ++ n)).1 = tt_rte ∨
            (get_tag hash (s1.current_tag ++ "/" ++ n)).1 = tt_trk then
          some (FsPtr.head s1.heads.length)
        else s1.fs_ptr) := by
  have hstart : gpx_read_token ext s (Token.StartElement name attr ns) =
      start_something_else { s with current_tag := s.current_tag ++ "/" ++ name, cdatastr := "" }
        name attr ns := by
    show gpx_start _ _ _ _ = _
    rw [gpx_start_eq]
    exact if_pos hu
  have hfsof : ∀ q, fs_of { s with current_tag := s.current_tag ++ "/" ++ name, cdatastr := "" } q
      = fs_of s q := by
    intro q; cases q <;> rfl
  have hv0 : p.valid { s with current_tag := s.current_tag ++ "/" ++ name, cdatastr := "" } =
      true := by
    cases p <;> exact hv
  have hroot := start_something_else_root
    { s with current_tag := s.current_tag ++ "/" ++ name, cdatastr := "" } p name attr ns
    hfs hv0 hcur
  rw [hfsof] at hroot
  rw [hstart]
  refine ⟨?_, hroot.1, ?_, ?_, ?_, ?_, ?_⟩
  · rw [fs_ptr_start_something_else]; exact hfs
  · intro hfind
    refine ⟨(hroot.2.1 hfind).1, ?_⟩
    have h2 := (hroot.2.1 hfind).2
    exact h2
  · intro r hfind
    exact hroot.2.2 r hfind
  · intro s1 n
    exact fs_ptr_gpx_end ext s1
  · intro s1 t
    exact fs_ptr_gpx_cdata s1 t
  · intro s1 n a d
    exact fs_ptr_gpx_start _ n a d

/-- Witness of C25 (amended): the element foo that opens after the wpt of the example has
been closed. -/
theorem unknown_element_attached_to_last_entity_witness :
    (gpx_read_token Externals.fixed
      (gpx_read Externals.fixed (gpx_rd_init {}) (example_document_after_wpt.take 3))
      (Token.StartElement "foo" [] [])).fs_ptr = some (FsPtr.wpt 0) :=
  (unknown_element_attached_to_last_entity Externals.fixed
    (gpx_read Externals.fixed (gpx_rd_init {}) (example_document_after_wpt.take 3))
    (FsPtr.wpt 0) "foo" [] [] (by decide) (by decide) (by decide) (by decide)).1

/-! ## The last-found date of a geocache -/

theorem string_join_eq (texts : List String) :
    texts.foldl (fun r t => r ++ t) "" = String.join texts := rfl

theorem log_fold_fixed :
    ∀ (es : List LogEntry) (lf : QDateTime), toTime_t lf ≠ 0 → es.foldl log_step lf = lf := by
  intro es
  induction es with
  | nil => intro lf _; rfl
  | cons e es ih =>
    intro lf h
    have : log_step lf e = lf := by simp [log_step, h]
    rw [List.foldl_cons, this]
    exact ih lf h

theorem log_fold_none_found :
    ∀ (es : List LogEntry) (lf : QDateTime), (∀ e ∈ es, e.found = false) →
      es.foldl log_step lf = lf := by
  intro es
  induction es with
  | nil => intro lf _; rfl
  | cons e es ih =>
    intro lf h
    have : log_step lf e = lf := by simp [log_step, h e (List.mem_cons_self _ _)]
    rw [List.foldl_cons, this]
    exact ih lf (fun e' he' => h e' (List.mem_cons_of_mem _ he'))

theorem log_fold_first_found (before after : List LogEntry) (f : LogEntry) (lf : QDateTime)
    (h0 : toTime_t lf = 0) (hb : ∀ e ∈ before, e.found = false) (hf : f.found = true)
    (ht : toTime_t f.time ≠ 0) :
    (before ++ f :: after).foldl log_step lf = f.time := by
  rw [List.foldl_append, log_fold_none_found before lf hb, List.foldl_cons]
  have : log_step lf f = f.time := by simp [log_step, hf, h0]
  rw [this]
  exact log_fold_fixed after _ ht

theorem obj_view_with_wpt (s : State) (f : Waypoint → Waypoint)
    (h : s.wpt_tmp.isSome = true) : obj_view (with_wpt s f) = obj_view s := by
  unfold with_wpt
  split
  · rfl
  · rename_i h0; rw [h0] at h; cases h

theorem obj_view_with_rte (s : State) (f : route_head → route_head)
    (h : s.rte_head.isSome = true) : obj_view (with_rte s f) = obj_view s := by
  unfold with_rte
  split
  · rfl
  · rename_i h0; rw [h0] at h; cases h

theorem obj_view_with_trk (s : State) (f : route_head → route_head)
    (h : s.trk_head.isSome = true) : obj_view (with_trk s f) = obj_view s := by
  unfold with_trk
  split
  · rfl
  · rename_i h0; rw [h0] at h; cases h

theorem obj_view_with_global (s : State) (f : GpxGlobal → GpxGlobal)
    (h : s.gpx_global.isSome = true) : obj_view (with_global s f) = obj_view s := by
  unfold with_global
  split
  · rename_i g h0
    simp only [obj_view, h0, Option.isSome]
  · rename_i h0; rw [h0] at h; cases h

theorem obj_view_with_link (s : State) (f : UrlLink → UrlLink)
    (h : s.link_.isSome = true) : obj_view (with_link s f) = obj_view s := by
  unfold with_link
  split
  · rename_i g h0
    simp only [obj_view, h0, Option.isSome]
  · rename_i h0; rw [h0] at h; cases h

theorem obj_view_with_rh_link (s : State) (f : UrlLink → UrlLink)
    (h : s.rh_link_.isSome = true) : obj_view (with_rh_link s f) = obj_view s := by
  unfold with_rh_link
  split
  · rename_i g h0
    simp only [obj_view, h0, Option.isSome]
  · rename_i h0; rw [h0] at h; cases h

theorem obj_view_clear_link (s : State) : obj_view (clear_link s) = obj_view s := rfl

theorem obj_view_close_link (s : State) (h : s.wpt_tmp.isSome = true) :
    obj_view (close_link s) = { obj_view s with link := false } ∧
    (close_link s).wpt_tmp = s.wpt_tmp ∧ (close_link s).rte_head = s.rte_head ∧
    (close_link s).trk_head = s.trk_head := by
  obtain ⟨i, hi⟩ := Option.isSome_iff_exists.mp h
  unfold close_link
  split
  · simp only []
    split
    · simp [with_wpt, obj_view, hi]
    · exact ⟨rfl, rfl, rfl, rfl⟩
  · rename_i h0
    refine ⟨?_, rfl, rfl, rfl⟩
    simp only [obj_view, h0, Option.isSome]

theorem obj_view_end_point (s : State) (h : s.wpt_tmp.isSome = true) :
    obj_view (match (close_link s).wpt_tmp with
      | some i =>
        { close_link s with waypt_list := (close_link s).waypt_list ++ [i], logpoint_ct := 0,
                            cur_tag := none, wpt_tmp := none }
      | none => { close_link s with fault := true, logpoint_ct := 0, cur_tag := none }) =
      { obj_view s with wpt := false, link := false } := by
  obtain ⟨hv, hw, _, _⟩ := obj_view_close_link s h
  obtain ⟨i, hi⟩ := Option.isSome_iff_exists.mp h
  rw [hw, hi]
  show { obj_view (close_link s) with wpt := false } = _
  rw [hv]

theorem obj_view_end_rtept (s : State) (h : s.wpt_tmp.isSome = true)
    (hr : s.rte_head.isSome = true) :
    obj_view (match (close_link s).wpt_tmp with
      | some i =>
        { with_rte (close_link s) (fun h => { h with waypoint_list := h.waypoint_list ++ [i] })
          with wpt_tmp := none }
      | none => { close_link s with fault := true }) =
      { obj_view s with wpt := false, link := false } := by
  obtain ⟨hv, hw, hr2, _⟩ := obj_view_close_link s h
  obtain ⟨i, hi⟩ := Option.isSome_iff_exists.mp h
  rw [hw, hi]
  show { obj_view (with_rte (close_link s) _) with wpt := false } = _
  rw [obj_view_with_rte _ _ (by rw [hr2]; exact hr), hv]

theorem obj_view_end_trkpt (s : State) (h : s.wpt_tmp.isSome = true)
    (hr : s.trk_head.isSome = true) :
    obj_view (match (close_link s).wpt_tmp with
      | some i =>
        { with_trk (close_link s) (fun h => { h with waypoint_list := h.waypoint_list ++ [i] })
          with wpt_tmp := none }
      | none => { close_link s with fault := true }) =
      { obj_view s with wpt := false, link := false } := by
  obtain ⟨hv, hw, _, hr2⟩ := obj_view_close_link s h
  obtain ⟨i, hi⟩ := Option.isSome_iff_exists.mp h
  rw [hw, hi]
  show { obj_view (with_trk (close_link s) _) with wpt := false } = _
  rw [obj_view_with_trk _ _ (by rw [hr2]; exact hr), hv]

theorem obj_view_close_rh_link_rte (s : State) (h : s.rte_head.isSome = true) :
    obj_view (close_rh_link s with_rte) = { obj_view s with rh_link := false } := by
  obtain ⟨i, hi⟩ := Option.isSome_iff_exists.mp h
  unfold close_rh_link
  split
  · simp only []
    split
    · simp [with_rte, obj_view, hi]
    · rfl
  · rename_i h0
    simp only [obj_view, h0, Option.isSome]

theorem obj_view_close_rh_link_trk (s : State) (h : s.trk_head.isSome = true) :
    obj_view (close_rh_link s with_trk) = { obj_view s with rh_link := false } := by
  obtain ⟨i, hi⟩ := Option.isSome_iff_exists.mp h
  unfold close_rh_link
  split
  · simp only []
    split
    · simp [with_trk, obj_view, hi]
    · rfl
  · rename_i h0
    simp only [obj_view, h0, Option.isSome]

theorem obj_view_log_type (s : State) (h : s.wpt_tmp.isSome = true) :
    obj_view ({ (match s.wpt_tmp with
      | none => { s with fault := true }
      | some i =>
        if s.cdatastr = "Found it" ∧
            toTime_t (((s.wpts[i]?.getD default).gc_data.getD {}).last_found) = 0 then
          with_wpt s (set_gc (fun g => { g with last_found := s.gc_log_date }))
        else s) with gc_log_date := none } : State) = obj_view s := by
  obtain ⟨i, hi⟩ := Option.isSome_iff_exists.mp h
  rw [hi]
  simp only []
  split
  · show obj_view (with_wpt s _) = _
    exact obj_view_with_wpt s _ h
  · rfl

theorem obj_view_gpx_end_switch (ext : Externals) (s : State) (t : tag_type)
    (hg : s.gpx_global.isSome = true)
    (hw : t ∈ wpt_end_tags → s.wpt_tmp.isSome = true)
    (hl : t ∈ link_end_tags → s.link_.isSome = true)
    (hr : t ∈ rte_end_tags → s.rte_head.isSome = true)
    (ht : t ∈ trk_end_tags → s.trk_head.isSome = true)
    (hrl : t ∈ rh_link_end_tags → s.rh_link_.isSome = true) :
    obj_view (gpx_end_switch ext s t) = end_objects t (obj_view s) := by
  unfold gpx_end_switch end_objects
  cases t <;> dsimp only <;>
    first
    | rfl
    | exact obj_view_with_global s _ hg
    | exact obj_view_with_wpt s _ (hw (by decide))
    | exact obj_view_with_rte s _ (hr (by decide))
    | exact obj_view_with_trk s _ (ht (by decide))
    | exact obj_view_with_link s _ (hl (by decide))
    | exact obj_view_with_rh_link s _ (hrl (by decide))
    | exact (obj_view_clear_link _).trans (obj_view_with_global s _ hg)
    | exact obj_view_end_point s (hw (by decide))
    | exact obj_view_end_rtept s (hw (by decide)) (hr (by decide))
    | exact obj_view_end_trkpt s (hw (by decide)) (ht (by decide))
    | exact obj_view_close_rh_link_rte s (hr (by decide))
    | exact obj_view_close_rh_link_trk s (ht (by decide))
    | exact obj_view_log_type s (hw (by decide))

theorem obj_view_tag_gpx (s : State) (attr : List Attr) (ns : List NsDecl) :
    obj_view (tag_gpx s attr ns) = obj_view s := by
  obtain ⟨v, a, h⟩ := tag_gpx_form s attr ns
  rw [h]
  rfl

theorem obj_view_start_link (s : State) (attr : List Attr) :
    obj_view (start_link s attr) = obj_view s := by
  unfold start_link; split <;> rfl

theorem obj_view_tag_log_wpt (s : State) (attr : List Attr) (h : s.wpt_tmp.isSome = true) :
    obj_view (tag_log_wpt s attr) = obj_view s := by
  obtain ⟨i, hi⟩ := Option.isSome_iff_exists.mp h
  unfold tag_log_wpt
  rw [hi]
  simp only []
  split <;> simp [obj_view, hi]

theorem obj_view_start_trkpt (s : State) (attr : List Attr) :
    obj_view (if (tag_wpt s attr).next_trkpt_is_new_seg = true then
        { with_wpt (tag_wpt s attr) (fun w => { w with new_trkseg := true }) with
          next_trkpt_is_new_seg := false }
      else tag_wpt s attr) = { obj_view s with wpt := true, link := true, fs := true } := by
  split
  · exact (obj_view_with_wpt (tag_wpt s attr) (fun w => { w with new_trkseg := true }) rfl)
  · rfl

theorem obj_view_gpx_start_switch (s : State) (t : tag_type) (attr : List Attr)
    (ns : List NsDecl) (hw : t ∈ wpt_start_tags → s.wpt_tmp.isSome = true) :
    obj_view (gpx_start_switch s t attr ns) = start_objects t (obj_view s) := by
  unfold gpx_start_switch start_objects
  cases t <;> dsimp only <;>
    first
    | rfl
    | exact obj_view_tag_gpx s attr ns
    | exact obj_view_start_link s attr
    | exact obj_view_start_trkpt s attr
    | exact obj_view_with_wpt s _ (hw (by decide))
    | (split
       · exact obj_view_tag_log_wpt s attr (hw (by decide))
       · rfl)
    | (split
       · exact obj_view_with_wpt s _ (hw (by decide))
       · rfl)

/-! ### Paths and stacks of open elements -/

theorem path_of_concat (st : List String) (n : String) :
    path_of (st ++ [n]) = path_of st ++ "/" ++ n := by
  apply String.ext
  simp [path_of, String.data_append]

theorem path_pieces_word :
    ∀ (w rest cur : List Char), (∀ c ∈ w, c ≠ '/') →
      path_pieces (w ++ rest) cur = path_pieces rest (w.reverse ++ cur) := by
  intro w
  induction w with
  | nil => intro rest cur _; rfl
  | cons c w ih =>
    intro rest cur h
    have hc : c ≠ '/' := h c (List.mem_cons_self _ _)
    have hw : ∀ d ∈ w, d ≠ '/' := fun d hd => h d (List.mem_cons_of_mem _ hd)
    show path_pieces (c :: (w ++ rest)) cur = _
    rw [path_pieces, if_neg hc, ih rest (c :: cur) hw]
    simp

theorem path_pieces_path :
    ∀ (st : List String) (cur : List Char), (∀ n ∈ st, '/' ∉ n.data) →
      path_pieces (st.map (fun n => '/' :: n.data)).flatten cur = ⟨cur.reverse⟩ :: st := by
  intro st
  induction st with
  | nil => intro cur _; rfl
  | cons n rest ih =>
    intro cur h
    have hn : ∀ c ∈ n.data, c ≠ '/' := by
      intro c hc e
      exact h n (List.mem_cons_self _ _) (e ▸ hc)
    have hr : ∀ m ∈ rest, '/' ∉ m.data := fun m hm => h m (List.mem_cons_of_mem _ hm)
    show path_pieces ('/' :: (n.data ++ (rest.map (fun n => '/' :: n.data)).flatten)) cur = _
    rw [path_pieces, if_pos rfl, path_pieces_word n.data _ [] hn, ih _ hr]
    simp

theorem path_names_path_of (st : List String) (h : ∀ n ∈ st, '/' ∉ n.data) :
    path_names (path_of st) = st := by
  unfold path_names path_of
  rw [path_pieces_path st [] h]
  rfl

theorem isPrefixOf_concat (q st : List String) (n : String)
    (h : q.isPrefixOf (st ++ [n]) = true) : q.isPrefixOf st = true ∨ st ++ [n] = q := by
  rw [List.isPrefixOf_iff_prefix] at h ⊢
  rcases List.prefix_concat_iff.mp h with h1 | h1
  · exact Or.inr h1.symm
  · exact Or.inl h1

theorem isPrefixOf_mono (q st : List String) (n : String) (h : q.isPrefixOf st = true) :
    q.isPrefixOf (st ++ [n]) = true := by
  rw [List.isPrefixOf_iff_prefix] at h ⊢
  exact h.trans (List.prefix_append _ _)

theorem open_point_mono (st : List String) (n : String) (h : open_point st = true) :
    open_point (st ++ [n]) = true := by
  unfold open_point at h ⊢
  simp only [Bool.or_eq_true] at h ⊢
  rcases h with (h | h) | h
  · exact Or.inl (Or.inl (isPrefixOf_mono _ _ _ h))
  · exact Or.inl (Or.inr (isPrefixOf_mono _ _ _ h))
  · exact Or.inr (isPrefixOf_mono _ _ _ h)

theorem open_point_concat (st : List String) (n : String) (h : open_point (st ++ [n]) = true) :
    open_point st = true ∨ (get_tag hash (path_of (st ++ [n]))).1 ∈ point_start_tags := by
  unfold open_point at h ⊢
  simp only [Bool.or_eq_true] at h ⊢
  rcases h with (h | h) | h
  · rcases isPrefixOf_concat _ _ _ h with h1 | h1
    · exact Or.inl (Or.inl (Or.inl h1))
    · right; rw [h1]; decide
  · rcases isPrefixOf_concat _ _ _ h with h1 | h1
    · exact Or.inl (Or.inl (Or.inr h1))
    · right; rw [h1]; decide
  · rcases isPrefixOf_concat _ _ _ h with h1 | h1
    · exact Or.inl (Or.inr h1)
    · right; rw [h1]; decide

theorem open_rte_concat (st : List String) (n : String) (h : open_rte (st ++ [n]) = true) :
    open_rte st = true ∨ (get_tag hash (path_of (st ++ [n]))).1 = tt_rte := by
  rcases isPrefixOf_concat _ _ _ h with h1 | h1
  · exact Or.inl h1
  · right; rw [h1]; decide

theorem open_trk_concat (st : List String) (n : String) (h : open_trk (st ++ [n]) = true) :
    open_trk st = true ∨ (get_tag hash (path_of (st ++ [n]))).1 = tt_trk := by
  rcases isPrefixOf_concat _ _ _ h with h1 | h1
  · exact Or.inl h1
  · right; rw [h1]; decide

/-! ### What the table says about the objects -/

theorem tag_path_map_entry_objects : tag_path_map.all entry_objects = true := by
  decide!

theorem entry_objects_facts (tm : tag_mapping) (h : entry_objects tm = true) :
    (tm.tag_type_ ∈ wpt_end_tags → open_point (path_names tm.tag_name) = true) ∧
    (tm.tag_type_ ∈ wpt_start_tags → open_point (path_names tm.tag_name).dropLast = true) ∧
    (tm.tag_type_ ∈ link_end_tags → open_point (path_names tm.tag_name) = true) ∧
    (tm.tag_type_ ∈ rte_end_tags → open_rte (path_names tm.tag_name) = true) ∧
    (tm.tag_type_ ∈ trk_end_tags → open_trk (path_names tm.tag_name) = true) ∧
    (tm.tag_type_ ∈ rh_link_end_tags →
      open_rte (path_names tm.tag_name) = true ∨ open_trk (path_names tm.tag_name) = true) ∧
    (tm.tag_type_ ∈ point_start_tags → open_point (path_names tm.tag_name).dropLast = false) ∧
    (tm.tag_type_ = tt_rte ∨ tm.tag_type_ = tt_trk →
      open_rte (path_names tm.tag_name).dropLast = false ∧
      open_trk (path_names tm.tag_name).dropLast = false) ∧
    (tm.tag_passthrough = true →
      open_point (path_names tm.tag_name).dropLast = true ∨
      open_rte (path_names tm.tag_name).dropLast = true ∨
      open_trk (path_names tm.tag_name).dropLast = true) ∧
    (tm.tag_passthrough = true → tm.tag_type_ ≠ tt_wpt) := by
  simp only [entry_objects, Bool.and_eq_true, Bool.or_eq_true, Bool.not_eq_true',
    Bool.not_eq_true, List.contains, ← Bool.not_eq_true, List.elem_iff, beq_iff_eq] at h
  obtain ⟨⟨⟨⟨⟨⟨⟨⟨⟨h1, h2⟩, h3⟩, h4⟩, h5⟩, h6⟩, h7⟩, h8⟩, h9⟩, h10⟩ := h
  simp only [Bool.not_eq_true] at h7 h8
  refine ⟨?_, ?_, ?_, ?_, ?_, ?_, ?_, ?_, ?_, ?_⟩
  · intro m; exact h1.resolve_left (fun n => n m)
  · intro m; exact h2.resolve_left (fun n => n m)
  · intro m; exact h3.resolve_left (fun n => n m)
  · intro m; exact h4.resolve_left (fun n => n m)
  · intro m; exact h5.resolve_left (fun n => n m)
  · intro m
    rcases h6 with (h6 | h6) | h6
    · exact absurd m h6
    · exact Or.inl h6
    · exact Or.inr h6
  · intro m; exact h7.resolve_left (fun n => n m)
  · intro m; exact h8.resolve_left (fun n => n m)
  · intro m
    rcases h9 with ((h9 | h9) | h9) | h9
    · exact absurd m h9
    · exact Or.inl h9
    · exact Or.inr (Or.inl h9)
    · exact Or.inr (Or.inr h9)
  · intro m; exact h10.resolve_left (fun n => n m)

theorem tag_objects (p : List String) (hp : ∀ n ∈ p, '/' ∉ n.data) :
    ((get_tag hash (path_of p)).1 ∈ wpt_end_tags → open_point p = true) ∧
    ((get_tag hash (path_of p)).1 ∈ wpt_start_tags → open_point p.dropLast = true) ∧
    ((get_tag hash (path_of p)).1 ∈ link_end_tags → open_point p = true) ∧
    ((get_tag hash (path_of p)).1 ∈ rte_end_tags → open_rte p = true) ∧
    ((get_tag hash (path_of p)).1 ∈ trk_end_tags → open_trk p = true) ∧
    ((get_tag hash (path_of p)).1 ∈ rh_link_end_tags → open_rte p = true ∨ open_trk p = true) ∧
    ((get_tag hash (path_of p)).1 ∈ point_start_tags → open_point p.dropLast = false) ∧
    ((get_tag hash (path_of p)).1 = tt_rte ∨ (get_tag hash (path_of p)).1 = tt_trk →
      open_rte p.dropLast = false ∧ open_trk p.dropLast = false) ∧
    ((get_tag hash (path_of p)).1 ≠ tt_unknown → (get_tag hash (path_of p)).2 = true →
      (open_point p.dropLast = true ∨ open_rte p.dropLast = true ∨ open_trk p.dropLast = true) ∧
      (get_tag hash (path_of p)).1 ≠ tt_wpt) := by
  rcases get_tag_cases (path_of p) with h | ⟨tm, hm, hn, h⟩
  · rw [h]
    refine ⟨?_, ?_, ?_, ?_, ?_, ?_, ?_, ?_, ?_⟩
    · intro h1; exact absurd h1 (by decide)
    · intro h1; exact absurd h1 (by decide)
    · intro h1; exact absurd h1 (by decide)
    · intro h1; exact absurd h1 (by decide)
    · intro h1; exact absurd h1 (by decide)
    · intro h1; exact absurd h1 (by decide)
    · intro h1; exact absurd h1 (by decide)
    · intro h1; exact absurd h1 (by decide)
    · intro h1; exact absurd rfl h1
  · have he : entry_objects tm = true := List.all_eq_true.mp tag_path_map_entry_objects tm hm
    have hf := entry_objects_facts tm he
    rw [hn, path_names_path_of p hp] at hf
    rw [h]
    obtain ⟨h1, h2, h3, h4, h5, h6, h7, h8, h9, h10⟩ := hf
    exact ⟨h1, h2, h3, h4, h5, h6, h7, h8, fun _ m => ⟨h9 m, h10 m⟩⟩

/-! ### The effect of a start tag and of an end tag on the objects -/

theorem start_objects_keeps (t : tag_type) (v : ObjView) :
    (start_objects t v).path = v.path ∧ (start_objects t v).fault = v.fault ∧
    (start_objects t v).global = v.global ∧
    (v.wpt = true → (start_objects t v).wpt = true) ∧
    (v.link = true → (start_objects t v).link = true) ∧
    (v.rte = true → (start_objects t v).rte = true) ∧
    (v.trk = true → (start_objects t v).trk = true) ∧
    (v.rh_link = true → (start_objects t v).rh_link = true) ∧
    (v.fs = true → (start_objects t v).fs = true) := by
  unfold start_objects
  cases t <;> dsimp only <;>
    first
    | exact ⟨rfl, rfl, rfl, id, id, id, id, id, id⟩
    | exact ⟨rfl, rfl, rfl, fun _ => rfl, fun _ => rfl, id, id, id, fun _ => rfl⟩
    | exact ⟨rfl, rfl, rfl, id, id, fun _ => rfl, id, fun _ => rfl, fun _ => rfl⟩
    | exact ⟨rfl, rfl, rfl, id, id, id, fun _ => rfl, fun _ => rfl, fun _ => rfl⟩

theorem start_objects_point (t : tag_type) (v : ObjView) (h : t ∈ point_start_tags) :
    (start_objects t v).wpt = true ∧ (start_objects t v).link = true ∧
    (start_objects t v).fs = true := by
  simp only [point_start_tags, List.mem_cons, List.mem_singleton, List.not_mem_nil,
    or_false] at h
  rcases h with rfl | rfl | rfl <;> exact ⟨rfl, rfl, rfl⟩

theorem end_objects_keeps (t : tag_type) (v : ObjView) :
    (end_objects t v).path = v.path ∧ (end_objects t v).fault = v.fault ∧
    (end_objects t v).global = v.global ∧ (end_objects t v).rte = v.rte ∧
    (end_objects t v).trk = v.trk ∧ (end_objects t v).fs = v.fs ∧
    (t ∉ point_start_tags →
      (end_objects t v).wpt = v.wpt ∧ (end_objects t v).link = v.link) ∧
    (¬ (t = tt_rte ∨ t = tt_trk) → (end_objects t v).rh_link = v.rh_link) := by
  unfold end_objects
  cases t <;> dsimp only <;>
    first
    | exact ⟨rfl, rfl, rfl, rfl, rfl, rfl, fun _ => ⟨rfl, rfl⟩, fun _ => rfl⟩
    | exact ⟨rfl, rfl, rfl, rfl, rfl, rfl, fun h => absurd (by decide) h, fun _ => rfl⟩
    | exact ⟨rfl, rfl, rfl, rfl, rfl, rfl, fun _ => ⟨rfl, rfl⟩,
        fun h => absurd (Or.inl rfl) h⟩
    | exact ⟨rfl, rfl, rfl, rfl, rfl, rfl, fun _ => ⟨rfl, rfl⟩,
        fun h => absurd (Or.inr rfl) h⟩

theorem obj_view_tags (s : State) (tags : List xml_tag) (c : Option Nat) :
    obj_view { s with tags := tags, cur_tag := c } = obj_view s := rfl

theorem obj_view_set_fs (s : State) (p : FsPtr) (fs : List format_specific_data) :
    obj_view (set_fs s p fs) = obj_view s := by
  cases p <;> rfl

theorem obj_view_start_something_else (s : State) (el : String) (attr : List Attr)
    (ns : List NsDecl) : obj_view (start_something_else s el attr ns) = obj_view s :=
  start_something_else_frame obj_view obj_view_tags obj_view_set_fs s el attr ns

theorem obj_view_end_something_else (s : State) :
    obj_view (end_something_else s) = obj_view s :=
  end_something_else_frame obj_view obj_view_tags s

theorem obj_view_gpx_cdata (s : State) (t : String) : obj_view (gpx_cdata s t) = obj_view s :=
  gpx_cdata_frame obj_view obj_view_tags (fun _ _ => rfl) s t

theorem obj_view_gpx_start (s : State) (el : String) (attr : List Attr) (ns : List NsDecl)
    (hw : (get_tag hash s.current_tag).1 ∈ wpt_start_tags → s.wpt_tmp.isSome = true) :
    obj_view (gpx_start s el attr ns) =
      start_objects (get_tag hash s.current_tag).1 (obj_view s) := by
  have hsw : obj_view (gpx_start_switch { s with cdatastr := "" }
      (get_tag hash s.current_tag).1 attr ns) =
      start_objects (get_tag hash s.current_tag).1 (obj_view s) :=
    obj_view_gpx_start_switch { s with cdatastr := "" } _ attr ns hw
  rw [gpx_start_eq]
  split
  · rename_i hu
    rw [obj_view_start_something_else, hu]
    rfl
  · split
    · rw [obj_view_start_something_else, hsw]
    · exact hsw

theorem obj_view_gpx_end (ext : Externals) (s : State)
    (hg : s.gpx_global.isSome = true)
    (hw : (get_tag hash s.current_tag).1 ∈ wpt_end_tags → s.wpt_tmp.isSome = true)
    (hl : (get_tag hash s.current_tag).1 ∈ link_end_tags → s.link_.isSome = true)
    (hr : (get_tag hash s.current_tag).1 ∈ rte_end_tags → s.rte_head.isSome = true)
    (ht : (get_tag hash s.current_tag).1 ∈ trk_end_tags → s.trk_head.isSome = true)
    (hrl : (get_tag hash s.current_tag).1 ∈ rh_link_end_tags → s.rh_link_.isSome = true) :
    obj_view (gpx_end ext s) = end_objects (get_tag hash s.current_tag).1 (obj_view s) := by
  have hsw : obj_view (gpx_end_switch ext { s with cdatastr := trimmed s.cdatastr }
      (get_tag hash s.current_tag).1) =
      end_objects (get_tag hash s.current_tag).1 (obj_view s) :=
    obj_view_gpx_end_switch ext { s with cdatastr := trimmed s.cdatastr } _ hg hw hl hr ht hrl
  rw [gpx_end_eq]
  split
  · rename_i hu
    rw [obj_view_end_something_else, hu]
    rfl
  · split
    · rw [obj_view_end_something_else, hsw]
    · exact hsw

theorem objects_open_start (ext : Externals) (s : State) (st : List String) (n : String)
    (attr : List Attr) (ns : List NsDecl) (h : ObjectsOpen s st)
    (hst : ∀ m ∈ st, '/' ∉ m.data) (hn : '/' ∉ n.data) :
    ObjectsOpen (gpx_read_token ext s (Token.StartElement n attr ns)) (st ++ [n]) := by
  obtain ⟨hc, hf, hg, hp, hr, ht, hfs⟩ := h
  have hp' : ∀ m ∈ st ++ [n], '/' ∉ m.data := by
    intro m hm
    rcases List.mem_append.mp hm with h1 | h1
    · exact hst m h1
    · rw [List.mem_singleton.mp h1]; exact hn
  obtain ⟨_, t2, _, _, _, _, _, _, _⟩ := tag_objects (st ++ [n]) hp'
  rw [List.dropLast_concat] at t2
  have hc1 : s.current_tag ++ "/" ++ n = path_of (st ++ [n]) := by rw [path_of_concat, ← hc]
  have hv := obj_view_gpx_start { s with current_tag := s.current_tag ++ "/" ++ n } n attr ns
    (by
      show (get_tag hash (s.current_tag ++ "/" ++ n)).1 ∈ wpt_start_tags → _
      rw [hc1]
      intro m
      exact (hp (t2 m)).1)
  have hc2 : ({ s with current_tag := s.current_tag ++ "/" ++ n } : State).current_tag =
      path_of (st ++ [n]) := hc1
  rw [hc2] at hv
  obtain ⟨k1, k2, k3, k4, k5, k6, k7, k8, k9⟩ :=
    start_objects_keeps (get_tag hash (path_of (st ++ [n]))).1
      (obj_view { s with current_tag := s.current_tag ++ "/" ++ n })
  show ObjectsOpen (gpx_start { s with current_tag := s.current_tag ++ "/" ++ n } n attr ns)
    (st ++ [n])
  refine ⟨(congrArg ObjView.path hv).trans (k1.trans hc1),
    (congrArg ObjView.fault hv).trans (k2.trans hf),
    (congrArg ObjView.global hv).trans (k3.trans hg), ?_, ?_, ?_, ?_⟩
  · intro o
    rcases open_point_concat st n o with o | o
    · exact ⟨(congrArg ObjView.wpt hv).trans (k4 (hp o).1),
        (congrArg ObjView.link hv).trans (k5 (hp o).2)⟩
    · obtain ⟨p1, p2, _⟩ := start_objects_point _
        (obj_view { s with current_tag := s.current_tag ++ "/" ++ n }) o
      exact ⟨(congrArg ObjView.wpt hv).trans p1, (congrArg ObjView.link hv).trans p2⟩
  · intro o
    rcases open_rte_concat st n o with o | o
    · exact ⟨(congrArg ObjView.rte hv).trans (k6 (hr o).1),
        (congrArg ObjView.rh_link hv).trans (k8 (hr o).2)⟩
    · rw [o] at hv
      exact ⟨congrArg ObjView.rte hv, congrArg ObjView.rh_link hv⟩
  · intro o
    rcases open_trk_concat st n o with o | o
    · exact ⟨(congrArg ObjView.trk hv).trans (k7 (ht o).1),
        (congrArg ObjView.rh_link hv).trans (k8 (ht o).2)⟩
    · rw [o] at hv
      exact ⟨congrArg ObjView.trk hv, congrArg ObjView.rh_link hv⟩
  · intro o
    rcases o with o | o | o
    · rcases open_point_concat st n o with o | o
      · exact (congrArg ObjView.fs hv).trans (k9 (hfs (Or.inl o)))
      · exact (congrArg ObjView.fs hv).trans (start_objects_point _ _ o).2.2
    · rcases open_rte_concat st n o with o | o
      · exact (congrArg ObjView.fs hv).trans (k9 (hfs (Or.inr (Or.inl o))))
      · rw [o] at hv
        exact congrArg ObjView.fs hv
    · rcases open_trk_concat st n o with o | o
      · exact (congrArg ObjView.fs hv).trans (k9 (hfs (Or.inr (Or.inr o))))
      · rw [o] at hv
        exact congrArg ObjView.fs hv

theorem objects_used_at_end (s : State) (st : List String) (h : ObjectsOpen s st)
    (hst : ∀ m ∈ st, '/' ∉ m.data) :
    ((get_tag hash s.current_tag).1 ∈ wpt_end_tags → s.wpt_tmp.isSome = true) ∧
    ((get_tag hash s.current_tag).1 ∈ link_end_tags → s.link_.isSome = true) ∧
    ((get_tag hash s.current_tag).1 ∈ rte_end_tags → s.rte_head.isSome = true) ∧
    ((get_tag hash s.current_tag).1 ∈ trk_end_tags → s.trk_head.isSome = true) ∧
    ((get_tag hash s.current_tag).1 ∈ rh_link_end_tags → s.rh_link_.isSome = true) := by
  obtain ⟨hc, hf, hg, hp, hr, ht, hfs⟩ := h
  obtain ⟨t1, _, t3, t4, t5, t6, _, _, _⟩ := tag_objects st hst
  rw [hc]
  exact ⟨fun m => (hp (t1 m)).1, fun m => (hp (t3 m)).2, fun m => (hr (t4 m)).1,
    fun m => (ht (t5 m)).1, fun m => (t6 m).elim (fun o => (hr o).2) (fun o => (ht o).2)⟩

theorem objects_open_end (ext : Externals) (s : State) (st : List String) (n : String)
    (h : ObjectsOpen s st) (hst : ∀ m ∈ st, '/' ∉ m.data) (hl : st.getLast? = some n) :
    ObjectsOpen (gpx_read_token ext s (Token.EndElement n)) st.dropLast := by
  obtain ⟨u1, u2, u3, u4, u5⟩ := objects_used_at_end s st h hst
  obtain ⟨hc, hf, hg, hp, hr, ht, hfs⟩ := h
  have hst_eq : st.dropLast ++ [n] = st := List.dropLast_append_getLast? n hl
  obtain ⟨_, _, _, _, _, _, t7, t8, _⟩ := tag_objects st hst
  have hv := obj_view_gpx_end ext s hg u1 u2 u3 u4 u5
  rw [hc] at hv
  obtain ⟨k1, k2, k3, k4, k5, k6, k7, k8⟩ :=
    end_objects_keeps (get_tag hash (path_of st)).1 (obj_view s)
  have hpath : chop (gpx_end ext s).current_tag (n.length + 1) = path_of st.dropLast := by
    have e : (gpx_end ext s).current_tag = path_of st.dropLast ++ "/" ++ n := by
      rw [← path_of_concat, hst_eq]
      exact (congrArg ObjView.path hv).trans (k1.trans hc)
    rw [e, chop_append]
  have mp : open_point st.dropLast = true → open_point st = true := by
    intro o
    have := open_point_mono st.dropLast n o
    rwa [hst_eq] at this
  have mr : open_rte st.dropLast = true → open_rte st = true := by
    intro o
    have := isPrefixOf_mono _ st.dropLast n o
    rwa [hst_eq] at this
  have mt : open_trk st.dropLast = true → open_trk st = true := by
    intro o
    have := isPrefixOf_mono _ st.dropLast n o
    rwa [hst_eq] at this
  show ObjectsOpen { gpx_end ext s with
    current_tag := chop (gpx_end ext s).current_tag (n.length + 1), cdatastr := "" } st.dropLast
  refine ⟨hpath, (congrArg ObjView.fault hv).trans (k2.trans hf),
    (congrArg ObjView.global hv).trans (k3.trans hg), ?_, ?_, ?_, ?_⟩
  · intro o
    have hnp : (get_tag hash (path_of st)).1 ∉ point_start_tags := by
      intro m
      rw [t7 m] at o
      cases o
    obtain ⟨e1, e2⟩ := k7 hnp
    exact ⟨(congrArg ObjView.wpt hv).trans (e1.trans (hp (mp o)).1),
      (congrArg ObjView.link hv).trans (e2.trans (hp (mp o)).2)⟩
  · intro o
    have hnh : ¬ ((get_tag hash (path_of st)).1 = tt_rte ∨
        (get_tag hash (path_of st)).1 = tt_trk) := by
      intro m
      rw [(t8 m).1] at o
      cases o
    exact ⟨(congrArg ObjView.rte hv).trans (k4.trans (hr (mr o)).1),
      (congrArg ObjView.rh_link hv).trans ((k8 hnh).trans (hr (mr o)).2)⟩
  · intro o
    have hnh : ¬ ((get_tag hash (path_of st)).1 = tt_rte ∨
        (get_tag hash (path_of st)).1 = tt_trk) := by
      intro m
      rw [(t8 m).2] at o
      cases o
    exact ⟨(congrArg ObjView.trk hv).trans (k5.trans (ht (mt o)).1),
      (congrArg ObjView.rh_link hv).trans ((k8 hnh).trans (ht (mt o)).2)⟩
  · intro o
    refine (congrArg ObjView.fs hv).trans (k6.trans (hfs ?_))
    rcases o with o | o | o
    · exact Or.inl (mp o)
    · exact Or.inr (Or.inl (mr o))
    · exact Or.inr (Or.inr (mt o))

theorem objects_open_characters (s : State) (st : List String) (text : String)
    (h : ObjectsOpen s st) : ObjectsOpen (gpx_cdata s text) st := by
  have hv := obj_view_gpx_cdata s text
  obtain ⟨hc, hf, hg, hp, hr, ht, hfs⟩ := h
  refine ⟨(congrArg ObjView.path hv).trans hc, (congrArg ObjView.fault hv).trans hf,
    (congrArg ObjView.global hv).trans hg, ?_, ?_, ?_, ?_⟩
  · intro o
    exact ⟨(congrArg ObjView.wpt hv).trans (hp o).1, (congrArg ObjView.link hv).trans (hp o).2⟩
  · intro o
    exact ⟨(congrArg ObjView.rte hv).trans (hr o).1,
      (congrArg ObjView.rh_link hv).trans (hr o).2⟩
  · intro o
    exact ⟨(congrArg ObjView.trk hv).trans (ht o).1,
      (congrArg ObjView.rh_link hv).trans (ht o).2⟩
  · intro o
    exact (congrArg ObjView.fs hv).trans (hfs o)

theorem objects_open_read (ext : Externals) :
    ∀ (ts : List Token) (s : State) (st st' : List String),
      ObjectsOpen s st → (∀ m ∈ st, '/' ∉ m.data) → nested st ts = some st' →
      ObjectsOpen (gpx_read ext s ts) st' := by
  intro ts
  induction ts with
  | nil =>
    intro s st st' h _ hn
    cases hn
    exact h
  | cons tok ts ih =>
    intro s st st' h hst hn
    cases tok with
    | StartElement n attr ns =>
      simp only [nested] at hn
      split at hn
      · cases hn
      · rename_i hs
        refine ih _ _ _ (objects_open_start ext s st n attr ns h hst hs) ?_ hn
        intro m hm
        rcases List.mem_append.mp hm with h1 | h1
        · exact hst m h1
        · rw [List.mem_singleton.mp h1]; exact hs
    | EndElement n =>
      simp only [nested] at hn
      split at hn
      · rename_i hl
        exact ih _ _ _ (objects_open_end ext s st n h hst hl)
          (fun m hm => hst m (List.mem_of_mem_dropLast hm)) hn
      · cases hn
    | Characters text =>
      exact ih _ _ _ (objects_open_characters s st text h) hst hn
    | Other => exact ih _ _ _ h hst hn
    | EndDocument =>
      cases hn
      exact h
    | Invalid =>
      cases hn
      exact h

theorem nested_left :
    ∀ (ts1 ts2 : List Token) (st st2 : List String),
      nested st (ts1 ++ ts2) = some st2 → ∃ st1, nested st ts1 = some st1 := by
  intro ts1
  induction ts1 with
  | nil => intro ts2 st st2 _; exact ⟨st, rfl⟩
  | cons tok ts ih =>
    intro ts2 st st2 hn
    cases tok with
    | StartElement n attr ns =>
      simp only [List.cons_append, nested] at hn ⊢
      split at hn
      · cases hn
      · rename_i hs
        rw [if_neg hs]
        exact ih ts2 _ st2 hn
    | EndElement n =>
      simp only [List.cons_append, nested] at hn ⊢
      split at hn
      · rename_i hl
        rw [if_pos hl]
        exact ih ts2 _ st2 hn
      · cases hn
    | Characters text => exact ih ts2 st st2 hn
    | Other => exact ih ts2 st st2 hn
    | EndDocument => exact ⟨st, rfl⟩
    | Invalid => exact ⟨st, rfl⟩

theorem objects_open_init (s0 : State) (h0 : s0.fault = false) :
    ObjectsOpen (gpx_rd_init s0) [] := by
  refine ⟨rfl, h0, rfl, ?_, ?_, ?_, ?_⟩
  · intro o; cases o
  · intro o; cases o
  · intro o; cases o
  · intro o; rcases o with o | o | o <;> cases o

theorem nested_names :
    ∀ (ts : List Token) (st st' : List String),
      (∀ m ∈ st, '/' ∉ m.data) → nested st ts = some st' → ∀ m ∈ st', '/' ∉ m.data := by
  intro ts
  induction ts with
  | nil =>
    intro st st' hst hn
    cases hn
    exact hst
  | cons tok ts ih =>
    intro st st' hst hn
    cases tok with
    | StartElement n attr ns =>
      simp only [nested] at hn
      split at hn
      · cases hn
      · rename_i hs
        refine ih _ _ ?_ hn
        intro m hm
        rcases List.mem_append.mp hm with h1 | h1
        · exact hst m h1
        · rw [List.mem_singleton.mp h1]; exact hs
    | EndElement n =>
      simp only [nested] at hn
      split at hn
      · exact ih _ _ (fun m hm => hst m (List.mem_of_mem_dropLast hm)) hn
      · cases hn
    | Characters text => exact ih _ _ hst hn
    | Other => exact ih _ _ hst hn
    | EndDocument =>
      cases hn
      exact hst
    | Invalid =>
      cases hn
      exact hst

theorem objects_used_at_start (s : State) (st : List String) (n : String)
    (h : ObjectsOpen s st) (hst : ∀ m ∈ st, '/' ∉ m.data) (hn : '/' ∉ n.data) :
    (get_tag hash (s.current_tag ++ "/" ++ n)).1 ∈ wpt_start_tags →
      s.wpt_tmp.isSome = true := by
  obtain ⟨hc, hf, hg, hp, hr, ht, hfs⟩ := h
  have hp' : ∀ m ∈ st ++ [n], '/' ∉ m.data := by
    intro m hm
    rcases List.mem_append.mp hm with h1 | h1
    · exact hst m h1
    · rw [List.mem_singleton.mp h1]; exact hn
  obtain ⟨_, t2, _, _, _, _, _, _, _⟩ := tag_objects (st ++ [n]) hp'
  rw [List.dropLast_concat] at t2
  rw [hc, ← path_of_concat]
  intro m
  exact (hp (t2 m)).1

/-- C30: for every well-nested sequence of start tags, texts and end tags (every start tag
pushes its name, which as an XML name holds no slash, and every end tag closes the
innermost open element) that gpx_read reads from the state gpx_rd_init leaves: after
every part of the sequence no action of gpx_start or gpx_end has dereferenced a null
pointer (fault is false), and the point in progress with its url accumulator, the route
head, the track head and their url accumulator exist as long as the element that creates
them is open; whenever an end tag arrives, the objects the case of its tag id in gpx_end
dereferences exist, in particular the point in progress at the end of a point element
(wpt, rtept, trkpt), so the branch of a missing point is not taken; and whenever a start
tag arrives, the point exists if the case of its tag id in gpx_start dereferences it. -/
theorem objects_exist_when_used (ext : Externals) (s0 : State) (ts : List Token)
    (st : List String) (h0 : s0.fault = false) (hn : nested [] ts = some st) :
    (∀ ts1 ts2, ts = ts1 ++ ts2 →
      ∃ st1, nested [] ts1 = some st1 ∧
        ObjectsOpen (gpx_read ext (gpx_rd_init s0) ts1) st1) ∧
    (∀ ts1 n ts2, ts = ts1 ++ Token.EndElement n :: ts2 →
      ((get_tag hash (gpx_read ext (gpx_rd_init s0) ts1).current_tag).1 ∈ wpt_end_tags →
        (gpx_read ext (gpx_rd_init s0) ts1).wpt_tmp.isSome = true) ∧
      ((get_tag hash (gpx_read ext (gpx_rd_init s0) ts1).current_tag).1 ∈ link_end_tags →
        (gpx_read ext (gpx_rd_init s0) ts1).link_.isSome = true) ∧
      ((get_tag hash (gpx_read ext (gpx_rd_init s0) ts1).current_tag).1 ∈ rte_end_tags →
        (gpx_read ext (gpx_rd_init s0) ts1).rte_head.isSome = true) ∧
      ((get_tag hash (gpx_read ext (gpx_rd_init s0) ts1).current_tag).1 ∈ trk_end_tags →
        (gpx_read ext (gpx_rd_init s0) ts1).trk_head.isSome = true) ∧
      ((get_tag hash (gpx_read ext (gpx_rd_init s0) ts1).current_tag).1 ∈ rh_link_end_tags →
        (gpx_read ext (gpx_rd_init s0) ts1).rh_link_.isSome = true)) ∧
    (∀ ts1 n attr ns ts2, ts = ts1 ++ Token.StartElement n attr ns :: ts2 → '/' ∉ n.data →
      (get_tag hash ((gpx_read ext (gpx_rd_init s0) ts1).current_tag ++ "/" ++ n)).1 ∈
        wpt_start_tags →
      (gpx_read ext (gpx_rd_init s0) ts1).wpt_tmp.isSome = true) := by
  have key : ∀ ts1 ts2, ts = ts1 ++ ts2 →
      ∃ st1, nested [] ts1 = some st1 ∧ (∀ m ∈ st1, '/' ∉ m.data) ∧
        ObjectsOpen (gpx_read ext (gpx_rd_init s0) ts1) st1 := by
    intro ts1 ts2 e
    rw [e] at hn
    obtain ⟨st1, h1⟩ := nested_left ts1 ts2 [] st hn
    exact ⟨st1, h1, nested_names ts1 [] st1 (fun m hm => absurd hm (List.not_mem_nil m)) h1,
      objects_open_read ext ts1 _ [] st1 (objects_open_init s0 h0)
        (fun m hm => absurd hm (List.not_mem_nil m)) h1⟩
  refine ⟨?_, ?_, ?_⟩
  · intro ts1 ts2 e
    obtain ⟨st1, h1, _, h2⟩ := key ts1 ts2 e
    exact ⟨st1, h1, h2⟩
  · intro ts1 n ts2 e
    obtain ⟨st1, _, h1, h2⟩ := key ts1 _ e
    exact objects_used_at_end _ st1 h2 h1
  · intro ts1 n attr ns ts2 e hs
    obtain ⟨st1, _, h1, h2⟩ := key ts1 _ e
    exact objects_used_at_start _ st1 n h2 h1 hs

theorem objects_exist_when_used_witness :
    nested [] example_document_objects = some [] ∧
    (gpx_read Externals.fixed (gpx_rd_init {}) example_document_objects).fault = false ∧
    (gpx_read Externals.fixed (gpx_rd_init {}) example_document_objects).waypt_list = [0] :=
  ⟨by decide,
   by
    obtain ⟨st1, _, h⟩ :=
      (objects_exist_when_used Externals.fixed {} example_document_objects [] rfl
        (by decide)).1 example_document_objects [] (List.append_nil _).symm
    exact h.2.1,
   by decide⟩

/-! ## Known elements that are also preserved -/

theorem nodes_with_wpt (s : State) (f : Waypoint → Waypoint) :
    (with_wpt s f).tags = s.tags ∧ (with_wpt s f).cur_tag = s.cur_tag := by
  unfold with_wpt; split <;> exact ⟨rfl, rfl⟩

theorem nodes_with_rte (s : State) (f : route_head → route_head) :
    (with_rte s f).tags = s.tags ∧ (with_rte s f).cur_tag = s.cur_tag := by
  unfold with_rte; split <;> exact ⟨rfl, rfl⟩

theorem nodes_with_trk (s : State) (f : route_head → route_head) :
    (with_trk s f).tags = s.tags ∧ (with_trk s f).cur_tag = s.cur_tag := by
  unfold with_trk; split <;> exact ⟨rfl, rfl⟩

theorem nodes_with_global (s : State) (f : GpxGlobal → GpxGlobal) :
    (with_global s f).tags = s.tags ∧ (with_global s f).cur_tag = s.cur_tag := by
  unfold with_global; split <;> exact ⟨rfl, rfl⟩

theorem nodes_with_link (s : State) (f : UrlLink → UrlLink) :
    (with_link s f).tags = s.tags ∧ (with_link s f).cur_tag = s.cur_tag := by
  unfold with_link; split <;> exact ⟨rfl, rfl⟩

theorem nodes_with_rh_link (s : State) (f : UrlLink → UrlLink) :
    (with_rh_link s f).tags = s.tags ∧ (with_rh_link s f).cur_tag = s.cur_tag := by
  unfold with_rh_link; split <;> exact ⟨rfl, rfl⟩

theorem nodes_close_link (s : State) :
    (close_link s).tags = s.tags ∧ (close_link s).cur_tag = s.cur_tag := by
  unfold close_link
  split
  · split
    · exact nodes_with_wpt _ _
    · exact ⟨rfl, rfl⟩
  · exact ⟨rfl, rfl⟩

theorem nodes_close_rh_link_rte (s : State) :
    (close_rh_link s with_rte).tags = s.tags ∧ (close_rh_link s with_rte).cur_tag = s.cur_tag := by
  unfold close_rh_link
  split
  · split
    · exact nodes_with_rte _ _
    · exact ⟨rfl, rfl⟩
  · exact ⟨rfl, rfl⟩

theorem nodes_close_rh_link_trk (s : State) :
    (close_rh_link s with_trk).tags = s.tags ∧ (close_rh_link s with_trk).cur_tag = s.cur_tag := by
  unfold close_rh_link
  split
  · split
    · exact nodes_with_trk _ _
    · exact ⟨rfl, rfl⟩
  · exact ⟨rfl, rfl⟩

theorem nodes_unless {P Q : Prop} (R : Prop) (h : P ∧ Q) : P ∧ (R → Q) :=
  ⟨h.1, fun _ => h.2⟩

theorem nodes_gpx_end_switch (ext : Externals) (s : State) (t : tag_type) :
    (gpx_end_switch ext s t).tags = s.tags ∧
    (t ≠ tt_wpt → (gpx_end_switch ext s t).cur_tag = s.cur_tag) := by
  unfold gpx_end_switch
  cases t <;> dsimp only <;>
    first
    | exact ⟨rfl, fun _ => rfl⟩
    | exact nodes_unless _ (nodes_with_wpt _ _)
    | exact nodes_unless _ (nodes_with_global _ _)
    | exact nodes_unless _ (nodes_with_rte _ _)
    | exact nodes_unless _ (nodes_with_trk _ _)
    | exact nodes_unless _ (nodes_with_link _ _)
    | exact nodes_unless _ (nodes_with_rh_link _ _)
    | exact nodes_unless _ (nodes_close_rh_link_rte _)
    | exact nodes_unless _ (nodes_close_rh_link_trk _)
    | (split
       · exact ⟨(nodes_close_link _).1, fun h => (h rfl).elim⟩
       · exact ⟨(nodes_close_link _).1, fun h => (h rfl).elim⟩)
    | (split
       · first
         | exact nodes_unless _
             ⟨(nodes_with_rte _ _).1.trans (nodes_close_link _).1,
              (nodes_with_rte _ _).2.trans (nodes_close_link _).2⟩
         | exact nodes_unless _
             ⟨(nodes_with_trk _ _).1.trans (nodes_close_link _).1,
              (nodes_with_trk _ _).2.trans (nodes_close_link _).2⟩
       · exact nodes_unless _ (nodes_close_link _))
    | (split
       · exact ⟨rfl, fun _ => rfl⟩
       · split
         · exact nodes_unless _ (nodes_with_wpt _ _)
         · exact ⟨rfl, fun _ => rfl⟩)

theorem tags_tag_log_wpt (s : State) (attr : List Attr) :
    (tag_log_wpt s attr).tags = s.tags := by
  unfold tag_log_wpt
  split
  · rfl
  · simp only []
    split <;> rfl

theorem tags_gpx_start_switch (s : State) (t : tag_type) (attr : List Attr)
    (ns : List NsDecl) : (gpx_start_switch s t attr ns).tags = s.tags := by
  unfold gpx_start_switch
  cases t <;> dsimp only <;>
    first
    | rfl
    | (obtain ⟨v, a, h⟩ := tag_gpx_form s attr ns
       rw [h])
    | exact (nodes_with_wpt _ _).1
    | (unfold start_link; split <;> rfl)
    | (split
       · first
         | exact (nodes_with_wpt _ _).1
         | exact tags_tag_log_wpt _ _
       · rfl)

theorem start_something_else_node (s : State) (p : FsPtr) (el : String) (attr : List Attr)
    (ns : List NsDecl) (hfs : s.fs_ptr = some p) :
    (start_something_else s el attr ns).tags.length = s.tags.length + 1 ∧
    (start_something_else s el attr ns).cur_tag = some s.tags.length ∧
    (getTag (start_something_else s el attr ns).tags s.tags.length).tagname = el ∧
    (getTag (start_something_else s el attr ns).tags s.tags.length).attributes =
      tag_attributes attr ns := by
  have key : ∀ (A : List xml_tag) (par : Option Nat), A.length = s.tags.length →
      (A ++ [fresh_tag el (tag_attributes attr ns) par]).length = s.tags.length + 1 ∧
      (getTag (A ++ [fresh_tag el (tag_attributes attr ns) par]) s.tags.length).tagname = el ∧
      (getTag (A ++ [fresh_tag el (tag_attributes attr ns) par]) s.tags.length).attributes =
        tag_attributes attr ns := by
    intro A par hA
    refine ⟨by rw [List.length_append, hA]; rfl, ?_, ?_⟩
    · rw [← hA, getTag_append_mid]; rfl
    · rw [← hA, getTag_append_mid]; rfl
  unfold start_something_else
  rw [hfs]
  simp only []
  split
  · split
    · obtain ⟨k1, k2, k3⟩ := key (upd s.tags (last_sibling s.tags s.tags.length _) _)
        (getTag s.tags (last_sibling s.tags s.tags.length _)).parent (upd_length _ _ _)
      exact ⟨k1, rfl, k2, k3⟩
    · rename_i c _ _ _
      obtain ⟨k1, k2, k3⟩ := key (upd s.tags _ _) (some c) (upd_length _ _ _)
      exact ⟨k1, rfl, k2, k3⟩
  · split
    · obtain ⟨k1, k2, k3⟩ := key (upd s.tags (last_sibling s.tags s.tags.length _) _) none
        (upd_length _ _ _)
      exact ⟨k1, rfl, k2, k3⟩
    · obtain ⟨k1, k2, k3⟩ := key s.tags none rfl
      rw [(set_fs_tags _ _ _).1, (set_fs_tags _ _ _).2]
      exact ⟨k1, rfl, k2, k3⟩

theorem nodes_end_something_else (s : State) :
    (end_something_else s).tags = s.tags ∧
    (end_something_else s).cur_tag = s.cur_tag.bind (fun c => (getTag s.tags c).parent) := by
  unfold end_something_else
  split
  · rename_i c hc
    rw [hc]
    exact ⟨rfl, rfl⟩
  · rename_i hc
    rw [hc]
    exact ⟨rfl, rfl⟩

theorem fs_ptr_gpx_start_switch_isSome (s : State) (t : tag_type) (attr : List Attr)
    (ns : List NsDecl) (h : s.fs_ptr.isSome = true) :
    ∃ p, (gpx_start_switch s t attr ns).fs_ptr = some p := by
  rw [fs_ptr_gpx_start_switch]
  split
  · exact ⟨_, rfl⟩
  · split
    · exact ⟨_, rfl⟩
    · exact Option.isSome_iff_exists.mp h

theorem known_start (s : State) (el : String) (attr : List Attr) (ns : List NsDecl)
    (hk : (get_tag hash s.current_tag).1 ≠ tt_unknown) :
    ((get_tag hash s.current_tag).2 = true → s.fs_ptr.isSome = true →
      gpx_start s el attr ns =
        start_something_else
          (gpx_start_switch { s with cdatastr := "" } (get_tag hash s.current_tag).1 attr ns)
          el attr ns ∧
      (gpx_start s el attr ns).tags.length = s.tags.length + 1 ∧
      (gpx_start s el attr ns).cur_tag = some s.tags.length ∧
      (getTag (gpx_start s el attr ns).tags s.tags.length).tagname = el ∧
      (getTag (gpx_start s el attr ns).tags s.tags.length).attributes =
        tag_attributes attr ns) ∧
    ((get_tag hash s.current_tag).2 = false →
      gpx_start s el attr ns =
        gpx_start_switch { s with cdatastr := "" } (get_tag hash s.current_tag).1 attr ns ∧
      (gpx_start s el attr ns).tags = s.tags) := by
  have htags := tags_gpx_start_switch { s with cdatastr := "" } (get_tag hash s.current_tag).1
    attr ns
  constructor
  · intro hp hfs
    have e : gpx_start s el attr ns =
        start_something_else
          (gpx_start_switch { s with cdatastr := "" } (get_tag hash s.current_tag).1 attr ns)
          el attr ns := by
      rw [gpx_start_eq, if_neg hk, if_pos hp]
    obtain ⟨p, hp2⟩ := fs_ptr_gpx_start_switch_isSome { s with cdatastr := "" }
      (get_tag hash s.current_tag).1 attr ns hfs
    have hnode := start_something_else_node _ p el attr ns hp2
    rw [htags] at hnode
    rw [e]
    exact ⟨rfl, hnode⟩
  · intro hp
    have e : gpx_start s el attr ns =
        gpx_start_switch { s with cdatastr := "" } (get_tag hash s.current_tag).1 attr ns := by
      rw [gpx_start_eq, if_neg hk, if_neg (by rw [hp]; exact Bool.false_ne_true)]
    rw [e]
    exact ⟨rfl, htags⟩

theorem known_end (ext : Externals) (s : State)
    (hk : (get_tag hash s.current_tag).1 ≠ tt_unknown) :
    ((get_tag hash s.current_tag).2 = true → (get_tag hash s.current_tag).1 ≠ tt_wpt →
      gpx_end ext s =
        end_something_else
          (gpx_end_switch ext { s with cdatastr := trimmed s.cdatastr }
            (get_tag hash s.current_tag).1) ∧
      (gpx_end ext s).tags = s.tags ∧
      (gpx_end ext s).cur_tag = s.cur_tag.bind (fun c => (getTag s.tags c).parent)) ∧
    ((get_tag hash s.current_tag).2 = false →
      gpx_end ext s =
        gpx_end_switch ext { s with cdatastr := trimmed s.cdatastr }
          (get_tag hash s.current_tag).1 ∧
      (gpx_end ext s).tags = s.tags) := by
  obtain ⟨h1, h2⟩ := nodes_gpx_end_switch ext { s with cdatastr := trimmed s.cdatastr }
    (get_tag hash s.current_tag).1
  constructor
  · intro hp hw
    have e : gpx_end ext s =
        end_something_else
          (gpx_end_switch ext { s with cdatastr := trimmed s.cdatastr }
            (get_tag hash s.current_tag).1) := by
      rw [gpx_end_eq, if_neg hk, if_pos hp]
    obtain ⟨k1, k2⟩ := nodes_end_something_else
      (gpx_end_switch ext { s with cdatastr := trimmed s.cdatastr }
        (get_tag hash s.current_tag).1)
    rw [h1, h2 hw] at k2
    rw [e]
    exact ⟨rfl, k1.trans h1, k2⟩
  · intro hp
    have e : gpx_end ext s =
        gpx_end_switch ext { s with cdatastr := trimmed s.cdatastr }
          (get_tag hash s.current_tag).1 := by
      rw [gpx_end_eq, if_neg hk, if_neg (by rw [hp]; exact Bool.false_ne_true)]
    rw [e]
    exact ⟨rfl, h1⟩

/-- C24: let s be the state gpx_read has reached from gpx_rd_init after a well-nested
sequence of tokens, and let a start tag arrive whose name holds no slash and whose path
has a known tag id. If the passthrough flag of the path is set, gpx_start is the switch
case of the id followed by start_something_else, which appends one node with the name and
the attributes of the element to the arena and makes it the current node, and gpx_end at
this path is the switch case of the id followed by end_something_else, which leaves the
arena as it is and moves the current node to its parent. If the flag is clear, gpx_start
and gpx_end are the switch case alone and the arena is unchanged: no node is created. -/
theorem known_passthrough_element (ext : Externals) (s0 : State) (ts : List Token)
    (st : List String) (s : State) (el : String) (attr : List Attr) (ns : List NsDecl)
    (h0 : s0.fault = false) (hn : nested [] ts = some st)
    (hs : s = gpx_read ext (gpx_rd_init s0) ts) (hel : '/' ∉ el.data)
    (hk : (get_tag hash (s.current_tag ++ "/" ++ el)).1 ≠ tt_unknown) :
    ((get_tag hash (s.current_tag ++ "/" ++ el)).2 = true →
      gpx_read_token ext s (Token.StartElement el attr ns) =
        start_something_else
          (gpx_start_switch { s with current_tag := s.current_tag ++ "/" ++ el, cdatastr := "" }
            (get_tag hash (s.current_tag ++ "/" ++ el)).1 attr ns) el attr ns ∧
      (gpx_read_token ext s (Token.StartElement el attr ns)).tags.length = s.tags.length + 1 ∧
      (gpx_read_token ext s (Token.StartElement el attr ns)).cur_tag = some s.tags.length ∧
      (getTag (gpx_read_token ext s (Token.StartElement el attr ns)).tags
        s.tags.length).tagname = el ∧
      (getTag (gpx_read_token ext s (Token.StartElement el attr ns)).tags
        s.tags.length).attributes = tag_attributes attr ns ∧
      ∀ s2 : State, s2.current_tag = s.current_tag ++ "/" ++ el →
        gpx_end ext s2 =
          end_something_else
            (gpx_end_switch ext { s2 with cdatastr := trimmed s2.cdatastr }
              (get_tag hash (s.current_tag ++ "/" ++ el)).1) ∧
        (gpx_end ext s2).tags = s2.tags ∧
        (gpx_end ext s2).cur_tag = s2.cur_tag.bind (fun c => (getTag s2.tags c).parent)) ∧
    ((get_tag hash (s.current_tag ++ "/" ++ el)).2 = false →
      gpx_read_token ext s (Token.StartElement el attr ns) =
        gpx_start_switch { s with current_tag := s.current_tag ++ "/" ++ el, cdatastr := "" }
          (get_tag hash (s.current_tag ++ "/" ++ el)).1 attr ns ∧
      (gpx_read_token ext s (Token.StartElement el attr ns)).tags = s.tags ∧
      ∀ s2 : State, s2.current_tag = s.current_tag ++ "/" ++ el →
        gpx_end ext s2 =
          gpx_end_switch ext { s2 with cdatastr := trimmed s2.cdatastr }
            (get_tag hash (s.current_tag ++ "/" ++ el)).1 ∧
        (gpx_end ext s2).tags = s2.tags) := by
  have hopen : ObjectsOpen s st := by
    rw [hs]
    exact objects_open_read ext ts _ [] st (objects_open_init s0 h0)
      (fun m hm => absurd hm (List.not_mem_nil m)) hn
  have hst : ∀ m ∈ st ++ [el], '/' ∉ m.data := by
    intro m hm
    rcases List.mem_append.mp hm with h1 | h1
    · exact nested_names ts [] st (fun m hm => absurd hm (List.not_mem_nil m)) hn m h1
    · rw [List.mem_singleton.mp h1]; exact hel
  obtain ⟨hc, _, _, _, _, _, hfs⟩ := hopen
  have hpath : s.current_tag ++ "/" ++ el = path_of (st ++ [el]) := by
    rw [path_of_concat, ← hc]
  obtain ⟨_, _, _, _, _, _, _, _, t9⟩ := tag_objects (st ++ [el]) hst
  rw [← hpath, List.dropLast_concat] at t9
  obtain ⟨ks1, ks2⟩ := known_start { s with current_tag := s.current_tag ++ "/" ++ el }
    el attr ns hk
  constructor
  · intro hp
    obtain ⟨a1, a2, a3, a4, a5⟩ := ks1 hp (hfs (t9 hk hp).1)
    refine ⟨a1, a2, a3, a4, a5, ?_⟩
    intro s2 hc2
    rw [← hc2] at hk hp t9 ⊢
    exact (known_end ext s2 hk).1 hp (t9 hk hp).2
  · intro hp
    obtain ⟨a1, a2⟩ := ks2 hp
    refine ⟨a1, a2, ?_⟩
    intro s2 hc2
    rw [← hc2] at hk hp ⊢
    exact (known_end ext s2 hk).2 hp

theorem known_passthrough_element_witness :
    nested [] example_tokens_before_cache = some ["gpx", "wpt"] ∧
    get_tag hash ((gpx_read Externals.fixed (gpx_rd_init {})
      example_tokens_before_cache).current_tag ++ "/" ++ "groundspeak:cache") =
        (tt_cache, true) ∧
    (gpx_read_token Externals.fixed
      (gpx_read Externals.fixed (gpx_rd_init {}) example_tokens_before_cache)
      (Token.StartElement "groundspeak:cache" [("id", "7")] [])).cur_tag =
      some (gpx_read Externals.fixed (gpx_rd_init {}) example_tokens_before_cache).tags.length :=
  ⟨by decide, by decide,
   ((known_passthrough_element Externals.fixed {} example_tokens_before_cache ["gpx", "wpt"]
      _ "groundspeak:cache" [("id", "7")] [] rfl (by decide) rfl (by decide)
      (by decide)).1 (by decide)).2.2.1⟩

/-! ## The path and the text buffer under the actions of the reader -/

theorem text_with_wpt (s : State) (f : Waypoint → Waypoint) :
    (with_wpt s f).current_tag = s.current_tag ∧ (with_wpt s f).cdatastr = s.cdatastr := by
  unfold with_wpt; split <;> exact ⟨rfl, rfl⟩

theorem text_with_rte (s : State) (f : route_head → route_head) :
    (with_rte s f).current_tag = s.current_tag ∧ (with_rte s f).cdatastr = s.cdatastr := by
  unfold with_rte; split <;> exact ⟨rfl, rfl⟩

theorem text_with_trk (s : State) (f : route_head → route_head) :
    (with_trk s f).current_tag = s.current_tag ∧ (with_trk s f).cdatastr = s.cdatastr := by
  unfold with_trk; split <;> exact ⟨rfl, rfl⟩

theorem text_with_global (s : State) (f : GpxGlobal → GpxGlobal) :
    (with_global s f).current_tag = s.current_tag ∧
    (with_global s f).cdatastr = s.cdatastr := by
  unfold with_global; split <;> exact ⟨rfl, rfl⟩

theorem text_with_link (s : State) (f : UrlLink → UrlLink) :
    (with_link s f).current_tag = s.current_tag ∧ (with_link s f).cdatastr = s.cdatastr := by
  unfold with_link; split <;> exact ⟨rfl, rfl⟩

theorem text_with_rh_link (s : State) (f : UrlLink → UrlLink) :
    (with_rh_link s f).current_tag = s.current_tag ∧
    (with_rh_link s f).cdatastr = s.cdatastr := by
  unfold with_rh_link; split <;> exact ⟨rfl, rfl⟩

theorem text_close_link (s : State) :
    (close_link s).current_tag = s.current_tag ∧ (close_link s).cdatastr = s.cdatastr := by
  unfold close_link
  split
  · split
    · exact text_with_wpt _ _
    · exact ⟨rfl, rfl⟩
  · exact ⟨rfl, rfl⟩

theorem text_close_rh_link_rte (s : State) :
    (close_rh_link s with_rte).current_tag = s.current_tag ∧
    (close_rh_link s with_rte).cdatastr = s.cdatastr := by
  unfold close_rh_link
  split
  · split
    · exact text_with_rte _ _
    · exact ⟨rfl, rfl⟩
  · exact ⟨rfl, rfl⟩

theorem text_close_rh_link_trk (s : State) :
    (close_rh_link s with_trk).current_tag = s.current_tag ∧
    (close_rh_link s with_trk).cdatastr = s.cdatastr := by
  unfold close_rh_link
  split
  · split
    · exact text_with_trk _ _
    · exact ⟨rfl, rfl⟩
  · exact ⟨rfl, rfl⟩

theorem text_gpx_end_switch (ext : Externals) (s : State) (t : tag_type) :
    (gpx_end_switch ext s t).current_tag = s.current_tag ∧
    (gpx_end_switch ext s t).cdatastr = s.cdatastr := by
  unfold gpx_end_switch
  cases t <;> dsimp only <;>
    first
    | exact ⟨rfl, rfl⟩
    | exact text_with_wpt _ _
    | exact text_with_global _ _
    | exact text_with_rte _ _
    | exact text_with_trk _ _
    | exact text_with_link _ _
    | exact text_with_rh_link _ _
    | exact text_close_rh_link_rte _
    | exact text_close_rh_link_trk _
    | (split
       · first
         | exact text_close_link _
         | exact ⟨(text_with_rte _ _).1.trans (text_close_link _).1,
             (text_with_rte _ _).2.trans (text_close_link _).2⟩
         | exact ⟨(text_with_trk _ _).1.trans (text_close_link _).1,
             (text_with_trk _ _).2.trans (text_close_link _).2⟩
       · exact text_close_link _)
    | (split
       · exact ⟨rfl, rfl⟩
       · split
         · exact text_with_wpt _ _
         · exact ⟨rfl, rfl⟩)

theorem text_tag_log_wpt (s : State) (attr : List Attr) :
    (tag_log_wpt s attr).current_tag = s.current_tag ∧
    (tag_log_wpt s attr).cdatastr = s.cdatastr := by
  unfold tag_log_wpt
  split
  · exact ⟨rfl, rfl⟩
  · simp only []
    split <;> exact ⟨rfl, rfl⟩

theorem text_gpx_start_switch (s : State) (t : tag_type) (attr : List Attr)
    (ns : List NsDecl) :
    (gpx_start_switch s t attr ns).current_tag = s.current_tag ∧
    (gpx_start_switch s t attr ns).cdatastr = s.cdatastr := by
  unfold gpx_start_switch
  cases t <;> dsimp only <;>
    first
    | exact ⟨rfl, rfl⟩
    | (obtain ⟨v, a, h⟩ := tag_gpx_form s attr ns
       rw [h]
       exact ⟨rfl, rfl⟩)
    | exact text_with_wpt _ _
    | (unfold start_link; split <;> exact ⟨rfl, rfl⟩)
    | (split
       · first
         | exact text_with_wpt _ _
         | exact text_tag_log_wpt _ _
       · exact ⟨rfl, rfl⟩)

theorem text_start_something_else (s : State) (el : String) (attr : List Attr)
    (ns : List NsDecl) :
    (start_something_else s el attr ns).current_tag = s.current_tag ∧
    (start_something_else s el attr ns).cdatastr = s.cdatastr :=
  ⟨start_something_else_frame (fun s => s.current_tag) (fun _ _ _ => rfl)
      (fun s p fs => by cases p <;> rfl) s el attr ns,
   start_something_else_cdatastr s el attr ns⟩

theorem text_end_something_else (s : State) :
    (end_something_else s).current_tag = s.current_tag ∧
    (end_something_else s).cdatastr = s.cdatastr :=
  ⟨end_something_else_frame (fun s => s.current_tag) (fun _ _ _ => rfl) s,
   end_something_else_cdatastr s⟩

theorem text_gpx_start (s : State) (el : String) (attr : List Attr) (ns : List NsDecl) :
    (gpx_start s el attr ns).current_tag = s.current_tag ∧
    (gpx_start s el attr ns).cdatastr = "" := by
  obtain ⟨h1, h2⟩ := text_gpx_start_switch { s with cdatastr := "" }
    (get_tag hash s.current_tag).1 attr ns
  rw [gpx_start_eq]
  split
  · exact text_start_something_else _ _ _ _
  · split
    · exact ⟨(text_start_something_else _ _ _ _).1.trans h1,
        (text_start_something_else _ _ _ _).2.trans h2⟩
    · exact ⟨h1, h2⟩

theorem text_gpx_end (ext : Externals) (s : State) :
    (gpx_end ext s).current_tag = s.current_tag ∧
    (gpx_end ext s).cdatastr = trimmed s.cdatastr := by
  obtain ⟨h1, h2⟩ := text_gpx_end_switch ext { s with cdatastr := trimmed s.cdatastr }
    (get_tag hash s.current_tag).1
  rw [gpx_end_eq]
  split
  · exact text_end_something_else _
  · split
    · exact ⟨(text_end_something_else _).1.trans h1, (text_end_something_else _).2.trans h2⟩
    · exact ⟨h1, h2⟩

theorem current_tag_gpx_cdata (s : State) (t : String) :
    (gpx_cdata s t).current_tag = s.current_tag :=
  gpx_cdata_frame (fun s => s.current_tag) (fun _ _ _ => rfl) (fun _ _ => rfl) s t

/-! ## The current path -/

theorem path_read_token_start (ext : Externals) (s : State) (st : List String) (n : String)
    (attr : List Attr) (ns : List NsDecl) (h : s.current_tag = path_of st) :
    (gpx_read_token ext s (Token.StartElement n attr ns)).current_tag = path_of (st ++ [n]) := by
  show (gpx_start { s with current_tag := s.current_tag ++ "/" ++ n } n attr ns).current_tag = _
  rw [(text_gpx_start _ n attr ns).1, path_of_concat, ← h]

theorem path_read_token_end (ext : Externals) (s : State) (st : List String) (n : String)
    (h : s.current_tag = path_of st) (hl : st.getLast? = some n) :
    (gpx_read_token ext s (Token.EndElement n)).current_tag = path_of st.dropLast := by
  show chop (gpx_end ext s).current_tag (n.length + 1) = _
  have e : (gpx_end ext s).current_tag = path_of st.dropLast ++ "/" ++ n := by
    rw [(text_gpx_end ext s).1, h, ← path_of_concat, List.dropLast_append_getLast? n hl]
  rw [e, chop_append]

theorem path_read (ext : Externals) :
    ∀ (ts : List Token) (s : State) (st st' : List String),
      s.current_tag = path_of st → nested st ts = some st' →
      (gpx_read ext s ts).current_tag = path_of st' := by
  intro ts
  induction ts with
  | nil =>
    intro s st st' h hn
    cases hn
    exact h
  | cons tok ts ih =>
    intro s st st' h hn
    cases tok with
    | StartElement n attr ns =>
      simp only [nested] at hn
      split at hn
      · cases hn
      · exact ih _ _ _ (path_read_token_start ext s st n attr ns h) hn
    | EndElement n =>
      simp only [nested] at hn
      split at hn
      · rename_i hl
        exact ih _ _ _ (path_read_token_end ext s st n h hl) hn
      · cases hn
    | Characters text =>
      exact ih _ _ _ ((current_tag_gpx_cdata s text).trans h) hn
    | Other => exact ih _ _ _ h hn
    | EndDocument =>
      cases hn
      exact h
    | Invalid =>
      cases hn
      exact h

theorem nested_left_end :
    ∀ (ts1 : List Token) (n : String) (ts2 : List Token) (st st2 : List String),
      (∀ t ∈ ts1, t ≠ Token.EndDocument ∧ t ≠ Token.Invalid) →
      nested st (ts1 ++ Token.EndElement n :: ts2) = some st2 →
      ∃ st1, nested st ts1 = some st1 ∧ st1.getLast? = some n := by
  intro ts1
  induction ts1 with
  | nil =>
    intro n ts2 st st2 _ hn
    simp only [List.nil_append, nested] at hn
    split at hn
    · rename_i hl
      exact ⟨st, rfl, hl⟩
    · cases hn
  | cons tok ts ih =>
    intro n ts2 st st2 hs hn
    have hts : ∀ t ∈ ts, t ≠ Token.EndDocument ∧ t ≠ Token.Invalid :=
      fun t ht => hs t (List.mem_cons_of_mem _ ht)
    have htok := hs tok (List.mem_cons_self _ _)
    cases tok with
    | StartElement m attr ns =>
      simp only [List.cons_append, nested] at hn ⊢
      split at hn
      · cases hn
      · rename_i hm
        rw [if_neg hm]
        exact ih n ts2 _ st2 hts hn
    | EndElement m =>
      simp only [List.cons_append, nested] at hn ⊢
      split at hn
      · rename_i hl
        rw [if_pos hl]
        exact ih n ts2 _ st2 hts hn
      · cases hn
    | Characters text => exact ih n ts2 st st2 hts hn
    | Other => exact ih n ts2 st st2 hts hn
    | EndDocument => exact absurd rfl htok.1
    | Invalid => exact absurd rfl htok.2

/-- C31: gpx_read reads a well-nested sequence of tokens from the state gpx_rd_init leaves.
After every part of the sequence the current path is the concatenation of a slash and the
qualified name over the open elements, from the root down; the state gpx_start receives
for a start tag has the path of the open elements followed by the new element; the state
gpx_end receives for an end tag has the path of the open elements, the innermost of which
is the element of the end tag; and when all elements are closed the path is empty. -/
theorem current_path_of_open_elements (ext : Externals) (s0 : State) (ts : List Token)
    (st : List String) (hn : nested [] ts = some st) :
    (∀ ts1 ts2, ts = ts1 ++ ts2 →
      ∃ st1, nested [] ts1 = some st1 ∧
        (gpx_read ext (gpx_rd_init s0) ts1).current_tag = path_of st1) ∧
    (∀ ts1 n attr ns ts2, ts = ts1 ++ Token.StartElement n attr ns :: ts2 →
      ∃ st1, nested [] ts1 = some st1 ∧
        gpx_read_token ext (gpx_read ext (gpx_rd_init s0) ts1) (Token.StartElement n attr ns) =
          gpx_start { gpx_read ext (gpx_rd_init s0) ts1 with current_tag := path_of (st1 ++ [n]) }
            n attr ns) ∧
    (∀ ts1 n ts2, ts = ts1 ++ Token.EndElement n :: ts2 →
      (∀ t ∈ ts1, t ≠ Token.EndDocument ∧ t ≠ Token.Invalid) →
      ∃ st1, nested [] ts1 = some st1 ∧ st1.getLast? = some n ∧
        (gpx_read ext (gpx_rd_init s0) ts1).current_tag = path_of st1) ∧
    (st = [] → (gpx_read ext (gpx_rd_init s0) ts).current_tag = "") := by
  have key : ∀ ts1 ts2, ts = ts1 ++ ts2 →
      ∃ st1, nested [] ts1 = some st1 ∧
        (gpx_read ext (gpx_rd_init s0) ts1).current_tag = path_of st1 := by
    intro ts1 ts2 e
    rw [e] at hn
    obtain ⟨st1, h1⟩ := nested_left ts1 ts2 [] st hn
    exact ⟨st1, h1, path_read ext ts1 _ [] st1 rfl h1⟩
  refine ⟨key, ?_, ?_, ?_⟩
  · intro ts1 n attr ns ts2 e
    obtain ⟨st1, h1, h2⟩ := key ts1 _ e
    refine ⟨st1, h1, ?_⟩
    show gpx_start { gpx_read ext (gpx_rd_init s0) ts1 with
      current_tag := (gpx_read ext (gpx_rd_init s0) ts1).current_tag ++ "/" ++ n } n attr ns = _
    rw [h2, ← path_of_concat]
  · intro ts1 n ts2 e hs
    obtain ⟨st1, h1, h2⟩ := key ts1 _ e
    rw [e] at hn
    obtain ⟨st1', h3, h4⟩ := nested_left_end ts1 n ts2 [] st hs hn
    rw [h1] at h3
    cases h3
    exact ⟨st1, h1, h4, h2⟩
  · intro e
    obtain ⟨st1, h1, h2⟩ := key ts [] (List.append_nil _).symm
    rw [hn] at h1
    cases h1
    rw [h2, e]
    rfl

theorem current_path_of_open_elements_witness :
    nested [] example_document_objects = some [] ∧
    (gpx_read Externals.fixed (gpx_rd_init {}) example_document_objects).current_tag = "" ∧
    (gpx_read Externals.fixed (gpx_rd_init {}) (example_document_objects.take 3)).current_tag =
      "/gpx/wpt/name" :=
  ⟨by decide,
   (current_path_of_open_elements Externals.fixed {} example_document_objects [] (by decide)).2.2.2
     rfl,
   by decide⟩

/-! ## The availability and archived states of a geocache -/

theorem attr_value_absent (attr : List Attr) (n : String) (h : hasAttribute attr n = false) :
    attr_value attr n = "" := by
  unfold attr_value
  have : attr.find? (fun a => decide (a.1 = n)) = none := by
    rw [List.find?_eq_none]
    intro a ha hd
    have : hasAttribute attr n = true := by
      unfold hasAttribute
      rw [List.any_eq_true]
      exact ⟨a, ha, hd⟩
    rw [h] at this
    cases this
  rw [this]

/-- C33: tag_gs_cache, called while the point i is in progress, leaves in the geocache
record of the point: for the attribute available, the state true when the value of the
attribute equals True ignoring the case of ASCII letters, the state false when it equals
False ignoring case, and otherwise, for any other value and for an absent attribute, the
state the record had before, which is unknown for a record that did not exist yet; and the
same for the attribute archived. -/
theorem tag_gs_cache_status (s : State) (attr : List Attr) (i : Nat)
    (hw : s.wpt_tmp = some i) (hi : i < s.wpts.length) :
    ((((tag_gs_cache s attr).wpts[i]?.getD default).gc_data.getD {}).is_available =
      if eqNoCase (attr_value attr "available") "True" = true then status_true
      else if eqNoCase (attr_value attr "available") "False" = true then status_false
      else ((s.wpts[i]?.getD default).gc_data.getD {}).is_available) ∧
    ((((tag_gs_cache s attr).wpts[i]?.getD default).gc_data.getD {}).is_archived =
      if eqNoCase (attr_value attr "archived") "True" = true then status_true
      else if eqNoCase (attr_value attr "archived") "False" = true then status_false
      else ((s.wpts[i]?.getD default).gc_data.getD {}).is_archived) ∧
    (hasAttribute attr "available" = false →
      (((tag_gs_cache s attr).wpts[i]?.getD default).gc_data.getD {}).is_available =
        ((s.wpts[i]?.getD default).gc_data.getD {}).is_available) ∧
    (hasAttribute attr "archived" = false →
      (((tag_gs_cache s attr).wpts[i]?.getD default).gc_data.getD {}).is_archived =
        ((s.wpts[i]?.getD default).gc_data.getD {}).is_archived) ∧
    ((s.wpts[i]?.getD default).gc_data = none →
      ((s.wpts[i]?.getD default).gc_data.getD {}).is_available = status_unknown ∧
      ((s.wpts[i]?.getD default).gc_data.getD {}).is_archived = status_unknown) := by
  obtain ⟨w, hw0⟩ : ∃ w, s.wpts[i]? = some w := ⟨s.wpts[i], List.getElem?_eq_getElem hi⟩
  have hget : ∀ f : Waypoint → Waypoint,
      (upd s.wpts i f)[i]?.getD default = f (s.wpts[i]?.getD default) := by
    intro f
    rw [upd_get_same f s.wpts i hi, hw0]
    rfl
  have e1 : eqNoCase "" "True" = false := by decide
  have e2 : eqNoCase "" "False" = false := by decide
  have hav : (((tag_gs_cache s attr).wpts[i]?.getD default).gc_data.getD {}).is_available =
      if eqNoCase (attr_value attr "available") "True" = true then status_true
      else if eqNoCase (attr_value attr "available") "False" = true then status_false
      else ((s.wpts[i]?.getD default).gc_data.getD {}).is_available := by
    unfold tag_gs_cache with_wpt
    rw [hw]
    dsimp only
    rw [hget]
    by_cases ha : hasAttribute attr "available" = true
    · simp only [ha, if_true]
      split_ifs <;> rfl
    · have hv := attr_value_absent attr "available" (by simpa using ha)
      simp only [ha, hv, e1, e2, Bool.false_eq_true, if_false]
      split_ifs <;> rfl
  have har : (((tag_gs_cache s attr).wpts[i]?.getD default).gc_data.getD {}).is_archived =
      if eqNoCase (attr_value attr "archived") "True" = true then status_true
      else if eqNoCase (attr_value attr "archived") "False" = true then status_false
      else ((s.wpts[i]?.getD default).gc_data.getD {}).is_archived := by
    unfold tag_gs_cache with_wpt
    rw [hw]
    dsimp only
    rw [hget]
    by_cases hb : hasAttribute attr "archived" = true
    · simp only [hb, if_true]
      split_ifs <;> rfl
    · have hv := attr_value_absent attr "archived" (by simpa using hb)
      simp only [hb, hv, e1, e2, Bool.false_eq_true, if_false]
      split_ifs <;> rfl
  refine ⟨hav, har, ?_, ?_, ?_⟩
  · intro ha
    rw [hav, attr_value_absent attr "available" ha]
    simp only [e1, e2, Bool.false_eq_true, if_false]
  · intro hb
    rw [har, attr_value_absent attr "archived" hb]
    simp only [e1, e2, Bool.false_eq_true, if_false]
  · intro hn
    rw [hn]
    exact ⟨rfl, rfl⟩

theorem tag_gs_cache_status_witness :
    (((tag_gs_cache { wpts := [{}], wpt_tmp := some 0 }
      [("available", "TRUE"), ("archived", "false")]).wpts[0]?.getD default).gc_data.getD
        {}).is_available = status_true ∧
    (((tag_gs_cache { wpts := [{}], wpt_tmp := some 0 }
      [("available", "TRUE"), ("archived", "false")]).wpts[0]?.getD default).gc_data.getD
        {}).is_archived = status_false ∧
    (((tag_gs_cache { wpts := [{}], wpt_tmp := some 0 }
      [("available", "yes")]).wpts[0]?.getD default).gc_data.getD {}).is_available =
        status_unknown :=
  ⟨(tag_gs_cache_status { wpts := [{}], wpt_tmp := some 0 }
      [("available", "TRUE"), ("archived", "false")] 0 rfl (by decide)).1,
   (tag_gs_cache_status { wpts := [{}], wpt_tmp := some 0 }
      [("available", "TRUE"), ("archived", "false")] 0 rfl (by decide)).2.1,
   by decide⟩

/-! ## The text an end tag uses -/

theorem cdatastr_read_token (ext : Externals) (s : State) (tok : Token)
    (htok : (∃ m a ns, tok = Token.StartElement m a ns) ∨ ∃ m, tok = Token.EndElement m) :
    (gpx_read_token ext s tok).cdatastr = "" := by
  rcases htok with ⟨m, a, ns, rfl⟩ | ⟨m, rfl⟩
  · exact (text_gpx_start _ m a ns).2
  · rfl

/-- C36: after a start tag or an end tag the text buffer is empty; the text events that
follow, up to the next end tag, are appended to it in their order, so that gpx_end at this
end tag finds the concatenation of exactly these texts and gives its trimmed form to the
case of the tag id. For a name element of a waypoint with the content ab, an empty element
x, cd this stores the name cd. -/
theorem end_tag_text (ext : Externals) (s s1 : State) (tok : Token) (texts : List String)
    (n : String)
    (htok : (∃ m a ns, tok = Token.StartElement m a ns) ∨ ∃ m, tok = Token.EndElement m)
    (hs : s1 = gpx_read_token ext s tok) :
    s1.cdatastr = "" ∧
    gpx_read ext s1 (texts.map Token.Characters ++ [Token.EndElement n]) =
      gpx_read_token ext (texts.foldl gpx_cdata s1) (Token.EndElement n) ∧
    (texts.foldl gpx_cdata s1).cdatastr = String.join texts ∧
    (texts.foldl gpx_cdata s1).current_tag = s1.current_tag ∧
    gpx_end ext (texts.foldl gpx_cdata s1) =
      (if (get_tag hash s1.current_tag).1 = tt_unknown then
        end_something_else
          { texts.foldl gpx_cdata s1 with cdatastr := trimmed (String.join texts) }
      else if (get_tag hash s1.current_tag).2 then
        end_something_else
          (gpx_end_switch ext
            { texts.foldl gpx_cdata s1 with cdatastr := trimmed (String.join texts) }
            (get_tag hash s1.current_tag).1)
      else
        gpx_end_switch ext
          { texts.foldl gpx_cdata s1 with cdatastr := trimmed (String.join texts) }
          (get_tag hash s1.current_tag).1) ∧
    ((gpx_read Externals.fixed (gpx_rd_init {}) example_mixed_name).wpts[0]?.getD
      default).shortname = "cd" := by
  have h0 : s1.cdatastr = "" := by rw [hs]; exact cdatastr_read_token ext s tok htok
  have hcd : (texts.foldl gpx_cdata s1).cdatastr = String.join texts := by
    rw [foldl_gpx_cdata_cdatastr, h0, string_join_eq]
  have hct : (texts.foldl gpx_cdata s1).current_tag = s1.current_tag :=
    foldl_gpx_cdata_frame (fun s => s.current_tag) current_tag_gpx_cdata texts s1
  refine ⟨h0, ?_, hcd, hct, ?_, by decide⟩
  · rw [gpx_read_texts]
    rfl
  · have ht : get_tag hash (texts.foldl gpx_cdata s1).current_tag =
        get_tag hash s1.current_tag := by rw [hct]
    rw [gpx_end_eq, hcd, ht]

theorem end_tag_text_witness :
    (gpx_read_token Externals.fixed {} (Token.StartElement "gpx" [] [])).cdatastr = "" ∧
    (["a", "b"].foldl gpx_cdata
      (gpx_read_token Externals.fixed {} (Token.StartElement "gpx" [] []))).cdatastr = "ab" :=
  ⟨(end_tag_text Externals.fixed {} _ (Token.StartElement "gpx" [] []) ["a", "b"] "gpx"
      (Or.inl ⟨_, _, _, rfl⟩) rfl).1,
   (end_tag_text Externals.fixed {} _ (Token.StartElement "gpx" [] []) ["a", "b"] "gpx"
      (Or.inl ⟨_, _, _, rfl⟩) rfl).2.2.1⟩

/-! ## The target version under a vendor toggle and the characters of the namespace -/

/-- C38: when the humminbirdextensions or the garminextensions toggle is set and a gpxver
argument v is given, whatever v and the detected version of the input are, gpx_wr_init
replaces the target version by 1.1: it does not abort, gpx_wversion is 1.1 (the argument
is kept only when it is 1.1 itself) and the version attribute written on the gpx element
is 1.1; with the argument 1.0 and the detected version 1.0 the attribute is 1.1 too. -/
theorem gpx_wr_init_toggle_overrides_gpxver (ext : Externals) (now : Int)
    (all_bounds : Option bounds) (cfg : WriterCfg) (s : State) (v : String)
    (hv : cfg.gpx_wversion = some v)
    (htog : cfg.opt_humminbirdext = true ∨ cfg.opt_garminext = true) :
    gpx_wr_init_version cfg s = some ("1.1", false) ∧
    (gpx_wr_init ext now all_bounds cfg s).fatal = false ∧
    (gpx_wr_init ext now all_bounds cfg s).cfg.gpx_wversion = some "1.1" ∧
    ((gpx_wr_init ext now all_bounds cfg s).cfg.gpx_wversion = cfg.gpx_wversion ↔ v = "1.1") ∧
    (gpx_wr_init ext now all_bounds cfg s).events.take 4 =
      [WEvent.StartDocument, WEvent.Characters "\n", WEvent.StartElement "gpx",
       WEvent.Attribute "version" "1.1"] ∧
    attributes_named "version" ((gpx_wr_init ext now all_bounds cfg s).events.take 6) =
      ["1.1"] ∧
    (gpx_wr_init ext now all_bounds
      { gpx_wversion := some "1.0", opt_garminext := true } { gpx_version := "1.0" }).events.take 4 =
      [WEvent.StartDocument, WEvent.Characters "\n", WEvent.StartElement "gpx",
       WEvent.Attribute "version" "1.1"] := by
  have key : ∀ (cfg : WriterCfg) (s : State),
      (cfg.opt_humminbirdext = true ∨ cfg.opt_garminext = true) →
      gpx_wr_init_version cfg s = some ("1.1", false) ∧
      (gpx_wr_init ext now all_bounds cfg s).fatal = false ∧
      (gpx_wr_init ext now all_bounds cfg s).cfg.gpx_wversion = some "1.1" ∧
      (gpx_wr_init ext now all_bounds cfg s).events.take 6 =
        [WEvent.StartDocument, WEvent.Characters "\n", WEvent.StartElement "gpx",
         WEvent.Attribute "version" "1.1", WEvent.Attribute "creator" CREATOR_NAME_URL,
         WEvent.Attribute "xmlns" "http://www.topografix.com/GPX/1/1"] := by
    intro cfg s htog
    have hor : (cfg.opt_humminbirdext || cfg.opt_garminext) = true := by
      rcases htog with h | h <;> simp [h]
    have hver : gpx_wr_init_version cfg s = some ("1.1", false) := by
      simp [gpx_wr_init_version, hor]
    have hs : strtod ("1.1" : String).data = some ⟨11, 1⟩ := by decide
    have hn : (⟨11, 1⟩ : Dbl).times_ten_int = 11 := by decide
    have h0 : c_index ("1.1" : String).data false 0 = some '1' := by decide
    have h2 : c_index ("1.1" : String).data false 2 = some '1' := by decide
    refine ⟨hver, ?_⟩
    unfold gpx_wr_init
    simp only [hver, hs, hn, h0, h2]
    refine ⟨by simp, by simp, ?_⟩
    simp
    decide
  obtain ⟨k1, k2, k3, k4⟩ := key cfg s htog
  have k5 := (key { gpx_wversion := some "1.0", opt_garminext := true } { gpx_version := "1.0" }
    (Or.inr rfl)).2.2.2
  refine ⟨k1, k2, k3, ?_, ?_, ?_, ?_⟩
  · rw [k3, hv]
    constructor
    · intro h
      exact (Option.some.inj h).symm
    · intro h
      rw [h]
  · have := congrArg (List.take 4) k4
    rw [List.take_take] at this
    exact this
  · rw [k4]
    decide
  · have := congrArg (List.take 4) k5
    rw [List.take_take] at this
    exact this

theorem gpx_wr_init_toggle_overrides_gpxver_witness :
    (gpx_wr_init Externals.fixed 0 none
      { gpx_wversion := some "1.0", opt_humminbirdext := true } { gpx_version := "1.0" }
        ).cfg.gpx_wversion = some "1.1" :=
  (gpx_wr_init_toggle_overrides_gpxver Externals.fixed 0 none
    { gpx_wversion := some "1.0", opt_humminbirdext := true } { gpx_version := "1.0" } "1.0"
    rfl (Or.inl rfl)).2.2.1

/-- C39 (failing input): the gpxver argument 2 passes the validity check of gpx_wr_init
(ten times its value is 20) and has one character; the character at index 0 exists, the
index 1 is the terminator of the C string, and the index 2, which gpx_wr_init reads for
the namespace, lies outside the string: gpx_wr_init has written the version and creator
attributes by then and the read is recorded as a fault. The arguments 1.0 and 1.1 give the
namespaces of GPX 1.0 and GPX 1.1; every text of two or more ASCII characters has a
character or the terminator at the indices 0 and 2. -/
theorem gpx_wr_init_one_character_version :
    strtod ("2" : String).data = some ⟨2, 0⟩ ∧
    (⟨2, 0⟩ : Dbl).times_ten_int = 20 ∧
    ("2" : String).length = 1 ∧
    c_index ("2" : String).data false 0 = some '2' ∧
    c_index ("2" : String).data false 2 = none ∧
    (gpx_wr_init Externals.fixed 0 none { gpx_wversion := some "2" } {}).fatal = false ∧
    (gpx_wr_init Externals.fixed 0 none { gpx_wversion := some "2" } {}).fault = true ∧
    (gpx_wr_init Externals.fixed 0 none { gpx_wversion := some "2" } {}).events =
      [WEvent.StartDocument, WEvent.Characters "\n", WEvent.StartElement "gpx",
       WEvent.Attribute "version" "2", WEvent.Attribute "creator" CREATOR_NAME_URL] ∧
    attributes_named "xmlns"
      (gpx_wr_init Externals.fixed 0 none { gpx_wversion := some "1.0" } {}).events =
      ["http://www.topografix.com/GPX/1/0"] ∧
    attributes_named "xmlns"
      (gpx_wr_init Externals.fixed 0 none { gpx_wversion := some "1.1" } {}).events =
      ["http://www.topografix.com/GPX/1/1"] ∧
    (∀ (v : List Char) (padded : Bool), v.all (fun c => c.toNat < 128) = true →
      2 ≤ v.length →
      (c_index v padded 0).isSome = true ∧ (c_index v padded 2).isSome = true) := by
  refine ⟨by decide, by decide, by decide, by decide, by decide, by decide, by decide,
    by decide, by decide, by decide, ?_⟩
  intro v padded ha hl
  unfold c_index
  rw [if_pos ha, if_pos ha]
  constructor
  · rw [dif_pos (by omega)]
    rfl
  · by_cases h2 : 2 < v.length
    · rw [dif_pos h2]
      rfl
    · rw [dif_neg h2]
      have : v.length = 2 := by omega
      simp [this]

/-! ## The desc element of a point -/

theorem dropSpace_head (l : List Char) :
    dropSpace l = [] ∨ ∃ c r, dropSpace l = c :: r ∧ isSpace c = false := by
  induction l with
  | nil => exact Or.inl rfl
  | cons c cs ih =>
    by_cases h : isSpace c = true
    · simp only [dropSpace, h, if_true]
      exact ih
    · simp only [dropSpace, h, Bool.false_eq_true, if_false]
      exact Or.inr ⟨c, cs, rfl, by simpa using h⟩

theorem dropSpace_suffix (l : List Char) : ∃ sp, l = sp ++ dropSpace l := by
  induction l with
  | nil => exact ⟨[], rfl⟩
  | cons c cs ih =>
    by_cases h : isSpace c = true
    · obtain ⟨sp, hsp⟩ := ih
      refine ⟨c :: sp, ?_⟩
      simp only [dropSpace, h, if_true, List.cons_append]
      rw [← hsp]
    · refine ⟨[], ?_⟩
      simp only [dropSpace, h, Bool.false_eq_true, if_false, List.nil_append]

theorem dropSpace_no_space (c : Char) (r : List Char) (h : isSpace c = false) :
    dropSpace (c :: r) = c :: r := by
  simp only [dropSpace, h, Bool.false_eq_true, if_false]

theorem trimmed_trimmed (x : String) : trimmed (trimmed x) = trimmed x := by
  unfold trimmed
  simp only
  congr 1
  -- l is the text without its leading white space, m its reverse without leading space
  generalize hl : dropSpace x.data = l
  generalize hm : dropSpace l.reverse = m
  have hmid : dropSpace m = m := by
    rcases dropSpace_head l.reverse with h | ⟨c, r, h, hc⟩
    · rw [hm] at h
      rw [h]
      rfl
    · rw [hm] at h
      rw [h]
      exact dropSpace_no_space c r hc
  have hfront : dropSpace m.reverse = m.reverse := by
    obtain ⟨sp, hsp⟩ := dropSpace_suffix l.reverse
    rw [hm] at hsp
    have hl2 : l = m.reverse ++ sp.reverse := by
      have := congrArg List.reverse hsp
      simpa using this
    rcases dropSpace_head x.data with h | ⟨c, r, h, hc⟩
    · rw [hl] at h
      rw [h] at hl2
      have : m.reverse = [] := (List.append_eq_nil.mp hl2.symm).1
      rw [this]
      rfl
    · rw [hl] at h
      cases hmr : m.reverse with
      | nil => rfl
      | cons d rest =>
        rw [hmr, h] at hl2
        have hd : c = d := (List.cons.inj hl2).1
        rw [← hd]
        exact dropSpace_no_space c rest hc
  rw [hfront, List.reverse_reverse, hmid]

theorem gpx_end_cmt (ext : Externals) (s : State) (i : Nat) (hw : s.wpt_tmp = some i)
    (ht : get_tag hash s.current_tag = (tt_wpttype_cmt, false)) :
    (gpx_end ext s).wpts =
      upd s.wpts i (fun w => { w with description := trimmed s.cdatastr }) := by
  rw [gpx_end_eq, ht]
  show (with_wpt _ _).wpts = _
  unfold with_wpt
  simp only [hw]

theorem gpx_end_desc (ext : Externals) (s : State) (i : Nat) (hw : s.wpt_tmp = some i)
    (ht : get_tag hash s.current_tag = (tt_wpttype_desc, false)) :
    (gpx_end ext s).wpts =
      upd s.wpts i (fun w => { w with notes := trimmed s.cdatastr }) := by
  rw [gpx_end_eq, ht]
  show (with_wpt _ _).wpts = _
  unfold with_wpt
  simp only [hw]

theorem desc_rule (cfg : WriterCfg) (w : Waypoint) (o : String) :
    gpx_write_common_description cfg w o =
      writeOptionalTextElement "name" o ++ writeOptionalTextElement "cmt" w.description ++
      (if isEmpty w.notes = false then writeTextElement "desc" w.notes
       else if isEmpty w.description = false then writeTextElement "desc" w.description
       else []) ++
      write_gpx_url cfg w.urls ++ writeOptionalTextElement "sym" w.icon_descr := by
  unfold gpx_write_common_description
  by_cases h1 : isEmpty w.notes = true
  · by_cases h2 : isEmpty w.description = true
    · simp [h1, h2, writeOptionalTextElement]
    · simp [h1, h2, writeOptionalTextElement]
  · simp [h1]

theorem desc_of_cmt_only (cfg : WriterCfg) (w : Waypoint) (o : String) (hn : w.notes = "") :
    gpx_write_common_description cfg w o =
      writeOptionalTextElement "name" o ++ writeOptionalTextElement "cmt" w.description ++
      writeOptionalTextElement "desc" w.description ++
      write_gpx_url cfg w.urls ++ writeOptionalTextElement "sym" w.icon_descr := by
  unfold gpx_write_common_description
  rw [hn]
  rfl

theorem desc_of_cmt_and_desc (cfg : WriterCfg) (w : Waypoint) (o : String)
    (hn : w.notes = w.description) :
    gpx_write_common_description cfg w o =
      writeOptionalTextElement "name" o ++ writeOptionalTextElement "cmt" w.description ++
      writeOptionalTextElement "desc" w.description ++
      write_gpx_url cfg w.urls ++ writeOptionalTextElement "sym" w.icon_descr := by
  unfold gpx_write_common_description
  rw [hn]
  by_cases h : isEmpty w.description = true
  · simp [h]
  · simp [h, writeOptionalTextElement]

/-- C40: gpx_write_common_description writes one desc element with the notes of the point
when the notes are not empty, otherwise one with the description of the point (the text it
writes as cmt) when that is not empty, and no desc element when both are empty. A point
that got only a cmt child (its notes are empty when the cmt element ends) is written with
a cmt and a desc element that both carry the trimmed text of the cmt child; and a point
that is read from a cmt and a desc element with this text has this text as description and
as notes and is written with the same cmt and desc elements again. -/
theorem desc_from_notes_or_cmt (ext : Externals) (cfg : WriterCfg) (s : State) (i : Nat)
    (oname : String) (hi : i < s.wpts.length) (hw : s.wpt_tmp = some i)
    (ht : get_tag hash s.current_tag = (tt_wpttype_cmt, false))
    (hn : (s.wpts[i]?.getD default).notes = "") :
    (∀ (w : Waypoint) (o : String),
      gpx_write_common_description cfg w o =
        writeOptionalTextElement "name" o ++ writeOptionalTextElement "cmt" w.description ++
        (if isEmpty w.notes = false then writeTextElement "desc" w.notes
         else if isEmpty w.description = false then writeTextElement "desc" w.description
         else []) ++
        write_gpx_url cfg w.urls ++ writeOptionalTextElement "sym" w.icon_descr) ∧
    ((gpx_end ext s).wpts[i]?.getD default).description = trimmed s.cdatastr ∧
    ((gpx_end ext s).wpts[i]?.getD default).notes = "" ∧
    gpx_write_common_description cfg ((gpx_end ext s).wpts[i]?.getD default) oname =
      writeOptionalTextElement "name" oname ++
      writeOptionalTextElement "cmt" (trimmed s.cdatastr) ++
      writeOptionalTextElement "desc" (trimmed s.cdatastr) ++
      write_gpx_url cfg (s.wpts[i]?.getD default).urls ++
      writeOptionalTextElement "sym" (s.wpts[i]?.getD default).icon_descr ∧
    (∀ (s2 s3 : State) (j : Nat) (o : String), j < s2.wpts.length → s2.wpt_tmp = some j →
      get_tag hash s2.current_tag = (tt_wpttype_cmt, false) →
      s2.cdatastr = trimmed s.cdatastr →
      s3.wpts = (gpx_end ext s2).wpts → s3.wpt_tmp = some j →
      get_tag hash s3.current_tag = (tt_wpttype_desc, false) →
      s3.cdatastr = trimmed s.cdatastr →
      ((gpx_end ext s3).wpts[j]?.getD default).description = trimmed s.cdatastr ∧
      ((gpx_end ext s3).wpts[j]?.getD default).notes = trimmed s.cdatastr ∧
      gpx_write_common_description cfg ((gpx_end ext s3).wpts[j]?.getD default) o =
        writeOptionalTextElement "name" o ++
        writeOptionalTextElement "cmt" (trimmed s.cdatastr) ++
        writeOptionalTextElement "desc" (trimmed s.cdatastr) ++
        write_gpx_url cfg (s2.wpts[j]?.getD default).urls ++
        writeOptionalTextElement "sym" (s2.wpts[j]?.getD default).icon_descr) ∧
    gpx_waypt_pr Externals.fixed {} []
      ((gpx_read Externals.fixed (gpx_rd_init {})
        (example_document_cmt " hello ")).wpts[0]?.getD default) =
    gpx_waypt_pr Externals.fixed {} []
      ((gpx_read Externals.fixed (gpx_rd_init {})
        (example_document_cmt_desc "hello" "hello")).wpts[0]?.getD default) := by
  obtain ⟨w, hw0⟩ : ∃ w, s.wpts[i]? = some w := ⟨s.wpts[i], List.getElem?_eq_getElem hi⟩
  have hget : (gpx_end ext s).wpts[i]?.getD default =
      { (s.wpts[i]?.getD default) with description := trimmed s.cdatastr } := by
    rw [gpx_end_cmt ext s i hw ht, upd_get_same _ s.wpts i hi, hw0]
    rfl
  refine ⟨desc_rule cfg, ?_, ?_, ?_, ?_, by decide⟩
  · rw [hget]
  · rw [hget]
    exact hn
  · rw [hget]
    exact desc_of_cmt_only cfg _ oname hn
  · intro s2 s3 j o hj hw2 ht2 hc2 hwp hw3 ht3 hc3
    obtain ⟨w2, hw20⟩ : ∃ w, s2.wpts[j]? = some w := ⟨s2.wpts[j], List.getElem?_eq_getElem hj⟩
    have hlen : j < (upd s2.wpts j
        (fun w => { w with description := trimmed s2.cdatastr })).length := by
      rw [upd_length]; exact hj
    have hget2 : (gpx_end ext s3).wpts[j]?.getD default =
        { (s2.wpts[j]?.getD default) with
          description := trimmed s.cdatastr, notes := trimmed s.cdatastr } := by
      rw [gpx_end_desc ext s3 j hw3 ht3, hwp, gpx_end_cmt ext s2 j hw2 ht2,
        upd_get_same _ _ j hlen, upd_get_same _ s2.wpts j hj, hw20, hc2, hc3, trimmed_trimmed]
      rfl
    rw [hget2]
    exact ⟨rfl, rfl, desc_of_cmt_and_desc cfg _ o rfl⟩

theorem desc_from_notes_or_cmt_witness :
    ((gpx_end Externals.fixed
      { current_tag := "/gpx/wpt/cmt", cdatastr := " hello ", wpts := [{}],
        wpt_tmp := some 0 }).wpts[0]?.getD default).description = "hello" ∧
    gpx_write_common_description {}
      ((gpx_end Externals.fixed
        { current_tag := "/gpx/wpt/cmt", cdatastr := " hello ", wpts := [{}],
          wpt_tmp := some 0 }).wpts[0]?.getD default) "" =
      writeTextElement "cmt" "hello" ++ writeTextElement "desc" "hello" :=
  ⟨by decide,
   ((desc_from_notes_or_cmt Externals.fixed {}
      { current_tag := "/gpx/wpt/cmt", cdatastr := " hello ", wpts := [{}], wpt_tmp := some 0 }
      0 "" (by decide) rfl (by decide) (by decide)).2.2.2.1).trans (by decide)⟩

/-! ## The link accumulators -/

theorem link_acc_with_wpt (s : State) (f : Waypoint → Waypoint) :
    link_acc (with_wpt s f) = link_acc s := by
  unfold with_wpt; split <;> rfl

theorem link_acc_with_rte (s : State) (f : route_head → route_head) :
    link_acc (with_rte s f) = link_acc s := by
  unfold with_rte; split <;> rfl

theorem link_acc_with_trk (s : State) (f : route_head → route_head) :
    link_acc (with_trk s f) = link_acc s := by
  unfold with_trk; split <;> rfl

theorem link_acc_with_global (s : State) (f : GpxGlobal → GpxGlobal) :
    link_acc (with_global s f) = link_acc s := by
  unfold with_global; split <;> rfl

theorem link_acc_with_link (s : State) (f : UrlLink → UrlLink) :
    link_acc (with_link s f) = link_acc s := by
  unfold with_link; split <;> rfl

theorem link_acc_with_rh_link (s : State) (f : UrlLink → UrlLink) :
    link_acc (with_rh_link s f) = link_acc s := by
  unfold with_rh_link; split <;> rfl

theorem link_acc_close_link (s : State) : link_acc (close_link s) = link_acc s := by
  unfold close_link
  split
  · split
    · exact link_acc_with_wpt _ _
    · rfl
  · rfl

theorem link_acc_close_rh_link_rte (s : State) :
    link_acc (close_rh_link s with_rte) = link_acc s := by
  unfold close_rh_link
  split
  · split
    · exact link_acc_with_rte _ _
    · rfl
  · rfl

theorem link_acc_close_rh_link_trk (s : State) :
    link_acc (close_rh_link s with_trk) = link_acc s := by
  unfold close_rh_link
  split
  · split
    · exact link_acc_with_trk _ _
    · rfl
  · rfl

theorem link_acc_gpx_end_switch (ext : Externals) (s : State) (t : tag_type) :
    (t ∈ link_tags → link_acc (gpx_end_switch ext s t) = ("", "", "")) ∧
    (t ∉ link_tags → t ∉ link_field_tags → link_acc (gpx_end_switch ext s t) = link_acc s) := by
  unfold gpx_end_switch
  cases t <;> dsimp only <;>
    first
    | exact ⟨fun _ => rfl, fun h => absurd (by decide) h⟩
    | exact ⟨fun h => absurd h (by decide), fun _ h => absurd (by decide) h⟩
    | exact ⟨fun h => absurd h (by decide), fun _ _ => rfl⟩
    | exact ⟨fun h => absurd h (by decide), fun _ _ => link_acc_with_wpt _ _⟩
    | exact ⟨fun h => absurd h (by decide), fun _ _ => link_acc_with_global _ _⟩
    | exact ⟨fun h => absurd h (by decide), fun _ _ => link_acc_with_rte _ _⟩
    | exact ⟨fun h => absurd h (by decide), fun _ _ => link_acc_with_trk _ _⟩
    | exact ⟨fun h => absurd h (by decide), fun _ _ => link_acc_with_link _ _⟩
    | exact ⟨fun h => absurd h (by decide), fun _ _ => link_acc_with_rh_link _ _⟩
    | exact ⟨fun h => absurd h (by decide), fun _ _ => link_acc_close_rh_link_rte _⟩
    | exact ⟨fun h => absurd h (by decide), fun _ _ => link_acc_close_rh_link_trk _⟩
    | (refine ⟨fun h => absurd h (by decide), fun _ _ => ?_⟩
       split
       · first
         | exact link_acc_close_link _
         | exact (link_acc_with_rte _ _).trans (link_acc_close_link _)
         | exact (link_acc_with_trk _ _).trans (link_acc_close_link _)
       · exact link_acc_close_link _)
    | (refine ⟨fun h => absurd h (by decide), fun _ _ => ?_⟩
       split
       · rfl
       · split
         · exact link_acc_with_wpt _ _
         · rfl)

theorem link_acc_tag_log_wpt (s : State) (attr : List Attr) :
    link_acc (tag_log_wpt s attr) = link_acc s := by
  unfold tag_log_wpt
  split
  · rfl
  · simp only []
    split <;> rfl

theorem link_acc_start_link (s : State) (attr : List Attr) :
    link_acc (start_link s attr) =
      ((if hasAttribute attr "href" = true then attr_value attr "href" else s.link_url),
        s.link_text, s.link_type) := by
  unfold start_link
  split <;> rfl

theorem link_acc_gpx_start_switch (s : State) (t : tag_type) (attr : List Attr)
    (ns : List NsDecl) :
    (t ∈ link_tags → link_acc (gpx_start_switch s t attr ns) =
      ((if hasAttribute attr "href" = true then attr_value attr "href" else s.link_url),
        s.link_text, s.link_type)) ∧
    (t ∉ link_tags → link_acc (gpx_start_switch s t attr ns) = link_acc s) := by
  unfold gpx_start_switch
  cases t <;> dsimp only <;>
    first
    | exact ⟨fun _ => link_acc_start_link s attr, fun h => absurd (by decide) h⟩
    | exact ⟨fun h => absurd h (by decide), fun _ => rfl⟩
    | exact ⟨fun h => absurd h (by decide), fun _ => link_acc_with_wpt _ _⟩
    | (refine ⟨fun h => absurd h (by decide), fun _ => ?_⟩
       obtain ⟨v, a, h⟩ := tag_gpx_form s attr ns
       rw [h]
       rfl)
    | (refine ⟨fun h => absurd h (by decide), fun _ => ?_⟩
       split
       · first
         | exact link_acc_with_wpt _ _
         | exact link_acc_tag_log_wpt _ _
       · rfl)

theorem link_acc_start_something_else (s : State) (el : String) (attr : List Attr)
    (ns : List NsDecl) : link_acc (start_something_else s el attr ns) = link_acc s :=
  start_something_else_frame link_acc (fun _ _ _ => rfl) (fun s p fs => by cases p <;> rfl)
    s el attr ns

theorem link_acc_end_something_else (s : State) :
    link_acc (end_something_else s) = link_acc s :=
  end_something_else_frame link_acc (fun _ _ _ => rfl) s

theorem link_acc_gpx_cdata (s : State) (t : String) : link_acc (gpx_cdata s t) = link_acc s :=
  gpx_cdata_frame link_acc (fun _ _ _ => rfl) (fun _ _ => rfl) s t

theorem link_acc_gpx_start (s : State) (el : String) (attr : List Attr) (ns : List NsDecl) :
    ((get_tag hash s.current_tag).1 ∈ link_tags → link_acc (gpx_start s el attr ns) =
      ((if hasAttribute attr "href" = true then attr_value attr "href" else s.link_url),
        s.link_text, s.link_type)) ∧
    ((get_tag hash s.current_tag).1 ∉ link_tags →
      link_acc (gpx_start s el attr ns) = link_acc s) := by
  obtain ⟨h1, h2⟩ := link_acc_gpx_start_switch { s with cdatastr := "" }
    (get_tag hash s.current_tag).1 attr ns
  rw [gpx_start_eq]
  split
  · rename_i hu
    refine ⟨fun h => ?_, fun _ => link_acc_start_something_else _ _ _ _⟩
    rw [hu] at h
    exact absurd h (by decide)
  · split
    · exact ⟨fun h => (link_acc_start_something_else _ _ _ _).trans (h1 h),
        fun h => (link_acc_start_something_else _ _ _ _).trans (h2 h)⟩
    · exact ⟨h1, h2⟩

theorem link_acc_gpx_end (ext : Externals) (s : State) :
    ((get_tag hash s.current_tag).1 ∈ link_tags → link_acc (gpx_end ext s) = ("", "", "")) ∧
    ((get_tag hash s.current_tag).1 ∉ link_tags →
      (get_tag hash s.current_tag).1 ∉ link_field_tags →
      link_acc (gpx_end ext s) = link_acc s) := by
  obtain ⟨h1, h2⟩ := link_acc_gpx_end_switch ext { s with cdatastr := trimmed s.cdatastr }
    (get_tag hash s.current_tag).1
  rw [gpx_end_eq]
  split
  · rename_i hu
    refine ⟨fun h => ?_, fun _ _ => link_acc_end_something_else _⟩
    rw [hu] at h
    exact absurd h (by decide)
  · split
    · exact ⟨fun h => (link_acc_end_something_else _).trans (h1 h),
        fun h h' => (link_acc_end_something_else _).trans (h2 h h')⟩
    · exact ⟨h1, h2⟩

theorem tag_path_map_entry_links : tag_path_map.all entry_links = true := by
  decide!

theorem tag_links (p : List String) (hp : ∀ n ∈ p, '/' ∉ n.data) :
    ((get_tag hash (path_of p)).1 ∈ link_tags → p ∈ link_paths) ∧
    ((get_tag hash (path_of p)).1 ∈ link_field_tags → open_link p = true) := by
  rcases get_tag_cases (path_of p) with h | ⟨tm, hm, hn, h⟩
  · rw [h]
    exact ⟨fun h1 => absurd h1 (by decide), fun h1 => absurd h1 (by decide)⟩
  · have he : entry_links tm = true := List.all_eq_true.mp tag_path_map_entry_links tm hm
    simp only [entry_links, Bool.and_eq_true, Bool.or_eq_true, Bool.not_eq_true',
      List.contains, ← Bool.not_eq_true, List.elem_iff] at he
    rw [hn, path_names_path_of p hp] at he
    rw [h]
    exact ⟨fun m => he.1.resolve_left (fun n => n m), fun m => he.2.resolve_left (fun n => n m)⟩

theorem link_paths_tags (p : List String) (h : p ∈ link_paths) :
    (get_tag hash (path_of p)).1 ∈ link_tags := by
  simp only [link_paths, List.mem_cons, List.mem_singleton, List.not_mem_nil, or_false] at h
  rcases h with rfl | rfl | rfl | rfl | rfl | rfl <;> decide

theorem open_link_of_mem (p : List String) (h : p ∈ link_paths) : open_link p = true := by
  unfold open_link
  rw [List.any_eq_true]
  exact ⟨p, h, List.isPrefixOf_iff_prefix.mpr (List.prefix_refl p)⟩

theorem open_link_mono (st : List String) (n : String) (h : open_link st = true) :
    open_link (st ++ [n]) = true := by
  unfold open_link at h ⊢
  rw [List.any_eq_true] at h ⊢
  obtain ⟨p, hp, hpre⟩ := h
  exact ⟨p, hp, isPrefixOf_mono p st n hpre⟩

theorem open_link_concat (st : List String) (n : String) (h : open_link (st ++ [n]) = true) :
    open_link st = true ∨ st ++ [n] ∈ link_paths := by
  unfold open_link at h ⊢
  rw [List.any_eq_true] at h
  obtain ⟨p, hp, hpre⟩ := h
  rcases isPrefixOf_concat p st n hpre with h1 | h1
  · left
    rw [List.any_eq_true]
    exact ⟨p, hp, h1⟩
  · right
    rw [h1]
    exact hp

theorem links_clear_start (ext : Externals) (s : State) (st : List String) (n : String)
    (attr : List Attr) (ns : List NsDecl) (hc : s.current_tag = path_of st)
    (h : open_link st = false → link_acc s = ("", "", ""))
    (hst : ∀ m ∈ st, '/' ∉ m.data) (hn : '/' ∉ n.data) :
    open_link (st ++ [n]) = false →
      link_acc (gpx_read_token ext s (Token.StartElement n attr ns)) = ("", "", "") := by
  intro ho
  have hp' : ∀ m ∈ st ++ [n], '/' ∉ m.data := by
    intro m hm
    rcases List.mem_append.mp hm with h1 | h1
    · exact hst m h1
    · rw [List.mem_singleton.mp h1]; exact hn
  have hos : open_link st = false := by
    cases hx : open_link st with
    | false => rfl
    | true => rw [open_link_mono st n hx] at ho; cases ho
  have hnt : (get_tag hash (path_of (st ++ [n]))).1 ∉ link_tags := by
    intro m
    rw [open_link_of_mem _ ((tag_links _ hp').1 m)] at ho
    cases ho
  show link_acc (gpx_start { s with current_tag := s.current_tag ++ "/" ++ n } n attr ns) = _
  have hc1 : ({ s with current_tag := s.current_tag ++ "/" ++ n } : State).current_tag =
      path_of (st ++ [n]) := by
    show s.current_tag ++ "/" ++ n = _
    rw [path_of_concat, ← hc]
  have h2 := (link_acc_gpx_start { s with current_tag := s.current_tag ++ "/" ++ n } n attr ns).2
  rw [hc1] at h2
  exact (h2 hnt).trans (h hos)

theorem links_clear_end (ext : Externals) (s : State) (st : List String) (n : String)
    (hc : s.current_tag = path_of st)
    (h : open_link st = false → link_acc s = ("", "", ""))
    (hst : ∀ m ∈ st, '/' ∉ m.data) (hl : st.getLast? = some n) :
    open_link st.dropLast = false →
      link_acc (gpx_read_token ext s (Token.EndElement n)) = ("", "", "") := by
  intro ho
  have hst_eq : st.dropLast ++ [n] = st := List.dropLast_append_getLast? n hl
  obtain ⟨h1, h2⟩ := link_acc_gpx_end ext s
  rw [hc] at h1 h2
  show link_acc { gpx_end ext s with
    current_tag := chop (gpx_end ext s).current_tag (n.length + 1), cdatastr := "" } = _
  show link_acc (gpx_end ext s) = _
  by_cases hlt : (get_tag hash (path_of st)).1 ∈ link_tags
  · exact h1 hlt
  · have hos : open_link st = false := by
      cases hx : open_link st with
      | false => rfl
      | true =>
        rw [← hst_eq] at hx
        rcases open_link_concat st.dropLast n hx with h3 | h3
        · rw [h3] at ho; cases ho
        · rw [hst_eq] at h3
          exact absurd (link_paths_tags st h3) hlt
    have hnf : (get_tag hash (path_of st)).1 ∉ link_field_tags := by
      intro m
      rw [(tag_links st hst).2 m] at hos
      cases hos
    exact (h2 hlt hnf).trans (h hos)

theorem links_clear_read (ext : Externals) :
    ∀ (ts : List Token) (s : State) (st st' : List String),
      s.current_tag = path_of st → (open_link st = false → link_acc s = ("", "", "")) →
      (∀ m ∈ st, '/' ∉ m.data) → nested st ts = some st' →
      open_link st' = false → link_acc (gpx_read ext s ts) = ("", "", "") := by
  intro ts
  induction ts with
  | nil =>
    intro s st st' _ h _ hn
    cases hn
    exact h
  | cons tok ts ih =>
    intro s st st' hc h hst hn
    cases tok with
    | StartElement n attr ns =>
      simp only [nested] at hn
      split at hn
      · cases hn
      · rename_i hs
        refine ih _ _ _ (path_read_token_start ext s st n attr ns hc)
          (links_clear_start ext s st n attr ns hc h hst hs) ?_ hn
        intro m hm
        rcases List.mem_append.mp hm with h1 | h1
        · exact hst m h1
        · rw [List.mem_singleton.mp h1]; exact hs
    | EndElement n =>
      simp only [nested] at hn
      split at hn
      · rename_i hl
        exact ih _ _ _ (path_read_token_end ext s st n hc hl)
          (links_clear_end ext s st n hc h hst hl)
          (fun m hm => hst m (List.mem_of_mem_dropLast hm)) hn
      · cases hn
    | Characters text =>
      exact ih _ _ _ ((current_tag_gpx_cdata s text).trans hc)
        (fun o => (link_acc_gpx_cdata s text).trans (h o)) hst hn
    | Other => exact ih _ _ _ hc h hst hn
    | EndDocument =>
      cases hn
      exact h
    | Invalid =>
      cases hn
      exact h

/-- C37: gpx_end at the path of a link element (of the metadata, a point, a route or a
track) leaves link_url, link_text and link_type empty. When gpx_read reads a well-nested
sequence of tokens from a state in which the three are empty, they are empty after every
part of the sequence at whose end no link element is open. The start tag of a link element
that arrives when no link element is open therefore leaves in link_url the value of its
own href attribute, or the empty text when it has none, and leaves link_text and link_type
empty; in the example the second link of the waypoint, which has no href attribute, is
stored with an empty address, not with the address of the first link. -/
theorem link_accumulators_cleared (ext : Externals) (s0 : State) (ts : List Token)
    (st : List String) (h0 : link_acc s0 = ("", "", "")) (hn : nested [] ts = some st) :
    (∀ s : State, (get_tag hash s.current_tag).1 ∈ link_tags →
      (gpx_end ext s).link_url = "" ∧ (gpx_end ext s).link_text = "" ∧
      (gpx_end ext s).link_type = "") ∧
    (∀ ts1 ts2, ts = ts1 ++ ts2 →
      ∃ st1, nested [] ts1 = some st1 ∧
        (open_link st1 = false →
          (gpx_read ext (gpx_rd_init s0) ts1).link_url = "" ∧
          (gpx_read ext (gpx_rd_init s0) ts1).link_text = "" ∧
          (gpx_read ext (gpx_rd_init s0) ts1).link_type = "")) ∧
    (∀ ts1 n attr ns ts2, ts = ts1 ++ Token.StartElement n attr ns :: ts2 →
      ∃ st1, nested [] ts1 = some st1 ∧
        (open_link st1 = false →
          (get_tag hash (path_of (st1 ++ [n]))).1 ∈ link_tags →
          link_acc (gpx_read_token ext (gpx_read ext (gpx_rd_init s0) ts1)
            (Token.StartElement n attr ns)) =
            ((if hasAttribute attr "href" = true then attr_value attr "href" else ""),
              "", ""))) ∧
    ((gpx_read Externals.fixed (gpx_rd_init {}) example_document_links).wpts[0]?.getD
      default).urls =
      [⟨"http://a.example", "A", "text/html"⟩, ⟨"", "", ""⟩] := by
  have key : ∀ ts1 ts2, ts = ts1 ++ ts2 →
      ∃ st1, nested [] ts1 = some st1 ∧
        (gpx_read ext (gpx_rd_init s0) ts1).current_tag = path_of st1 ∧
        (open_link st1 = false →
          link_acc (gpx_read ext (gpx_rd_init s0) ts1) = ("", "", "")) := by
    intro ts1 ts2 e
    rw [e] at hn
    obtain ⟨st1, h1⟩ := nested_left ts1 ts2 [] st hn
    exact ⟨st1, h1, path_read ext ts1 _ [] st1 rfl h1,
      links_clear_read ext ts1 (gpx_rd_init s0) [] st1 rfl (fun _ => h0)
        (fun m hm => absurd hm (List.not_mem_nil m)) h1⟩
  refine ⟨?_, ?_, ?_, by decide⟩
  · intro s hs
    have := (link_acc_gpx_end ext s).1 hs
    exact ⟨congrArg (fun x => x.1) this, congrArg (fun x => x.2.1) this,
      congrArg (fun x => x.2.2) this⟩
  · intro ts1 ts2 e
    obtain ⟨st1, h1, _, h3⟩ := key ts1 ts2 e
    refine ⟨st1, h1, fun o => ?_⟩
    have := h3 o
    exact ⟨congrArg (fun x => x.1) this, congrArg (fun x => x.2.1) this,
      congrArg (fun x => x.2.2) this⟩
  · intro ts1 n attr ns ts2 e
    obtain ⟨st1, h1, h2, h3⟩ := key ts1 _ e
    refine ⟨st1, h1, fun o hl => ?_⟩
    have hacc := h3 o
    have hc1 : ({ gpx_read ext (gpx_rd_init s0) ts1 with
        current_tag := (gpx_read ext (gpx_rd_init s0) ts1).current_tag ++ "/" ++ n } :
          State).current_tag = path_of (st1 ++ [n]) := by
      show (gpx_read ext (gpx_rd_init s0) ts1).current_tag ++ "/" ++ n = _
      rw [path_of_concat, ← h2]
    have hs1 := (link_acc_gpx_start { gpx_read ext (gpx_rd_init s0) ts1 with
      current_tag := (gpx_read ext (gpx_rd_init s0) ts1).current_tag ++ "/" ++ n }
      n attr ns).1
    rw [hc1] at hs1
    have e1 : (gpx_read ext (gpx_rd_init s0) ts1).link_url = "" :=
      congrArg (fun x => x.1) hacc
    have e2 : (gpx_read ext (gpx_rd_init s0) ts1).link_text = "" :=
      congrArg (fun x => x.2.1) hacc
    have e3 : (gpx_read ext (gpx_rd_init s0) ts1).link_type = "" :=
      congrArg (fun x => x.2.2) hacc
    show link_acc (gpx_start _ n attr ns) = _
    rw [hs1 hl]
    show (_, (gpx_read ext (gpx_rd_init s0) ts1).link_text,
      (gpx_read ext (gpx_rd_init s0) ts1).link_type) = _
    rw [e2, e3]
    show ((if hasAttribute attr "href" = true then attr_value attr "href"
      else (gpx_read ext (gpx_rd_init s0) ts1).link_url), "", "") = _
    rw [e1]

theorem link_accumulators_cleared_witness :
    nested [] example_document_links = some [] ∧
    (gpx_read Externals.fixed (gpx_rd_init {}) example_document_links).link_url = "" ∧
    (gpx_read Externals.fixed (gpx_rd_init {}) (example_document_links.take 3)).link_url =
      "http://a.example" := by
  refine ⟨by decide, ?_, by decide⟩
  obtain ⟨st1, h1, h2⟩ :=
    (link_accumulators_cleared Externals.fixed {} example_document_links [] rfl
      (by decide)).2.1 example_document_links [] (List.append_nil _).symm
  have e : st1 = [] := by
    have h3 : nested [] example_document_links = some [] := by decide
    rw [h3] at h1
    exact (Option.some.inj h1).symm
  rw [e] at h2
  exact (h2 (by decide)).1

/-! ## The arena of preserved nodes -/

theorem getTag_upd_same (tags : List xml_tag) (l : Nat) (f : xml_tag → xml_tag)
    (h : l < tags.length) : getTag (upd tags l f) l = f (getTag tags l) := by
  unfold getTag
  rw [upd_get_same f tags l h, List.getElem?_eq_getElem h]
  rfl

theorem getTag_upd_other (tags : List xml_tag) (l i : Nat) (f : xml_tag → xml_tag)
    (h : l ≠ i) : getTag (upd tags l f) i = getTag tags i := by
  unfold getTag
  rw [upd_get_other f tags l i h]

theorem upd_out_of_range {α : Type} (f : α → α) :
    ∀ (l : List α) (i : Nat), l.length ≤ i → upd l i f = l := by
  intro l
  induction l with
  | nil => intro i _; rfl
  | cons a as ih =>
    intro i h
    cases i with
    | zero => simp at h
    | succ k =>
      simp only [upd]
      rw [ih k (by simpa using h)]

/-- The pointer fields of a node that an assignment f to the node keeps. -/
theorem getTag_upd_ptr (tags : List xml_tag) (l i : Nat) (f : xml_tag → xml_tag)
    (hp : ∀ t, (f t).parent = t.parent) :
    (getTag (upd tags l f) i).parent = (getTag tags i).parent := by
  by_cases h : l = i
  · by_cases hl : l < tags.length
    · rw [← h, getTag_upd_same tags l f hl, hp]
    · rw [upd_out_of_range f tags l (by omega)]
  · rw [getTag_upd_other tags l i f h]

theorem getTag_upd_child (tags : List xml_tag) (l i : Nat) (f : xml_tag → xml_tag)
    (hp : ∀ t, (f t).child = t.child) :
    (getTag (upd tags l f) i).child = (getTag tags i).child := by
  by_cases h : l = i
  · by_cases hl : l < tags.length
    · rw [← h, getTag_upd_same tags l f hl, hp]
    · rw [upd_out_of_range f tags l (by omega)]
  · rw [getTag_upd_other tags l i f h]

theorem getTag_upd_sibling (tags : List xml_tag) (l i : Nat) (f : xml_tag → xml_tag)
    (hp : ∀ t, (f t).sibling = t.sibling) :
    (getTag (upd tags l f) i).sibling = (getTag tags i).sibling := by
  by_cases h : l = i
  · by_cases hl : l < tags.length
    · rw [← h, getTag_upd_same tags l f hl, hp]
    · rw [upd_out_of_range f tags l (by omega)]
  · rw [getTag_upd_other tags l i f h]

theorem parent_chain_transfer (tags tags' : List xml_tag) (n0 : Nat)
    (hlen : tags.length ≤ tags'.length)
    (hp : ∀ i, i < tags.length → (getTag tags' i).parent = (getTag tags i).parent) :
    ∀ l, ParentChain tags n0 l → ParentChain tags' n0 l := by
  intro l
  induction l with
  | nil => intro _; trivial
  | cons a rest ih =>
    intro h
    obtain ⟨h1, h2, h3, h4⟩ := h
    exact ⟨h1, by omega, (hp a h2).trans h3, ih h4⟩

/-- A text assignment to a node leaves the forest as it is. -/
theorem tree_ok_text (n0 : Nat) (tags : List xml_tag) (l : Nat) (f : xml_tag → xml_tag)
    (hp : ∀ t, (f t).parent = t.parent) (hc : ∀ t, (f t).child = t.child)
    (hs : ∀ t, (f t).sibling = t.sibling) (h : TreeOK n0 tags) :
    TreeOK n0 (upd tags l f) := by
  obtain ⟨h0, h1, h2⟩ := h
  have hl : (upd tags l f).length = tags.length := upd_length f tags l
  refine ⟨by rw [hl]; exact h0, ?_, ?_⟩
  · intro i j hi hi2 hsib
    rw [hl] at hi2
    rw [getTag_upd_sibling tags l i f hs] at hsib
    obtain ⟨a, b, c⟩ := h1 i j hi hi2 hsib
    rw [hl, getTag_upd_ptr tags l j f hp, getTag_upd_ptr tags l i f hp]
    exact ⟨a, b, c⟩
  · intro i j hi hi2 hch
    rw [hl] at hi2
    rw [getTag_upd_child tags l i f hc] at hch
    obtain ⟨a, b, c⟩ := h2 i j hi hi2 hch
    rw [hl, getTag_upd_ptr tags l j f hp]
    exact ⟨a, b, c⟩

/-- The forest after one node has been added: a pointer of an old node is the old one or
points to the new node, which then has the right parent. -/
theorem tree_ok_extend (n0 : Nat) (tags tags' : List xml_tag) (h : TreeOK n0 tags)
    (e1 : tags'.length = tags.length + 1)
    (e2 : ∀ i, i < tags.length → (getTag tags' i).parent = (getTag tags i).parent)
    (e3 : ∀ i j, i < tags.length → (getTag tags' i).sibling = some j →
      (getTag tags i).sibling = some j ∨
      (j = tags.length ∧ (getTag tags' tags.length).parent = (getTag tags i).parent))
    (e4 : ∀ i j, i < tags.length → (getTag tags' i).child = some j →
      (getTag tags i).child = some j ∨
      (j = tags.length ∧ (getTag tags' tags.length).parent = some i))
    (e5 : (getTag tags' tags.length).child = none ∧
      (getTag tags' tags.length).sibling = none) :
    TreeOK n0 tags' := by
  obtain ⟨h0, h1, h2⟩ := h
  refine ⟨by omega, ?_, ?_⟩
  · intro i j hi hi2 hsib
    by_cases hin : i = tags.length
    · rw [hin, e5.2] at hsib
      cases hsib
    · have hi3 : i < tags.length := by omega
      rcases e3 i j hi3 hsib with ho | ⟨hj, hpar⟩
      · obtain ⟨a, b, c⟩ := h1 i j hi hi3 ho
        exact ⟨a, by omega, by rw [e2 j b, e2 i hi3]; exact c⟩
      · rw [hj]
        exact ⟨by omega, by omega, by rw [hpar, e2 i hi3]⟩
  · intro i j hi hi2 hch
    by_cases hin : i = tags.length
    · rw [hin, e5.1] at hch
      cases hch
    · have hi3 : i < tags.length := by omega
      rcases e4 i j hi3 hch with ho | ⟨hj, hpar⟩
      · obtain ⟨a, b, c⟩ := h2 i j hi hi3 ho
        exact ⟨a, by omega, by rw [e2 j b]; exact c⟩
      · rw [hj]
        exact ⟨by omega, by omega, hpar⟩

theorem last_sibling_ok (n0 : Nat) (tags : List xml_tag) (h : TreeOK n0 tags) :
    ∀ (f i : Nat), n0 ≤ i → i < tags.length →
      n0 ≤ last_sibling tags f i ∧ last_sibling tags f i < tags.length ∧
      (getTag tags (last_sibling tags f i)).parent = (getTag tags i).parent := by
  intro f
  induction f with
  | zero => intro i h1 h2; exact ⟨h1, h2, rfl⟩
  | succ f ih =>
    intro i h1 h2
    unfold last_sibling
    cases hs : (getTag tags i).sibling with
    | none => exact ⟨h1, h2, rfl⟩
    | some j =>
      obtain ⟨a, b, c⟩ := h.2.1 i j h1 h2 hs
      obtain ⟨a2, b2, c2⟩ := ih j a b
      exact ⟨a2, b2, c2.trans c⟩

/-- A new node linked as the sibling of the node l. -/
theorem tree_ok_add_sibling (n0 : Nat) (tags : List xml_tag) (l : Nat) (x : xml_tag)
    (h : TreeOK n0 tags) (hl : l < tags.length)
    (hx : x.parent = (getTag tags l).parent) (hc : x.child = none) (hs : x.sibling = none) :
    TreeOK n0 (upd tags l (fun t => { t with sibling := some tags.length }) ++ [x]) ∧
    (∀ i, i < tags.length →
      (getTag (upd tags l (fun t => { t with sibling := some tags.length }) ++ [x]) i).parent =
        (getTag tags i).parent) ∧
    getTag (upd tags l (fun t => { t with sibling := some tags.length }) ++ [x])
      tags.length = x := by
  have hlen : (upd tags l (fun t => { t with sibling := some tags.length })).length =
      tags.length := upd_length _ tags l
  have hnew : getTag (upd tags l (fun t => { t with sibling := some tags.length }) ++ [x])
      tags.length = x := by
    have := getTag_append_mid (upd tags l (fun t => { t with sibling := some tags.length })) x []
    rw [hlen] at this
    exact this
  have hold : ∀ i, i < tags.length →
      getTag (upd tags l (fun t => { t with sibling := some tags.length }) ++ [x]) i =
        getTag (upd tags l (fun t => { t with sibling := some tags.length })) i := by
    intro i hi
    exact getTag_append_left _ _ i (by rw [hlen]; exact hi)
  have hpar : ∀ i, i < tags.length →
      (getTag (upd tags l (fun t => { t with sibling := some tags.length }) ++ [x]) i).parent =
        (getTag tags i).parent := by
    intro i hi
    rw [hold i hi]
    exact getTag_upd_ptr tags l i (fun t => { t with sibling := some tags.length })
      (fun _ => rfl)
  refine ⟨tree_ok_extend n0 tags _ h (by rw [List.length_append, hlen]; rfl) hpar ?_ ?_ ?_,
    hpar, hnew⟩
  · intro i j hi hsib
    rw [hold i hi] at hsib
    by_cases hil : l = i
    · right
      rw [← hil, getTag_upd_same tags l _ hl] at hsib
      rw [hnew, hx, ← hil]
      exact ⟨(Option.some.inj hsib).symm, rfl⟩
    · left
      rw [getTag_upd_other tags l i _ hil] at hsib
      exact hsib
  · intro i j hi hch
    left
    rw [hold i hi] at hch
    exact (getTag_upd_child tags l i (fun t => { t with sibling := some tags.length })
      (fun _ => rfl)).symm.trans hch
  · rw [hnew]
    exact ⟨hc, hs⟩

/-- A new node linked as the first child of the node c. -/
theorem tree_ok_add_child (n0 : Nat) (tags : List xml_tag) (c : Nat) (x : xml_tag)
    (h : TreeOK n0 tags) (hl : c < tags.length)
    (hx : x.parent = some c) (hc : x.child = none) (hs : x.sibling = none) :
    TreeOK n0 (upd tags c (fun t => { t with child := some tags.length }) ++ [x]) ∧
    (∀ i, i < tags.length →
      (getTag (upd tags c (fun t => { t with child := some tags.length }) ++ [x]) i).parent =
        (getTag tags i).parent) ∧
    getTag (upd tags c (fun t => { t with child := some tags.length }) ++ [x])
      tags.length = x := by
  have hlen : (upd tags c (fun t => { t with child := some tags.length })).length =
      tags.length := upd_length _ tags c
  have hnew : getTag (upd tags c (fun t => { t with child := some tags.length }) ++ [x])
      tags.length = x := by
    have := getTag_append_mid (upd tags c (fun t => { t with child := some tags.length })) x []
    rw [hlen] at this
    exact this
  have hold : ∀ i, i < tags.length →
      getTag (upd tags c (fun t => { t with child := some tags.length }) ++ [x]) i =
        getTag (upd tags c (fun t => { t with child := some tags.length })) i := by
    intro i hi
    exact getTag_append_left _ _ i (by rw [hlen]; exact hi)
  have hpar : ∀ i, i < tags.length →
      (getTag (upd tags c (fun t => { t with child := some tags.length }) ++ [x]) i).parent =
        (getTag tags i).parent := by
    intro i hi
    rw [hold i hi]
    exact getTag_upd_ptr tags c i (fun t => { t with child := some tags.length })
      (fun _ => rfl)
  refine ⟨tree_ok_extend n0 tags _ h (by rw [List.length_append, hlen]; rfl) hpar ?_ ?_ ?_,
    hpar, hnew⟩
  · intro i j hi hsib
    left
    rw [hold i hi] at hsib
    exact (getTag_upd_sibling tags c i (fun t => { t with child := some tags.length })
      (fun _ => rfl)).symm.trans hsib
  · intro i j hi hch
    rw [hold i hi] at hch
    by_cases hil : c = i
    · right
      rw [← hil, getTag_upd_same tags c _ hl] at hch
      rw [hnew, hx, ← hil]
      exact ⟨(Option.some.inj hch).symm, rfl⟩
    · left
      rw [getTag_upd_other tags c i _ hil] at hch
      exact hch
  · rw [hnew]
    exact ⟨hc, hs⟩

/-- A new node that no node points to yet. -/
theorem tree_ok_add_root (n0 : Nat) (tags : List xml_tag) (x : xml_tag)
    (h : TreeOK n0 tags) (hc : x.child = none) (hs : x.sibling = none) :
    TreeOK n0 (tags ++ [x]) ∧
    (∀ i, i < tags.length → (getTag (tags ++ [x]) i).parent = (getTag tags i).parent) ∧
    getTag (tags ++ [x]) tags.length = x := by
  have hnew : getTag (tags ++ [x]) tags.length = x := getTag_append_mid tags x []
  have hold : ∀ i, i < tags.length → getTag (tags ++ [x]) i = getTag tags i :=
    fun i hi => getTag_append_left _ _ i hi
  have hpar : ∀ i, i < tags.length →
      (getTag (tags ++ [x]) i).parent = (getTag tags i).parent := by
    intro i hi
    rw [hold i hi]
  refine ⟨tree_ok_extend n0 tags _ h (by rw [List.length_append]; rfl) hpar ?_ ?_ ?_,
    hpar, hnew⟩
  · intro i j hi hsib
    left
    rw [hold i hi] at hsib
    exact hsib
  · intro i j hi hch
    left
    rw [hold i hi] at hch
    exact hch
  · rw [hnew]
    exact ⟨hc, hs⟩

/-! ## The entity of the preserved elements under the actions of the reader -/

theorem find_gpx_append_gmsd (fs : List format_specific_data) (g : List (tag_type × String)) :
    fs_chain_find_gpx (fs_chain_add fs (format_specific_data.gmsd g)) =
      fs_chain_find_gpx fs := by
  induction fs with
  | nil => rfl
  | cons d rest ih =>
    cases d with
    | fs_xml t => rfl
    | gmsd f => simpa [fs_chain_add, fs_chain_find_gpx] using ih

theorem find_gpx_map_gmsd (fs : List format_specific_data)
    (k : List (tag_type × String) → List (tag_type × String)) :
    fs_chain_find_gpx (fs.map (fun d =>
      match d with
      | format_specific_data.gmsd fields => format_specific_data.gmsd (k fields)
      | other => other)) = fs_chain_find_gpx fs := by
  induction fs with
  | nil => rfl
  | cons d rest ih =>
    cases d with
    | fs_xml t => rfl
    | gmsd f => simpa [fs_chain_find_gpx] using ih

theorem find_gpx_garmin (t : tag_type) (c : String) (w : Waypoint) :
    fs_chain_find_gpx (garmin_fs_xml_convert t c w).fs = fs_chain_find_gpx w.fs := by
  have h0 : fs_chain_find_gpx
      (if GMSD_FIND w.fs = true then w
       else { w with fs := fs_chain_add w.fs (format_specific_data.gmsd []) }).fs =
      fs_chain_find_gpx w.fs := by
    split
    · rfl
    · exact find_gpx_append_gmsd w.fs []
  unfold garmin_fs_xml_convert
  simp only []
  split
  · split
    · exact h0
    · exact h0
  · split
    · exact h0
    · exact h0
  · split
    · exact h0
    · exact h0
  · exact (find_gpx_map_gmsd _ (fun fields => fields ++ [(t, c)])).trans h0

theorem fs_root_congr (s s' : State) (h1 : s'.fs_ptr = s.fs_ptr)
    (h2 : s'.wpts.map (fun w => fs_chain_find_gpx w.fs) =
      s.wpts.map (fun w => fs_chain_find_gpx w.fs))
    (h3 : s'.heads.map (fun h => fs_chain_find_gpx h.fs) =
      s.heads.map (fun h => fs_chain_find_gpx h.fs)) :
    fs_root s' = fs_root s := by
  have gw : ∀ (l : List Waypoint) (i : Nat),
      fs_chain_find_gpx (l[i]?.getD default).fs =
        ((l.map (fun w => fs_chain_find_gpx w.fs))[i]?).getD none := by
    intro l i
    rw [List.getElem?_map]
    cases l[i]? <;> rfl
  have gh : ∀ (l : List route_head) (i : Nat),
      fs_chain_find_gpx (l[i]?.getD default).fs =
        ((l.map (fun w => fs_chain_find_gpx w.fs))[i]?).getD none := by
    intro l i
    rw [List.getElem?_map]
    cases l[i]? <;> rfl
  have lw : s'.wpts.length = s.wpts.length := by
    have := congrArg List.length h2
    simpa using this
  have lh : s'.heads.length = s.heads.length := by
    have := congrArg List.length h3
    simpa using this
  unfold fs_root
  rw [h1]
  cases s.fs_ptr with
  | none => rfl
  | some p =>
    cases p with
    | wpt i =>
      simp only [Option.map_some', FsPtr.valid, fs_of, lw, gw, h2]
    | head i =>
      simp only [Option.map_some', FsPtr.valid, fs_of, lh, gh, h3]

theorem fs_root_with_wpt (s : State) (f : Waypoint → Waypoint)
    (hf : ∀ w, fs_chain_find_gpx (f w).fs = fs_chain_find_gpx w.fs) :
    fs_root (with_wpt s f) = fs_root s := by
  unfold with_wpt
  split
  · exact fs_root_congr s _ rfl (map_upd _ f hf s.wpts _) rfl
  · rfl

theorem fs_root_with_wpt_garmin (s : State) (t : tag_type) (c : String) :
    fs_root (with_wpt s (garmin_fs_xml_convert t c)) = fs_root s :=
  fs_root_with_wpt s _ (find_gpx_garmin t c)

theorem fs_root_with_rte (s : State) (f : route_head → route_head)
    (hf : ∀ w, fs_chain_find_gpx (f w).fs = fs_chain_find_gpx w.fs) :
    fs_root (with_rte s f) = fs_root s := by
  unfold with_rte
  split
  · exact fs_root_congr s _ rfl rfl (map_upd _ f hf s.heads _)
  · rfl

theorem fs_root_with_trk (s : State) (f : route_head → route_head)
    (hf : ∀ w, fs_chain_find_gpx (f w).fs = fs_chain_find_gpx w.fs) :
    fs_root (with_trk s f) = fs_root s := by
  unfold with_trk
  split
  · exact fs_root_congr s _ rfl rfl (map_upd _ f hf s.heads _)
  · rfl

theorem fs_root_with_global (s : State) (f : GpxGlobal → GpxGlobal) :
    fs_root (with_global s f) = fs_root s := by
  unfold with_global; split <;> rfl

theorem fs_root_with_link (s : State) (f : UrlLink → UrlLink) :
    fs_root (with_link s f) = fs_root s := by
  unfold with_link; split <;> rfl

theorem fs_root_with_rh_link (s : State) (f : UrlLink → UrlLink) :
    fs_root (with_rh_link s f) = fs_root s := by
  unfold with_rh_link; split <;> rfl

theorem fs_root_close_link (s : State) : fs_root (close_link s) = fs_root s := by
  unfold close_link
  split
  · split
    · exact fs_root_with_wpt _ _ (fun _ => rfl)
    · rfl
  · rfl

theorem fs_root_close_rh_link_rte (s : State) :
    fs_root (close_rh_link s with_rte) = fs_root s := by
  unfold close_rh_link
  split
  · split
    · exact fs_root_with_rte _ _ (fun _ => rfl)
    · rfl
  · rfl

theorem fs_root_close_rh_link_trk (s : State) :
    fs_root (close_rh_link s with_trk) = fs_root s := by
  unfold close_rh_link
  split
  · split
    · exact fs_root_with_trk _ _ (fun _ => rfl)
    · rfl
  · rfl

set_option maxHeartbeats 1000000 in
theorem fs_root_gpx_end_switch (ext : Externals) (s : State) (t : tag_type) :
    fs_root (gpx_end_switch ext s t) = fs_root s := by
  unfold gpx_end_switch
  cases t <;> dsimp only <;>
    first
    | rfl
    | exact fs_root_with_wpt _ _ (by intro _; rfl)
    | exact fs_root_with_wpt_garmin _ _ _
    | exact fs_root_with_global _ _
    | exact fs_root_with_rte _ _ (by intro _; rfl)
    | exact fs_root_with_trk _ _ (by intro _; rfl)
    | exact fs_root_with_link _ _
    | exact fs_root_with_rh_link _ _
    | exact fs_root_close_rh_link_rte _
    | exact fs_root_close_rh_link_trk _
    | exact fs_root_congr s _ rfl rfl rfl
    | exact (fs_root_congr (with_global s _) _ rfl rfl rfl).trans (fs_root_with_global _ _)
    | exact (fs_root_congr (with_wpt s _) _ rfl rfl rfl).trans
        (fs_root_with_wpt _ _ (by intro _; rfl))
    | exact (fs_root_congr (with_rte s _) _ rfl rfl rfl).trans
        (fs_root_with_rte _ _ (by intro _; rfl))
    | exact (fs_root_congr (with_trk s _) _ rfl rfl rfl).trans
        (fs_root_with_trk _ _ (by intro _; rfl))
    | (split
       · first
         | exact (fs_root_congr (close_link s) _ rfl rfl rfl).trans (fs_root_close_link s)
         | exact (fs_root_congr (with_rte (close_link s) _) _ rfl rfl rfl).trans
             ((fs_root_with_rte _ _ (by intro _; rfl)).trans (fs_root_close_link s))
         | exact (fs_root_congr (with_trk (close_link s) _) _ rfl rfl rfl).trans
             ((fs_root_with_trk _ _ (by intro _; rfl)).trans (fs_root_close_link s))
       · exact (fs_root_congr (close_link s) _ rfl rfl rfl).trans (fs_root_close_link s))
    | (split
       · exact fs_root_congr s _ rfl rfl rfl
       · split
         · exact (fs_root_congr (with_wpt s _) _ rfl rfl rfl).trans
             (fs_root_with_wpt _ _ (by intro _; rfl))
         · exact fs_root_congr s _ rfl rfl rfl)

/-! ## The nodes of the open elements under the actions of the reader -/

theorem fs_root_none_iff (s : State) : fs_root s = none ↔ s.fs_ptr = none := by
  unfold fs_root
  cases s.fs_ptr <;> simp

theorem fs_root_some (s : State) (p : FsPtr) (h : s.fs_ptr = some p) :
    fs_root s = some (p.valid s, fs_chain_find_gpx (fs_of s p)) := by
  unfold fs_root
  rw [h]
  rfl

theorem find_gpx_append_some (fs l : List format_specific_data) (x : Option Nat)
    (h : fs_chain_find_gpx fs = some x) : fs_chain_find_gpx (fs ++ l) = some x := by
  induction fs with
  | nil => simp [fs_chain_find_gpx] at h
  | cons d rest ih =>
    cases d with
    | fs_xml t => simpa [fs_chain_find_gpx] using h
    | gmsd f =>
      simp only [fs_chain_find_gpx] at h
      simpa [fs_chain_find_gpx] using ih h

theorem valid_set_fs (s : State) (p q : FsPtr) (fs : List format_specific_data) :
    q.valid (set_fs s p fs) = q.valid s := by
  cases p <;> cases q <;> simp [FsPtr.valid, set_fs, upd_length]

theorem fs_of_set_fs_frame (s : State) (A : List xml_tag) (c : Option Nat) (q : Option FsPtr)
    (p : FsPtr) (fs : List format_specific_data) (hv : p.valid s = true) :
    fs_of (set_fs { s with tags := A, cur_tag := c, fs_ptr := q } p fs) p = fs :=
  fs_of_set_fs _ _ _ (by cases p <;> exact hv)

/-- The frame of the arena: a step that keeps the arena, the current node and the root of
the entity, or starts a new entity while no node is open, keeps the invariant. -/
theorem core_frame (n0 : Nat) (s s' : State) (nodes : List Nat)
    (h : NodesCore n0 s nodes) (ht : s'.tags = s.tags) (hc : s'.cur_tag = s.cur_tag)
    (hf : fs_root s' = fs_root s ∨ fs_root s' = some (true, none)) :
    NodesCore n0 s' nodes := by
  obtain ⟨h1, h2, h3, h4, h5⟩ := h
  refine ⟨hc.trans h1, by rw [ht]; exact h2, by rw [ht]; exact h3, ?_, ?_⟩
  · intro v f hvf
    rcases hf with hf | hf
    · rw [hf] at hvf
      rw [ht]
      exact h4 v f hvf
    · rw [hf] at hvf
      simp only [Option.some.injEq, Prod.mk.injEq] at hvf
      refine ⟨hvf.1.symm, ?_⟩
      intro r hr
      rw [← hvf.2] at hr
      cases hr
  · intro hn
    rcases hf with hf | hf
    · exact h5 ((fs_root_none_iff s).mp (hf ▸ (fs_root_none_iff s').mpr hn))
    · rw [(fs_root_none_iff s').mpr hn] at hf
      cases hf

theorem core_start_none (s : State) (el : String) (attr : List Attr) (ns : List NsDecl)
    (h : s.fs_ptr = none) : start_something_else s el attr ns = s := by
  unfold start_something_else
  rw [h]

theorem core_end_none (s : State) (h : s.cur_tag = none) : end_something_else s = s := by
  unfold end_something_else
  rw [h]

theorem core_end (n0 : Nat) (s : State) (k : Nat) (nodes : List Nat)
    (h : NodesCore n0 s (k :: nodes)) : NodesCore n0 (end_something_else s) nodes := by
  obtain ⟨h1, h2, h3, h4, h5⟩ := h
  have hc : s.cur_tag = some k := h1
  have he : end_something_else s = { s with cur_tag := (getTag s.tags k).parent } := by
    unfold end_something_else
    rw [hc]
  rw [he]
  refine ⟨h2.2.2.1, h2.2.2.2, h3, ?_, ?_⟩
  · intro v f hvf
    exact h4 v f hvf
  · intro hn
    exact absurd (h5 hn) (by simp)

theorem core_cdata (n0 : Nat) (s : State) (text : String) (nodes : List Nat)
    (h : NodesCore n0 s nodes) : NodesCore n0 (gpx_cdata s text) nodes := by
  obtain ⟨h1, h2, h3, h4, h5⟩ := h
  have key : ∀ (l : Nat) (f : xml_tag → xml_tag), (∀ t, (f t).parent = t.parent) →
      (∀ t, (f t).child = t.child) → (∀ t, (f t).sibling = t.sibling) →
      NodesCore n0 { s with cdatastr := s.cdatastr ++ text, tags := upd s.tags l f } nodes := by
    intro l f hp hc hs
    refine ⟨h1, ?_, tree_ok_text n0 s.tags l f hp hc hs h3, ?_, h5⟩
    · exact parent_chain_transfer s.tags (upd s.tags l f) n0 (by rw [upd_length])
        (fun i _ => getTag_upd_ptr s.tags l i f hp) nodes h2
    · intro v f' hvf
      obtain ⟨k1, k2⟩ := h4 v f' hvf
      refine ⟨k1, fun r hr => ?_⟩
      obtain ⟨a, b, c⟩ := k2 r hr
      refine ⟨a, ?_, ?_⟩
      · show r < (upd s.tags l f).length
        rw [upd_length]
        exact b
      · show (getTag (upd s.tags l f) r).parent = none
        rw [getTag_upd_ptr s.tags l r f hp]
        exact c
  unfold gpx_cdata
  simp only []
  split
  · exact ⟨h1, h2, h3, h4, h5⟩
  · split
    · exact key _ _ (fun _ => rfl) (fun _ => rfl) (fun _ => rfl)
    · exact key _ _ (fun _ => rfl) (fun _ => rfl) (fun _ => rfl)

theorem core_start_some (n0 : Nat) (s : State) (p : FsPtr) (el : String) (attr : List Attr)
    (ns : List NsDecl) (nodes : List Nat) (h : NodesCore n0 s nodes)
    (hfs : s.fs_ptr = some p) :
    NodesCore n0 (start_something_else s el attr ns) (s.tags.length :: nodes) := by
  obtain ⟨h1, h2, h3, h4, h5⟩ := h
  have hlen : n0 ≤ s.tags.length := h3.1
  have hval : p.valid s = true := (h4 _ _ (fs_root_some s p hfs)).1
  -- a new arena that keeps the parents and has the new node at the end
  have key : ∀ (A : List xml_tag) (x : xml_tag), TreeOK n0 A →
      (∀ i, i < s.tags.length → (getTag A i).parent = (getTag s.tags i).parent) →
      getTag A s.tags.length = x → A.length = s.tags.length + 1 →
      x.parent = nodes.head? →
      NodesCore n0 { s with tags := A, cur_tag := some s.tags.length, fs_ptr := some p }
        (s.tags.length :: nodes) := by
    intro A x hA hpar hx hAl hxp
    rw [← hfs]
    refine ⟨rfl, ⟨hlen, ?_, ?_, ?_⟩, hA, ?_, ?_⟩
    · show s.tags.length < A.length
      omega
    · show (getTag A s.tags.length).parent = nodes.head?
      rw [hx]
      exact hxp
    · exact parent_chain_transfer s.tags A n0 (by omega) hpar nodes h2
    · intro v f hvf
      obtain ⟨k1, k2⟩ := h4 v f hvf
      refine ⟨k1, fun r hr => ?_⟩
      obtain ⟨a, b, c⟩ := k2 r hr
      refine ⟨a, ?_, ?_⟩
      · show r < A.length
        omega
      · show (getTag A r).parent = none
        rw [hpar r b]
        exact c
    · intro hn
      have : s.fs_ptr = none := hn
      rw [hfs] at this
      cases this
  unfold start_something_else
  rw [hfs]
  simp only []
  split
  · rename_i c hc
    have hn : nodes.head? = some c := by rw [← h1, hc]
    obtain ⟨k, rest, rfl⟩ : ∃ k rest, nodes = k :: rest := by
      cases nodes with
      | nil => cases hn
      | cons k rest => exact ⟨k, rest, rfl⟩
    have hkc : k = c := by simpa using hn
    subst hkc
    obtain ⟨c1, c2, c3, c4⟩ := h2
    split
    · rename_i ch hch
      obtain ⟨d1, d2, d3⟩ := h3.2.2 k ch c1 c2 hch
      obtain ⟨e1, e2, e3⟩ := last_sibling_ok n0 s.tags h3 s.tags.length ch d1 d2
      obtain ⟨t1, t2, t3⟩ := tree_ok_add_sibling n0 s.tags
        (last_sibling s.tags s.tags.length ch)
        { tagname := el, attributes := tag_attributes attr ns,
          parent := (getTag s.tags (last_sibling s.tags s.tags.length ch)).parent }
        h3 e2 rfl rfl rfl
      refine key _ _ t1 t2 t3 ?_ ?_
      · rw [List.length_append, upd_length]
        rfl
      · show (getTag s.tags (last_sibling s.tags s.tags.length ch)).parent = some k
        rw [e3, d3]
    · obtain ⟨t1, t2, t3⟩ := tree_ok_add_child n0 s.tags k
        { tagname := el, attributes := tag_attributes attr ns, parent := some k }
        h3 c2 rfl rfl rfl
      refine key _ _ t1 t2 t3 ?_ rfl
      rw [List.length_append, upd_length]
      rfl
  · rename_i hc
    have hn : nodes = [] := by
      have : nodes.head? = none := by rw [← h1, hc]
      cases nodes with
      | nil => rfl
      | cons k rest => cases this
    subst hn
    split
    · rename_i r hr
      obtain ⟨a, b, c⟩ := (h4 _ _ (fs_root_some s p hfs)).2 r hr
      obtain ⟨e1, e2, e3⟩ := last_sibling_ok n0 s.tags h3 s.tags.length r a b
      obtain ⟨t1, t2, t3⟩ := tree_ok_add_sibling n0 s.tags
        (last_sibling s.tags s.tags.length r)
        { tagname := el, attributes := tag_attributes attr ns, parent := none }
        h3 e2 (by rw [e3, c]) rfl rfl
      refine key _ _ t1 t2 t3 ?_ rfl
      rw [List.length_append, upd_length]
      rfl
    · rename_i hfind
      obtain ⟨t1, t2, t3⟩ := tree_ok_add_root n0 s.tags
        { tagname := el, attributes := tag_attributes attr ns, parent := none } h3 rfl rfl
      have hl : (s.tags ++ [fresh_tag el (tag_attributes attr ns) none]).length =
          s.tags.length + 1 := by
        rw [List.length_append]
        rfl
      refine ⟨?_, ?_, ?_, ?_, ?_⟩
      · rw [(set_fs_tags _ _ _).2]
        rfl
      · rw [(set_fs_tags _ _ _).1]
        refine ⟨hlen, ?_, ?_, trivial⟩
        · show s.tags.length < (s.tags ++ [fresh_tag el (tag_attributes attr ns) none]).length
          omega
        · exact congrArg xml_tag.parent t3
      · rw [(set_fs_tags _ _ _).1]
        exact t1
      · intro v f hvf
        rw [fs_root_some _ p ((set_fs_fs_ptr _ _ _).trans rfl), valid_set_fs,
          fs_of_set_fs_frame s _ _ _ p _ hval] at hvf
        simp only [Option.some.injEq, Prod.mk.injEq] at hvf
        refine ⟨hvf.1.symm.trans hval, ?_⟩
        intro r hr
        rw [(set_fs_tags _ _ _).1]
        cases hfd : fs_chain_find_gpx (fs_of s p) with
        | none =>
          have hr2 := hvf.2.trans hr
          rw [fs_chain_find_gpx_add _ _ hfd] at hr2
          simp only [Option.some.injEq] at hr2
          subst hr2
          refine ⟨hlen, ?_, ?_⟩
          · show s.tags.length < (s.tags ++ [fresh_tag el (tag_attributes attr ns) none]).length
            omega
          · exact congrArg xml_tag.parent t3
        | some x =>
          have := find_gpx_append_some (fs_of s p)
            [format_specific_data.fs_xml (some s.tags.length)] x hfd
          have hr2 := hvf.2.trans hr
          unfold fs_chain_add at hr2
          rw [this] at hr2
          simp only [Option.some.injEq] at hr2
          subst hr2
          exact absurd hfd (hfind r)
      · intro hn
        rw [set_fs_fs_ptr] at hn
        cases hn

theorem gpx_cdata_no_node (s : State) (text : String) (h : s.cur_tag = none) :
    gpx_cdata s text = { s with cdatastr := s.cdatastr ++ text } := by
  unfold gpx_cdata
  simp only []
  split
  · rfl
  · rename_i c hc
    have : s.cur_tag = some c := hc
    rw [h] at this
    cases this

theorem gpx_cdata_node (s : State) (text : String) (c : Nat) (h : s.cur_tag = some c) :
    ((getTag s.tags c).child = none →
      (gpx_cdata s text).tags =
        upd s.tags c (fun t => { t with cdata := trimmed (s.cdatastr ++ text) })) ∧
    (∀ ch, (getTag s.tags c).child = some ch →
      (gpx_cdata s text).tags =
        upd s.tags (last_sibling s.tags s.tags.length ch)
          (fun t => { t with parentcdata := trimmed (s.cdatastr ++ text) })) := by
  unfold gpx_cdata
  simp only []
  split
  · rename_i hc
    have : s.cur_tag = none := hc
    rw [h] at this
    cases this
  · rename_i c2 hc
    have e : s.cur_tag = some c2 := hc
    rw [h] at e
    cases e
    constructor
    · intro hch
      split
      · rename_i ch2 hch2
        have : (getTag s.tags c).child = some ch2 := hch2
        rw [hch] at this
        cases this
      · rfl
    · intro ch hch
      split
      · rename_i ch2 hch2
        have e2 : (getTag s.tags c).child = some ch2 := hch2
        rw [hch] at e2
        cases e2
        rfl
      · rename_i hch2
        have : (getTag s.tags c).child = none := hch2
        rw [hch] at this
        cases this

/-! ## The table and the nodes -/

theorem hash_find_prescan_known (t : String) (tm : tag_mapping) :
    ∀ (tbl : List tag_mapping) (h0 : TagHash),
      hash_find (prescan_loop tbl h0) t = some tm →
      tm.tag_type_ ≠ tt_unknown ∨ hash_find h0 t = some tm := by
  intro tbl
  induction tbl with
  | nil => intro h0 h; exact Or.inr (by simpa [prescan_loop] using h)
  | cons x rest ih =>
    intro h0 h
    unfold prescan_loop at h
    by_cases hz : x.tag_type_ = tt_unknown
    · simp only [hz, if_true] at h
      exact Or.inr h
    · simp only [hz, if_false] at h
      rcases ih _ h with hm | h2
      · exact Or.inl hm
      · simp only [hash_find] at h2
        by_cases hk : x.tag_name = t
        · simp only [hk, if_true, Option.some.injEq] at h2
          exact Or.inl (h2 ▸ hz)
        · simp only [hk, if_false] at h2
          exact Or.inr h2

/-- An unrecognised path has the passthrough flag. -/
theorem get_tag_unknown (t : String) (h : (get_tag hash t).1 = tt_unknown) :
    (get_tag hash t).2 = true := by
  unfold get_tag at h ⊢
  cases hf : hash_find hash t with
  | none => rfl
  | some tm =>
    rw [hf] at h
    rcases hash_find_prescan_known t tm tag_path_map [] hf with hk | h2
    · exact absurd h hk
    · simp [hash_find] at h2

theorem tag_path_map_entry_nodes : tag_path_map.all entry_nodes = true := by
  decide!

theorem tag_nodes (p : List String) (hp : ∀ n ∈ p, '/' ∉ n.data) :
    ((get_tag hash (path_of p)).2 = true → (get_tag hash (path_of p)).1 ∉ entity_tags) ∧
    ((get_tag hash (path_of p)).1 ∈ point_start_tags →
      ∀ k, k < p.length → preserved (p.take (k + 1)) = false) := by
  rcases get_tag_cases (path_of p) with h | ⟨tm, hm, hn, h⟩
  · rw [h]
    exact ⟨fun _ => by decide, fun h1 => absurd h1 (by decide)⟩
  · have he : entry_nodes tm = true := List.all_eq_true.mp tag_path_map_entry_nodes tm hm
    simp only [entry_nodes, Bool.and_eq_true, Bool.or_eq_true, Bool.not_eq_true',
      List.contains, ← Bool.not_eq_true, List.elem_iff, beq_iff_eq, List.all_eq_true,
      List.mem_range] at he
    rw [hn, path_names_path_of p hp] at he
    rw [h]
    refine ⟨fun h1 => ?_, fun h1 k hk => ?_⟩
    · rcases he.1 with h2 | h2
      · exact absurd h1 h2
      · exact h2
    · rcases he.2 with h2 | h2
      · exact absurd h1 h2
      · have := h2 k hk
        simpa using this

theorem stack_of_cons (lv : Level) (rest : List Level) :
    stack_of (lv :: rest) = stack_of rest ++ [lv.name] := by
  simp [stack_of]

theorem stack_of_length (levels : List Level) : (stack_of levels).length = levels.length := by
  simp [stack_of]

/-- Open elements none of which is preserved have no node. -/
theorem created_nil :
    ∀ (levels : List Level), LevelsOK levels →
      (∀ k, k < levels.length → preserved ((stack_of levels).take (k + 1)) = false) →
      created levels = [] := by
  intro levels
  induction levels with
  | nil => intro _ _; rfl
  | cons lv rest ih =>
    intro h hk
    obtain ⟨h1, h2, _⟩ := h
    have hn : lv.node = none := by
      by_contra hne
      have hp := h2 hne
      have hf := hk rest.length (by simp)
      rw [List.take_of_length_le (by rw [stack_of_length]; simp)] at hf
      rw [hp] at hf
      cases hf
    have hr : created rest = [] := by
      refine ih h1 (fun k hk2 => ?_)
      have hf := hk k (by simp; omega)
      rw [stack_of_cons, List.take_append_of_le_length (by rw [stack_of_length]; omega)] at hf
      exact hf
    simp [created, hn] at hr ⊢
    exact hr

/-! ## The switch statements and the nodes -/

theorem seed_lat_lon_fs (attr : List Attr) : (seed_lat_lon attr).fs = [] := by
  unfold seed_lat_lon
  simp only []
  split <;> split <;> rfl

theorem fs_root_tag_wpt (s : State) (attr : List Attr) :
    fs_root (tag_wpt s attr) = some (true, none) := by
  unfold fs_root tag_wpt
  simp [FsPtr.valid, fs_of, seed_lat_lon_fs, fs_chain_find_gpx]

theorem fs_root_new_head (s s' : State) (h1 : s'.fs_ptr = some (FsPtr.head s.heads.length))
    (h2 : s'.heads = s.heads ++ [({} : route_head)]) : fs_root s' = some (true, none) := by
  unfold fs_root
  rw [h1]
  simp [FsPtr.valid, fs_of, h2, fs_chain_find_gpx]

theorem fs_root_append_wpt (s s' : State) (x : List Waypoint)
    (hv : ∀ v f, fs_root s = some (v, f) → v = true) (h1 : s'.fs_ptr = s.fs_ptr)
    (h2 : s'.wpts = s.wpts ++ x) (h3 : s'.heads = s.heads) : fs_root s' = fs_root s := by
  cases hp : s.fs_ptr with
  | none =>
    rw [(fs_root_none_iff s).mpr hp, (fs_root_none_iff s').mpr (h1.trans hp)]
  | some p =>
    have hv2 := hv _ _ (fs_root_some s p hp)
    rw [fs_root_some s p hp, fs_root_some s' p (h1.trans hp)]
    cases p with
    | wpt i =>
      simp only [FsPtr.valid, decide_eq_true_eq] at hv2
      simp [FsPtr.valid, fs_of, h2, hv2, List.getElem?_append_left hv2]
      omega
    | head i => simp [FsPtr.valid, fs_of, h3]

theorem fs_root_tag_log_wpt (s : State) (attr : List Attr)
    (hv : ∀ v f, fs_root s = some (v, f) → v = true) :
    fs_root (tag_log_wpt s attr) = fs_root s := by
  unfold tag_log_wpt
  split
  · rfl
  · simp only []
    split
    · exact fs_root_append_wpt s _ _ hv rfl rfl rfl
    · exact fs_root_append_wpt s _ _ hv rfl rfl rfl

/-- The case of a start tag keeps the root of the entity of the preserved elements, or
makes a new entity without preserved elements the current one. -/
theorem fs_root_gpx_start_switch (s : State) (t : tag_type) (attr : List Attr)
    (ns : List NsDecl) (hv : ∀ v f, fs_root s = some (v, f) → v = true) :
    fs_root (gpx_start_switch s t attr ns) = fs_root s ∨
    fs_root (gpx_start_switch s t attr ns) = some (true, none) := by
  unfold gpx_start_switch
  cases t <;> dsimp only <;>
    first
    | exact Or.inl rfl
    | exact Or.inr (fs_root_tag_wpt _ _)
    | exact Or.inr (fs_root_new_head s _ rfl rfl)
    | (obtain ⟨v, a, h⟩ := tag_gpx_form s attr ns
       rw [h]
       exact Or.inl rfl)
    | (unfold start_link
       split <;> exact Or.inl rfl)
    | exact Or.inl (fs_root_with_wpt _ _ (by intro _; rfl))
    | (split
       · exact Or.inr ((fs_root_congr (with_wpt (tag_wpt s attr) _) _ rfl rfl rfl).trans
           ((fs_root_with_wpt _ _ (by intro _; rfl)).trans (fs_root_tag_wpt _ _)))
       · exact Or.inr (fs_root_tag_wpt _ _))
    | (split
       · exact Or.inl (fs_root_tag_log_wpt _ _ hv)
       · exact Or.inl rfl)
    | (split
       · exact Or.inl (fs_root_with_wpt _ _ (by intro _; rfl))
       · exact Or.inl rfl)

theorem cur_tag_tag_log_wpt (s : State) (attr : List Attr) :
    (tag_log_wpt s attr).cur_tag = s.cur_tag := by
  unfold tag_log_wpt
  split
  · rfl
  · simp only []
    split <;> rfl

theorem cur_tag_gpx_start_switch (s : State) (t : tag_type) (attr : List Attr)
    (ns : List NsDecl) :
    (gpx_start_switch s t attr ns).cur_tag =
      if t ∈ point_start_tags then none else s.cur_tag := by
  unfold gpx_start_switch
  cases t <;> dsimp only <;>
    first
    | rfl
    | (obtain ⟨v, a, h⟩ := tag_gpx_form s attr ns
       rw [h]
       rfl)
    | exact (nodes_with_wpt _ _).2
    | (unfold start_link; split <;> rfl)
    | (split
       · exact (nodes_with_wpt _ _).2
       · rfl)
    | (split
       · exact cur_tag_tag_log_wpt _ _
       · rfl)

theorem core_gpx_start_switch (n0 : Nat) (s : State) (t : tag_type) (attr : List Attr)
    (ns : List NsDecl) (nodes : List Nat) (h : NodesCore n0 s nodes)
    (hp : t ∈ point_start_tags → nodes = []) :
    NodesCore n0 (gpx_start_switch s t attr ns) nodes := by
  refine core_frame n0 s _ nodes h (tags_gpx_start_switch s t attr ns) ?_
    (fs_root_gpx_start_switch s t attr ns (fun v f hvf => (h.2.2.2.1 v f hvf).1))
  rw [cur_tag_gpx_start_switch]
  split
  · rename_i hm
    rw [h.1, hp hm]
    rfl
  · rfl

theorem cur_tag_gpx_end_switch (ext : Externals) (s : State) (t : tag_type) :
    (gpx_end_switch ext s t).cur_tag = if t = tt_wpt then none else s.cur_tag := by
  by_cases ht : t = tt_wpt
  · subst ht
    unfold gpx_end_switch
    dsimp only
    split <;> rfl
  · rw [if_neg ht]
    exact (nodes_gpx_end_switch ext s t).2 ht

theorem core_gpx_end_switch (n0 : Nat) (ext : Externals) (s : State) (t : tag_type)
    (nodes : List Nat) (h : NodesCore n0 s nodes) (hp : t = tt_wpt → nodes = []) :
    NodesCore n0 (gpx_end_switch ext s t) nodes := by
  refine core_frame n0 s _ nodes h (nodes_gpx_end_switch ext s t).1 ?_
    (Or.inl (fs_root_gpx_end_switch ext s t))
  rw [cur_tag_gpx_end_switch]
  split
  · rename_i hm
    rw [h.1, hp hm]
    rfl
  · rfl

/-! ## The nodes of the open elements along the tokens -/

theorem created_cons_none (name : String) (rest : List Level) :
    created (⟨name, none⟩ :: rest) = created rest := rfl

theorem created_cons_some (name : String) (k : Nat) (rest : List Level) :
    created (⟨name, some k⟩ :: rest) = k :: created rest := rfl

theorem take_prefix_levels (levels : List Level) (name : String) (k : Nat)
    (hk : k < levels.length) :
    (stack_of levels ++ [name]).take (k + 1) = (stack_of levels).take (k + 1) :=
  List.take_append_of_le_length (by rw [stack_of_length]; omega)

/-- A start tag pushes the element with the node it creates. -/
theorem nodes_ok_start (ext : Externals) (n0 : Nat) (s : State) (levels : List Level)
    (name : String) (attr : List Attr) (ns : List NsDecl) (h : NodesOK n0 s levels)
    (hname : '/' ∉ name.data) :
    NodesOK n0 (gpx_read_token ext s (Token.StartElement name attr ns))
      (⟨name, start_node s (stack_of levels) name⟩ :: levels) := by
  obtain ⟨hpath, hslash, hcore, hlv⟩ := h
  have hsl : ∀ n ∈ stack_of levels ++ [name], '/' ∉ n.data := by
    intro n hn
    simp only [stack_of, List.mem_append, List.mem_reverse, List.mem_map,
      List.mem_singleton] at hn
    rcases hn with ⟨lv, hm, rfl⟩ | rfl
    · exact hslash lv hm
    · exact hname
  have hP : s.current_tag ++ "/" ++ name = path_of (stack_of levels ++ [name]) := by
    rw [path_of_concat, hpath]
  have hpres : preserved (stack_of levels ++ [name]) =
      (get_tag hash (s.current_tag ++ "/" ++ name)).2 := by
    unfold preserved
    rw [hP]
  refine ⟨?_, ?_, ?_, hlv, ?_, ?_⟩
  · rw [path_read_token_start ext s (stack_of levels) name attr ns hpath, stack_of_cons]
  · intro lv hm
    rcases List.mem_cons.mp hm with rfl | hm
    · exact hname
    · exact hslash lv hm
  · show NodesCore n0 (gpx_start { s with current_tag := s.current_tag ++ "/" ++ name }
      name attr ns) _
    rw [gpx_start_eq]
    have hX0 : NodesCore n0
        { s with current_tag := s.current_tag ++ "/" ++ name, cdatastr := "" }
        (created levels) :=
      core_frame n0 s _ _ hcore rfl rfl (Or.inl (fs_root_congr s _ rfl rfl rfl))
    have hstart : ∀ (X : State), NodesCore n0 X (created levels) → X.fs_ptr = s.fs_ptr →
        X.tags = s.tags → preserved (stack_of levels ++ [name]) = true →
        NodesCore n0 (start_something_else X name attr ns)
          (created (⟨name, start_node s (stack_of levels) name⟩ :: levels)) := by
      intro X hX hf ht hp
      cases hfs : s.fs_ptr with
      | none =>
        have e : start_node s (stack_of levels) name = none := by
          simp [start_node, hfs]
        rw [e, created_cons_none, core_start_none X name attr ns (hf.trans hfs)]
        exact hX
      | some p =>
        have e : start_node s (stack_of levels) name = some s.tags.length := by
          simp [start_node, hfs, hp]
        rw [e, created_cons_some, ← ht]
        exact core_start_some n0 X p name attr ns _ hX (hf.trans hfs)
    by_cases hu : (get_tag hash (s.current_tag ++ "/" ++ name)).1 = tt_unknown
    · rw [if_pos hu]
      exact hstart _ hX0 rfl rfl (hpres.trans (get_tag_unknown _ hu))
    · rw [if_neg hu]
      by_cases hpt : (get_tag hash (s.current_tag ++ "/" ++ name)).2 = true
      · rw [if_pos hpt]
        have hne : (get_tag hash (s.current_tag ++ "/" ++ name)).1 ∉ entity_tags := by
          have := (tag_nodes _ hsl).1
          rw [← hP] at this
          exact this hpt
        refine hstart _ (core_gpx_start_switch n0 _ _ attr ns _ hX0 (fun hm => ?_))
          (fs_ptr_gpx_start_switch_other _ _ attr ns hne) (tags_gpx_start_switch _ _ _ _)
          (hpres.trans hpt)
        exact absurd (by
          simp only [point_start_tags, List.mem_cons, List.mem_singleton, List.not_mem_nil,
            or_false] at hm
          simp only [entity_tags, List.mem_cons, List.mem_singleton, List.not_mem_nil,
            or_false]
          rcases hm with hm | hm | hm
          · exact Or.inl hm
          · exact Or.inr (Or.inl hm)
          · exact Or.inr (Or.inr (Or.inl hm))) hne
      · rw [if_neg hpt]
        have e : start_node s (stack_of levels) name = none := by
          simp [start_node, hpres, hpt]
        rw [e, created_cons_none]
        refine core_gpx_start_switch n0 _ _ attr ns _ hX0 (fun hm => ?_)
        have := (tag_nodes _ hsl).2
        rw [← hP] at this
        refine created_nil levels hlv (fun k hk => ?_)
        rw [← take_prefix_levels levels name k hk]
        exact this hm k (by simp [stack_of_length]; omega)
  · intro hne
    show preserved (stack_of (⟨name, _⟩ :: levels)) = true
    rw [stack_of_cons]
    by_contra hp
    exact hne (by simp [start_node, hp])
  · intro hn hp
    rw [stack_of_cons] at hp
    have hp2 : preserved (stack_of levels ++ [name]) = true := hp
    have : s.fs_ptr = none := by
      cases hfs : s.fs_ptr with
      | none => rfl
      | some p =>
        have hn2 : start_node s (stack_of levels) name = none := hn
        simp [start_node, hfs, hp2] at hn2
    exact hcore.2.2.2.2 this

/-- An end tag pops the innermost open element. -/
theorem nodes_ok_end (ext : Externals) (n0 : Nat) (s : State) (lv : Level)
    (rest : List Level) (h : NodesOK n0 s (lv :: rest)) :
    NodesOK n0 (gpx_read_token ext s (Token.EndElement lv.name)) rest := by
  obtain ⟨hpath, hslash, hcore, hlv1, hlv2, hlv3⟩ := h
  have hsl : ∀ n ∈ stack_of (lv :: rest), '/' ∉ n.data := by
    intro n hn
    simp only [stack_of, List.mem_reverse, List.mem_map] at hn
    obtain ⟨l, hm, rfl⟩ := hn
    exact hslash l hm
  have hpres : preserved (stack_of (lv :: rest)) = (get_tag hash s.current_tag).2 := by
    unfold preserved
    rw [hpath]
  have hlast : (stack_of (lv :: rest)).getLast? = some lv.name := by
    rw [stack_of_cons]
    simp
  have hdrop : (stack_of (lv :: rest)).dropLast = stack_of rest := by
    rw [stack_of_cons]
    simp
  have hend : NodesCore n0 (gpx_end ext s) (created rest) := by
    rw [gpx_end_eq]
    have hX0 : NodesCore n0 { s with cdatastr := trimmed s.cdatastr }
        (created (lv :: rest)) :=
      core_frame n0 s _ _ hcore rfl rfl (Or.inl (fs_root_congr s _ rfl rfl rfl))
    have hstop : ∀ (X : State), NodesCore n0 X (created (lv :: rest)) →
        preserved (stack_of (lv :: rest)) = true →
        NodesCore n0 (end_something_else X) (created rest) := by
      intro X hX hp
      cases hnode : lv.node with
      | none =>
        have e : created (lv :: rest) = created rest := by
          simp [created, hnode]
        have e2 : created rest = [] := hlv3 hnode hp
        rw [e] at hX
        rw [core_end_none X (by rw [hX.1, e2]; rfl)]
        exact hX
      | some k =>
        have e : created (lv :: rest) = k :: created rest := by
          simp [created, hnode]
        rw [e] at hX
        exact core_end n0 X k _ hX
    by_cases hu : (get_tag hash s.current_tag).1 = tt_unknown
    · rw [if_pos hu]
      exact hstop _ hX0 (hpres.trans (get_tag_unknown _ hu))
    · rw [if_neg hu]
      by_cases hpt : (get_tag hash s.current_tag).2 = true
      · rw [if_pos hpt]
        have hne : (get_tag hash s.current_tag).1 ∉ entity_tags := by
          have := (tag_nodes _ hsl).1
          rw [← hpath] at this
          exact this hpt
        refine hstop _ (core_gpx_end_switch n0 ext _ _ _ hX0 (fun hm => ?_)) (hpres.trans hpt)
        exact absurd (by rw [hm]; decide) hne
      · rw [if_neg hpt]
        have hnode : lv.node = none := by
          by_contra hne
          exact hpt (hpres.symm.trans (hlv2 hne))
        have e : created (lv :: rest) = created rest := by
          simp [created, hnode]
        rw [← e]
        refine core_gpx_end_switch n0 ext _ _ _ hX0 (fun hm => ?_)
        have := (tag_nodes _ hsl).2
        rw [← hpath, hm] at this
        refine created_nil (lv :: rest) ⟨hlv1, hlv2, hlv3⟩ (fun k hk => ?_)
        exact this (by decide) k (by rw [stack_of_length]; exact hk)
  refine ⟨?_, fun l hm => hslash l (List.mem_cons_of_mem _ hm), ?_, hlv1⟩
  · rw [path_read_token_end ext s (stack_of (lv :: rest)) lv.name hpath hlast, hdrop]
  · exact core_frame n0 (gpx_end ext s) _ _ hend rfl rfl
      (Or.inl (fs_root_congr (gpx_end ext s) _ rfl rfl rfl))

/-- A text keeps the open elements. -/
theorem nodes_ok_characters (ext : Externals) (n0 : Nat) (s : State) (levels : List Level)
    (text : String) (h : NodesOK n0 s levels) :
    NodesOK n0 (gpx_read_token ext s (Token.Characters text)) levels := by
  obtain ⟨hpath, hslash, hcore, hlv⟩ := h
  exact ⟨(current_tag_gpx_cdata s text).trans hpath, hslash, core_cdata n0 s text _ hcore, hlv⟩

theorem stack_of_getLast (rel : List Level) (n : String)
    (h : (stack_of rel).getLast? = some n) :
    ∃ lv rest, rel = lv :: rest ∧ lv.name = n := by
  cases rel with
  | nil => simp [stack_of] at h
  | cons lv rest =>
    rw [stack_of_cons] at h
    simp at h
    exact ⟨lv, rest, rfl, h⟩

/-- The open elements along a well-nested sequence of tokens: the elements that were open
at its start stay as they are, with their nodes. -/
theorem nodes_ok_read (ext : Externals) (n0 : Nat) (base : List Level) :
    ∀ (ts : List Token) (s : State) (rel : List Level) (st : List String),
      NodesOK n0 s (rel ++ base) → nested (stack_of rel) ts = some st →
      ∃ rel2, stack_of rel2 = st ∧ NodesOK n0 (gpx_read ext s ts) (rel2 ++ base) := by
  intro ts
  induction ts with
  | nil =>
    intro s rel st h hn
    cases hn
    exact ⟨rel, rfl, h⟩
  | cons tok ts ih =>
    intro s rel st h hn
    cases tok with
    | StartElement n attr ns =>
      simp only [nested] at hn
      split at hn
      · cases hn
      · rename_i hsl
        have := nodes_ok_start ext n0 s (rel ++ base) n attr ns h hsl
        exact ih _ (⟨n, start_node s (stack_of (rel ++ base)) n⟩ :: rel) st this
          (by rw [stack_of_cons]; exact hn)
    | EndElement n =>
      simp only [nested] at hn
      split at hn
      · rename_i hl
        obtain ⟨lv, rest, rfl, rfl⟩ := stack_of_getLast rel n hl
        have := nodes_ok_end ext n0 s lv (rest ++ base) h
        refine ih _ rest st this ?_
        rw [stack_of_cons] at hn
        simpa using hn
      · cases hn
    | Characters text =>
      exact ih _ rel st (nodes_ok_characters ext n0 s _ text h) hn
    | Other => exact ih _ rel st h hn
    | EndDocument =>
      cases hn
      exact ⟨rel, rfl, h⟩
    | Invalid =>
      cases hn
      refine ⟨rel, rfl, ?_⟩
      obtain ⟨hpath, hslash, hcore, hlv⟩ := h
      exact ⟨hpath, hslash,
        core_frame n0 s _ _ hcore rfl rfl (Or.inl (fs_root_congr s _ rfl rfl rfl)), hlv⟩

theorem stack_of_eq_nil (rel : List Level) (h : stack_of rel = []) : rel = [] := by
  cases rel with
  | nil => rfl
  | cons lv rest =>
    rw [stack_of_cons] at h
    simp at h

theorem nodes_ok_init (s0 : State) (h : s0.cur_tag = none) :
    NodesOK s0.tags.length (gpx_rd_init s0) [] := by
  refine ⟨rfl, fun lv hm => (by cases hm), ⟨h, trivial, ?_, ?_, fun _ => rfl⟩, trivial⟩
  · refine ⟨Nat.le_refl _, fun i j h1 h2 _ => ?_, fun i j h1 h2 _ => ?_⟩
    · exact absurd (show i < s0.tags.length from h2) (by omega)
    · exact absurd (show i < s0.tags.length from h2) (by omega)
  · intro v f hvf
    have : fs_root (gpx_rd_init s0) = none := (fs_root_none_iff _).mpr rfl
    rw [this] at hvf
    cases hvf

/-- The state after a well-nested sequence of tokens read from the start of a document
fits a list of open elements with the names of the stack. -/
theorem nodes_ok_document (ext : Externals) (s0 : State) (ts : List Token)
    (st : List String) (h0 : s0.cur_tag = none) (hn : nested [] ts = some st) :
    ∃ levels, stack_of levels = st ∧
      NodesOK s0.tags.length (gpx_read ext (gpx_rd_init s0) ts) levels := by
  obtain ⟨rel2, h1, h2⟩ := nodes_ok_read ext s0.tags.length [] ts (gpx_rd_init s0) [] st
    (nodes_ok_init s0 h0) hn
  exact ⟨rel2, h1, by simpa using h2⟩

/-- A balanced sequence of tokens keeps the current node. -/
theorem nodes_ok_balanced (ext : Externals) (n0 : Nat) (s : State) (levels : List Level)
    (sub : List Token) (h : NodesOK n0 s levels) (hn : nested [] sub = some []) :
    NodesOK n0 (gpx_read ext s sub) levels := by
  obtain ⟨rel2, h1, h2⟩ := nodes_ok_read ext n0 levels sub s [] [] h hn
  rw [stack_of_eq_nil rel2 h1] at h2
  exact h2

/-! ## The stack discipline of the current node -/

theorem start_node_tagname (s : State) (el : String) (attr : List Attr) (ns : List NsDecl)
    (hp : (get_tag hash s.current_tag).2 = true) (hf : s.fs_ptr.isSome = true) :
    (getTag (gpx_start s el attr ns).tags s.tags.length).tagname = el := by
  by_cases hu : (get_tag hash s.current_tag).1 = tt_unknown
  · obtain ⟨p, hp2⟩ := Option.isSome_iff_exists.mp hf
    rw [gpx_start_eq, if_pos hu]
    exact (start_something_else_node { s with cdatastr := "" } p el attr ns hp2).2.2.1
  · exact ((known_start s el attr ns hu).1 hp hf).2.2.2.1

theorem cur_tag_start (ext : Externals) (n0 : Nat) (s : State) (levels : List Level)
    (el : String) (attr : List Attr) (ns : List NsDecl) (h : NodesOK n0 s levels)
    (hel : '/' ∉ el.data) :
    (gpx_read_token ext s (Token.StartElement el attr ns)).cur_tag =
      if preserved (stack_of levels ++ [el]) = true ∧ s.fs_ptr.isSome = true then
        some s.tags.length
      else s.cur_tag := by
  have h1 := (nodes_ok_start ext n0 s levels el attr ns h hel).2.2.1.1
  rw [h1]
  unfold start_node
  by_cases hc : preserved (stack_of levels ++ [el]) = true ∧ s.fs_ptr.isSome = true
  · rw [if_pos hc]
    simp [hc.1, hc.2, created]
  · rw [if_neg hc]
    have : (preserved (stack_of levels ++ [el]) && s.fs_ptr.isSome) = false := by
      rw [Bool.and_eq_false_iff]
      by_cases hp : preserved (stack_of levels ++ [el]) = true
      · right
        cases hq : s.fs_ptr.isSome with
        | false => rfl
        | true => exact absurd ⟨hp, hq⟩ hc
      · left
        simpa using hp
    rw [this]
    simp only [Bool.false_eq_true, if_false]
    rw [created_cons_none, h.2.2.1.1]

/-- C34: let s be the state gpx_read has reached from gpx_rd_init after a well-nested
sequence of tokens with the open elements st, where the current node was null before the
document. When no element is open the current node of s is null, and it is null while
fs_ptr is null. Every balanced sequence of tokens read from s leaves the current node as
it was. A start tag makes the new node at the end of the arena, which has the name of the
element, the current node when the element is unrecognised or has the passthrough flag
and fs_ptr is set, and leaves the current node as it was otherwise; after every balanced
content of the element the current node is the one the start tag left, and after the end
tag of the element it is the one before the start tag. -/
theorem cur_tag_stack_discipline (ext : Externals) (s0 s : State) (ts : List Token)
    (st : List String) (h0 : s0.cur_tag = none) (hn : nested [] ts = some st)
    (hs : s = gpx_read ext (gpx_rd_init s0) ts) :
    (st = [] → s.cur_tag = none) ∧
    (s.fs_ptr = none → s.cur_tag = none) ∧
    (∀ sub, nested [] sub = some [] → (gpx_read ext s sub).cur_tag = s.cur_tag) ∧
    (∀ el attr ns, '/' ∉ el.data →
      (gpx_read_token ext s (Token.StartElement el attr ns)).cur_tag =
        (if preserved (st ++ [el]) = true ∧ s.fs_ptr.isSome = true then some s.tags.length
         else s.cur_tag) ∧
      (preserved (st ++ [el]) = true → s.fs_ptr.isSome = true →
        (getTag (gpx_read_token ext s (Token.StartElement el attr ns)).tags
          s.tags.length).tagname = el) ∧
      ∀ sub, nested [] sub = some [] →
        (gpx_read ext (gpx_read_token ext s (Token.StartElement el attr ns)) sub).cur_tag =
          (gpx_read_token ext s (Token.StartElement el attr ns)).cur_tag ∧
        (gpx_read_token ext
          (gpx_read ext (gpx_read_token ext s (Token.StartElement el attr ns)) sub)
          (Token.EndElement el)).cur_tag = s.cur_tag) := by
  obtain ⟨levels, hst, hok⟩ := nodes_ok_document ext s0 ts st h0 hn
  rw [← hs] at hok
  refine ⟨?_, ?_, ?_, ?_⟩
  · intro e
    rw [e] at hst
    rw [hok.2.2.1.1, stack_of_eq_nil levels hst]
    rfl
  · intro e
    rw [hok.2.2.1.1, hok.2.2.1.2.2.2.2 e]
    rfl
  · intro sub hsub
    rw [(nodes_ok_balanced ext _ s levels sub hok hsub).2.2.1.1, hok.2.2.1.1]
  · intro el attr ns hel
    have h1 := nodes_ok_start ext _ s levels el attr ns hok hel
    refine ⟨?_, ?_, ?_⟩
    · rw [← hst]
      exact cur_tag_start ext _ s levels el attr ns hok hel
    · intro hp hf
      have hp2 : (get_tag hash (s.current_tag ++ "/" ++ el)).2 = true := by
        rw [hok.1, ← path_of_concat, hst]
        exact hp
      exact start_node_tagname { s with current_tag := s.current_tag ++ "/" ++ el } el attr ns
        hp2 hf
    · intro sub hsub
      have h2 := nodes_ok_balanced ext _ _ _ sub h1 hsub
      refine ⟨?_, ?_⟩
      · rw [h2.2.2.1.1, h1.2.2.1.1]
      · have h3 := nodes_ok_end ext _ _ ⟨el, start_node s (stack_of levels) el⟩ levels h2
        rw [h3.2.2.1.1, hok.2.2.1.1]

theorem cur_tag_stack_discipline_witness :
    nested [] example_document_address = some [] ∧
    (gpx_read Externals.fixed (gpx_rd_init {}) example_document_address).cur_tag = none ∧
    (gpx_read Externals.fixed (gpx_rd_init {}) (example_document_address.take 5)).cur_tag =
      some 0 ∧
    (gpx_read Externals.fixed (gpx_rd_init {}) (example_document_address.take 6)).cur_tag =
      some 0 ∧
    (gpx_read Externals.fixed (gpx_rd_init {}) (example_document_address.take 9)).cur_tag =
      none :=
  ⟨by decide,
   (cur_tag_stack_discipline Externals.fixed {} _ example_document_address [] rfl (by decide)
     rfl).1 rfl,
   by decide, by decide, by decide⟩

/-! ## The node a text is stored in -/

/-- C32, as the code has it: let s be the state gpx_read has reached from gpx_rd_init
after a well-nested sequence of tokens with the open elements st, where the current node
was null before the document. gpx_cdata appends the text to the buffer the next end tag
reads, whatever the open elements are. It changes nothing else while the current node is
null, which is the case when none of the open elements is unrecognised or has the
passthrough flag. While the current node is set, the trimmed buffer is also stored in
that node, as its text when it has no child and as the text after its last child
otherwise, whether the innermost open element is that node or a recognised element
inside it. -/
theorem text_stored_in_current_node (ext : Externals) (s0 s : State) (ts : List Token)
    (st : List String) (text : String) (h0 : s0.cur_tag = none)
    (hn : nested [] ts = some st) (hs : s = gpx_read ext (gpx_rd_init s0) ts) :
    (gpx_cdata s text).cdatastr = s.cdatastr ++ text ∧
    (s.cur_tag = none → gpx_cdata s text = { s with cdatastr := s.cdatastr ++ text }) ∧
    ((∀ k, k < st.length → preserved (st.take (k + 1)) = false) → s.cur_tag = none) ∧
    (∀ c, s.cur_tag = some c →
      c < s.tags.length ∧
      ((getTag s.tags c).child = none →
        (gpx_cdata s text).tags =
          upd s.tags c (fun t => { t with cdata := trimmed (s.cdatastr ++ text) })) ∧
      (∀ ch, (getTag s.tags c).child = some ch →
        (gpx_cdata s text).tags =
          upd s.tags (last_sibling s.tags s.tags.length ch)
            (fun t => { t with parentcdata := trimmed (s.cdatastr ++ text) }))) := by
  obtain ⟨levels, hst, hok⟩ := nodes_ok_document ext s0 ts st h0 hn
  rw [← hs] at hok
  refine ⟨?_, gpx_cdata_no_node s text, ?_, ?_⟩
  · unfold gpx_cdata
    simp only []
    split
    · rfl
    · split <;> rfl
  · intro hk
    have : created levels = [] := by
      refine created_nil levels hok.2.2.2 (fun k hk2 => ?_)
      rw [hst]
      exact hk k (by rw [← hst, stack_of_length]; exact hk2)
    rw [hok.2.2.1.1, this]
    rfl
  · intro c hc
    refine ⟨?_, gpx_cdata_node s text c hc⟩
    have hh : (created levels).head? = some c := by rw [← hok.2.2.1.1, hc]
    have hchain := hok.2.2.1.2.1
    cases hcr : created levels with
    | nil =>
      rw [hcr] at hh
      cases hh
    | cons k rest =>
      rw [hcr] at hh hchain
      simp only [List.head?_cons, Option.some.injEq] at hh
      subst hh
      exact hchain.2.1

theorem text_stored_in_current_node_witness :
    nested [] (example_document_address.take 6) =
      some ["gpx", "wpt", "extensions", "gpxx:WaypointExtension", "gpxx:Address",
        "gpxx:StreetAddress"] ∧
    (gpx_cdata (gpx_read Externals.fixed (gpx_rd_init {}) (example_document_address.take 6))
      "Main St").cdatastr = "Main St" ∧
    (gpx_read Externals.fixed (gpx_rd_init {}) (example_document_address.take 6)).cur_tag =
      some 0 :=
  ⟨by decide,
   (text_stored_in_current_node Externals.fixed {} _ (example_document_address.take 6)
     ["gpx", "wpt", "extensions", "gpxx:WaypointExtension", "gpxx:Address",
       "gpxx:StreetAddress"]
     "Main St" rfl (by decide) rfl).1.trans (by decide),
   by decide⟩

/-- C32, the sentence as it stands, fails on a waypoint with the Garmin extension Address:
the path of gpxx:Address is not in the table, so the element has a node, and the element
gpxx:StreetAddress inside it is recognised and does not have the passthrough flag. While
StreetAddress is the innermost open element the current node is the node of Address; the
text Main St is stored in that node, and the end tag of StreetAddress also stores it as
the address of the waypoint. -/
theorem text_of_recognised_element_stored_in_node :
    get_tag hash
      (gpx_read Externals.fixed (gpx_rd_init {}) (example_document_address.take 6)).current_tag =
      (tt_garmin_wpt_addr, false) ∧
    (gpx_read Externals.fixed (gpx_rd_init {}) (example_document_address.take 6)).cur_tag =
      some 0 ∧
    (getTag (gpx_read Externals.fixed (gpx_rd_init {})
      (example_document_address.take 6)).tags 0).tagname = "gpxx:Address" ∧
    (getTag (gpx_read Externals.fixed (gpx_rd_init {})
      (example_document_address.take 6)).tags 0).cdata = "" ∧
    (getTag (gpx_read Externals.fixed (gpx_rd_init {})
      (example_document_address.take 7)).tags 0).cdata = "Main St" ∧
    ((gpx_read Externals.fixed (gpx_rd_init {})
      (example_document_address.take 8)).wpts[0]?.getD default).fs =
      [format_specific_data.fs_xml (some 0),
       format_specific_data.gmsd [(tt_garmin_wpt_addr, "Main St")]] ∧
    (getTag (gpx_read Externals.fixed (gpx_rd_init {}) example_document_address).tags 0).cdata =
      "Main St" := by
  decide

/-! ## Elements before the first point, route or track -/

theorem entity_tag_open (p : List String) (hp : ∀ n ∈ p, '/' ∉ n.data)
    (h : (open_point p || open_rte p || open_trk p) = false) :
    (get_tag hash (path_of p)).1 ∉ entity_tags := by
  simp only [Bool.or_eq_false_iff] at h
  obtain ⟨h1, h2, h3, h4, h5, _⟩ := tag_objects p hp
  intro hm
  simp only [entity_tags, List.mem_cons, List.mem_singleton, List.not_mem_nil,
    or_false] at hm
  rcases hm with hm | hm | hm | hm | hm
  · have := h1 (by rw [hm]; decide)
    rw [h.1.1] at this
    cases this
  · have := h1 (by rw [hm]; decide)
    rw [h.1.1] at this
    cases this
  · have := h1 (by rw [hm]; decide)
    rw [h.1.1] at this
    cases this
  · have := h4 (by rw [hm]; decide)
    rw [h.1.2] at this
    cases this
  · have := h5 (by rw [hm]; decide)
    rw [h.2] at this
    cases this

/-- While no wpt, rte or trk element has been opened, fs_ptr stays null. -/
theorem fs_ptr_none_read (ext : Externals) :
    ∀ (ts : List Token) (s : State) (st st2 : List String),
      s.current_tag = path_of st → (∀ n ∈ st, '/' ∉ n.data) → s.fs_ptr = none →
      nested st ts = some st2 → entity_free st ts = true →
      (gpx_read ext s ts).fs_ptr = none := by
  intro ts
  induction ts with
  | nil =>
    intro s st st2 _ _ hf _ _
    exact hf
  | cons tok ts ih =>
    intro s st st2 hp hsl hf hn he
    cases tok with
    | StartElement n attr ns =>
      simp only [nested] at hn
      split at hn
      · cases hn
      · rename_i hnn
        simp only [entity_free, Bool.and_eq_true, Bool.not_eq_true'] at he
        have hsl2 : ∀ m ∈ st ++ [n], '/' ∉ m.data := by
          intro m hm
          rcases List.mem_append.mp hm with hm | hm
          · exact hsl m hm
          · rw [List.mem_singleton.mp hm]
            exact hnn
        have hne := entity_tag_open (st ++ [n]) hsl2 he.1
        refine ih _ (st ++ [n]) st2 (path_read_token_start ext s st n attr ns hp) hsl2 ?_ hn
          he.2
        show (gpx_start { s with current_tag := s.current_tag ++ "/" ++ n } n attr ns).fs_ptr = _
        rw [fs_ptr_gpx_start]
        have e : s.current_tag ++ "/" ++ n = path_of (st ++ [n]) := by
          rw [path_of_concat, hp]
        simp only [entity_tags, List.mem_cons, List.mem_singleton, List.not_mem_nil,
          or_false, not_or] at hne
        rw [← e] at hne
        rw [if_neg (by
          intro hc
          rcases hc with hc | hc | hc
          · exact hne.1 hc
          · exact hne.2.1 hc
          · exact hne.2.2.1 hc), if_neg (by
          intro hc
          rcases hc with hc | hc
          · exact hne.2.2.2.1 hc
          · exact hne.2.2.2.2 hc)]
        exact hf
    | EndElement n =>
      simp only [nested] at hn
      split at hn
      · rename_i hl
        refine ih _ st.dropLast st2 (path_read_token_end ext s st n hp hl)
          (fun m hm => hsl m (List.dropLast_subset st hm)) ?_ hn he
        show (gpx_end ext s).fs_ptr = none
        rw [fs_ptr_gpx_end]
        exact hf
      · cases hn
    | Characters text =>
      exact ih _ st st2 ((current_tag_gpx_cdata s text).trans hp) hsl
        ((fs_ptr_gpx_cdata s text).trans hf) hn he
    | Other => exact ih _ st st2 hp hsl hf hn he
    | EndDocument => exact hf
    | Invalid => exact hf

theorem read_texts (ext : Externals) (rest : List Token) :
    ∀ (texts : List String) (x : State), x.cur_tag = none →
      gpx_read ext x (texts.map Token.Characters ++ rest) =
        gpx_read ext { x with cdatastr := texts.foldl (fun a b => a ++ b) x.cdatastr } rest := by
  intro texts
  induction texts with
  | nil => intro x _; rfl
  | cons t texts ih =>
    intro x hx
    show gpx_read ext (gpx_cdata x t) (texts.map Token.Characters ++ rest) = _
    rw [gpx_cdata_no_node x t hx]
    exact ih _ hx

/-- C35: let s be the state gpx_read has reached from gpx_rd_init after a well-nested
sequence of tokens with the open elements st in which no wpt, rte or trk element has been
opened, where the current node was null before the document. Then fs_ptr and the current
node of s are null; the start tag of an element whose path is not in the table changes
only the path and the text buffer, so it creates no node and changes no waypoint, route
or track; and the element with its texts and its end tag leaves the state as it was, the
text buffer emptied. -/
theorem early_unknown_element_dropped (ext : Externals) (s0 s : State) (ts : List Token)
    (st : List String) (el : String) (attr : List Attr) (ns : List NsDecl)
    (h0 : s0.cur_tag = none) (hn : nested [] ts = some st)
    (hf : entity_free [] ts = true) (hs : s = gpx_read ext (gpx_rd_init s0) ts)
    (hu : (get_tag hash (path_of (st ++ [el]))).1 = tt_unknown) :
    s.fs_ptr = none ∧ s.cur_tag = none ∧
    gpx_read_token ext s (Token.StartElement el attr ns) =
      { s with current_tag := path_of (st ++ [el]), cdatastr := "" } ∧
    (gpx_read_token ext s (Token.StartElement el attr ns)).tags = s.tags ∧
    (gpx_read_token ext s (Token.StartElement el attr ns)).wpts = s.wpts ∧
    (gpx_read_token ext s (Token.StartElement el attr ns)).heads = s.heads ∧
    ∀ texts : List String,
      gpx_read ext s
        (Token.StartElement el attr ns :: (texts.map Token.Characters ++ [Token.EndElement el])) =
        { s with cdatastr := "" } := by
  obtain ⟨levels, hst, hok⟩ := nodes_ok_document ext s0 ts st h0 hn
  rw [← hs] at hok
  have hfs : s.fs_ptr = none := by
    rw [hs]
    exact fs_ptr_none_read ext ts (gpx_rd_init s0) [] st rfl (fun n hm => by cases hm) rfl
      hn hf
  have hcur : s.cur_tag = none := by
    rw [hok.2.2.1.1, hok.2.2.1.2.2.2.2 hfs]
    rfl
  have hP : s.current_tag ++ "/" ++ el = path_of (st ++ [el]) := by
    rw [path_of_concat, hok.1, hst]
  have hstart : gpx_read_token ext s (Token.StartElement el attr ns) =
      { s with current_tag := path_of (st ++ [el]), cdatastr := "" } := by
    show gpx_start { s with current_tag := s.current_tag ++ "/" ++ el } el attr ns = _
    rw [gpx_start_eq, if_pos (by rw [hP]; exact hu), core_start_none _ el attr ns (by exact hfs), hP]
  refine ⟨hfs, hcur, hstart, ?_, ?_, ?_, ?_⟩
  · rw [hstart]
  · rw [hstart]
  · rw [hstart]
  · intro texts
    show gpx_read ext (gpx_read_token ext s (Token.StartElement el attr ns)) _ = _
    rw [hstart]
    refine (read_texts ext [Token.EndElement el] texts
      { s with current_tag := path_of (st ++ [el]), cdatastr := "" } hcur).trans ?_
    have e : gpx_end ext
        { s with current_tag := path_of (st ++ [el]),
                 cdatastr := texts.foldl (fun a b => a ++ b) "" } =
        { s with current_tag := path_of (st ++ [el]),
                 cdatastr := trimmed (texts.foldl (fun a b => a ++ b) "") } := by
      rw [gpx_end_eq, if_pos hu, core_end_none _ (by exact hcur)]
    show gpx_read_token ext _ (Token.EndElement el) = _
    unfold gpx_read_token
    simp only []
    rw [e]
    simp only []
    rw [← hP, chop_append]

theorem early_unknown_element_dropped_witness :
    nested [] (example_document_early_unknown.take 1) = some ["gpx"] ∧
    entity_free [] (example_document_early_unknown.take 1) = true ∧
    (get_tag hash "/gpx/foo").1 = tt_unknown ∧
    (gpx_read Externals.fixed (gpx_rd_init {}) (example_document_early_unknown.take 4)).tags =
      [] ∧
    gpx_read Externals.fixed (gpx_rd_init {}) (example_document_early_unknown.take 4) =
      { gpx_read Externals.fixed (gpx_rd_init {}) (example_document_early_unknown.take 1) with
        cdatastr := "" } :=
  ⟨by decide, by decide, by decide, by decide,
   (early_unknown_element_dropped Externals.fixed {} _ (example_document_early_unknown.take 1)
     ["gpx"] "foo" [("bar", "1")] [] rfl (by decide) (by decide) rfl
     (by decide)).2.2.2.2.2.2 ["baz"]⟩

/-! ## Texts that are not numbers -/

theorem QString_toDouble_not_ok (s : String) (h : QString_toDouble_ok s = false) :
    QString_toDouble s = ⟨0, 0⟩ := by
  unfold QString_toDouble_ok at h
  unfold QString_toDouble
  simp only [] at h ⊢
  have key : ∀ (n1 : Nat) (fr : Nat × Nat × List Char),
      (if n1 + fr.2.1 = 0 then false
       else
        match fr.2.2 with
        | [] => true
        | c :: r =>
          if c = 'e' ∨ c = 'E' then
            match scan_int r with
            | some (_, []) => true
            | _ => false
          else false) = false →
      (if n1 + fr.2.1 = 0 then (⟨0, 0⟩ : Dbl)
       else
        match (match fr.2.2 with
          | [] => some (0 : Int)
          | c :: r =>
            if c = 'e' ∨ c = 'E' then
              match scan_int r with
              | some (e, []) => some e
              | _ => none
            else none) with
        | none => ⟨0, 0⟩
        | some e =>
          if 0 ≤ e then
            ⟨(if (scan_sign (trimmed s).data).1 = true then -(fr.1 : Int) else (fr.1 : Int)) *
              10 ^ e.toNat, fr.2.1⟩
          else
            ⟨if (scan_sign (trimmed s).data).1 = true then -(fr.1 : Int) else (fr.1 : Int),
              fr.2.1 + (-e).toNat⟩) = ⟨0, 0⟩ := by
    intro n1 fr hfr
    obtain ⟨mant, n2, r2⟩ := fr
    simp only [] at hfr ⊢
    by_cases hz : n1 + n2 = 0
    · rw [if_pos hz]
    · rw [if_neg hz] at hfr ⊢
      cases r2 with
      | nil => simp at hfr
      | cons c r =>
        simp only [] at hfr ⊢
        by_cases hc : c = 'e' ∨ c = 'E'
        · rw [if_pos hc] at hfr ⊢
          cases hs : scan_int r with
          | none => rfl
          | some p =>
            obtain ⟨e, rest⟩ := p
            rw [hs] at hfr
            cases rest with
            | nil => simp at hfr
            | cons x xs => rfl
        · rw [if_neg hc]
  exact key (scan_digits (scan_sign (trimmed s).data).2 0 0).2.1
    (match (scan_digits (scan_sign (trimmed s).data).2 0 0).2.2 with
      | '.' :: r => scan_digits r (scan_digits (scan_sign (trimmed s).data).2 0 0).1 0
      | _ => ((scan_digits (scan_sign (trimmed s).data).2 0 0).1, 0,
          (scan_digits (scan_sign (trimmed s).data).2 0 0).2.2)) h

theorem QString_toDouble_ok_trimmed (x : String) :
    QString_toDouble_ok (trimmed x) = QString_toDouble_ok x := by
  unfold QString_toDouble_ok
  rw [trimmed_trimmed]

/-- C26 (amended): when an ele element ends inside an open point and its text is not a
number for QString::toDouble (white space at both ends apart, the text as a whole is not
an optional sign, digits with at most one point, and an optional exponent; 1,5 and 12abc
and 1.2.3 and n/a and the empty text are such texts) and is not one of the texts Qt reads
as NaN or an infinity, gpx_end stores the elevation 0, the value toDouble gives when the
conversion fails, and changes neither the error flags nor anything else but the trimmed
text buffer; the elevation 0 is not the unset value, so gpx_write_common_position writes
an ele element with the value 0 for the point. -/
theorem ele_invalid_text (ext : Externals) (s : State) (i : Nat)
    (hi : i < s.wpts.length) (hw : s.wpt_tmp = some i)
    (ht : get_tag hash s.current_tag = (tt_wpttype_ele, false))
    (hok : QString_toDouble_ok s.cdatastr = false)
    (hsp : QString_toDouble_special s.cdatastr = false) :
    gpx_end ext s =
      { s with
        cdatastr := trimmed s.cdatastr
        wpts := upd s.wpts i (fun w => { w with altitude := ⟨0, 0⟩ }) } ∧
    (gpx_end ext s).fault = s.fault ∧ (gpx_end ext s).fatal = s.fatal ∧
    ((gpx_end ext s).wpts[i]?.map (fun w => w.altitude)) = some ⟨0, 0⟩ ∧
    (∀ (cfg : WriterCfg) (w : Waypoint) (point_type : gpx_point_type),
      (gpx_end ext s).wpts[i]? = some w →
      (gpx_write_common_position ext cfg w point_type).take 3 =
        [WEvent.StartElement "ele", WEvent.Characters (number_f ⟨0, 0⟩ cfg.elevation_precision),
         WEvent.EndElement]) ∧
    (["1,5", "12abc", "1.2.3", "n/a", "", "abc"].map QString_toDouble_ok =
      [false, false, false, false, false, false]) ∧
    (["1,5", "12abc", "1.2.3", "n/a", "", "abc"].map QString_toDouble_special =
      [false, false, false, false, false, false]) ∧
    (["1.5", " -12 ", "1e3", "2.", ".5"].map QString_toDouble_ok =
      [true, true, true, true, true]) ∧
    (["nan", "NaN", "inf", "+inf", "-INF"].map QString_toDouble_special =
      [true, true, true, true, true]) := by
  have hz : QString_toDouble (trimmed s.cdatastr) = ⟨0, 0⟩ :=
    QString_toDouble_not_ok _ ((QString_toDouble_ok_trimmed s.cdatastr).trans hok)
  have he := gpx_end_ele ext s i hw ht
  rw [hz] at he
  have hget : (gpx_end ext s).wpts[i]? =
      (s.wpts[i]?).map (fun w => { w with altitude := (⟨0, 0⟩ : Dbl) }) := by
    rw [he]
    exact upd_get_same _ _ _ hi
  refine ⟨he, by rw [he], by rw [he], ?_, ?_, by decide, by decide, by decide, by decide⟩
  · rw [hget]
    have : ∃ w, s.wpts[i]? = some w := ⟨s.wpts[i], List.getElem?_eq_getElem hi⟩
    obtain ⟨w, hwi⟩ := this
    rw [hwi]; rfl
  · intro cfg w pt hget2
    rw [hget] at hget2
    have : ∃ w0, s.wpts[i]? = some w0 := ⟨s.wpts[i], List.getElem?_eq_getElem hi⟩
    obtain ⟨w0, hwi⟩ := this
    rw [hwi] at hget2
    have hw2 : w = { w0 with altitude := (⟨0, 0⟩ : Dbl) } := by
      simpa using hget2.symm
    subst hw2
    have hne : (!Dbl.eq (⟨0, 0⟩ : Dbl) unknown_alt) = true := by decide
    unfold gpx_write_common_position
    simp only [hne, if_true]
    rfl

/-- Witness of C26 (amended): a waypoint at the end of an ele element with the text
1,5. -/
theorem ele_invalid_text_witness :
    ((gpx_end Externals.fixed
      { current_tag := "/gpx/wpt/ele", cdatastr := "1,5", wpts := [{}],
        wpt_tmp := some 0 }).wpts[0]?.map (fun w => w.altitude)) = some ⟨0, 0⟩ :=
  (ele_invalid_text Externals.fixed
    { current_tag := "/gpx/wpt/ele", cdatastr := "1,5", wpts := [{}], wpt_tmp := some 0 }
    0 (by decide) rfl (by decide) (by decide) (by decide)).2.2.2.1

end Gpx
